import Mathlib

/-!
# o2scl: the interpolated equation of state for the TOV solver

Shallow embedding of `tov_interp_eos` (src/src/eos/tov_eos.cpp).

Conventions of the embedding.

* A C++ `double` is a rational number: arithmetic is exact, every value is
  finite, so the two `is_finite` checks of `get_eden` never fire.  Theorems
  are stated only where every divisor is non-zero.
* A `std::vector<double>` is a `List ℚ`; `v[i]` with an index outside the
  vector is undefined behaviour in C++ and is the result `none` here.
* `int` indices are `Int`.
* Statements that depend on the rounding or the range of `double`, or on the
  range of `int`, are made on a second model of the same functions (suffixes
  `_fl` and `_int`), in which every operation is rounded to binary64 and the
  sum `hi+lo` of the bracketing search is a 32-bit sum.
* Members the constructor leaves uninitialised are arguments of the
  constructor of the model.
-/

namespace o2scl

/-! ## Vectors and the interpolation primitive -/

/-- Element access `v[i]` of a vector with an `int` index; `none` when the
index is outside the vector. -/
def vget (v : List ℚ) (i : Int) : Option ℚ :=
  if i < 0 then none else v[i.toNat]?

/-- The bracketing loop of `tov_interp_eos::interp`,
`while (hi-lo > 1) { k=(hi+lo) >> 1; if (x[k] > xx) hi=k; else lo=k; }`,
run for at most `fuel` iterations; it returns the final `(lo, hi)`.  The
shift `>> 1` of an `int` is the floor division by 2, `Int` division here. -/
def interp_loop (x : List ℚ) (xx : ℚ) : Nat → Int → Int → Option (Int × Int)
  | 0, lo, hi => if hi - lo > 1 then none else some (lo, hi)
  | fuel + 1, lo, hi =>
    if hi - lo > 1 then
      match vget x ((hi + lo) / 2) with
      | none => none
      | some xk =>
        if xk > xx then interp_loop x xx fuel lo ((hi + lo) / 2)
        else interp_loop x xx fuel ((hi + lo) / 2) hi
    else some (lo, hi)

/-- The final step of `tov_interp_eos::interp` on the bracket `(lo, hi)`:
`if (x[hi]==x[lo]) yy=y[hi]; else yy=y[lo]+(xx-x[lo])/(x[hi]-x[lo])*(y[hi]-y[lo]);` -/
def interp_eval (x y : List ℚ) (xx : ℚ) (lo hi : Int) : Option ℚ := do
  let xhi ← vget x hi
  let xlo ← vget x lo
  if xhi = xlo then vget y hi
  else do
    let ylo ← vget y lo
    let yhi ← vget y hi
    pure (ylo + (xx - xlo) / (xhi - xlo) * (yhi - ylo))

/-- Model of `tov_interp_eos::interp(x, y, xx, yy, n1, n2)`: the value
assigned to `yy`.  The loop is given `n2 - n1` iterations, which is always
enough (see `interp_loop_spec`). -/
def interp (x y : List ℚ) (xx : ℚ) (n1 n2 : Int) : Option ℚ := do
  let b ← interp_loop x xx (n2 - n1).toNat n1 n2
  interp_eval x y xx b.1 b.2

/-! ## Engine state -/

/-- Modelled from the spec: the phase tags `icrust`, `itrans`, `icore` are
declared in the header tov_eos.h, which is absent; the spec gives the phase
tag as one of crust, transition, core. -/
inductive Phase where
  | icrust
  | itrans
  | icore
  deriving DecidableEq, Repr

/-- Modelled from the spec: the values of `transition_mode` are declared in
the absent header tov_eos.h; the spec gives smooth blending and sharp
blending.  The code tests `transition_mode==smooth_trans` only. -/
inductive TransMode where
  | smooth_trans
  | match_line
  deriving DecidableEq, Repr

/-- Error codes passed to `O2SCL_ERR`: `exc_einval` and `exc_efailed` are the
codes used in tov_eos.cpp; `exc_enotfound` is the error of a failed column
lookup of `table_units` (the spec: loading fails if a named column does not
exist). -/
inductive Err where
  | exc_einval
  | exc_efailed
  | exc_enotfound
  deriving DecidableEq, Repr

/-- Modelled from the spec: one column of a `table_units` object (class
declared in an absent header): its name, its unit and its data. -/
structure Column where
  name : String
  unit : String
  data : List ℚ
  deriving DecidableEq, Repr, Inhabited

/-- Modelled from the spec: a `table_units` object, a number of lines and a
list of named columns with declared units. -/
structure Table where
  nlines : Nat
  columns : List Column
  deriving DecidableEq, Repr

/-- The data members of `tov_interp_eos` read or written by the functions
modelled here. -/
structure tov_interp_eos where
  eos_read : Bool
  use_crust : Bool
  baryon_column : Bool
  verbose : Int
  cole : Int
  colp : Int
  colnb : Int
  core_auxp : Int
  efactor : ℚ
  pfactor : ℚ
  nfactor : ℚ
  crust_high_pres : ℚ
  trans_pres : ℚ
  trans_width : ℚ
  transition_mode : TransMode
  core_table : Option Table
  core_nlines : Nat
  core_vecp : List ℚ
  core_vece : List ℚ
  core_vecnb : List ℚ
  crust_nlines : Nat
  crust_vecp : List ℚ
  crust_vece : List ℚ
  crust_vecnb : List ℚ

/-- Model of the constructor `tov_interp_eos::tov_interp_eos()`.  The members
`trans_pres`, `baryon_column`, `core_nlines` and `crust_nlines` are not
initialised by the constructor: their indeterminate values are arguments. -/
def tov_interp_eos.new (trans_pres0 : ℚ) (baryon_column0 : Bool)
    (core_nlines0 crust_nlines0 : Nat) : tov_interp_eos where
  eos_read := false
  use_crust := false
  baryon_column := baryon_column0
  verbose := 1
  cole := 0
  colp := 0
  colnb := 0
  core_auxp := 0
  efactor := 1
  pfactor := 1
  nfactor := 1
  crust_high_pres := 0
  trans_pres := trans_pres0
  trans_width := 1
  transition_mode := TransMode.smooth_trans
  core_table := none
  core_nlines := core_nlines0
  core_vecp := []
  core_vece := []
  core_vecnb := []
  crust_nlines := crust_nlines0
  crust_vecp := []
  crust_vece := []
  crust_vecnb := []

/-- Interpolation in the crust table, `interp(crust_vecp, y, p, _, 0, crust_nlines-1)`. -/
def tov_interp_eos.crust_interp (e : tov_interp_eos) (y : List ℚ) (p : ℚ) : Option ℚ :=
  interp e.crust_vecp y p 0 ((e.crust_nlines : Int) - 1)

/-- Interpolation in the core table, `interp(core_vecp, y, p, _, 0, core_nlines-1)`. -/
def tov_interp_eos.core_interp (e : tov_interp_eos) (y : List ℚ) (p : ℚ) : Option ℚ :=
  interp e.core_vecp y p 0 ((e.core_nlines : Int) - 1)

/-- Model of `tov_interp_eos::get_eden(pres, ed, nb)`.  The arguments `ed`
and `nb` are the values the two reference arguments hold on entry; the result
is the local `phase` and the values of `ed` and `nb` on return (`nb` is only
written when `baryon_column` is set). -/
def tov_interp_eos.get_eden (e : tov_interp_eos) (pres _ed nb : ℚ) :
    Option (Phase × ℚ × ℚ) :=
  if e.use_crust = true ∧ pres ≤ e.trans_pres / e.trans_width then do
    let ed ← e.crust_interp e.crust_vece pres
    if e.baryon_column then do
      let nb ← e.crust_interp e.crust_vecnb pres
      pure (Phase.icrust, ed, nb)
    else pure (Phase.icrust, ed, nb)
  else if e.use_crust = true ∧ pres > e.trans_pres / e.trans_width ∧
      pres < e.trans_pres * e.trans_width then
    if e.transition_mode = TransMode.smooth_trans then do
      let edlo ← e.crust_interp e.crust_vece pres
      let edhi ← e.core_interp e.core_vece pres
      let chi := (pres - e.trans_pres / e.trans_width) /
        (e.trans_pres * e.trans_width - e.trans_pres / e.trans_width)
      let ed := (1 - chi) * edlo + chi * edhi
      if e.baryon_column then do
        let nblo ← e.crust_interp e.crust_vecnb pres
        let nbhi ← e.core_interp e.core_vecnb pres
        pure (Phase.itrans, ed, (1 - chi) * nblo + chi * nbhi)
      else pure (Phase.itrans, ed, nb)
    else do
      let prlo := e.trans_pres / e.trans_width
      let prhi := e.trans_pres * e.trans_width
      let edlo ← e.crust_interp e.crust_vece prlo
      let edhi ← e.core_interp e.core_vece prhi
      let chi := (pres - prlo) / (prhi - prlo)
      let ed := (edhi - edlo) * chi + edlo
      if e.baryon_column then do
        let nblo ← e.crust_interp e.crust_vecnb prlo
        let nbhi ← e.core_interp e.core_vecnb prhi
        pure (Phase.itrans, ed, (nbhi - nblo) * chi + nblo)
      else pure (Phase.itrans, ed, nb)
  else do
    let ed ← e.core_interp e.core_vece pres
    if e.baryon_column then do
      let nb ← e.core_interp e.core_vecnb pres
      pure (Phase.icore, ed, nb)
    else pure (Phase.icore, ed, nb)

/-- Model of `tov_interp_eos::get_eden_high(pres, ed, nb)`: the values of
`ed` and `nb` on return, in the units of the core table. -/
def tov_interp_eos.get_eden_high (e : tov_interp_eos) (pres _ed nb : ℚ) :
    Option (ℚ × ℚ) := do
  let ed ← e.core_interp e.core_vece (pres * e.pfactor)
  let ed := ed / e.efactor
  if e.baryon_column then do
    let nb ← e.core_interp e.core_vecnb (pres * e.pfactor)
    pure (ed, nb / e.nfactor)
  else pure (ed, nb)

/-- Model of `tov_interp_eos::get_eden_full(pres, ed, nb)`: the returned
phase tag and the values of `ed` and `nb` on return. -/
def tov_interp_eos.get_eden_full (e : tov_interp_eos) (pres _ed nb : ℚ) :
    Option (Phase × ℚ × ℚ) :=
  if e.use_crust = true ∧ pres * e.pfactor ≤ e.trans_pres / e.trans_width then do
    let ed ← e.crust_interp e.crust_vece (pres * e.pfactor)
    let ed := ed / e.efactor
    if e.baryon_column then do
      let nb ← e.crust_interp e.crust_vecnb (pres * e.pfactor)
      pure (Phase.icrust, ed, nb / e.nfactor)
    else pure (Phase.icrust, ed, nb)
  else if e.use_crust = true ∧ pres * e.pfactor > e.trans_pres / e.trans_width ∧
      pres * e.pfactor < e.trans_pres * e.trans_width then
    if e.transition_mode = TransMode.smooth_trans then do
      let edlo ← e.crust_interp e.crust_vece (pres * e.pfactor)
      let edlo := edlo / e.efactor
      let edhi ← e.core_interp e.core_vece (pres * e.pfactor)
      let edhi := edhi / e.efactor
      let chi := (pres * e.pfactor - e.trans_pres / e.trans_width) /
        (e.trans_pres * e.trans_width - e.trans_pres / e.trans_width)
      let ed := (1 - chi) * edlo + chi * edhi
      if e.baryon_column then do
        let nblo ← e.crust_interp e.crust_vecnb (pres * e.pfactor)
        let nblo := nblo / e.nfactor
        let nbhi ← e.core_interp e.core_vecnb (pres * e.pfactor)
        let nbhi := nbhi / e.nfactor
        pure (Phase.itrans, ed, (1 - chi) * nblo + chi * nbhi)
      else pure (Phase.itrans, ed, nb)
    else do
      let prlo := e.trans_pres / e.trans_width
      let prhi := e.trans_pres * e.trans_width
      let edlo ← e.crust_interp e.crust_vece prlo
      let edlo := edlo / e.efactor
      let edhi ← e.core_interp e.core_vece prhi
      let edhi := edhi / e.efactor
      let chi := (pres * e.pfactor - prlo) / (prhi - prlo)
      let ed := (edhi - edlo) * chi + edlo
      if e.baryon_column then do
        let nblo ← e.crust_interp e.crust_vecnb prlo
        let nblo := nblo / e.nfactor
        let nbhi ← e.core_interp e.core_vecnb prhi
        let nbhi := nbhi / e.nfactor
        pure (Phase.itrans, ed, (nbhi - nblo) * chi + nblo)
      else pure (Phase.itrans, ed, nb)
  else do
    let ed ← e.core_interp e.core_vece (pres * e.pfactor)
    let ed := ed / e.efactor
    if e.baryon_column then do
      let nb ← e.core_interp e.core_vecnb (pres * e.pfactor)
      pure (Phase.icore, ed, nb / e.nfactor)
    else pure (Phase.icore, ed, nb)

/-- Model of `tov_interp_eos::set_transition(p, wid)`: the engine after the
call and the error raised by `O2SCL_ERR`, if any.  The two members are
assigned before the width is tested, as in the source. -/
def tov_interp_eos.set_transition (e : tov_interp_eos) (p wid : ℚ) :
    tov_interp_eos × Option Err :=
  let e1 := { e with trans_pres := p * e.pfactor }
  let e2 := { e1 with trans_width := wid }
  if e2.trans_width < 1 then (e2, some Err.exc_einval) else (e2, none)

/-! ## Reading the core table -/

/-- Modelled from the spec: `table_units::get_ncolumns()`. -/
def Table.get_ncolumns (t : Table) : Nat := t.columns.length

/-- Modelled from the spec: `table_units::lookup_column(name)`, the index of
the column of that name; `none` when no column has the name (the spec: loading
fails if a named column does not exist). -/
def Table.lookup_column (t : Table) (name : String) : Option Nat :=
  let i := t.columns.findIdx (fun c => c.name == name)
  if i < t.columns.length then some i else none

/-- Modelled from the spec: `table_units::get_unit(name)`, the declared unit
of the named column (the empty string for a column without a unit). -/
def Table.get_unit (t : Table) (name : String) : String :=
  match t.columns.find? (fun c => c.name == name) with
  | some c => c.unit
  | none => ""

/-- Modelled from the spec: `table[c][i]`, entry `i` of column `c` of a
`table_units` object; every column of a table holds `nlines` entries. -/
def Table.cell (t : Table) (c i : Nat) : ℚ :=
  (t.columns.getD c default).data.getD i 0

/-- The unit handling of `read_table` for energy density and pressure: the
factor is 1 for an empty unit, "Msun/km^3" or "solarmass/km^3", and is asked
of the unit converter otherwise.  The converter
`o2scl_settings.get_convert_units().convert` is external: it is the argument
`convert`. -/
def unit_factor (convert : String → String → ℚ → ℚ) (units : String) : ℚ :=
  if units.length = 0 ∨ units = "Msun/km^3" ∨ units = "solarmass/km^3" then 1
  else convert units "Msun/km^3" 1

/-- The unit handling of `read_table` for the baryon density column. -/
def nb_unit_factor (convert : String → String → ℚ → ℚ) (nunits : String) : ℚ :=
  if nunits = "1/cm^3" then 1 / 10 ^ 39
  else if nunits = "1/m^3" then 1 / 10 ^ 42
  else if nunits = "1/fm^3" then 1
  else if nunits = "" then 1
  else convert nunits "1/fm^3" 1

/-- The part of `read_table` after the column lookups: units, copy of the
scaled columns, number of auxiliary columns. -/
def tov_interp_eos.read_table_fill (convert : String → String → ℚ → ℚ)
    (e : tov_interp_eos) (eosat : Table) (s_cole s_colp s_colnb : String) :
    tov_interp_eos :=
  let efactor := unit_factor convert (eosat.get_unit s_cole)
  let pfactor := unit_factor convert (eosat.get_unit s_colp)
  let nfactor :=
    if e.baryon_column then nb_unit_factor convert (eosat.get_unit s_colnb) else 1
  let e := { e with efactor := efactor, pfactor := pfactor, nfactor := nfactor }
  let vece := (List.range e.core_nlines).map (fun i => eosat.cell e.cole.toNat i * e.efactor)
  let vecp := (List.range e.core_nlines).map (fun i => eosat.cell e.colp.toNat i * e.pfactor)
  let e := { e with core_vece := vece, core_vecp := vecp }
  let vecnb := (List.range e.core_nlines).map (fun i => eosat.cell e.colnb.toNat i * e.nfactor)
  let e := if e.baryon_column then { e with core_vecnb := vecnb } else e
  let e :=
    if e.baryon_column then { e with core_auxp := (eosat.get_ncolumns : Int) - 3 }
    else { e with core_auxp := (eosat.get_ncolumns : Int) - 2 }
  { e with eos_read := true }

/-- Model of `tov_interp_eos::read_table(eosat, s_cole, s_colp, s_colnb)`:
the engine after the call and the error raised, if any.  A failed column
lookup raises the error of `lookup_column` and leaves the members assigned
so far. -/
def tov_interp_eos.read_table (convert : String → String → ℚ → ℚ)
    (e : tov_interp_eos) (eosat : Table) (s_cole s_colp s_colnb : String) :
    tov_interp_eos × Option Err :=
  let e := { e with core_table := some eosat, core_nlines := eosat.nlines }
  match eosat.lookup_column s_cole with
  | none => (e, some Err.exc_enotfound)
  | some ce =>
    let e := { e with cole := (ce : Int) }
    match eosat.lookup_column s_colp with
    | none => (e, some Err.exc_enotfound)
    | some cp =>
      let e := { e with colp := (cp : Int) }
      if s_colnb ≠ "" then
        match eosat.lookup_column s_colnb with
        | none => (e, some Err.exc_enotfound)
        | some cn =>
          let e := { e with colnb := (cn : Int), baryon_column := true }
          (e.read_table_fill convert eosat s_cole s_colp s_colnb, none)
      else
        let e := { e with baryon_column := false }
        (e.read_table_fill convert eosat s_cole s_colp s_colnb, none)

/-! ## Reading the core vectors -/

/-- Model of `tov_interp_eos::read_vectors(n_core, core_ed, core_pr)`: the
engine after the call and the contents of the caller's vectors `core_ed` and
`core_pr` after the call (both are passed by reference and swapped).  The two
swaps are those of the source, in its order:
`std::swap(core_ed,core_vece); std::swap(core_pr,core_vece);`. -/
def tov_interp_eos.read_vectors (e : tov_interp_eos) (n_core : Nat)
    (core_ed core_pr : List ℚ) : tov_interp_eos × List ℚ × List ℚ :=
  let e := { e with core_table := none }
  let e := { e with core_nlines := n_core }
  let e := { e with pfactor := 1 }
  let e := { e with efactor := 1 }
  let s1 : tov_interp_eos × List ℚ := ({ e with core_vece := core_ed }, e.core_vece)
  let s2 : tov_interp_eos × List ℚ := ({ s1.1 with core_vece := core_pr }, s1.1.core_vece)
  let e := { s2.1 with core_auxp := 0 }
  let e := { e with baryon_column := false }
  ({ e with eos_read := true }, s1.2, s2.2)

/-! ## Auxiliary columns of the core table -/

/-- Modelled from the spec: `table_units::get_column_name(i)`, the name of
column `i`. -/
def Table.get_column_name (t : Table) (i : Nat) : String :=
  (t.columns.getD i default).name

/-- Modelled from the spec: `table[i]`, the data vector of column `i`. -/
def Table.column (t : Table) (i : Nat) : List ℚ :=
  (t.columns.getD i default).data

/-- The test `i!=cole && i!=colp && i!=colnb` of `get_names_units` and
`get_aux`. -/
def tov_interp_eos.is_aux_column (e : tov_interp_eos) (i : Nat) : Bool :=
  decide ((i : Int) ≠ e.cole ∧ (i : Int) ≠ e.colp ∧ (i : Int) ≠ e.colnb)

/-- The loop of `get_names_units` over the column indices still to visit; the
state is `np` and the two output vectors. -/
def tov_interp_eos.get_names_units_loop (e : tov_interp_eos) (t : Table) :
    List Nat → Nat × List String × List String → Nat × List String × List String
  | [], acc => acc
  | i :: rest, (np, pnames, vs_units) =>
    if e.is_aux_column i then
      e.get_names_units_loop t rest (np + 1, pnames ++ [t.get_column_name i],
        vs_units ++ [t.get_unit (t.get_column_name i)])
    else e.get_names_units_loop t rest (np, pnames, vs_units)

/-- Model of `tov_interp_eos::get_names_units(np, pnames, vs_units)`: the
value of `np` and the two vectors on return, the names and units being pushed
onto the vectors as passed in.  `none` stands for the dereference of a null
`core_table`. -/
def tov_interp_eos.get_names_units (e : tov_interp_eos)
    (pnames vs_units : List String) : Option (Nat × List String × List String) :=
  if e.core_auxp > 0 then
    match e.core_table with
    | none => none
    | some t =>
      some (e.get_names_units_loop t (List.range t.get_ncolumns) (0, pnames, vs_units))
  else some (0, pnames, vs_units)

/-- The value `get_aux` assigns to `auxp[np]` for column `i`: 0 when
`use_crust==true && P<=crust_high_pres`, and otherwise the result of
`interp(core_vecp,(*core_table)[i],P,auxp[np],0,core_table->get_nlines()-1)`. -/
def tov_interp_eos.get_aux_value (e : tov_interp_eos) (t : Table) (P : ℚ) (i : Nat) :
    Option ℚ :=
  if e.use_crust = true ∧ P ≤ e.crust_high_pres then some 0
  else interp e.core_vecp (t.column i) P 0 ((t.nlines : Int) - 1)

/-- The loop of `get_aux` over the column indices still to visit; the state
is `np` and the vector `auxp`.  Writing `auxp[np]` outside the vector, or a
failed interpolation, is `none`. -/
def tov_interp_eos.get_aux_loop (e : tov_interp_eos) (t : Table) (P : ℚ) :
    List Nat → Nat → List ℚ → Option (Nat × List ℚ)
  | [], np, auxp => some (np, auxp)
  | i :: rest, np, auxp =>
    if e.is_aux_column i then
      if np < auxp.length then
        match e.get_aux_value t P i with
        | none => none
        | some v => e.get_aux_loop t P rest (np + 1) (auxp.set np v)
      else none
    else e.get_aux_loop t P rest np auxp

/-- Model of `tov_interp_eos::get_aux(P, np, auxp)`: the value of `np` and the
vector `auxp` on return.  `none` stands for the dereference of a null
`core_table`, a write outside `auxp` or a read outside a table vector. -/
def tov_interp_eos.get_aux (e : tov_interp_eos) (P : ℚ) (auxp : List ℚ) :
    Option (Nat × List ℚ) :=
  if e.core_auxp > 0 then
    match e.core_table with
    | none => none
    | some t => e.get_aux_loop t P (List.range t.get_ncolumns) 0 auxp
  else some (0, auxp)

/-- The indices of the auxiliary columns, in table order. -/
def tov_interp_eos.aux_columns (e : tov_interp_eos) (t : Table) : List Nat :=
  (List.range t.get_ncolumns).filter e.is_aux_column

/-! ## The low-density loaders -/

/-- How a loader ends: by a normal return, by returning an error code without
raising (`return exc_efailed;`), or by raising an error with
`O2SCL_ERR(msg, code)`. -/
inductive Outcome where
  | success
  | returned (code : Err)
  | raised (code : Err) (msg : String)
  deriving DecidableEq, Repr

/-- The array `ed_arr` of `default_low_dens_eos` (73 entries, the entries commented
out in the source left out). -/
def default_ed_arr : List ℚ :=
  [3.89999984e-18, 3.93000002e-18, 3.95000001e-18, 4.07499982e-18,
    5.80000020e-18, 8.20000023e-18, 2.25500006e-17, 1.05999999e-16,
    5.75000005e-16, 5.22000020e-15, 1.31099999e-14, 3.29349991e-14,
    8.27000008e-14, 2.07800004e-13, 5.21999978e-13, 1.31100003e-12,
    3.29400006e-12, 4.14649998e-12, 8.27499961e-12, 1.65100000e-11,
    3.29450009e-11, 6.57500027e-11, 1.31199995e-10, 1.65200006e-10,
    2.61849986e-10, 4.15049994e-10, 5.22499988e-10, 6.57999988e-10,
    8.28499991e-10, 1.31300004e-09, 2.08199991e-09, 3.30050010e-09,
    4.15599999e-09, 5.22999999e-09, 6.59000010e-09, 8.29500024e-09,
    1.04500000e-08, 1.31549998e-08, 1.65650000e-08, 2.08599999e-08,
    2.62699995e-08, 3.30850014e-08, 4.16600017e-08, 5.24500017e-08,
    6.61000001e-08, 8.31999998e-08, 9.21999970e-08, 1.04800002e-07,
    1.31999997e-07, 1.66250004e-07, 2.09400000e-07, 2.23000001e-07,
    2.61400004e-07, 3.30500001e-07, 3.98200001e-07, 4.86399983e-07,
    5.97999986e-07, 7.35500009e-07, 8.43854053e-06, 1.26672671e-05,
    1.69004320e-05, 2.11374665e-05, 2.53779855e-05, 2.96217149e-05,
    3.38684539e-05, 3.81180526e-05, 4.23703981e-05, 4.66254054e-05,
    5.08830106e-05, 5.51431670e-05, 5.94058410e-05, 6.36710102e-05,
    6.79386612e-05]

/-- The array `pr_arr` of `default_low_dens_eos`. -/
def default_pr_arr : List ℚ :=
  [5.64869998e-32, 5.64869986e-31, 5.64869986e-30, 5.64870017e-29,
    6.76729990e-28, 7.82989977e-27, 9.50780029e-26, 3.25500004e-24,
    1.06260006e-22, 5.44959997e-21, 2.77850000e-20, 1.35959994e-19,
    6.43729996e-19, 2.94519994e-18, 1.29639997e-17, 5.45580009e-17,
    2.18730006e-16, 2.94129994e-16, 8.02570017e-16, 2.14369999e-15,
    5.62639983e-15, 1.45639997e-14, 3.73379984e-14, 4.88699996e-14,
    9.11069993e-14, 1.69410005e-13, 2.30929994e-13, 2.81650002e-13,
    3.83670011e-13, 7.11400014e-13, 1.31769996e-12, 2.43959995e-12,
    3.16660001e-12, 4.30759985e-12, 5.86130016e-12, 7.96970042e-12,
    1.08389998e-11, 1.39989999e-11, 1.90380003e-11, 2.58830006e-11,
    3.32719997e-11, 4.52399992e-11, 6.15209966e-11, 8.36119993e-11,
    1.13700001e-10, 1.45250006e-10, 1.61739996e-10, 1.83999996e-10,
    2.50169996e-10, 3.25279997e-10, 4.38359987e-10, 4.41269993e-10,
    4.67110017e-10, 5.08829978e-10, 5.49830015e-10, 6.05699990e-10,
    6.81199985e-10, 7.82430010e-10, 1.45139718e-08, 2.62697827e-08,
    4.05674724e-08, 5.69532689e-08, 7.52445638e-08, 9.53657839e-08,
    1.17299621e-07, 1.41064470e-07, 1.66702091e-07, 1.94270264e-07,
    2.23838165e-07, 2.55483362e-07, 2.89289800e-07, 3.25346430e-07,
    3.63172009e-07]

/-- The array `nb_arr` of `default_low_dens_eos`. -/
def default_nb_arr : List ℚ :=
  [4.00000001e-15, 4.73000011e-15, 4.75999990e-15, 4.91000012e-15,
    6.99000006e-15, 9.89999996e-15, 2.71999999e-14, 1.27000000e-13,
    6.93000019e-13, 6.29500011e-12, 1.58099991e-11, 3.97200016e-11,
    9.97599989e-11, 2.50600013e-10, 6.29399977e-10, 1.58100000e-09,
    3.97200006e-09, 4.99999997e-09, 9.97599958e-09, 1.98999999e-08,
    3.97199997e-08, 7.92400030e-08, 1.58099994e-07, 1.98999999e-07,
    3.15499989e-07, 4.99999999e-07, 6.29400006e-07, 7.92399987e-07,
    9.97599955e-07, 1.58099999e-06, 2.50600010e-06, 3.97199983e-06,
    4.99999987e-06, 6.29399983e-06, 7.92399987e-06, 9.97600000e-06,
    1.25600000e-05, 1.58099992e-05, 1.99000006e-05, 2.50600006e-05,
    3.15500001e-05, 3.97199983e-05, 4.99999987e-05, 6.29400020e-05,
    7.92400024e-05, 9.97600000e-05, 1.10499997e-04, 1.25599996e-04,
    1.58099996e-04, 1.99000002e-04, 2.50599987e-04, 2.66999996e-04,
    3.12599994e-04, 3.95100011e-04, 4.75899986e-04, 5.81200002e-04,
    7.14300026e-04, 8.78599996e-04, 1.00000000e-02, 1.50000000e-02,
    2.00000000e-02, 2.50000000e-02, 3.00000000e-02, 3.50000000e-02,
    4.00000000e-02, 4.50000000e-02, 5.00000000e-02, 5.50000000e-02,
    6.00000000e-02, 6.50000000e-02, 7.00000000e-02, 7.50000000e-02,
    8.00000000e-02]

/-- Model of `tov_interp_eos::default_low_dens_eos()`: the engine after the
call.  The loop pushes the 73 rows onto the crust vectors as they are;
`crust_vecp[crust_nlines-1]` outside the vector is `none`. -/
def tov_interp_eos.default_low_dens_eos (e : tov_interp_eos) :
    Option (tov_interp_eos × Outcome) :=
  let e := { e with crust_nlines := 73 }
  let e := { e with
    crust_vece := e.crust_vece ++ default_ed_arr
    crust_vecp := e.crust_vecp ++ default_pr_arr
    crust_vecnb := e.crust_vecnb ++ default_nb_arr }
  match vget e.crust_vecp ((e.crust_nlines : Int) - 1) with
  | none => none
  | some p =>
    let e := { e with crust_high_pres := p }
    let e := { e with trans_pres := e.crust_high_pres }
    some ({ e with use_crust := true }, Outcome.success)

/-- The array `ed_arr` of `sho11_low_dens_eos` (98 entries). -/
def sho11_ed_arr : List ℚ :=
  [3.89999984e-18, 3.93000002e-18, 3.95000001e-18, 4.07499982e-18,
    5.80000020e-18, 8.20000023e-18, 2.25500006e-17, 1.05999999e-16,
    5.75000005e-16, 5.22000020e-15, 1.31099999e-14, 3.29349991e-14,
    8.27000008e-14, 2.07800004e-13, 5.21999978e-13, 1.31100003e-12,
    3.29400006e-12, 4.14649998e-12, 8.27499961e-12, 1.65100000e-11,
    3.29450009e-11, 6.57500027e-11, 1.31199995e-10, 1.65200006e-10,
    2.61849986e-10, 4.15049994e-10, 5.22499988e-10, 6.57999988e-10,
    8.28499991e-10, 1.31300004e-09, 2.08199991e-09, 3.30050010e-09,
    4.15599999e-09, 5.22999999e-09, 6.59000010e-09, 8.29500024e-09,
    1.04500000e-08, 1.31549998e-08, 1.65650000e-08, 2.08599999e-08,
    2.62699995e-08, 3.30850014e-08, 4.16600017e-08, 5.24500017e-08,
    6.61000001e-08, 8.31999998e-08, 9.21999970e-08, 1.04800002e-07,
    1.31999997e-07, 1.778589e-07, 1.995610e-07, 2.239111e-07,
    2.512323e-07, 2.818873e-07, 3.162827e-07, 3.548750e-07,
    5.624389e-07, 6.310668e-07, 7.080685e-07, 7.944659e-07,
    8.914054e-07, 1.000173e-06, 1.122213e-06, 1.259143e-06,
    1.412782e-06, 1.585167e-06, 1.778587e-06, 1.995607e-06,
    2.239108e-06, 2.512320e-06, 2.818869e-06, 3.162823e-06,
    3.548746e-06, 3.981758e-06, 4.467606e-06, 5.012736e-06,
    5.624382e-06, 6.310660e-06, 7.080676e-06, 7.944649e-06,
    8.914043e-06, 1.000172e-05, 1.122211e-05, 1.259142e-05,
    1.412780e-05, 1.585165e-05, 1.778585e-05, 1.995605e-05,
    2.239105e-05, 2.512317e-05, 2.818866e-05, 3.162819e-05,
    3.548742e-05, 3.981753e-05, 4.467600e-05, 5.012730e-05,
    5.624375e-05, 6.310652e-05]

/-- The array `pr_arr` of `sho11_low_dens_eos` (98 entries). -/
def sho11_pr_arr : List ℚ :=
  [5.64869998e-32, 5.64869986e-31, 5.64869986e-30, 5.64870017e-29,
    6.76729990e-28, 7.82989977e-27, 9.50780029e-26, 3.25500004e-24,
    1.06260006e-22, 5.44959997e-21, 2.77850000e-20, 1.35959994e-19,
    6.43729996e-19, 2.94519994e-18, 1.29639997e-17, 5.45580009e-17,
    2.18730006e-16, 2.94129994e-16, 8.02570017e-16, 2.14369999e-15,
    5.62639983e-15, 1.45639997e-14, 3.73379984e-14, 4.88699996e-14,
    9.11069993e-14, 1.69410005e-13, 2.30929994e-13, 2.81650002e-13,
    3.83670011e-13, 7.11400014e-13, 1.31769996e-12, 2.43959995e-12,
    3.16660001e-12, 4.30759985e-12, 5.86130016e-12, 7.96970042e-12,
    1.08389998e-11, 1.39989999e-11, 1.90380003e-11, 2.58830006e-11,
    3.32719997e-11, 4.52399992e-11, 6.15209966e-11, 8.36119993e-11,
    1.13700001e-10, 1.45250006e-10, 1.61739996e-10, 1.83999996e-10,
    2.50169996e-10, 3.205499e-10, 3.459614e-10, 3.645704e-10,
    3.776049e-10, 3.860057e-10, 3.949086e-10, 4.207210e-10,
    4.652518e-10, 5.200375e-10, 5.845886e-10, 6.601006e-10,
    7.587453e-10, 9.152099e-10, 1.076798e-09, 1.228690e-09,
    1.415580e-09, 1.640252e-09, 1.908541e-09, 2.225540e-09,
    2.602693e-09, 3.047368e-09, 3.578169e-09, 4.205697e-09,
    4.948708e-09, 5.821588e-09, 6.891087e-09, 8.186994e-09,
    9.481895e-09, 1.116971e-08, 1.209666e-08, 1.418455e-08,
    1.678941e-08, 1.995387e-08, 2.365509e-08, 2.801309e-08,
    3.321740e-08, 3.951309e-08, 4.721146e-08, 5.671502e-08,
    6.851912e-08, 8.332945e-08, 1.021148e-07, 1.261124e-07,
    1.570649e-07, 1.969348e-07, 2.473268e-07, 3.106536e-07,
    3.919161e-07, 4.982142e-07]

/-- The array `nb_arr` of `sho11_low_dens_eos` (98 entries). -/
def sho11_nb_arr : List ℚ :=
  [4.00000001e-15, 4.73000011e-15, 4.75999990e-15, 4.91000012e-15,
    6.99000006e-15, 9.89999996e-15, 2.71999999e-14, 1.27000000e-13,
    6.93000019e-13, 6.29500011e-12, 1.58099991e-11, 3.97200016e-11,
    9.97599989e-11, 2.50600013e-10, 6.29399977e-10, 1.58100000e-09,
    3.97200006e-09, 4.99999997e-09, 9.97599958e-09, 1.98999999e-08,
    3.97199997e-08, 7.92400030e-08, 1.58099994e-07, 1.98999999e-07,
    3.15499989e-07, 4.99999999e-07, 6.29400006e-07, 7.92399987e-07,
    9.97599955e-07, 1.58099999e-06, 2.50600010e-06, 3.97199983e-06,
    4.99999987e-06, 6.29399983e-06, 7.92399987e-06, 9.97600000e-06,
    1.25600000e-05, 1.58099992e-05, 1.99000006e-05, 2.50600006e-05,
    3.15500001e-05, 3.97199983e-05, 4.99999987e-05, 6.29400020e-05,
    7.92400024e-05, 9.97600000e-05, 1.10499997e-04, 1.25599996e-04,
    1.58099996e-04, 2.113478e-04, 2.371361e-04, 2.660711e-04,
    2.985366e-04, 3.349636e-04, 3.758353e-04, 4.216941e-04,
    6.683399e-04, 7.498897e-04, 8.413900e-04, 9.440551e-04,
    1.059247e-03, 1.188495e-03, 1.333513e-03, 1.496226e-03,
    1.678793e-03, 1.883637e-03, 2.113475e-03, 2.371358e-03,
    2.660707e-03, 2.985362e-03, 3.349632e-03, 3.758348e-03,
    4.216936e-03, 4.731480e-03, 5.308807e-03, 5.956579e-03,
    6.683391e-03, 7.498888e-03, 8.413890e-03, 9.440539e-03,
    1.059246e-02, 1.188493e-02, 1.333511e-02, 1.496224e-02,
    1.678791e-02, 1.883635e-02, 2.113473e-02, 2.371355e-02,
    2.660704e-02, 2.985359e-02, 3.349627e-02, 3.758344e-02,
    4.216931e-02, 4.731474e-02, 5.308801e-02, 5.956572e-02,
    6.683383e-02, 7.498879e-02]

/-- Model of `tov_interp_eos::sho11_low_dens_eos()`: the engine after the
call.  The loop pushes the 98 rows onto the crust vectors as they are;
`crust_vecp[crust_nlines-1]` outside the vector is `none`. -/
def tov_interp_eos.sho11_low_dens_eos (e : tov_interp_eos) :
    Option (tov_interp_eos × Outcome) :=
  let e := { e with crust_nlines := 98 }
  let e := { e with
    crust_vece := e.crust_vece ++ sho11_ed_arr
    crust_vecp := e.crust_vecp ++ sho11_pr_arr
    crust_vecnb := e.crust_vecnb ++ sho11_nb_arr }
  match vget e.crust_vecp ((e.crust_nlines : Int) - 1) with
  | none => none
  | some p =>
    let e := { e with crust_high_pres := p }
    let e := { e with trans_pres := e.crust_high_pres }
    let e := { e with use_crust := true }
    some ({ e with trans_pres := e.crust_high_pres }, Outcome.success)

/-- Modelled from the spec: a `table3d` object (class declared in an absent
header) as the loaders use it: the grid in `y` (`get_ny`, `get_grid_y`) and
the two-dimensional interpolation `interp(x, y, name)` of the slice `name`. -/
structure Table3d where
  grid_y : List ℚ
  interp : ℚ → ℚ → String → ℚ

/-- The vector `Lv` of `ngl13_low_dens_eos`, filled by
`for(double Lt=25.0;Lt<116;Lt+=5.0) Lv.push_back(Lt);`. -/
def ngl13_Lv : List ℚ :=
  [25, 30, 35, 40, 45, 50, 55, 60, 65, 70, 75, 80, 85, 90, 95, 100, 105, 110, 115]

/-- The transition densities `ntv` of `ngl13_low_dens_eos` for the model
"PNM". -/
def ngl13_ntv_PNM : List ℚ :=
  [0.0898408, 0.0862488, 0.0831956, 0.0805016, 0.0781668, 0.0760116, 0.0743952,
    0.0727788, 0.0713420, 0.0700848, 0.0688276, 0.0673908, 0.0666724, 0.0663132,
    0.0654152, 0.0641580, 0.0645172, 0.0641580, 0.0636192]

/-- The transition densities `ntv` of `ngl13_low_dens_eos` for every other
model. -/
def ngl13_ntv_other : List ℚ :=
  [0.113189, 0.106646, 0.0982820, 0.0927144, 0.0876856, 0.0831956, 0.0792444,
    0.0754728, 0.0735992, 0.0686480, 0.0654152, 0.0623620, 0.0593088, 0.0564352,
    0.0533820, 0.0503288, 0.0472756, 0.0451204, 0.0427856]

/-- Model of `tov_interp_eos::ngl13_low_dens_eos(L, model, external)`.  The
table read from the data file is the argument `newton_eos`, and the linear
interpolation `o2scl::interp::eval(x0, n, x, y)` is the argument `itp_eval`
(both are declared in absent headers).  `crust_vecp[crust_nlines-1]` outside
the vector is `none`. -/
def tov_interp_eos.ngl13_low_dens_eos (itp_eval : ℚ → Nat → List ℚ → List ℚ → ℚ)
    (newton_eos : Table3d) (e : tov_interp_eos) (L : ℚ) (model : String)
    (_external : Bool) : Option (tov_interp_eos × Outcome) :=
  let L := if L < 25 then 25 else L
  let L := if L > 115 then 115 else L
  let e := { e with crust_nlines := newton_eos.grid_y.length }
  let e := { e with
    crust_vece := e.crust_vece ++ newton_eos.grid_y.map (fun nbt => newton_eos.interp L nbt "ed")
    crust_vecp := e.crust_vecp ++ newton_eos.grid_y.map (fun nbt => newton_eos.interp L nbt "pr")
    crust_vecnb := e.crust_vecnb ++ newton_eos.grid_y }
  let ntv := if model = "PNM" then ngl13_ntv_PNM else ngl13_ntv_other
  let nt := itp_eval L 19 ngl13_Lv ntv
  let e := { e with trans_pres := itp_eval nt e.crust_nlines e.crust_vecnb e.crust_vecp }
  match vget e.crust_vecp ((e.crust_nlines : Int) - 1) with
  | none => none
  | some p => some ({ e with crust_high_pres := p, use_crust := true }, Outcome.success)

/-- The loop of `ngl13_low_dens_eos2` over the grid values still to visit:
the engine and whether the loop ran to its end (`false` after the early
`use_crust=false; return exc_efailed;`). -/
def tov_interp_eos.ngl13_eos2_loop (nlow nhigh : Table3d) (L weight_low weight_high : ℚ) :
    List ℚ → tov_interp_eos → tov_interp_eos × Bool
  | [], e => (e, true)
  | nbt :: rest, e =>
    let edval := nlow.interp L nbt "ed" * weight_low + nhigh.interp L nbt "ed" * weight_high
    let prval := nlow.interp L nbt "pr" * weight_low + nhigh.interp L nbt "pr" * weight_high
    if edval < 1.0e-100 ∨ prval < 1.0e-100 ∨ nbt < 1.0e-100 then
      ({ e with use_crust := false }, false)
    else
      tov_interp_eos.ngl13_eos2_loop nlow nhigh L weight_low weight_high rest
        { e with
          crust_vece := e.crust_vece ++ [edval]
          crust_vecp := e.crust_vecp ++ [prval]
          crust_vecnb := e.crust_vecnb ++ [nbt] }

/-- The limiting value `iSlow` of `ngl13_low_dens_eos2`:
`size_t iSlow=((size_t)S); if (iSlow%2==1) iSlow--;` (the conversion truncates;
it is only reached for `28 <= S <= 38`). -/
def ngl13_iSlow (S : ℚ) : Nat :=
  if (⌊S⌋.toNat) % 2 = 1 then ⌊S⌋.toNat - 1 else ⌊S⌋.toNat

/-- The weight `weight_low` of `ngl13_low_dens_eos2`. -/
def ngl13_weight_low (S : ℚ) : ℚ := (2 - (S - (ngl13_iSlow S : ℚ))) / 2

/-- Model of `tov_interp_eos::ngl13_low_dens_eos2(S, L, nt, fname)`: the
engine after the call and how the call ended.  The tables stored in the data
file are the argument `file`, by name; `itp_eval` is the external linear
interpolation.  `crust_vecp[crust_nlines-1]` outside the vector is `none`. -/
def tov_interp_eos.ngl13_low_dens_eos2 (itp_eval : ℚ → Nat → List ℚ → List ℚ → ℚ)
    (file : String → Table3d) (e : tov_interp_eos) (S L nt : ℚ) (_fname : String) :
    Option (tov_interp_eos × Outcome) :=
  if S < 28 ∨ S > 38 then some (e, Outcome.raised Err.exc_efailed "S out of range.")
  else if L < 25 ∨ L > 115 then
    some (e, Outcome.raised Err.exc_efailed "L out of range.")
  else if L > S * 5 - 65 then
    some (e, Outcome.raised Err.exc_efailed "S,L out of range.")
  else if nt < 0.01 ∨ nt > 0.15 then
    some (e, Outcome.raised Err.exc_efailed "nt out of range.")
  else
    let iSlow := ngl13_iSlow S
    let iShigh := iSlow + 2
    if iSlow < 28 ∨ iSlow > 38 then
      some (e, Outcome.raised Err.exc_efailed "iSlow out of range.")
    else if iShigh < 28 ∨ iShigh > 38 then
      some (e, Outcome.raised Err.exc_efailed "iSlow out of range.")
    else
      let weight_low := ngl13_weight_low S
      let weight_high := 1 - weight_low
      if weight_low < 0 ∨ weight_high < 0 then
        some (e, Outcome.raised Err.exc_efailed "Weights negative in eos2().")
      else
        let nlow := file ("S" ++ toString iSlow)
        let nhigh := file ("S" ++ toString iShigh)
        match tov_interp_eos.ngl13_eos2_loop nlow nhigh L weight_low weight_high
            nlow.grid_y e with
        | (e, false) => some (e, Outcome.returned Err.exc_efailed)
        | (e, true) =>
          let e := { e with trans_pres := itp_eval nt e.crust_nlines e.crust_vecnb e.crust_vecp }
          match vget e.crust_vecp ((e.crust_nlines : Int) - 1) with
          | none => none
          | some p => some ({ e with crust_high_pres := p, use_crust := true }, Outcome.success)

/-! ## The simulated annealing minimizer

Shallow embedding of `anneal_gsl` (src/src/anneal/anneal_gsl.h).  The objective
`func(nvar, x)` is a function of the point; the random numbers
`rng_dist(rng)` are the values `rng 0, rng 1, ...` of a stream, read one after
the other; the comparison `r < exp(z)` of the Metropolis test is the argument
`exp_lt r z` (the exponential has no exact value in the rationals). -/

/-- The data members of `anneal_gsl`, with the members `tol_abs`, `ntrial`
and `verbose` it inherits from its base classes (declared in absent headers). -/
structure anneal_gsl where
  boltz : ℚ
  step_vec : List ℚ
  T_start : ℚ
  T_dec : ℚ
  step_dec : ℚ
  min_step_ratio : ℚ
  tol_abs : ℚ
  ntrial : Int
  verbose : Int
  x : List ℚ
  new_x : List ℚ
  best_x : List ℚ
  old_x : List ℚ
  deriving DecidableEq, Repr

/-- Model of the constructor `anneal_gsl::anneal_gsl()`; the members of the
base classes are arguments. -/
def anneal_gsl.new (tol_abs : ℚ) (ntrial verbose : Int) : anneal_gsl where
  boltz := 1
  step_vec := [1]
  T_start := 1
  T_dec := 3 / 2
  step_dec := 3 / 2
  min_step_ratio := 100
  tol_abs := tol_abs
  ntrial := ntrial
  verbose := verbose
  x := []
  new_x := []
  best_x := []
  old_x := []

/-- Resizing a vector to `n` entries; the new entries, which the source
leaves uninitialised and always writes before it reads them, are 0 here. -/
def vresize (v : List ℚ) (n : Nat) : List ℚ :=
  v.take n ++ List.replicate (n - v.length) 0

/-- Model of `anneal_gsl::allocate(n, boltz_factor)`, called by `mmin` with
the default `boltz_factor=1.0`. -/
def anneal_gsl.allocate (a : anneal_gsl) (n : Nat) : anneal_gsl :=
  { a with
    x := vresize a.x n
    old_x := vresize a.old_x n
    new_x := vresize a.new_x n
    best_x := vresize a.best_x n
    boltz := 1 }

/-- The loop of `anneal_gsl::step(sx, nvar)` over the coordinates still to
visit: `u=rng_dist(rng); sx[i]=(2.0*u-1.0)*step_vec[i%nstep]+sx[i];`.  The
state is the vector and the position in the random stream.  The vector has
`nvar` entries (it was set up by `allocate`).  An empty `step_vec` makes
`i%nstep` undefined: `none`. -/
def anneal_gsl.step_loop (a : anneal_gsl) (rng : Nat → ℚ) :
    List Nat → List ℚ → Nat → Option (List ℚ × Nat)
  | [], sx, ctr => some (sx, ctr)
  | i :: rest, sx, ctr =>
    if a.step_vec.length = 0 then none
    else
      a.step_loop rng rest
        (sx.set i ((2 * rng ctr - 1) * a.step_vec.getD (i % a.step_vec.length) 0 +
          sx.getD i 0))
        (ctr + 1)

/-- Model of `anneal_gsl::step(sx, nvar)`. -/
def anneal_gsl.step (a : anneal_gsl) (rng : Nat → ℚ) (sx : List ℚ) (nvar : Nat)
    (ctr : Nat) : Option (List ℚ × Nat) :=
  a.step_loop rng (List.range nvar) sx ctr

/-- The local variables of `anneal_gsl::mmin` together with the object and
the position `ctr` in the random stream. -/
structure anneal_state where
  a : anneal_gsl
  E : ℚ
  best_E : ℚ
  T : ℚ
  old_E : ℚ
  iter : Int
  nmoves : Nat
  ctr : Nat
  deriving DecidableEq, Repr

/-- One pass of the loop `for (i=0;i<this->ntrial;++i)` of `mmin`: propose a
point, record it if it is the best so far, accept it if it is lower, and
otherwise accept it by the Metropolis test. -/
def anneal_state.trial (func : Nat → List ℚ → ℚ) (rng : Nat → ℚ)
    (exp_lt : ℚ → ℚ → Bool) (nvar : Nat) (s : anneal_state) : Option anneal_state :=
  match s.a.step rng s.a.x nvar s.ctr with
  | none => none
  | some (new_x, ctr) =>
    let new_E := func nvar new_x
    let s := { s with a := { s.a with new_x := new_x }, ctr := ctr }
    let s :=
      if new_E ≤ s.best_E then { s with a := { s.a with best_x := new_x }, best_E := new_E }
      else s
    if new_E < s.E then
      some { s with a := { s.a with x := new_x }, E := new_E, nmoves := s.nmoves + 1 }
    else
      let r := rng s.ctr
      let s := { s with ctr := s.ctr + 1 }
      if exp_lt r (-(new_E - s.E) / (s.a.boltz * s.T)) = true then
        some { s with a := { s.a with x := new_x }, E := new_E, nmoves := s.nmoves + 1 }
      else some s

/-- The loop `for (i=0;i<this->ntrial;++i)` of `mmin`, `n` passes. -/
def anneal_state.trials (func : Nat → List ℚ → ℚ) (rng : Nat → ℚ)
    (exp_lt : ℚ → ℚ → Bool) (nvar : Nat) : Nat → anneal_state → Option anneal_state
  | 0, s => some s
  | n + 1, s =>
    match s.trial func rng exp_lt nvar with
    | none => none
    | some s1 => anneal_state.trials func rng exp_lt nvar n s1

/-- The loop of `anneal_gsl::next` over the step sizes, from index `i` on:
`if (i<step_vec.size() && step_vec[i]>this->tol_abs*min_step_ratio)
step_vec[i]/=step_dec;` for `i < nvar`. -/
def anneal_gsl.next_steps (a : anneal_gsl) (nvar : Nat) : Nat → List ℚ → List ℚ
  | _, [] => []
  | i, st :: rest =>
    (if i < nvar ∧ st > a.tol_abs * a.min_step_ratio then st / a.step_dec else st) ::
      a.next_steps nvar (i + 1) rest

/-- Model of `anneal_gsl::next(nvar, x_old, min_old, x_new, min_new, T,
n_moves, finished)`: the object, the temperature and the flag `finished` on
return (the four arguments it does not read are left out). -/
def anneal_gsl.next (a : anneal_gsl) (nvar : Nat) (T : ℚ) (n_moves : Nat) :
    anneal_gsl × ℚ × Bool :=
  if T / a.T_dec < a.tol_abs then (a, T, true)
  else
    let a :=
      if n_moves = 0 then { a with step_vec := a.next_steps nvar 0 a.step_vec } else a
    (a, T / a.T_dec, false)

/-- The body of the loop `while (!done)` of `mmin`: save the old point, run
the `ntrial` trial steps, count the iteration when `verbose>0`, and call
`next`.  The result is the state and the flag `done`. -/
def anneal_state.outer_iter (func : Nat → List ℚ → ℚ) (rng : Nat → ℚ)
    (exp_lt : ℚ → ℚ → Bool) (nvar : Nat) (s : anneal_state) :
    Option (anneal_state × Bool) :=
  let s := { s with a := { s.a with old_x := s.a.x }, old_E := s.E, nmoves := 0 }
  match anneal_state.trials func rng exp_lt nvar s.a.ntrial.toNat s with
  | none => none
  | some s =>
    let s := if s.a.verbose > 0 then { s with iter := s.iter + 1 } else s
    let r := s.a.next nvar s.T s.nmoves
    some ({ s with a := r.1, T := r.2.1 }, r.2.2)

/-- The loop `while (!done)` of `mmin`, for at most `fuel` iterations; next
to the state it returns the temperatures at which the iterations were run, in
order (the temperatures `print_iter` shows when `verbose>0`). -/
def anneal_state.mmin_loop (func : Nat → List ℚ → ℚ) (rng : Nat → ℚ)
    (exp_lt : ℚ → ℚ → Bool) (nvar : Nat) :
    Nat → anneal_state → List ℚ → Option (anneal_state × List ℚ)
  | 0, _, _ => none
  | fuel + 1, s, temps =>
    match s.outer_iter func rng exp_lt nvar with
    | none => none
    | some (s1, done) =>
      if done = true then some (s1, temps ++ [s.T])
      else anneal_state.mmin_loop func rng exp_lt nvar fuel s1 (temps ++ [s.T])

/-- The state of `mmin` when it enters the loop `while (!done)`: the vectors
allocated, `x` and `best_x` set to the first `nvar` entries of `x0`, `E` and
`best_E` set to the value of the objective there, `T` set by `start`. -/
def anneal_gsl.mmin_init (a : anneal_gsl) (func : Nat → List ℚ → ℚ) (nvar : Nat)
    (x0 : List ℚ) : anneal_state :=
  let a := a.allocate nvar
  let a := { a with x := x0.take nvar, best_x := x0.take nvar }
  { a := a, E := func nvar a.x, best_E := func nvar a.x, T := a.T_start, old_E := 0,
    iter := 0, nmoves := 0, ctr := 0 }

/-- The values `mmin` leaves behind: the object, the vector `x0`, the value
`fmin`, how the call ended, and the temperatures of the iterations it ran. -/
structure mmin_result where
  obj : anneal_gsl
  x0 : List ℚ
  fmin : ℚ
  ret : Outcome
  temps : List ℚ
  deriving DecidableEq, Repr

/-- Model of `anneal_gsl::mmin(nvar, x0, fmin, func)` with at most `fuel`
iterations of its outer loop.  `none` stands for a loop that is still running
when the fuel is used up, for a vector `x0` of fewer than `nvar` entries, and
for an empty `step_vec`. -/
def anneal_gsl.mmin (func : Nat → List ℚ → ℚ) (rng : Nat → ℚ) (exp_lt : ℚ → ℚ → Bool)
    (fuel : Nat) (a : anneal_gsl) (nvar : Nat) (x0 : List ℚ) (fmin : ℚ) :
    Option mmin_result :=
  if nvar = 0 then
    some { obj := a, x0 := x0, fmin := fmin,
           ret := Outcome.raised Err.exc_einval
             "Tried to minimize over zero variables  in anneal_gsl::mmin().",
           temps := [] }
  else if x0.length < nvar then none
  else
    match anneal_state.mmin_loop func rng exp_lt nvar fuel (a.mmin_init func nvar x0) [] with
    | none => none
    | some (s, temps) =>
      some { obj := s.a, x0 := s.a.best_x ++ x0.drop nvar, fmin := s.best_E,
             ret := Outcome.success, temps := temps }

/-- The settings of the annealer and the temperature agree in two states of
`mmin`. -/
def anneal_state.same_settings (s s1 : anneal_state) : Prop :=
  s1.a.step_vec = s.a.step_vec ∧ s1.a.T_start = s.a.T_start ∧ s1.a.T_dec = s.a.T_dec ∧
  s1.a.step_dec = s.a.step_dec ∧ s1.a.min_step_ratio = s.a.min_step_ratio ∧
  s1.a.tol_abs = s.a.tol_abs ∧ s1.a.ntrial = s.a.ntrial ∧ s1.a.verbose = s.a.verbose ∧
  s1.a.boltz = s.a.boltz ∧ s1.T = s.T

/-- The points at which the `n` trial steps from the state `s` evaluate the
objective (the vectors `new_x` passed to `func`), in order.  A ghost list: the
source does not store it. -/
def anneal_state.trials_evals (func : Nat → List ℚ → ℚ) (rng : Nat → ℚ)
    (exp_lt : ℚ → ℚ → Bool) (nvar : Nat) : Nat → anneal_state → List (List ℚ)
  | 0, _ => []
  | n + 1, s =>
    match s.a.step rng s.a.x nvar s.ctr, s.trial func rng exp_lt nvar with
    | some (new_x, _), some s1 =>
      new_x :: anneal_state.trials_evals func rng exp_lt nvar n s1
    | _, _ => []

/-- The points at which the loop `while (!done)` of `mmin`, run from the state
`s` for at most `fuel` iterations, evaluates the objective, in order. -/
def anneal_state.mmin_loop_evals (func : Nat → List ℚ → ℚ) (rng : Nat → ℚ)
    (exp_lt : ℚ → ℚ → Bool) (nvar : Nat) : Nat → anneal_state → List (List ℚ)
  | 0, _ => []
  | fuel + 1, s =>
    anneal_state.trials_evals func rng exp_lt nvar s.a.ntrial.toNat
        { s with a := { s.a with old_x := s.a.x }, old_E := s.E, nmoves := 0 } ++
      match s.outer_iter func rng exp_lt nvar with
      | some (s1, false) => anneal_state.mmin_loop_evals func rng exp_lt nvar fuel s1
      | _ => []

/-- The points at which `mmin` evaluates the objective: the initial point (the
first `nvar` entries of `x0`), then the points proposed in the loop. -/
def anneal_gsl.mmin_evals (func : Nat → List ℚ → ℚ) (rng : Nat → ℚ) (exp_lt : ℚ → ℚ → Bool)
    (fuel : Nat) (a : anneal_gsl) (nvar : Nat) (x0 : List ℚ) : List (List ℚ) :=
  if nvar = 0 then []
  else x0.take nvar ::
    anneal_state.mmin_loop_evals func rng exp_lt nvar fuel (a.mmin_init func nvar x0)

/-- Between the states `s` and `s1` of `mmin` the objective was evaluated at
the points `evals`: the current point keeps its length, the best value did not
go up and is at most the value at every point of `evals`, and the best point
is the old one with the old value or one of `evals` with its value. -/
def anneal_state.best_of (func : Nat → List ℚ → ℚ) (nvar : Nat) (s s1 : anneal_state)
    (evals : List (List ℚ)) : Prop :=
  s1.a.x.length = s.a.x.length ∧ s1.best_E ≤ s.best_E ∧
  (∀ p ∈ evals, s1.best_E ≤ func nvar p ∧ p.length = s.a.x.length) ∧
  ((s1.a.best_x = s.a.best_x ∧ s1.best_E = s.best_E) ∨
    (s1.a.best_x ∈ evals ∧ s1.best_E = func nvar s1.a.best_x))

/-! ## The arithmetic of `double` and of `int`

The definitions above compute in the rational numbers and with unbounded
indices.  Where a statement depends on the rounding of the type `double`, on
its finite range, or on the range of the type `int`, the function is modelled
again: `interp_loop_int` computes `hi+lo` in 32 bits, and the functions with
the suffix `_fl` take their operations from an arithmetic `Arith`, whose
instance `double_arith` rounds every operation to IEEE 754 binary64 (to
nearest, ties to even, gradual underflow, one rounding for each operation).
-/

/-- Addition of two values of type `int` (32 bits): `none` when the sum is
outside the range of `int` (signed overflow, undefined behaviour). -/
def int_add (a b : Int) : Option Int :=
  if -2147483648 ≤ a + b ∧ a + b ≤ 2147483647 then some (a + b) else none

/-- The bracketing loop of `tov_interp_eos::interp` with the sum `hi+lo`
computed in the type `int`: as `interp_loop`, but `none` when `hi+lo`
overflows. -/
def interp_loop_int (x : List ℚ) (xx : ℚ) : Nat → Int → Int → Option (Int × Int)
  | 0, lo, hi => if hi - lo > 1 then none else some (lo, hi)
  | fuel + 1, lo, hi =>
    if hi - lo > 1 then
      match int_add hi lo with
      | none => none
      | some s =>
        match vget x (s / 2) with
        | none => none
        | some xk =>
          if xk > xx then interp_loop_int x xx fuel lo (s / 2)
          else interp_loop_int x xx fuel (s / 2) hi
    else some (lo, hi)

/-- The four arithmetic operations of the type `double`, as functions on
rational numbers, and the test `fin` that a value is in the finite range of
the type.  The operations return a rounded value also where the type would
return an infinity (the value is then outside the range `fin`). -/
structure Arith where
  add : ℚ → ℚ → ℚ
  sub : ℚ → ℚ → ℚ
  mul : ℚ → ℚ → ℚ
  div : ℚ → ℚ → ℚ
  fin : ℚ → Bool

/-- Arithmetic without rounding. -/
def exact_arith : Arith where
  add := fun a b => a + b
  sub := fun a b => a - b
  mul := fun a b => a * b
  div := fun a b => a / b
  fin := fun _ => true

/-- Rounding to the nearest integer, a tie to the even one. -/
def round_half_even (t : ℚ) : Int :=
  if t - (⌊t⌋ : ℚ) < 1 / 2 then ⌊t⌋
  else if t - (⌊t⌋ : ℚ) > 1 / 2 then ⌊t⌋ + 1
  else if ⌊t⌋ % 2 = 0 then ⌊t⌋ else ⌊t⌋ + 1

/-- The rounding of IEEE 754 binary64 (the type `double`), to nearest with
ties to even: a number of binary exponent `e` is rounded to a multiple of
`2^(e-52)`, and below `2^-1022` (subnormal range) to a multiple of `2^-1074`.
The exponent is not bounded above: a result of absolute value `2^1024` or more
stands for an overflow, where the type returns an infinity. -/
def fl64 (q : ℚ) : ℚ :=
  if q = 0 then 0
  else
    (round_half_even (q / (2 : ℚ) ^ (max (Int.log 2 |q|) (-1022) - 52)) : ℚ) *
      (2 : ℚ) ^ (max (Int.log 2 |q|) (-1022) - 52)

/-- The arithmetic of the type `double`: each operation is the exact one
followed by the rounding `fl64`; the finite range is below `2^1024`. -/
def double_arith : Arith where
  add := fun a b => fl64 (a + b)
  sub := fun a b => fl64 (a - b)
  mul := fun a b => fl64 (a * b)
  div := fun a b => fl64 (a / b)
  fin := fun v => decide (|v| < 2 ^ 1024)

/-- A result of an operation of `A` on finite operands: `none` when an operand
or the result is outside the finite range (the type `double` then computes
with an infinity or a NaN, which the model does not follow). -/
def Arith.chk (A : Arith) (a b r : ℚ) : Option ℚ :=
  if A.fin a = true ∧ A.fin b = true ∧ A.fin r = true then some r else none

/-- Checked sum `a+b` of two numbers of the type `double`. -/
def Arith.cadd (A : Arith) (a b : ℚ) : Option ℚ := A.chk a b (A.add a b)

/-- Checked difference `a-b`. -/
def Arith.csub (A : Arith) (a b : ℚ) : Option ℚ := A.chk a b (A.sub a b)

/-- Checked product `a*b`. -/
def Arith.cmul (A : Arith) (a b : ℚ) : Option ℚ := A.chk a b (A.mul a b)

/-- Checked quotient `a/b`: `none` also for a division by zero. -/
def Arith.cdiv (A : Arith) (a b : ℚ) : Option ℚ :=
  if b = 0 then none else A.chk a b (A.div a b)

/-- The loop of `anneal_gsl::step(sx, nvar)` in the arithmetic `A`:
`sx[i]=(2.0*u-1.0)*step_vec[i%nstep]+sx[i];`. -/
def anneal_gsl.step_loop_fl (A : Arith) (a : anneal_gsl) (rng : Nat → ℚ) :
    List Nat → List ℚ → Nat → Option (List ℚ × Nat)
  | [], sx, ctr => some (sx, ctr)
  | i :: rest, sx, ctr =>
    if a.step_vec.length = 0 then none
    else
      a.step_loop_fl A rng rest
        (sx.set i (A.add
          (A.mul (A.sub (A.mul 2 (rng ctr)) 1) (a.step_vec.getD (i % a.step_vec.length) 0))
          (sx.getD i 0)))
        (ctr + 1)

/-- Model of `anneal_gsl::step(sx, nvar)` in the arithmetic `A`. -/
def anneal_gsl.step_fl (A : Arith) (a : anneal_gsl) (rng : Nat → ℚ) (sx : List ℚ) (nvar : Nat)
    (ctr : Nat) : Option (List ℚ × Nat) :=
  a.step_loop_fl A rng (List.range nvar) sx ctr

/-- One pass of the loop `for (i=0;i<this->ntrial;++i)` of `mmin` in the
arithmetic `A`; the Metropolis test is `r < exp(-(new_E-E)/(boltz*T))`. -/
def anneal_state.trial_fl (A : Arith) (func : Nat → List ℚ → ℚ) (rng : Nat → ℚ)
    (exp_lt : ℚ → ℚ → Bool) (nvar : Nat) (s : anneal_state) : Option anneal_state :=
  match s.a.step_fl A rng s.a.x nvar s.ctr with
  | none => none
  | some (new_x, ctr) =>
    let new_E := func nvar new_x
    let s := { s with a := { s.a with new_x := new_x }, ctr := ctr }
    let s :=
      if new_E ≤ s.best_E then { s with a := { s.a with best_x := new_x }, best_E := new_E }
      else s
    if new_E < s.E then
      some { s with a := { s.a with x := new_x }, E := new_E, nmoves := s.nmoves + 1 }
    else
      let r := rng s.ctr
      let s := { s with ctr := s.ctr + 1 }
      if exp_lt r (A.div (-(A.sub new_E s.E)) (A.mul s.a.boltz s.T)) = true then
        some { s with a := { s.a with x := new_x }, E := new_E, nmoves := s.nmoves + 1 }
      else some s

/-- The loop `for (i=0;i<this->ntrial;++i)` of `mmin` in the arithmetic `A`,
`n` passes. -/
def anneal_state.trials_fl (A : Arith) (func : Nat → List ℚ → ℚ) (rng : Nat → ℚ)
    (exp_lt : ℚ → ℚ → Bool) (nvar : Nat) : Nat → anneal_state → Option anneal_state
  | 0, s => some s
  | n + 1, s =>
    match s.trial_fl A func rng exp_lt nvar with
    | none => none
    | some s1 => anneal_state.trials_fl A func rng exp_lt nvar n s1

/-- The loop of `anneal_gsl::next` over the step sizes in the arithmetic `A`:
`if (i<step_vec.size() && step_vec[i]>this->tol_abs*min_step_ratio)
step_vec[i]/=step_dec;` for `i < nvar`. -/
def anneal_gsl.next_steps_fl (A : Arith) (a : anneal_gsl) (nvar : Nat) :
    Nat → List ℚ → List ℚ
  | _, [] => []
  | i, st :: rest =>
    (if i < nvar ∧ st > A.mul a.tol_abs a.min_step_ratio then A.div st a.step_dec else st) ::
      a.next_steps_fl A nvar (i + 1) rest

/-- Model of `anneal_gsl::next` in the arithmetic `A`: the test is
`T/T_dec<tol_abs` and the update `T/=T_dec`, both with the division of `A`. -/
def anneal_gsl.next_fl (A : Arith) (a : anneal_gsl) (nvar : Nat) (T : ℚ) (n_moves : Nat) :
    anneal_gsl × ℚ × Bool :=
  if A.div T a.T_dec < a.tol_abs then (a, T, true)
  else
    let a :=
      if n_moves = 0 then { a with step_vec := a.next_steps_fl A nvar 0 a.step_vec } else a
    (a, A.div T a.T_dec, false)

/-- The body of the loop `while (!done)` of `mmin` in the arithmetic `A`. -/
def anneal_state.outer_iter_fl (A : Arith) (func : Nat → List ℚ → ℚ) (rng : Nat → ℚ)
    (exp_lt : ℚ → ℚ → Bool) (nvar : Nat) (s : anneal_state) :
    Option (anneal_state × Bool) :=
  let s := { s with a := { s.a with old_x := s.a.x }, old_E := s.E, nmoves := 0 }
  match anneal_state.trials_fl A func rng exp_lt nvar s.a.ntrial.toNat s with
  | none => none
  | some s =>
    let s := if s.a.verbose > 0 then { s with iter := s.iter + 1 } else s
    let r := s.a.next_fl A nvar s.T s.nmoves
    some ({ s with a := r.1, T := r.2.1 }, r.2.2)

/-- The loop `while (!done)` of `mmin` in the arithmetic `A`, for at most
`fuel` iterations, with the temperatures at which the iterations were run. -/
def anneal_state.mmin_loop_fl (A : Arith) (func : Nat → List ℚ → ℚ) (rng : Nat → ℚ)
    (exp_lt : ℚ → ℚ → Bool) (nvar : Nat) :
    Nat → anneal_state → List ℚ → Option (anneal_state × List ℚ)
  | 0, _, _ => none
  | fuel + 1, s, temps =>
    match s.outer_iter_fl A func rng exp_lt nvar with
    | none => none
    | some (s1, done) =>
      if done = true then some (s1, temps ++ [s.T])
      else anneal_state.mmin_loop_fl A func rng exp_lt nvar fuel s1 (temps ++ [s.T])

/-- Model of `anneal_gsl::mmin(nvar, x0, fmin, func)` in the arithmetic `A`
with at most `fuel` iterations of its outer loop; `none` stands for a loop that
is still running when the fuel is used up, for a vector `x0` of fewer than
`nvar` entries, and for an empty `step_vec`.  The operations of `A` are used
unchecked: where a coordinate, an energy or a step size overflows, the value
of the model stands for the infinity that `mmin` goes on with, which changes
the moves that are accepted and not the temperatures (a quotient `T/T_dec`
with `T_dec > 1` cannot overflow). -/
def anneal_gsl.mmin_fl (A : Arith) (func : Nat → List ℚ → ℚ) (rng : Nat → ℚ)
    (exp_lt : ℚ → ℚ → Bool) (fuel : Nat) (a : anneal_gsl) (nvar : Nat) (x0 : List ℚ)
    (fmin : ℚ) : Option mmin_result :=
  if nvar = 0 then
    some { obj := a, x0 := x0, fmin := fmin,
           ret := Outcome.raised Err.exc_einval
             "Tried to minimize over zero variables  in anneal_gsl::mmin().",
           temps := [] }
  else if x0.length < nvar then none
  else
    match anneal_state.mmin_loop_fl A func rng exp_lt nvar fuel (a.mmin_init func nvar x0)
        [] with
    | none => none
    | some (s, temps) =>
      some { obj := s.a, x0 := s.a.best_x ++ x0.drop nvar, fmin := s.best_E,
             ret := Outcome.success, temps := temps }

/-- The interpolation formula of `tov_interp_eos::interp`,
`y0+(xx-x0)/(x1-x0)*(y1-y0)`, with the checked operations of `A`. -/
def lin_fl (A : Arith) (x0 x1 y0 y1 xx : ℚ) : Option ℚ := do
  let a ← A.csub xx x0
  let b ← A.csub x1 x0
  let c ← A.cdiv a b
  let d ← A.csub y1 y0
  let m ← A.cmul c d
  A.cadd y0 m

/-- The final step of `tov_interp_eos::interp` on the bracket `(lo, hi)` in the
arithmetic `A`:
`if (x[hi]==x[lo]) yy=y[hi]; else yy=y[lo]+(xx-x[lo])/(x[hi]-x[lo])*(y[hi]-y[lo]);` -/
def interp_eval_fl (A : Arith) (x y : List ℚ) (xx : ℚ) (lo hi : Int) : Option ℚ := do
  let xhi ← vget x hi
  let xlo ← vget x lo
  if xhi = xlo then vget y hi
  else do
    let ylo ← vget y lo
    let yhi ← vget y hi
    lin_fl A xlo xhi ylo yhi xx

/-- Model of `tov_interp_eos::interp(x, y, xx, yy, n1, n2)` in the arithmetic
`A`, with the indices of type `int`: the bracketing loop `interp_loop_int`
compares only, the final step computes in `A`.  The result is `none` for an
index outside a vector, for an overflow of `hi+lo`, and when the formula
leaves the finite range of `A`. -/
def interp_fl (A : Arith) (x y : List ℚ) (xx : ℚ) (n1 n2 : Int) : Option ℚ := do
  let b ← interp_loop_int x xx (n2 - n1).toNat n1 n2
  interp_eval_fl A x y xx b.1 b.2

/-- Interpolation in the crust table in the arithmetic `A`. -/
def tov_interp_eos.crust_interp_fl (A : Arith) (e : tov_interp_eos) (y : List ℚ) (p : ℚ) :
    Option ℚ :=
  interp_fl A e.crust_vecp y p 0 ((e.crust_nlines : Int) - 1)

/-- Interpolation in the core table in the arithmetic `A`. -/
def tov_interp_eos.core_interp_fl (A : Arith) (e : tov_interp_eos) (y : List ℚ) (p : ℚ) :
    Option ℚ :=
  interp_fl A e.core_vecp y p 0 ((e.core_nlines : Int) - 1)

/-- The blend `(1.0-chi)*lo+chi*hi` of the smooth transition of `get_eden`
with the checked operations of `A`. -/
def mix_smooth_fl (A : Arith) (chi lo hi : ℚ) : Option ℚ := do
  let c ← A.csub 1 chi
  let t1 ← A.cmul c lo
  let t2 ← A.cmul chi hi
  A.cadd t1 t2

/-- The blend `(hi-lo)*chi+lo` of the sharp transition of `get_eden` with the
checked operations of `A`. -/
def mix_sharp_fl (A : Arith) (chi lo hi : ℚ) : Option ℚ := do
  let d ← A.csub hi lo
  let t ← A.cmul d chi
  A.cadd t lo

/-- The branch `phase=icore` of `get_eden` in the arithmetic `A`. -/
def tov_interp_eos.get_eden_core_fl (A : Arith) (e : tov_interp_eos) (pres nb : ℚ) :
    Option (Phase × ℚ × ℚ) := do
  let ed ← e.core_interp_fl A e.core_vece pres
  if e.baryon_column then do
    let nb ← e.core_interp_fl A e.core_vecnb pres
    pure (Phase.icore, ed, nb)
  else pure (Phase.icore, ed, nb)

/-- The if-chain of `tov_interp_eos::get_eden` in the arithmetic `A`:
`if (use_crust==true && pres<=trans_pres/trans_width)` crust,
`else if (use_crust==true && pres>trans_pres/trans_width &&
pres<trans_pres*trans_width)` transition, `else` core.  The quotient and the
product are only computed when `use_crust` is set (`&&` evaluates its right
side on demand). -/
def tov_interp_eos.get_eden_chain_fl (A : Arith) (e : tov_interp_eos) (pres nb : ℚ) :
    Option (Phase × ℚ × ℚ) :=
  if e.use_crust = true then do
    let prlo ← A.cdiv e.trans_pres e.trans_width
    if pres ≤ prlo then do
      let ed ← e.crust_interp_fl A e.crust_vece pres
      if e.baryon_column then do
        let nb ← e.crust_interp_fl A e.crust_vecnb pres
        pure (Phase.icrust, ed, nb)
      else pure (Phase.icrust, ed, nb)
    else do
      let prhi ← A.cmul e.trans_pres e.trans_width
      if pres > prlo ∧ pres < prhi then
        if e.transition_mode = TransMode.smooth_trans then do
          let edlo ← e.crust_interp_fl A e.crust_vece pres
          let edhi ← e.core_interp_fl A e.core_vece pres
          let a ← A.csub pres prlo
          let b ← A.csub prhi prlo
          let chi ← A.cdiv a b
          let ed ← mix_smooth_fl A chi edlo edhi
          if e.baryon_column then do
            let nblo ← e.crust_interp_fl A e.crust_vecnb pres
            let nbhi ← e.core_interp_fl A e.core_vecnb pres
            let nb ← mix_smooth_fl A chi nblo nbhi
            pure (Phase.itrans, ed, nb)
          else pure (Phase.itrans, ed, nb)
        else do
          let edlo ← e.crust_interp_fl A e.crust_vece prlo
          let edhi ← e.core_interp_fl A e.core_vece prhi
          let a ← A.csub pres prlo
          let b ← A.csub prhi prlo
          let chi ← A.cdiv a b
          let ed ← mix_sharp_fl A chi edlo edhi
          if e.baryon_column then do
            let nblo ← e.crust_interp_fl A e.crust_vecnb prlo
            let nbhi ← e.core_interp_fl A e.core_vecnb prhi
            let nb ← mix_sharp_fl A chi nblo nbhi
            pure (Phase.itrans, ed, nb)
          else pure (Phase.itrans, ed, nb)
      else e.get_eden_core_fl A pres nb
  else e.get_eden_core_fl A pres nb

/-- Model of `tov_interp_eos::get_eden(pres, ed, nb)` in the arithmetic `A`:
the local `phase` and the values of `ed` and `nb` on return.  The function
raises an error for a pressure that is not finite, and at its end for an
energy density (with a baryon column: or a baryon density) that is not finite;
both are `none` here, as is every computation that leaves the finite range. -/
def tov_interp_eos.get_eden_fl (A : Arith) (e : tov_interp_eos) (pres _ed nb : ℚ) :
    Option (Phase × ℚ × ℚ) :=
  if A.fin pres = true then
    match e.get_eden_chain_fl A pres nb with
    | none => none
    | some r =>
      if A.fin r.2.1 = false ∨ (e.baryon_column = true ∧ A.fin r.2.2 = false) then none
      else some r
  else none

/-- The part of `read_table` after the column lookups in the arithmetic `A`:
the columns are scaled by the products `(*core_table)[cole][i]*efactor`,
`(*core_table)[colp][i]*pfactor` and `(*core_table)[colnb][i]*nfactor` of `A`
(a product outside the finite range of `A` stands for the infinity that the
vector then holds). -/
def tov_interp_eos.read_table_fill_fl (A : Arith) (convert : String → String → ℚ → ℚ)
    (e : tov_interp_eos) (eosat : Table) (s_cole s_colp s_colnb : String) :
    tov_interp_eos :=
  let efactor := unit_factor convert (eosat.get_unit s_cole)
  let pfactor := unit_factor convert (eosat.get_unit s_colp)
  let nfactor :=
    if e.baryon_column then nb_unit_factor convert (eosat.get_unit s_colnb) else 1
  let e := { e with efactor := efactor, pfactor := pfactor, nfactor := nfactor }
  let vece :=
    (List.range e.core_nlines).map (fun i => A.mul (eosat.cell e.cole.toNat i) e.efactor)
  let vecp :=
    (List.range e.core_nlines).map (fun i => A.mul (eosat.cell e.colp.toNat i) e.pfactor)
  let e := { e with core_vece := vece, core_vecp := vecp }
  let vecnb :=
    (List.range e.core_nlines).map (fun i => A.mul (eosat.cell e.colnb.toNat i) e.nfactor)
  let e := if e.baryon_column then { e with core_vecnb := vecnb } else e
  let e :=
    if e.baryon_column then { e with core_auxp := (eosat.get_ncolumns : Int) - 3 }
    else { e with core_auxp := (eosat.get_ncolumns : Int) - 2 }
  { e with eos_read := true }

/-- Model of `tov_interp_eos::read_table(eosat, s_cole, s_colp, s_colnb)` in
the arithmetic `A`: as `read_table`, with the products of `A`. -/
def tov_interp_eos.read_table_fl (A : Arith) (convert : String → String → ℚ → ℚ)
    (e : tov_interp_eos) (eosat : Table) (s_cole s_colp s_colnb : String) :
    tov_interp_eos × Option Err :=
  let e := { e with core_table := some eosat, core_nlines := eosat.nlines }
  match eosat.lookup_column s_cole with
  | none => (e, some Err.exc_enotfound)
  | some ce =>
    let e := { e with cole := (ce : Int) }
    match eosat.lookup_column s_colp with
    | none => (e, some Err.exc_enotfound)
    | some cp =>
      let e := { e with colp := (cp : Int) }
      if s_colnb ≠ "" then
        match eosat.lookup_column s_colnb with
        | none => (e, some Err.exc_enotfound)
        | some cn =>
          let e := { e with colnb := (cn : Int), baryon_column := true }
          (e.read_table_fill_fl A convert eosat s_cole s_colp s_colnb, none)
      else
        let e := { e with baryon_column := false }
        (e.read_table_fill_fl A convert eosat s_cole s_colp s_colnb, none)

/-- Model of `tov_interp_eos::get_eden_high(pres, ed, nb)` in the arithmetic
`A`: `interp(core_vecp,core_vece,pres*pfactor,ed,0,core_nlines-1); ed/=efactor;`
and the same for `nb` with `nfactor` when `baryon_column` is set; `none` when
a product or a quotient leaves the finite range of `A` or divides by zero. -/
def tov_interp_eos.get_eden_high_fl (A : Arith) (e : tov_interp_eos) (pres _ed nb : ℚ) :
    Option (ℚ × ℚ) := do
  let p ← A.cmul pres e.pfactor
  let ed ← e.core_interp_fl A e.core_vece p
  let ed ← A.cdiv ed e.efactor
  if e.baryon_column then do
    let nb ← e.core_interp_fl A e.core_vecnb p
    let nb ← A.cdiv nb e.nfactor
    pure (ed, nb)
  else pure (ed, nb)

/-! ## Specification vocabulary -/

/-- The first `n` entries of `v` are non-decreasing from each row to the next
(the test of `check_eos`). -/
def nondecreasing (v : List ℚ) (n : Nat) : Prop :=
  ∀ i : Nat, i + 1 < n → v.getD i 0 ≤ v.getD (i + 1) 0

/-- The first `n` entries of `v` are strictly increasing from each row to the
next. -/
def increasing (v : List ℚ) (n : Nat) : Prop :=
  ∀ i : Nat, i + 1 < n → v.getD i 0 < v.getD (i + 1) 0

instance (v : List ℚ) (n : Nat) : Decidable (nondecreasing v n) :=
  decidable_of_iff (∀ i : Nat, i < n - 1 → v.getD i 0 ≤ v.getD (i + 1) 0)
    ⟨fun h i hi => h i (by omega), fun h i hi => h i (by omega)⟩

instance (v : List ℚ) (n : Nat) : Decidable (increasing v n) :=
  decidable_of_iff (∀ i : Nat, i < n - 1 → v.getD i 0 < v.getD (i + 1) 0)
    ⟨fun h i hi => h i (by omega), fun h i hi => h i (by omega)⟩

/-- The value `interp` computes on the bracket `(l, l+1)`. -/
def seg (x y : List ℚ) (l : Nat) (xx : ℚ) : ℚ :=
  if x.getD (l + 1) 0 = x.getD l 0 then y.getD (l + 1) 0
  else y.getD l 0 + (xx - x.getD l 0) / (x.getD (l + 1) 0 - x.getD l 0) *
    (y.getD (l + 1) 0 - y.getD l 0)

/-- The crust table is loaded: `crust_nlines` is at least 1 and every crust
vector that `get_eden` reads holds at least `crust_nlines` entries. -/
def tov_interp_eos.crust_ok (e : tov_interp_eos) : Prop :=
  1 ≤ e.crust_nlines ∧ e.crust_nlines ≤ e.crust_vecp.length ∧
    e.crust_nlines ≤ e.crust_vece.length ∧
    (e.baryon_column = true → e.crust_nlines ≤ e.crust_vecnb.length)

/-- The core table is loaded: `core_nlines` is at least 1 and every core
vector that `get_eden` reads holds at least `core_nlines` entries. -/
def tov_interp_eos.core_ok (e : tov_interp_eos) : Prop :=
  1 ≤ e.core_nlines ∧ e.core_nlines ≤ e.core_vecp.length ∧
    e.core_nlines ≤ e.core_vece.length ∧
    (e.baryon_column = true → e.core_nlines ≤ e.core_vecnb.length)

instance (e : tov_interp_eos) : Decidable e.crust_ok := by
  unfold tov_interp_eos.crust_ok
  infer_instance

instance (e : tov_interp_eos) : Decidable e.core_ok := by
  unfold tov_interp_eos.core_ok
  infer_instance

/-- The blend fraction `chi` that `get_eden` computes in the transition
branch, `(pres-trans_pres/trans_width)/(trans_pres*trans_width-trans_pres/trans_width)`. -/
def tov_interp_eos.chi (e : tov_interp_eos) (pres : ℚ) : ℚ :=
  (pres - e.trans_pres / e.trans_width) /
    (e.trans_pres * e.trans_width - e.trans_pres / e.trans_width)

/-- A small loaded engine on which the statements below are instantiated:
a crust table of three rows, a core table of four rows, transition pressure 4
and width 2, so that the transition band is the open interval from 2 to 8. -/
def sample_eos : tov_interp_eos :=
  { tov_interp_eos.new 0 true 0 0 with
    eos_read := true
    use_crust := true
    baryon_column := true
    trans_pres := 4
    trans_width := 2
    crust_high_pres := 3
    crust_nlines := 3
    crust_vecp := [1, 2, 3]
    crust_vece := [10, 20, 30]
    crust_vecnb := [1, 2, 3]
    core_nlines := 4
    core_vecp := [2, 4, 8, 16]
    core_vece := [25, 50, 100, 200]
    core_vecnb := [3, 5, 9, 17] }

/-- The sample engine with transition width 1: the transition band is empty. -/
def sample_eos_width1 : tov_interp_eos := { sample_eos with trans_width := 1 }

/-- The sample engine in sharp mode. -/
def sample_eos_sharp : tov_interp_eos :=
  { sample_eos with transition_mode := TransMode.match_line }

/-- A unit converter for the sample table: MeV/fm^3 to Msun/km^3 is the
factor 8.9653e-7; every other pair of units is left alone. -/
def sample_convert : String → String → ℚ → ℚ :=
  fun a b x => if a = "MeV/fm^3" ∧ b = "Msun/km^3" then x * (89653 / 100000000000) else x

/-- A core table of three lines with the columns ed, pr, nb and mun. -/
def sample_table : Table where
  nlines := 3
  columns := [
    { name := "ed", unit := "MeV/fm^3", data := [150, 300, 600] },
    { name := "pr", unit := "MeV/fm^3", data := [2, 10, 50] },
    { name := "nb", unit := "1/cm^3", data := [16 * 10 ^ 37, 32 * 10 ^ 37, 64 * 10 ^ 37] },
    { name := "mun", unit := "MeV", data := [950, 1000, 1100] } ]

/-- The engine after `read_table(sample_table, "ed", "pr", "nb")` on a freshly
constructed engine. -/
def sample_read : tov_interp_eos :=
  ((tov_interp_eos.new 0 false 0 0).read_table sample_convert sample_table "ed" "pr" "nb").1

/-- The sample table with the baryon density declared in 1/m^3. -/
def sample_table_m3 : Table where
  nlines := 3
  columns := [
    { name := "ed", unit := "MeV/fm^3", data := [150, 300, 600] },
    { name := "pr", unit := "MeV/fm^3", data := [2, 10, 50] },
    { name := "nb", unit := "1/m^3", data := [16 * 10 ^ 43, 32 * 10 ^ 43, 64 * 10 ^ 43] },
    { name := "mun", unit := "MeV", data := [950, 1000, 1100] } ]

/-- A core table without a baryon density column whose first column is
neither the energy density nor the pressure. -/
def sample_table_no_nb : Table where
  nlines := 3
  columns := [
    { name := "mun", unit := "MeV", data := [950, 1000, 1100] },
    { name := "ed", unit := "MeV/fm^3", data := [150, 300, 600] },
    { name := "pr", unit := "MeV/fm^3", data := [2, 10, 50] } ]

/-- The engine after `read_table(sample_table_no_nb, "ed", "pr", "")` on a
freshly constructed engine. -/
def sample_read_no_nb : tov_interp_eos :=
  ((tov_interp_eos.new 0 false 0 0).read_table sample_convert sample_table_no_nb
    "ed" "pr" "").1

/-- A linear interpolation for the samples, standing for
`o2scl::interp::eval(x0, n, x, y)`. -/
def sample_itp_eval : ℚ → Nat → List ℚ → List ℚ → ℚ :=
  fun x0 n x y => (interp x y x0 0 ((n : Int) - 1)).getD 0

/-- A crust grid of two baryon densities whose energy density and pressure
grow with the slope parameter. -/
def sample_table3d : Table3d where
  grid_y := [1 / 100, 8 / 100]
  interp := fun L nbt name => if name = "ed" then nbt * (1 + L / 1000) else nbt * L / 1000

/-- Sample objective for the annealer: the square of the first coordinate. -/
def sample_func : Nat → List ℚ → ℚ := fun _ x => x.getD 0 0 ^ 2

/-- Sample random stream: every draw from `[0,1)` is 0. -/
def sample_rng : Nat → ℚ := fun _ => 0

/-- Sample oracle for the comparison `r < exp(z)`: it answers yes when `r ≤ 0`,
and when `0 ≤ z` and `r < 1`; both answers are right for the real exponential
(`sample_exp_lt_sound`).  It is only used where it answers yes. -/
def sample_exp_lt : ℚ → ℚ → Bool := fun r z => decide (r ≤ 0 ∨ (0 ≤ z ∧ r < 1))

/-- Sample annealer: the defaults of the constructor with `tol_abs = 1/1000`,
one trial step per iteration and `verbose = 0`. -/
def sample_anneal : anneal_gsl := anneal_gsl.new (1 / 1000) 1 0

/-- Sample objective for the annealer: the first coordinate itself. -/
def sample_func_lin : Nat → List ℚ → ℚ := fun _ x => x.getD 0 0

/-- Sample region of a constrained problem: the points whose first coordinate
is not negative. -/
def sample_region : List ℚ → Bool := fun x => decide (0 ≤ x.getD 0 0)

/-- Sample data file: every name holds the sample table. -/
def sample_file : String → Table3d := fun _ => sample_table3d

/-- A number is representable in the arithmetic `A` (it is a finite number of
the type `double`) when adding zero returns it and it is in the finite
range. -/
def Arith.rep (A : Arith) (v : ℚ) : Prop := A.add v 0 = v ∧ A.fin v = true

/-- The laws of `double` arithmetic on finite values that the statements on
exact reproduction use: `a - a = 0`; `0 / d = 0` for `d` not zero;
`0 * z = 0`; zero is in the finite range; a product in the finite range is
representable; and the difference of two different representable numbers is
not zero (gradual underflow). -/
def Arith.laws (A : Arith) : Prop :=
  (∀ a, A.sub a a = 0) ∧ (∀ d, d ≠ 0 → A.div 0 d = 0) ∧ (∀ z, A.mul 0 z = 0) ∧
  A.fin 0 = true ∧
  (∀ a b, A.fin (A.mul a b) = true → A.rep (A.mul a b)) ∧
  (∀ a b, A.rep a → A.rep b → a ≠ b → A.sub a b ≠ 0)

/-- The temperatures of `mmin` in the arithmetic `A`: `T_start`, and after
each iteration `T/=T_dec`. -/
def temp_seq (A : Arith) (T_start T_dec : ℚ) : Nat → ℚ
  | 0 => T_start
  | k + 1 => A.div (temp_seq A T_start T_dec k) T_dec

/-- Sample annealer at the bottom of the range of `double`: the defaults of the
constructor with `T_start` and `tol_abs` both `2^-1074`, the smallest positive
`double` (4.94e-324). -/
def sample_anneal_tiny : anneal_gsl :=
  { anneal_gsl.new (1 / 2 ^ 1074) 1 0 with T_start := 1 / 2 ^ 1074 }

/-- The value `interp` computes on the bracket `(l, l+1)` in the arithmetic
`A`. -/
def seg_fl (A : Arith) (x y : List ℚ) (l : Nat) (xx : ℚ) : Option ℚ :=
  if x.getD (l + 1) 0 = x.getD l 0 then some (y.getD (l + 1) 0)
  else lin_fl A (x.getD l 0) (x.getD (l + 1) 0) (y.getD l 0) (y.getD (l + 1) 0) xx

/-- Rows `k` and `k+1` of the table `(x, y)` hold finite numbers of the type,
and the differences `x[k+1]-x[k]` and `y[k+1]-y[k]` do not overflow. -/
def Arith.seg_ok (A : Arith) (x y : List ℚ) (k : Nat) : Prop :=
  A.rep (x.getD k 0) ∧ A.rep (x.getD (k + 1) 0) ∧
  A.rep (y.getD k 0) ∧ A.rep (y.getD (k + 1) 0) ∧
  A.fin (A.sub (x.getD (k + 1) 0) (x.getD k 0)) = true ∧
  A.fin (A.sub (y.getD (k + 1) 0) (y.getD k 0)) = true

/-- The value a round trip through `read_table` and `get_eden_high` returns for
a table entry `v` and a conversion factor `f`: the quotient `(v*f)/f` computed
in the arithmetic `A`. -/
def round_trip_fl (A : Arith) (v f : ℚ) : Option ℚ := A.cdiv (A.mul v f) f

/-- A unit converter whose every factor is the `double` nearest to 0.1. -/
def sample_convert_tenth : String → String → ℚ → ℚ :=
  fun _ _ x => x * (3602879701896397 / 36028797018963968)

/-- A core table of two lines: energy densities 3, 6 in a unit that is a
tenth of Msun/km^3, pressures 1, 2 in Msun/km^3. -/
def sample_table_tenth : Table where
  nlines := 2
  columns := [
    { name := "ed", unit := "0.1*Msun/km^3", data := [3, 6] },
    { name := "pr", unit := "Msun/km^3", data := [1, 2] } ]

/-- The engine after `read_table(sample_table_tenth, "ed", "pr", "")` in the
arithmetic of `double` on a freshly constructed engine. -/
def sample_read_tenth : tov_interp_eos :=
  ((tov_interp_eos.new 0 false 0 0).read_table_fl double_arith sample_convert_tenth
    sample_table_tenth "ed" "pr" "").1

/-! ## The interpolation primitive: bracketing and value -/

/-- Access with an index inside the vector returns the entry. -/
theorem vget_natCast (v : List ℚ) (k : Nat) (h : k < v.length) :
    vget v (k : Int) = some (v.getD k 0) := by
  unfold vget
  have h0 : ¬ ((k : Int) < 0) := by omega
  rw [if_neg h0, Int.toNat_ofNat, List.getD_eq_getElem?_getD, List.getElem?_eq_getElem h]
  rfl

/-- The bracketing loop started on `lo < hi` inside the vector with at least
`hi - lo - 1` iterations of fuel returns a bracket `(l, l+1)` within
`[lo, hi]`; the lower sample is at most the query unless `l` is the initial
`lo`, the upper sample is above the query unless `l+1` is the initial `hi`. -/
theorem interp_loop_spec (x : List ℚ) (xx : ℚ) :
    ∀ (fuel lo hi : Nat), lo < hi → hi < x.length → hi ≤ lo + fuel + 1 →
      ∃ l : Nat, interp_loop x xx fuel lo hi = some ((l : Int), (l : Int) + 1) ∧
        lo ≤ l ∧ l + 1 ≤ hi ∧
        (l = lo ∨ x.getD l 0 ≤ xx) ∧ (l + 1 = hi ∨ xx < x.getD (l + 1) 0) := by
  intro fuel
  induction fuel with
  | zero =>
    intro lo hi h1 h2 h3
    have hhi : hi = lo + 1 := by omega
    subst hhi
    refine ⟨lo, ?_, le_refl _, le_refl _, Or.inl rfl, Or.inl rfl⟩
    have hg : ¬ (((lo + 1 : Nat) : Int) - (lo : Int) > 1) := by push_cast; omega
    simp only [interp_loop, if_neg hg]
    push_cast
    rfl
  | succ f ih =>
    intro lo hi h1 h2 h3
    by_cases hgap : hi = lo + 1
    · subst hgap
      refine ⟨lo, ?_, le_refl _, le_refl _, Or.inl rfl, Or.inl rfl⟩
      have hg : ¬ (((lo + 1 : Nat) : Int) - (lo : Int) > 1) := by push_cast; omega
      simp only [interp_loop, if_neg hg]
      push_cast
      rfl
    · have hg : ((hi : Int) - (lo : Int) > 1) := by omega
      have hk : ((hi : Int) + (lo : Int)) / 2 = (((hi + lo) / 2 : Nat) : Int) := by
        push_cast; rfl
      have hklo : lo < (hi + lo) / 2 := by omega
      have hkhi : (hi + lo) / 2 < hi := by omega
      simp only [interp_loop, if_pos hg]
      rw [hk, vget_natCast x _ (by omega)]
      simp only
      by_cases hx : x.getD ((hi + lo) / 2) 0 > xx
      · rw [if_pos hx]
        obtain ⟨l, hl, h4, h5, h6, h7⟩ := ih lo ((hi + lo) / 2) hklo (by omega) (by omega)
        refine ⟨l, hl, h4, by omega, h6, ?_⟩
        rcases h7 with h7 | h7
        · right; rw [h7]; exact hx
        · right; exact h7
      · rw [if_neg hx]
        obtain ⟨l, hl, h4, h5, h6, h7⟩ := ih ((hi + lo) / 2) hi hkhi h2 (by omega)
        refine ⟨l, hl, by omega, h5, ?_, h7⟩
        rcases h6 with h6 | h6
        · right; rw [h6]; exact not_lt.mp hx
        · right; exact h6

/-- On a bracket `(l, l+1)` inside both vectors the final step of `interp`
is the segment value `seg`. -/
theorem interp_eval_seg (x y : List ℚ) (xx : ℚ) (l : Nat)
    (hx : l + 1 < x.length) (hy : l + 1 < y.length) :
    interp_eval x y xx (l : Int) ((l : Int) + 1) = some (seg x y l xx) := by
  have e1 : ((l : Int) + 1) = ((l + 1 : Nat) : Int) := by push_cast; rfl
  unfold interp_eval seg
  rw [e1, vget_natCast x (l + 1) hx, vget_natCast x l (by omega),
    vget_natCast y (l + 1) hy, vget_natCast y l (by omega)]
  simp only [Option.bind_eq_bind, Option.some_bind, Option.pure_def]
  split_ifs <;> rfl

/-- Bracketing of `interp` on a table of at least two rows: the loop returns,
the value is the segment value on a bracket `(l, l+1)` inside the table, the
lower sample is below the query unless the bracket is the first one and the
upper sample is above it unless the bracket is the last one. -/
theorem interp_spec (x y : List ℚ) (xx : ℚ) (n : Nat)
    (hn : 2 ≤ n) (hx : n ≤ x.length) (hy : n ≤ y.length) :
    ∃ l : Nat, l + 1 < n ∧ interp x y xx 0 ((n : Int) - 1) = some (seg x y l xx) ∧
      (l = 0 ∨ x.getD l 0 ≤ xx) ∧ (l + 2 = n ∨ xx < x.getD (l + 1) 0) := by
  have e1 : ((n : Int) - 1) = ((n - 1 : Nat) : Int) := by omega
  have e2 : (((n - 1 : Nat) : Int) - 0).toNat = n - 1 := by omega
  obtain ⟨l, hl, h1, h2, h3, h4⟩ :=
    interp_loop_spec x xx (n - 1) 0 (n - 1) (by omega) (by omega) (by omega)
  refine ⟨l, by omega, ?_, h3, ?_⟩
  · unfold interp
    rw [e1, e2]
    have e3 : ((0 : Nat) : Int) = 0 := rfl
    rw [← e3, hl]
    simp only [Option.bind_eq_bind, Option.some_bind]
    exact interp_eval_seg x y xx l (by omega) (by omega)
  · rcases h4 with h4 | h4
    · left; omega
    · right; exact h4

/-- A table of one row: `interp` returns the only sample. -/
theorem interp_one_row (x y : List ℚ) (xx : ℚ)
    (hx : 1 ≤ x.length) (hy : 1 ≤ y.length) :
    interp x y xx 0 (((1 : Nat) : Int) - 1) = some (y.getD 0 0) := by
  have h0 := vget_natCast x 0 (by omega)
  have h1 := vget_natCast y 0 (by omega)
  simp only [Nat.cast_zero] at h0 h1
  simp [interp, interp_loop, interp_eval, h0, h1]

/-- Row-to-row monotonicity gives monotonicity between any two rows. -/
theorem nondecreasing_le (v : List ℚ) (n : Nat) (h : nondecreasing v n) :
    ∀ i j : Nat, i ≤ j → j < n → v.getD i 0 ≤ v.getD j 0 := by
  intro i j hij
  induction j with
  | zero =>
    intro _
    have : i = 0 := by omega
    subst this
    exact le_refl _
  | succ j ih =>
    intro hj
    rcases Nat.eq_or_lt_of_le hij with h1 | h1
    · subst h1; exact le_refl _
    · exact le_trans (ih (by omega) (by omega)) (h j hj)

/-- A strictly increasing column is non-decreasing. -/
theorem increasing_nondecreasing (v : List ℚ) (n : Nat) (h : increasing v n) :
    nondecreasing v n := fun i hi => le_of_lt (h i hi)

/-- Row-to-row strict monotonicity gives strict monotonicity between any two
rows. -/
theorem increasing_lt (v : List ℚ) (n : Nat) (h : increasing v n) :
    ∀ i j : Nat, i < j → j < n → v.getD i 0 < v.getD j 0 := by
  intro i j hij hj
  have h1 := nondecreasing_le v n (increasing_nondecreasing v n h) (i + 1) j (by omega) hj
  exact lt_of_lt_of_le (h i (by omega)) h1

/-- Exactness of `interp` at a tabulated abscissa that is the last row with
its value. -/
theorem interp_at_sample (x y : List ℚ) (n k : Nat)
    (hn : 1 ≤ n) (hx : n ≤ x.length) (hy : n ≤ y.length) (hs : nondecreasing x n)
    (hk : k < n) (hlast : k + 1 = n ∨ x.getD k 0 < x.getD (k + 1) 0) :
    interp x y (x.getD k 0) 0 ((n : Int) - 1) = some (y.getD k 0) := by
  by_cases h1 : n = 1
  · subst h1
    have hk0 : k = 0 := by omega
    subst hk0
    exact interp_one_row x y _ hx hy
  obtain ⟨l, hl, hv, hlo, hhi⟩ := interp_spec x y (x.getD k 0) n (by omega) hx hy
  have hmono := nondecreasing_le x n hs
  rw [hv]
  congr 1
  -- a bracket strictly above row k is impossible
  have hle : l ≤ k := by
    by_contra hc
    have hc : k < l := by omega
    rcases hlast with h2 | h2
    · omega
    · rcases hlo with h3 | h3
      · omega
      · have := hmono (k + 1) l (by omega) (by omega)
        linarith
  rcases Nat.eq_or_lt_of_le hle with h2 | h2
  · -- the bracket starts at row k
    subst h2
    rcases hlast with h3 | h3
    · omega
    · unfold seg
      rw [if_neg (ne_of_gt h3)]
      simp
  · -- the bracket ends at row k, the last row
    have hk1 : l + 1 = k := by
      by_contra hc
      rcases hhi with h3 | h3
      · rcases hlast with h4 | h4
        · omega
        · have := hmono (l + 1) k (by omega) (by omega)
          have h5 := hmono (k+1) (l+1) (by omega) (by omega)
          linarith
      · have := hmono (l + 1) k (by omega) hk
        linarith
    subst hk1
    unfold seg
    by_cases h3 : x.getD (l + 1) 0 = x.getD l 0
    · rw [if_pos h3]
    · rw [if_neg h3]
      have h4 : x.getD (l + 1) 0 - x.getD l 0 ≠ 0 := sub_ne_zero.mpr h3
      rw [div_self h4]
      ring

/-- A loaded table always gives a value: `interp` returns. -/
theorem interp_total (x y : List ℚ) (xx : ℚ) (n : Nat)
    (hn : 1 ≤ n) (hx : n ≤ x.length) (hy : n ≤ y.length) :
    ∃ v, interp x y xx 0 ((n : Int) - 1) = some v := by
  by_cases h1 : n = 1
  · subst h1
    exact ⟨_, interp_one_row x y xx hx hy⟩
  · obtain ⟨l, _, hv, _⟩ := interp_spec x y xx n (by omega) hx hy
    exact ⟨_, hv⟩

/-- The crust branch of `get_eden`. -/
theorem get_eden_crust_eq (e : tov_interp_eos) (p ed0 nb0 : ℚ)
    (h : e.use_crust = true ∧ p ≤ e.trans_pres / e.trans_width) :
    e.get_eden p ed0 nb0 =
      (e.crust_interp e.crust_vece p).bind fun ed =>
        if e.baryon_column = true then
          (e.crust_interp e.crust_vecnb p).bind fun nb => some (Phase.icrust, ed, nb)
        else some (Phase.icrust, ed, nb0) := by
  unfold tov_interp_eos.get_eden
  rw [if_pos h]
  rfl

/-- The core branch of `get_eden`. -/
theorem get_eden_core_eq (e : tov_interp_eos) (p ed0 nb0 : ℚ)
    (h1 : ¬ (e.use_crust = true ∧ p ≤ e.trans_pres / e.trans_width))
    (h2 : ¬ (e.use_crust = true ∧ p > e.trans_pres / e.trans_width ∧
      p < e.trans_pres * e.trans_width)) :
    e.get_eden p ed0 nb0 =
      (e.core_interp e.core_vece p).bind fun ed =>
        if e.baryon_column = true then
          (e.core_interp e.core_vecnb p).bind fun nb => some (Phase.icore, ed, nb)
        else some (Phase.icore, ed, nb0) := by
  unfold tov_interp_eos.get_eden
  rw [if_neg h1, if_neg h2]
  rfl

/-- The transition branch of `get_eden` in smooth mode. -/
theorem get_eden_smooth_eq (e : tov_interp_eos) (p ed0 nb0 : ℚ)
    (h1 : ¬ (e.use_crust = true ∧ p ≤ e.trans_pres / e.trans_width))
    (h2 : e.use_crust = true ∧ p > e.trans_pres / e.trans_width ∧
      p < e.trans_pres * e.trans_width)
    (hm : e.transition_mode = TransMode.smooth_trans) :
    e.get_eden p ed0 nb0 =
      (e.crust_interp e.crust_vece p).bind fun edlo =>
      (e.core_interp e.core_vece p).bind fun edhi =>
        if e.baryon_column = true then
          (e.crust_interp e.crust_vecnb p).bind fun nblo =>
          (e.core_interp e.core_vecnb p).bind fun nbhi =>
            some (Phase.itrans,
              (1 - (p - e.trans_pres / e.trans_width) /
                  (e.trans_pres * e.trans_width - e.trans_pres / e.trans_width)) * edlo +
                (p - e.trans_pres / e.trans_width) /
                  (e.trans_pres * e.trans_width - e.trans_pres / e.trans_width) * edhi,
              (1 - (p - e.trans_pres / e.trans_width) /
                  (e.trans_pres * e.trans_width - e.trans_pres / e.trans_width)) * nblo +
                (p - e.trans_pres / e.trans_width) /
                  (e.trans_pres * e.trans_width - e.trans_pres / e.trans_width) * nbhi)
        else
          some (Phase.itrans,
              (1 - (p - e.trans_pres / e.trans_width) /
                  (e.trans_pres * e.trans_width - e.trans_pres / e.trans_width)) * edlo +
                (p - e.trans_pres / e.trans_width) /
                  (e.trans_pres * e.trans_width - e.trans_pres / e.trans_width) * edhi,
              nb0) := by
  unfold tov_interp_eos.get_eden
  rw [if_neg h1, if_pos h2, if_pos hm]
  rfl

/-- The transition branch of `get_eden` when the mode is not smooth. -/
theorem get_eden_sharp_eq (e : tov_interp_eos) (p ed0 nb0 : ℚ)
    (h1 : ¬ (e.use_crust = true ∧ p ≤ e.trans_pres / e.trans_width))
    (h2 : e.use_crust = true ∧ p > e.trans_pres / e.trans_width ∧
      p < e.trans_pres * e.trans_width)
    (hm : e.transition_mode ≠ TransMode.smooth_trans) :
    e.get_eden p ed0 nb0 =
      (e.crust_interp e.crust_vece (e.trans_pres / e.trans_width)).bind fun edlo =>
      (e.core_interp e.core_vece (e.trans_pres * e.trans_width)).bind fun edhi =>
        if e.baryon_column = true then
          (e.crust_interp e.crust_vecnb (e.trans_pres / e.trans_width)).bind fun nblo =>
          (e.core_interp e.core_vecnb (e.trans_pres * e.trans_width)).bind fun nbhi =>
            some (Phase.itrans,
              (edhi - edlo) * ((p - e.trans_pres / e.trans_width) /
                  (e.trans_pres * e.trans_width - e.trans_pres / e.trans_width)) + edlo,
              (nbhi - nblo) * ((p - e.trans_pres / e.trans_width) /
                  (e.trans_pres * e.trans_width - e.trans_pres / e.trans_width)) + nblo)
        else
          some (Phase.itrans,
              (edhi - edlo) * ((p - e.trans_pres / e.trans_width) /
                  (e.trans_pres * e.trans_width - e.trans_pres / e.trans_width)) + edlo,
              nb0) := by
  unfold tov_interp_eos.get_eden
  rw [if_neg h1, if_pos h2, if_neg hm]
  rfl

/-! ## The sample engine -/

/-- The crust table of the sample engine is loaded. -/
theorem sample_crust_ok : sample_eos.crust_ok := by
  simp [tov_interp_eos.crust_ok, sample_eos, tov_interp_eos.new]

/-- The core table of the sample engine is loaded. -/
theorem sample_core_ok : sample_eos.core_ok := by
  simp [tov_interp_eos.core_ok, sample_eos, tov_interp_eos.new]

/-- The crust table of the sample engine is strictly increasing in pressure
and in energy density. -/
theorem sample_crust_increasing :
    increasing sample_eos.crust_vecp sample_eos.crust_nlines ∧
    increasing sample_eos.crust_vece sample_eos.crust_nlines := by
  constructor <;> intro i hi <;>
  · have hi3 : i < 2 := by
      simp [sample_eos, tov_interp_eos.new] at hi
      omega
    interval_cases i <;> norm_num [sample_eos, tov_interp_eos.new]

/-- The core table of the sample engine is strictly increasing in pressure
and in energy density. -/
theorem sample_core_increasing :
    increasing sample_eos.core_vecp sample_eos.core_nlines ∧
    increasing sample_eos.core_vece sample_eos.core_nlines := by
  constructor <;> intro i hi <;>
  · have hi3 : i < 3 := by
      simp [sample_eos, tov_interp_eos.new] at hi
      omega
    interval_cases i <;> norm_num [sample_eos, tov_interp_eos.new]

/-! ## Exactness at tabulated pressures without rounding -/

/-- Without rounding (the type `double` taken as the rational numbers): on a
table of at least two rows with non-decreasing pressures, for every row `k`
that is the last row with its pressure (row `k+1` has a strictly larger
pressure, or `k` is the last row), `interp(x, y, x[k], yy, 0, n-1)` sets
`yy = y[k]`, and `get_eden` at such a tabulated crust pressure classified as
crust, or core pressure classified as core, returns that row's energy density
and, when the baryon column is present, that row's baryon density. -/
theorem interp_exact_without_rounding (e : tov_interp_eos) (x y : List ℚ) (n k : Nat)
    (ed0 nb0 : ℚ) :
    (2 ≤ n → n ≤ x.length → n ≤ y.length → nondecreasing x n → k < n →
      (k + 1 = n ∨ x.getD k 0 < x.getD (k + 1) 0) →
      interp x y (x.getD k 0) 0 ((n : Int) - 1) = some (y.getD k 0)) ∧
    (e.crust_ok → nondecreasing e.crust_vecp e.crust_nlines → k < e.crust_nlines →
      (k + 1 = e.crust_nlines ∨ e.crust_vecp.getD k 0 < e.crust_vecp.getD (k + 1) 0) →
      (e.use_crust = true ∧ e.crust_vecp.getD k 0 ≤ e.trans_pres / e.trans_width) →
      e.get_eden (e.crust_vecp.getD k 0) ed0 nb0 =
        some (Phase.icrust, e.crust_vece.getD k 0,
          if e.baryon_column = true then e.crust_vecnb.getD k 0 else nb0)) ∧
    (e.core_ok → nondecreasing e.core_vecp e.core_nlines → k < e.core_nlines →
      (k + 1 = e.core_nlines ∨ e.core_vecp.getD k 0 < e.core_vecp.getD (k + 1) 0) →
      ¬ (e.use_crust = true ∧ e.core_vecp.getD k 0 ≤ e.trans_pres / e.trans_width) →
      ¬ (e.use_crust = true ∧ e.core_vecp.getD k 0 > e.trans_pres / e.trans_width ∧
        e.core_vecp.getD k 0 < e.trans_pres * e.trans_width) →
      e.get_eden (e.core_vecp.getD k 0) ed0 nb0 =
        some (Phase.icore, e.core_vece.getD k 0,
          if e.baryon_column = true then e.core_vecnb.getD k 0 else nb0)) := by
  refine ⟨?_, ?_, ?_⟩
  · intro hn hx hy hs hk hlast
    exact interp_at_sample x y n k (by omega) hx hy hs hk hlast
  · intro hok hs hk hlast hbr
    obtain ⟨h1, h2, h3, h4⟩ := hok
    rw [get_eden_crust_eq e _ ed0 nb0 hbr]
    unfold tov_interp_eos.crust_interp
    rw [interp_at_sample e.crust_vecp e.crust_vece e.crust_nlines k h1 h2 h3 hs hk hlast]
    by_cases hb : e.baryon_column = true
    · rw [interp_at_sample e.crust_vecp e.crust_vecnb e.crust_nlines k h1 h2 (h4 hb) hs hk hlast]
      simp [hb]
    · simp [hb]
  · intro hok hs hk hlast hb1 hb2
    obtain ⟨h1, h2, h3, h4⟩ := hok
    rw [get_eden_core_eq e _ ed0 nb0 hb1 hb2]
    unfold tov_interp_eos.core_interp
    rw [interp_at_sample e.core_vecp e.core_vece e.core_nlines k h1 h2 h3 hs hk hlast]
    by_cases hb : e.baryon_column = true
    · rw [interp_at_sample e.core_vecp e.core_vecnb e.core_nlines k h1 h2 (h4 hb) hs hk hlast]
      simp [hb]
    · simp [hb]

/-! ## Totality and case analysis of `get_eden` -/

/-- Every interpolation in a loaded crust table returns. -/
theorem crust_interp_total (e : tov_interp_eos) (hok : e.crust_ok) (p : ℚ) :
    (∃ v, e.crust_interp e.crust_vece p = some v) ∧
    (e.baryon_column = true → ∃ w, e.crust_interp e.crust_vecnb p = some w) := by
  obtain ⟨h1, h2, h3, h4⟩ := hok
  exact ⟨interp_total _ _ p _ h1 h2 h3, fun hb => interp_total _ _ p _ h1 h2 (h4 hb)⟩

/-- Every interpolation in a loaded core table returns. -/
theorem core_interp_total (e : tov_interp_eos) (hok : e.core_ok) (p : ℚ) :
    (∃ v, e.core_interp e.core_vece p = some v) ∧
    (e.baryon_column = true → ∃ w, e.core_interp e.core_vecnb p = some w) := by
  obtain ⟨h1, h2, h3, h4⟩ := hok
  exact ⟨interp_total _ _ p _ h1 h2 h3, fun hb => interp_total _ _ p _ h1 h2 (h4 hb)⟩

/-- On a loaded engine `get_eden` returns, and its result is that of exactly
one of the three branches: crust, transition, core. -/
theorem get_eden_cases (e : tov_interp_eos) (p ed0 nb0 : ℚ)
    (hcr : e.use_crust = true → e.crust_ok) (hco : e.core_ok) :
    ((e.use_crust = true ∧ p ≤ e.trans_pres / e.trans_width) ∧
      ∃ v w, e.crust_interp e.crust_vece p = some v ∧
        e.get_eden p ed0 nb0 = some (Phase.icrust, v, w)) ∨
    ((e.use_crust = true ∧ p > e.trans_pres / e.trans_width ∧
        p < e.trans_pres * e.trans_width) ∧
      ∃ v w, e.get_eden p ed0 nb0 = some (Phase.itrans, v, w)) ∨
    ((¬ (e.use_crust = true ∧ p ≤ e.trans_pres / e.trans_width) ∧
      ¬ (e.use_crust = true ∧ p > e.trans_pres / e.trans_width ∧
        p < e.trans_pres * e.trans_width)) ∧
      ∃ v w, e.core_interp e.core_vece p = some v ∧
        e.get_eden p ed0 nb0 = some (Phase.icore, v, w)) := by
  by_cases hA : e.use_crust = true ∧ p ≤ e.trans_pres / e.trans_width
  · left
    refine ⟨hA, ?_⟩
    obtain ⟨⟨v, hv⟩, hnb⟩ := crust_interp_total e (hcr hA.1) p
    rw [get_eden_crust_eq e p ed0 nb0 hA, hv]
    by_cases hb : e.baryon_column = true
    · obtain ⟨w, hw⟩ := hnb hb
      exact ⟨v, w, rfl, by simp [hb, hw]⟩
    · exact ⟨v, nb0, rfl, by simp [hb]⟩
  · right
    by_cases hB : e.use_crust = true ∧ p > e.trans_pres / e.trans_width ∧
        p < e.trans_pres * e.trans_width
    · left
      refine ⟨hB, ?_⟩
      by_cases hm : e.transition_mode = TransMode.smooth_trans
      · obtain ⟨⟨v, hv⟩, hnb⟩ := crust_interp_total e (hcr hB.1) p
        obtain ⟨⟨v2, hv2⟩, hnb2⟩ := core_interp_total e hco p
        rw [get_eden_smooth_eq e p ed0 nb0 hA hB hm, hv, hv2]
        simp only [Option.some_bind]
        by_cases hb : e.baryon_column = true
        · obtain ⟨w, hw⟩ := hnb hb
          obtain ⟨w2, hw2⟩ := hnb2 hb
          rw [if_pos hb, hw, hw2]
          exact ⟨_, _, rfl⟩
        · rw [if_neg hb]
          exact ⟨_, _, rfl⟩
      · obtain ⟨⟨v, hv⟩, hnb⟩ := crust_interp_total e (hcr hB.1) (e.trans_pres / e.trans_width)
        obtain ⟨⟨v2, hv2⟩, hnb2⟩ := core_interp_total e hco (e.trans_pres * e.trans_width)
        rw [get_eden_sharp_eq e p ed0 nb0 hA hB hm, hv, hv2]
        simp only [Option.some_bind]
        by_cases hb : e.baryon_column = true
        · obtain ⟨w, hw⟩ := hnb hb
          obtain ⟨w2, hw2⟩ := hnb2 hb
          rw [if_pos hb, hw, hw2]
          exact ⟨_, _, rfl⟩
        · rw [if_neg hb]
          exact ⟨_, _, rfl⟩
    · right
      refine ⟨⟨hA, hB⟩, ?_⟩
      obtain ⟨⟨v, hv⟩, hnb⟩ := core_interp_total e hco p
      rw [get_eden_core_eq e p ed0 nb0 hA hB, hv]
      by_cases hb : e.baryon_column = true
      · obtain ⟨w, hw⟩ := hnb hb
        exact ⟨v, w, rfl, by simp [hb, hw]⟩
      · exact ⟨v, nb0, rfl, by simp [hb]⟩

/-! ## C10: the degenerate bracket -/

/-- C10, as stated, fails: on the table with abscissas 5, 5 and values 1, 2
the bracket found for the query 7 is `(0, 1)`, its two abscissas are equal, and
`interp` returns 2, the value of the upper sample, not the value 1 of the
lower sample. -/
theorem interp_degenerate_counterexample :
    interp_loop [5, 5] 7 ((1 : Int) - 0).toNat 0 1 = some (0, 1) ∧
      vget [5, 5] 1 = vget [5, 5] 0 ∧ vget [1, 2] 0 = some 1 ∧
      interp [5, 5] [1, 2] 7 0 1 = some 2 ∧
      interp [5, 5] [1, 2] 7 0 1 ≠ vget [1, 2] 0 := by
  refine ⟨?_, ?_, ?_, ?_, ?_⟩ <;> simp [interp, interp_loop, interp_eval, vget]

/-- C10 (amended): whenever the two bracketing samples found by `interp` have
equal abscissas, `interp` returns the upper sample's value verbatim,
`yy = y[hi]`; no quotient is formed and the result does not depend on `xx`. -/
theorem interp_degenerate_bracket (x y : List ℚ) (xx : ℚ) (n1 n2 lo hi : Int) (xlo : ℚ)
    (hb : interp_loop x xx (n2 - n1).toNat n1 n2 = some (lo, hi))
    (h1 : vget x lo = some xlo) (h2 : vget x hi = some xlo) :
    interp x y xx n1 n2 = vget y hi := by
  unfold interp
  rw [hb]
  simp [interp_eval, h1, h2]

/-- Instance of `interp_degenerate_bracket` on the table with abscissas 5, 5. -/
theorem interp_degenerate_bracket_witness :
    interp_loop [5, 5] 7 ((1 : Int) - 0).toNat 0 1 = some (0, 1) ∧
      vget [5, 5] 0 = some 5 ∧ vget [5, 5] 1 = some 5 ∧
      interp [5, 5] [1, 2] 7 0 1 = vget [1, 2] 1 :=
  ⟨by simp [interp_loop], by simp [vget], by simp [vget],
    interp_degenerate_bracket [5, 5] [1, 2] 7 0 1 0 1 5 (by simp [interp_loop])
      (by simp [vget]) (by simp [vget])⟩

/-! ## C2: monotonicity within one regime -/

/-- Unit conversion of a result of `get_eden`: the energy density is divided
by `efactor` and, when the baryon column is present, the baryon density by
`nfactor`; the phase is kept. -/
theorem get_eden_full_eq (e : tov_interp_eos) (p ed0 nb0 : ℚ) :
    e.get_eden_full p ed0 nb0 =
      (e.get_eden (p * e.pfactor) ed0 nb0).map fun r =>
        (r.1, r.2.1 / e.efactor,
          if e.baryon_column = true then r.2.2 / e.nfactor else r.2.2) := by
  unfold tov_interp_eos.get_eden_full tov_interp_eos.get_eden
  by_cases hA : e.use_crust = true ∧ p * e.pfactor ≤ e.trans_pres / e.trans_width
  · rw [if_pos hA, if_pos hA]
    by_cases hb : e.baryon_column = true
    · simp only [hb, if_true]
      cases e.crust_interp e.crust_vece (p * e.pfactor) with
      | none => rfl
      | some v =>
        cases e.crust_interp e.crust_vecnb (p * e.pfactor) with
        | none => rfl
        | some w => rfl
    · have hb2 : e.baryon_column = false := by simpa using hb
      simp only [hb2, Bool.false_eq_true, if_false]
      cases e.crust_interp e.crust_vece (p * e.pfactor) with
      | none => rfl
      | some v => rfl
  · rw [if_neg hA, if_neg hA]
    by_cases hB : e.use_crust = true ∧ p * e.pfactor > e.trans_pres / e.trans_width ∧
        p * e.pfactor < e.trans_pres * e.trans_width
    · rw [if_pos hB, if_pos hB]
      by_cases hm : e.transition_mode = TransMode.smooth_trans
      · rw [if_pos hm, if_pos hm]
        by_cases hb : e.baryon_column = true
        · simp only [hb, if_true]
          cases e.crust_interp e.crust_vece (p * e.pfactor) with
          | none => rfl
          | some v =>
            cases e.core_interp e.core_vece (p * e.pfactor) with
            | none => rfl
            | some v2 =>
              cases e.crust_interp e.crust_vecnb (p * e.pfactor) with
              | none => rfl
              | some w =>
                cases e.core_interp e.core_vecnb (p * e.pfactor) with
                | none => rfl
                | some w2 =>
                  simp only [Option.bind_eq_bind, Option.some_bind, Option.pure_def,
                    Option.map_some']
                  rw [Option.some.injEq, Prod.mk.injEq, Prod.mk.injEq]
                  exact ⟨rfl, by ring, by ring⟩
        · have hb2 : e.baryon_column = false := by simpa using hb
          simp only [hb2, Bool.false_eq_true, if_false]
          cases e.crust_interp e.crust_vece (p * e.pfactor) with
          | none => rfl
          | some v =>
            cases e.core_interp e.core_vece (p * e.pfactor) with
            | none => rfl
            | some v2 =>
              simp only [Option.bind_eq_bind, Option.some_bind, Option.pure_def,
                Option.map_some']
              rw [Option.some.injEq, Prod.mk.injEq, Prod.mk.injEq]
              exact ⟨rfl, by ring, rfl⟩
      · rw [if_neg hm, if_neg hm]
        by_cases hb : e.baryon_column = true
        · simp only [hb, if_true]
          cases e.crust_interp e.crust_vece (e.trans_pres / e.trans_width) with
          | none => rfl
          | some v =>
            cases e.core_interp e.core_vece (e.trans_pres * e.trans_width) with
            | none => rfl
            | some v2 =>
              cases e.crust_interp e.crust_vecnb (e.trans_pres / e.trans_width) with
              | none => rfl
              | some w =>
                cases e.core_interp e.core_vecnb (e.trans_pres * e.trans_width) with
                | none => rfl
                | some w2 =>
                  simp only [Option.bind_eq_bind, Option.some_bind, Option.pure_def,
                    Option.map_some']
                  rw [Option.some.injEq, Prod.mk.injEq, Prod.mk.injEq]
                  exact ⟨rfl, by ring, by ring⟩
        · have hb2 : e.baryon_column = false := by simpa using hb
          simp only [hb2, Bool.false_eq_true, if_false]
          cases e.crust_interp e.crust_vece (e.trans_pres / e.trans_width) with
          | none => rfl
          | some v =>
            cases e.core_interp e.core_vece (e.trans_pres * e.trans_width) with
            | none => rfl
            | some v2 =>
              simp only [Option.bind_eq_bind, Option.some_bind, Option.pure_def,
                Option.map_some']
              rw [Option.some.injEq, Prod.mk.injEq, Prod.mk.injEq]
              exact ⟨rfl, by ring, rfl⟩
    · rw [if_neg hB, if_neg hB]
      by_cases hb : e.baryon_column = true
      · simp only [hb, if_true]
        cases e.core_interp e.core_vece (p * e.pfactor) with
        | none => rfl
        | some v =>
          cases e.core_interp e.core_vecnb (p * e.pfactor) with
          | none => rfl
          | some w => rfl
      · have hb2 : e.baryon_column = false := by simpa using hb
        simp only [hb2, Bool.false_eq_true, if_false]
        cases e.core_interp e.core_vece (p * e.pfactor) with
        | none => rfl
        | some v => rfl

/-! ## C3: phase classification -/

/-- For a positive transition pressure and a width above 1 the transition
band is not empty. -/
theorem band_nonempty (tp tw : ℚ) (htp : 0 < tp) (htw : 1 < tw) :
    tp / tw < tp * tw := by
  have h0 : 0 < tw := by linarith
  rw [div_lt_iff₀ h0]
  nlinarith [mul_pos htp (sub_pos.mpr htw), mul_pos (mul_pos htp (sub_pos.mpr htw)) h0]

/-- Both tables of the sample engine of width 1 are loaded. -/
theorem sample_width1_ok : sample_eos_width1.crust_ok ∧ sample_eos_width1.core_ok := by
  constructor <;>
    simp [tov_interp_eos.crust_ok, tov_interp_eos.core_ok, sample_eos_width1, sample_eos,
      tov_interp_eos.new]

/-- C3, as stated, fails for width 1: the engine has a crust, transition
pressure 4 and width 1; at pressure 4 (with `pfactor = 1`) the pressure is at
least `trans_pres*trans_width`, which the claim classifies as core, yet
`get_eden_full` and `get_eden` return the crust phase. -/
theorem phase_partition_counterexample :
    sample_eos_width1.use_crust = true ∧ 0 < sample_eos_width1.trans_pres ∧
      1 ≤ sample_eos_width1.trans_width ∧
      4 * sample_eos_width1.pfactor ≥
        sample_eos_width1.trans_pres * sample_eos_width1.trans_width ∧
      (∃ ed nb, sample_eos_width1.get_eden_full 4 0 0 = some (Phase.icrust, ed, nb)) ∧
      (∃ ed nb, sample_eos_width1.get_eden (4 * sample_eos_width1.pfactor) 0 0 =
        some (Phase.icrust, ed, nb)) := by
  have hA : sample_eos_width1.use_crust = true ∧
      4 * sample_eos_width1.pfactor ≤
        sample_eos_width1.trans_pres / sample_eos_width1.trans_width := by
    norm_num [sample_eos_width1, sample_eos, tov_interp_eos.new]
  have hg : ∃ ed nb, sample_eos_width1.get_eden (4 * sample_eos_width1.pfactor) 0 0 =
      some (Phase.icrust, ed, nb) := by
    rcases get_eden_cases sample_eos_width1 (4 * sample_eos_width1.pfactor) 0 0
        (fun _ => sample_width1_ok.1) sample_width1_ok.2 with
      ⟨_, v, w, _, hg⟩ | ⟨hB, _⟩ | ⟨hC, _⟩
    · exact ⟨v, w, hg⟩
    · exact absurd hA.2 (not_le.mpr hB.2.1)
    · exact absurd hA hC.1
  refine ⟨rfl, ?_, ?_, ?_, ?_, hg⟩
  · norm_num [sample_eos_width1, sample_eos, tov_interp_eos.new]
  · norm_num [sample_eos_width1, sample_eos, tov_interp_eos.new]
  · norm_num [sample_eos_width1, sample_eos, tov_interp_eos.new]
  · obtain ⟨ed, nb, h⟩ := hg
    rw [get_eden_full_eq, h]
    exact ⟨_, _, rfl⟩

/-- C3 (amended): on a loaded engine with a crust, `trans_pres > 0` and
`trans_width >= 1`, `get_eden_full` at `p` and `get_eden` at the internal
pressure `p*pfactor` return the same phase, which is crust iff
`p*pfactor <= trans_pres/trans_width`, transition iff `p*pfactor` is strictly
between the two bounds, and core iff `p*pfactor` is above the lower bound and
at least `trans_pres*trans_width` (for `trans_width > 1` this is: iff
`p*pfactor >= trans_pres*trans_width`); the three conditions exclude each other
and one of them holds.  With no crust every pressure is classified core. -/
theorem phase_partition (e : tov_interp_eos) (p ed0 nb0 : ℚ) (hco : e.core_ok) :
    (e.use_crust = true → e.crust_ok → 0 < e.trans_pres → 1 ≤ e.trans_width →
      ∃ ph ed nb ed1 nb1, e.get_eden_full p ed0 nb0 = some (ph, ed, nb) ∧
        e.get_eden (p * e.pfactor) ed0 nb0 = some (ph, ed1, nb1) ∧
        (ph = Phase.icrust ↔ p * e.pfactor ≤ e.trans_pres / e.trans_width) ∧
        (ph = Phase.itrans ↔ (e.trans_pres / e.trans_width < p * e.pfactor ∧
          p * e.pfactor < e.trans_pres * e.trans_width)) ∧
        (ph = Phase.icore ↔ (e.trans_pres / e.trans_width < p * e.pfactor ∧
          e.trans_pres * e.trans_width ≤ p * e.pfactor)) ∧
        (1 < e.trans_width →
          (ph = Phase.icore ↔ e.trans_pres * e.trans_width ≤ p * e.pfactor))) ∧
    (e.use_crust = false →
      ∃ ed nb ed1 nb1, e.get_eden_full p ed0 nb0 = some (Phase.icore, ed, nb) ∧
        e.get_eden (p * e.pfactor) ed0 nb0 = some (Phase.icore, ed1, nb1)) := by
  constructor
  · intro hu hcr htp htw
    have hlow : 1 < e.trans_width →
        e.trans_pres / e.trans_width < e.trans_pres * e.trans_width :=
      fun h1 => band_nonempty _ _ htp h1
    rcases get_eden_cases e (p * e.pfactor) ed0 nb0 (fun _ => hcr) hco with
      ⟨hA, v, w, _, hg⟩ | ⟨hB, v, w, hg⟩ | ⟨hC, v, w, _, hg⟩
    · refine ⟨Phase.icrust, _, _, v, w, by rw [get_eden_full_eq, hg]; rfl, hg, ?_, ?_, ?_, ?_⟩
      · exact ⟨fun _ => hA.2, fun _ => rfl⟩
      · exact ⟨fun h => absurd h (by decide), fun h => absurd hA.2 (not_le.mpr h.1)⟩
      · exact ⟨fun h => absurd h (by decide), fun h => absurd hA.2 (not_le.mpr h.1)⟩
      · intro h1
        refine ⟨fun h => absurd h (by decide), fun h => ?_⟩
        have := hlow h1
        exact absurd hA.2 (not_le.mpr (lt_of_lt_of_le this h))
    · refine ⟨Phase.itrans, _, _, v, w, by rw [get_eden_full_eq, hg]; rfl, hg, ?_, ?_, ?_, ?_⟩
      · exact ⟨fun h => absurd h (by decide), fun h => absurd h (not_le.mpr hB.2.1)⟩
      · exact ⟨fun _ => ⟨hB.2.1, hB.2.2⟩, fun _ => rfl⟩
      · exact ⟨fun h => absurd h (by decide), fun h => absurd h.2 (not_le.mpr hB.2.2)⟩
      · intro _
        exact ⟨fun h => absurd h (by decide), fun h => absurd h (not_le.mpr hB.2.2)⟩
    · have h1 : e.trans_pres / e.trans_width < p * e.pfactor := by
        by_contra hc
        exact hC.1 ⟨hu, not_lt.mp hc⟩
      have h2 : e.trans_pres * e.trans_width ≤ p * e.pfactor := by
        by_contra hc
        exact hC.2 ⟨hu, h1, not_le.mp hc⟩
      refine ⟨Phase.icore, _, _, v, w, by rw [get_eden_full_eq, hg]; rfl, hg, ?_, ?_, ?_, ?_⟩
      · exact ⟨fun h => absurd h (by decide), fun h => absurd h (not_le.mpr h1)⟩
      · exact ⟨fun h => absurd h (by decide), fun h => absurd h2 (not_le.mpr h.2)⟩
      · exact ⟨fun _ => ⟨h1, h2⟩, fun _ => rfl⟩
      · intro _
        exact ⟨fun _ => h2, fun _ => rfl⟩
  · intro hu
    have hnc : ¬ (e.use_crust = true) := by simp [hu]
    rcases get_eden_cases e (p * e.pfactor) ed0 nb0 (fun h => absurd h hnc) hco with
      ⟨hA, _⟩ | ⟨hB, _⟩ | ⟨_, v, w, _, hg⟩
    · exact absurd hA.1 hnc
    · exact absurd hB.1 hnc
    · exact ⟨_, _, v, w, by rw [get_eden_full_eq, hg]; rfl, hg⟩

/-- Instance of `phase_partition` on the sample engine at pressure 5, inside
the transition band. -/
theorem phase_partition_witness :
    sample_eos.core_ok ∧ sample_eos.use_crust = true ∧ sample_eos.crust_ok ∧
      0 < sample_eos.trans_pres ∧ 1 ≤ sample_eos.trans_width ∧
      ∃ ph ed nb ed1 nb1, sample_eos.get_eden_full 5 0 0 = some (ph, ed, nb) ∧
        sample_eos.get_eden (5 * sample_eos.pfactor) 0 0 = some (ph, ed1, nb1) ∧
        (ph = Phase.icrust ↔ 5 * sample_eos.pfactor ≤
          sample_eos.trans_pres / sample_eos.trans_width) ∧
        (ph = Phase.itrans ↔ (sample_eos.trans_pres / sample_eos.trans_width <
            5 * sample_eos.pfactor ∧
          5 * sample_eos.pfactor < sample_eos.trans_pres * sample_eos.trans_width)) ∧
        (ph = Phase.icore ↔ (sample_eos.trans_pres / sample_eos.trans_width <
            5 * sample_eos.pfactor ∧
          sample_eos.trans_pres * sample_eos.trans_width ≤ 5 * sample_eos.pfactor)) ∧
        (1 < sample_eos.trans_width →
          (ph = Phase.icore ↔
            sample_eos.trans_pres * sample_eos.trans_width ≤ 5 * sample_eos.pfactor)) :=
  have h1 : (0 : ℚ) < sample_eos.trans_pres := by norm_num [sample_eos, tov_interp_eos.new]
  have h2 : (1 : ℚ) ≤ sample_eos.trans_width := by norm_num [sample_eos, tov_interp_eos.new]
  ⟨sample_core_ok, rfl, sample_crust_ok, h1, h2,
    (phase_partition sample_eos 5 0 0 sample_core_ok).1 rfl sample_crust_ok h1 h2⟩

/-! ## C4 and C5: the transition band -/

/-- Both tables of the sample engine in sharp mode are loaded. -/
theorem sample_sharp_ok : sample_eos_sharp.crust_ok ∧ sample_eos_sharp.core_ok := by
  constructor <;>
    simp [tov_interp_eos.crust_ok, tov_interp_eos.core_ok, sample_eos_sharp, sample_eos,
      tov_interp_eos.new]

/-- C5: on a loaded engine with a crust, when the mode is not smooth, for
every pressure `p` strictly inside the transition band, `get_eden` returns the
transition phase and `ed = edlo + chi*(edhi - edlo)`, where `edlo` is the crust
table interpolated at the low bound `trans_pres/trans_width`, `edhi` the core
table interpolated at the high bound `trans_pres*trans_width` (neither depends
on `p`) and `chi = (p-low)/(high-low)`; with a baryon column the baryon density
is obtained in the same way from the two baryon densities at the bounds, and
without one `nb` is left as it was. -/
theorem sharp_blend (e : tov_interp_eos) (p ed0 nb0 : ℚ)
    (hcr : e.crust_ok) (hco : e.core_ok) (hu : e.use_crust = true)
    (hm : e.transition_mode ≠ TransMode.smooth_trans)
    (hlo : e.trans_pres / e.trans_width < p) (hhi : p < e.trans_pres * e.trans_width) :
    ∃ edlo edhi nb,
      e.crust_interp e.crust_vece (e.trans_pres / e.trans_width) = some edlo ∧
      e.core_interp e.core_vece (e.trans_pres * e.trans_width) = some edhi ∧
      e.get_eden p ed0 nb0 = some (Phase.itrans, edlo + e.chi p * (edhi - edlo), nb) ∧
      (e.baryon_column = true → ∃ nblo nbhi,
        e.crust_interp e.crust_vecnb (e.trans_pres / e.trans_width) = some nblo ∧
        e.core_interp e.core_vecnb (e.trans_pres * e.trans_width) = some nbhi ∧
        nb = nblo + e.chi p * (nbhi - nblo)) ∧
      (e.baryon_column = false → nb = nb0) := by
  have hA : ¬ (e.use_crust = true ∧ p ≤ e.trans_pres / e.trans_width) :=
    fun h => absurd h.2 (not_le.mpr hlo)
  have hB : e.use_crust = true ∧ p > e.trans_pres / e.trans_width ∧
      p < e.trans_pres * e.trans_width := ⟨hu, hlo, hhi⟩
  obtain ⟨⟨v, hv⟩, hnb⟩ := crust_interp_total e hcr (e.trans_pres / e.trans_width)
  obtain ⟨⟨v2, hv2⟩, hnb2⟩ := core_interp_total e hco (e.trans_pres * e.trans_width)
  have hed : (v2 - v) * e.chi p + v = v + e.chi p * (v2 - v) := by ring
  rw [get_eden_sharp_eq e p ed0 nb0 hA hB hm, hv, hv2]
  simp only [Option.some_bind]
  by_cases hb : e.baryon_column = true
  · obtain ⟨w, hw⟩ := hnb hb
    obtain ⟨w2, hw2⟩ := hnb2 hb
    rw [if_pos hb, hw, hw2]
    refine ⟨v, v2, w + e.chi p * (w2 - w), rfl, rfl, ?_, ?_, ?_⟩
    · simp only [Option.some_bind]
      rw [← hed]
      have hnbeq : (w2 - w) * e.chi p + w = w + e.chi p * (w2 - w) := by ring
      rw [← hnbeq]
      rfl
    · exact fun _ => ⟨w, w2, rfl, rfl, rfl⟩
    · intro h
      rw [hb] at h
      exact absurd h (by decide)
  · rw [if_neg hb]
    refine ⟨v, v2, nb0, rfl, rfl, ?_, fun h => absurd h hb, fun _ => rfl⟩
    rw [← hed]
    rfl

/-- Instance of `sharp_blend` on the sample engine in sharp mode at pressure 5. -/
theorem sharp_blend_witness :
    sample_eos_sharp.crust_ok ∧ sample_eos_sharp.core_ok ∧
    sample_eos_sharp.use_crust = true ∧
    sample_eos_sharp.transition_mode ≠ TransMode.smooth_trans ∧
    sample_eos_sharp.trans_pres / sample_eos_sharp.trans_width < 5 ∧
    5 < sample_eos_sharp.trans_pres * sample_eos_sharp.trans_width ∧
    ∃ edlo edhi nb,
      sample_eos_sharp.crust_interp sample_eos_sharp.crust_vece
        (sample_eos_sharp.trans_pres / sample_eos_sharp.trans_width) = some edlo ∧
      sample_eos_sharp.core_interp sample_eos_sharp.core_vece
        (sample_eos_sharp.trans_pres * sample_eos_sharp.trans_width) = some edhi ∧
      sample_eos_sharp.get_eden 5 0 0 =
        some (Phase.itrans, edlo + sample_eos_sharp.chi 5 * (edhi - edlo), nb) ∧
      (sample_eos_sharp.baryon_column = true → ∃ nblo nbhi,
        sample_eos_sharp.crust_interp sample_eos_sharp.crust_vecnb
          (sample_eos_sharp.trans_pres / sample_eos_sharp.trans_width) = some nblo ∧
        sample_eos_sharp.core_interp sample_eos_sharp.core_vecnb
          (sample_eos_sharp.trans_pres * sample_eos_sharp.trans_width) = some nbhi ∧
        nb = nblo + sample_eos_sharp.chi 5 * (nbhi - nblo)) ∧
      (sample_eos_sharp.baryon_column = false → nb = 0) :=
  have h0 : sample_eos_sharp.transition_mode ≠ TransMode.smooth_trans := by decide
  have h1 : sample_eos_sharp.trans_pres / sample_eos_sharp.trans_width < 5 := by
    norm_num [sample_eos_sharp, sample_eos, tov_interp_eos.new]
  have h2 : 5 < sample_eos_sharp.trans_pres * sample_eos_sharp.trans_width := by
    norm_num [sample_eos_sharp, sample_eos, tov_interp_eos.new]
  ⟨sample_sharp_ok.1, sample_sharp_ok.2, rfl, h0, h1, h2,
    sharp_blend sample_eos_sharp 5 0 0 sample_sharp_ok.1 sample_sharp_ok.2 rfl h0 h1 h2⟩

/-! ## C7 and C8: `set_transition` -/

/-- C7: `set_transition(p, wid)` raises `exc_einval` if and only if `wid < 1`
and raises no other error; when it raises none the engine holds
`trans_pres = p*pfactor` and `trans_width = wid`. -/
theorem set_transition_spec (e : tov_interp_eos) (p wid : ℚ) :
    ((e.set_transition p wid).2 = some Err.exc_einval ↔ wid < 1) ∧
    ((e.set_transition p wid).2 = none ↔ ¬ wid < 1) ∧
    ((e.set_transition p wid).2 = none →
      (e.set_transition p wid).1.trans_pres = p * e.pfactor ∧
      (e.set_transition p wid).1.trans_width = wid) := by
  unfold tov_interp_eos.set_transition
  by_cases h : wid < 1
  · simp [h]
  · simp [h]

/-- C8, the code at a failing input: a freshly constructed engine has
`trans_width = 1`; the call `set_transition(5, 1/2)` raises `exc_einval`, and
the engine it leaves behind holds the rejected width `1/2 < 1` and the new
transition pressure 5 in place of the old one. -/
theorem set_transition_rejected_state :
    (tov_interp_eos.new 7 false 0 0).trans_width = 1 ∧
    (tov_interp_eos.new 7 false 0 0).trans_pres = 7 ∧
    ((tov_interp_eos.new 7 false 0 0).set_transition 5 (1 / 2)).2 = some Err.exc_einval ∧
    ((tov_interp_eos.new 7 false 0 0).set_transition 5 (1 / 2)).1.trans_width = 1 / 2 ∧
    ((tov_interp_eos.new 7 false 0 0).set_transition 5 (1 / 2)).1.trans_width < 1 ∧
    ((tov_interp_eos.new 7 false 0 0).set_transition 5 (1 / 2)).1.trans_pres = 5 := by
  unfold tov_interp_eos.set_transition
  norm_num [tov_interp_eos.new]

/-! ## Reading a table and querying it, without rounding -/

/-- What `read_table_fill` stores. -/
theorem read_table_fill_result (convert : String → String → ℚ → ℚ)
    (e : tov_interp_eos) (t : Table) (s_cole s_colp s_colnb : String) :
    (e.read_table_fill convert t s_cole s_colp s_colnb).core_nlines = e.core_nlines ∧
    (e.read_table_fill convert t s_cole s_colp s_colnb).baryon_column = e.baryon_column ∧
    (e.read_table_fill convert t s_cole s_colp s_colnb).cole = e.cole ∧
    (e.read_table_fill convert t s_cole s_colp s_colnb).colp = e.colp ∧
    (e.read_table_fill convert t s_cole s_colp s_colnb).colnb = e.colnb ∧
    (e.read_table_fill convert t s_cole s_colp s_colnb).core_vece =
      (List.range e.core_nlines).map (fun i => t.cell e.cole.toNat i *
        (e.read_table_fill convert t s_cole s_colp s_colnb).efactor) ∧
    (e.read_table_fill convert t s_cole s_colp s_colnb).core_vecp =
      (List.range e.core_nlines).map (fun i => t.cell e.colp.toNat i *
        (e.read_table_fill convert t s_cole s_colp s_colnb).pfactor) ∧
    (e.baryon_column = true →
      (e.read_table_fill convert t s_cole s_colp s_colnb).core_vecnb =
        (List.range e.core_nlines).map (fun i => t.cell e.colnb.toNat i *
          (e.read_table_fill convert t s_cole s_colp s_colnb).nfactor)) := by
  unfold tov_interp_eos.read_table_fill
  by_cases hb : e.baryon_column = true
  · simp [hb]
  · simp [hb]

/-- What a successful `read_table` stores: the number of lines of the table
and the three columns, each scaled by its conversion factor. -/
theorem read_table_result (convert : String → String → ℚ → ℚ)
    (e0 e : tov_interp_eos) (t : Table) (s_cole s_colp s_colnb : String)
    (h : e0.read_table convert t s_cole s_colp s_colnb = (e, none)) :
    e.core_nlines = t.nlines ∧
    e.core_vece = (List.range t.nlines).map (fun i => t.cell e.cole.toNat i * e.efactor) ∧
    e.core_vecp = (List.range t.nlines).map (fun i => t.cell e.colp.toNat i * e.pfactor) ∧
    (e.baryon_column = true →
      e.core_vecnb =
        (List.range t.nlines).map (fun i => t.cell e.colnb.toNat i * e.nfactor)) := by
  unfold tov_interp_eos.read_table at h
  cases hce : t.lookup_column s_cole with
  | none => simp [hce] at h
  | some ce =>
    cases hcp : t.lookup_column s_colp with
    | none => simp [hce, hcp] at h
    | some cp =>
      by_cases hs : s_colnb ≠ ""
      · cases hcn : t.lookup_column s_colnb with
        | none => simp [hce, hcp, hs, hcn] at h
        | some cn =>
          simp only [hce, hcp, hs, hcn, if_true, ne_eq, not_false_eq_true, Prod.mk.injEq,
            and_true] at h
          subst h
          obtain ⟨a1, a2, a3, a4, a5, a6, a7, a8⟩ := read_table_fill_result convert
            { e0 with core_table := some t, core_nlines := t.nlines, cole := (ce : Int),
                      colp := (cp : Int), colnb := (cn : Int), baryon_column := true }
            t s_cole s_colp s_colnb
          refine ⟨a1, ?_, ?_, ?_⟩
          · rw [a6, a3]
          · rw [a7, a4]
          · intro _
            rw [a8 rfl, a5]
      · simp only [hce, hcp, hs, if_false, Prod.mk.injEq, and_true] at h
        subst h
        obtain ⟨a1, a2, a3, a4, a5, a6, a7, a8⟩ := read_table_fill_result convert
          { e0 with core_table := some t, core_nlines := t.nlines, cole := (ce : Int),
                    colp := (cp : Int), baryon_column := false }
          t s_cole s_colp s_colnb
        refine ⟨a1, ?_, ?_, ?_⟩
        · rw [a6, a3]
        · rw [a7, a4]
        · intro hb
          rw [a2] at hb
          exact absurd hb Bool.false_ne_true

/-- Entry `j` of a vector filled by a loop over `n` rows. -/
theorem getD_map_range (f : Nat → ℚ) (n j : Nat) (hj : j < n) :
    ((List.range n).map f).getD j 0 = f j := by
  rw [List.getD_eq_getElem?_getD, List.getElem?_map, List.getElem?_range hj]
  rfl

/-- The get_eden_high model in a loaded core table at a tabulated pressure. -/
theorem get_eden_high_at_sample (e : tov_interp_eos) (k : Nat) (pres ed0 nb0 : ℚ)
    (hok : e.core_ok) (hs : nondecreasing e.core_vecp e.core_nlines) (hk : k < e.core_nlines)
    (hlast : k + 1 = e.core_nlines ∨ e.core_vecp.getD k 0 < e.core_vecp.getD (k + 1) 0)
    (hp : pres * e.pfactor = e.core_vecp.getD k 0) :
    e.get_eden_high pres ed0 nb0 =
      some (e.core_vece.getD k 0 / e.efactor,
        if e.baryon_column = true then e.core_vecnb.getD k 0 / e.nfactor else nb0) := by
  obtain ⟨h1, h2, h3, h4⟩ := hok
  unfold tov_interp_eos.get_eden_high tov_interp_eos.core_interp
  rw [hp, interp_at_sample e.core_vecp e.core_vece e.core_nlines k h1 h2 h3 hs hk hlast]
  by_cases hb : e.baryon_column = true
  · rw [interp_at_sample e.core_vecp e.core_vecnb e.core_nlines k h1 h2 (h4 hb) hs hk hlast]
    simp [hb]
  · simp [hb]

/-- Without rounding (the type `double` taken as the rational numbers): after
a successful `read_table` on a table whose pressure column is strictly
increasing, with conversion factors `efactor` and `nfactor` non-zero and
`pfactor > 0`, for every row `i` the query `get_eden_high` at the row's
pressure, in the units of the table, returns the row's energy density and,
when a baryon column was bound, the row's baryon density, both in the units of
the table (without a baryon column `nb` is left as it was). -/
theorem read_table_round_trip_without_rounding (convert : String → String → ℚ → ℚ)
    (e0 e : tov_interp_eos) (t : Table) (s_cole s_colp s_colnb : String)
    (i : Nat) (ed0 nb0 : ℚ)
    (h : e0.read_table convert t s_cole s_colp s_colnb = (e, none))
    (hinc : ∀ j, j + 1 < t.nlines →
      t.cell e.colp.toNat j < t.cell e.colp.toNat (j + 1))
    (hef : e.efactor ≠ 0) (hpf : 0 < e.pfactor) (hnf : e.nfactor ≠ 0)
    (hi : i < t.nlines) :
    e.get_eden_high (t.cell e.colp.toNat i) ed0 nb0 =
      some (t.cell e.cole.toNat i,
        if e.baryon_column = true then t.cell e.colnb.toNat i else nb0) := by
  obtain ⟨hn, hve, hvp, hvnb⟩ := read_table_result convert e0 e t s_cole s_colp s_colnb h
  have hpget : ∀ j, j < t.nlines → e.core_vecp.getD j 0 = t.cell e.colp.toNat j * e.pfactor := by
    intro j hj
    rw [hvp]
    exact getD_map_range _ _ _ hj
  have hok : e.core_ok := by
    refine ⟨by omega, ?_, ?_, ?_⟩
    · rw [hvp, hn]; simp
    · rw [hve, hn]; simp
    · intro hb
      rw [hvnb hb, hn]; simp
  have hincp : increasing e.core_vecp e.core_nlines := by
    intro j hj
    rw [hn] at hj
    rw [hpget j (by omega), hpget (j + 1) hj]
    exact mul_lt_mul_of_pos_right (hinc j hj) hpf
  have hlast : i + 1 = e.core_nlines ∨ e.core_vecp.getD i 0 < e.core_vecp.getD (i + 1) 0 := by
    by_cases hc : i + 1 = e.core_nlines
    · exact Or.inl hc
    · exact Or.inr (hincp i (by omega))
  rw [get_eden_high_at_sample e i _ ed0 nb0 hok (increasing_nondecreasing _ _ hincp)
    (by omega) hlast (hpget i hi).symm]
  have h1 : e.core_vece.getD i 0 / e.efactor = t.cell e.cole.toNat i := by
    rw [hve, getD_map_range _ _ _ hi]
    field_simp
  by_cases hb : e.baryon_column = true
  · have h2 : e.core_vecnb.getD i 0 / e.nfactor = t.cell e.colnb.toNat i := by
      rw [hvnb hb, getD_map_range _ _ _ hi]
      field_simp
    rw [h1, h2]
  · rw [h1]
    simp [hb]

/-- Reading the sample table succeeds. -/
theorem sample_read_eq :
    (tov_interp_eos.new 0 false 0 0).read_table sample_convert sample_table "ed" "pr" "nb" =
      (sample_read, none) := rfl

/-- The pressure column of the sample table is strictly increasing. -/
theorem sample_read_increasing : ∀ j, j + 1 < sample_table.nlines →
    sample_table.cell sample_read.colp.toNat j <
      sample_table.cell sample_read.colp.toNat (j + 1) := by
  intro j hj
  have h3 : sample_read.colp.toNat = 1 := rfl
  rw [h3]
  have : j < 2 := by
    have : sample_table.nlines = 3 := rfl
    omega
  interval_cases j
  · show (2 : ℚ) < 10
    norm_num
  · show (10 : ℚ) < 50
    norm_num

/-- The conversion factors computed for the sample table. -/
theorem sample_read_factors :
    sample_read.efactor ≠ 0 ∧ 0 < sample_read.pfactor ∧ sample_read.nfactor ≠ 0 := by
  have h1 : sample_read.efactor = sample_convert "MeV/fm^3" "Msun/km^3" 1 := rfl
  have h2 : sample_read.pfactor = sample_convert "MeV/fm^3" "Msun/km^3" 1 := rfl
  have h3 : sample_read.nfactor = 1 / 10 ^ 39 := rfl
  have h4 : sample_convert "MeV/fm^3" "Msun/km^3" 1 = 89653 / 100000000000 := by
    simp [sample_convert]
  rw [h1, h2, h3, h4]
  norm_num

/-! ## Continuity of the interpolant on a strictly increasing table -/

/-- On a non-degenerate bracket the segment value is affine in the query. -/
theorem seg_sub (x y : List ℚ) (l : Nat) (p q : ℚ)
    (hx : x.getD (l + 1) 0 ≠ x.getD l 0) :
    seg x y l p - seg x y l q =
      (y.getD (l + 1) 0 - y.getD l 0) / (x.getD (l + 1) 0 - x.getD l 0) * (p - q) := by
  unfold seg
  rw [if_neg hx, if_neg hx]
  ring

/-- On a strictly increasing table the interpolant on the closed segment
`[x[j], x[j+1]]` (extended downwards for the first segment and upwards for the
last one) is the segment value of bracket `j`. -/
theorem interp_on_segment (x y : List ℚ) (n j : Nat) (p : ℚ)
    (hx : n ≤ x.length) (hy : n ≤ y.length) (hs : increasing x n) (hj : j + 1 < n)
    (hlo : j = 0 ∨ x.getD j 0 ≤ p) (hhi : j + 2 = n ∨ p ≤ x.getD (j + 1) 0) :
    interp x y p 0 ((n : Int) - 1) = some (seg x y j p) := by
  obtain ⟨l, hl, hv, hlo1, hhi1⟩ := interp_spec x y p n (by omega) hx hy
  have hlt := increasing_lt x n hs
  have hle := nondecreasing_le x n (increasing_nondecreasing x n hs)
  rw [hv]
  congr 1
  rcases Nat.lt_trichotomy l j with h | h | h
  · exfalso
    have h1 : p < x.getD (l + 1) 0 := by
      rcases hhi1 with h2 | h2
      · omega
      · exact h2
    have h2 : x.getD j 0 ≤ p := by
      rcases hlo with h3 | h3
      · omega
      · exact h3
    have h3 := hle (l + 1) j (by omega) (by omega)
    linarith
  · rw [h]
  · have h1 : x.getD l 0 ≤ p := by
      rcases hlo1 with h2 | h2
      · omega
      · exact h2
    have h2 : p ≤ x.getD (j + 1) 0 := by
      rcases hhi with h3 | h3
      · omega
      · exact h3
    have h3 : l = j + 1 := by
      by_contra hc
      have := hlt (j + 1) l (by omega) (by omega)
      linarith
    subst h3
    have h4 : p = x.getD (j + 1) 0 := le_antisymm h2 h1
    have h5 := hs j hj
    have h6 := hs (j + 1) hl
    unfold seg
    rw [if_neg (ne_of_gt h5), if_neg (ne_of_gt h6), h4]
    have h7 : x.getD (j + 1) 0 - x.getD j 0 ≠ 0 := sub_ne_zero.mpr (ne_of_gt h5)
    rw [div_self h7]
    ring

/-- Right neighbourhood: on a strictly increasing table of at least two rows
the interpolant agrees with one segment value on `[q, q + d)`. -/
theorem interp_right_piece (x y : List ℚ) (n : Nat) (q : ℚ)
    (hn : 2 ≤ n) (hx : n ≤ x.length) (hy : n ≤ y.length) (hs : increasing x n) :
    ∃ d : ℚ, 0 < d ∧ ∃ j, j + 1 < n ∧ ∀ p, q ≤ p → p < q + d →
      interp x y p 0 ((n : Int) - 1) = some (seg x y j p) := by
  obtain ⟨l, hl, _, hlo, hhi⟩ := interp_spec x y q n hn hx hy
  by_cases h : l + 2 = n
  · refine ⟨1, by norm_num, l, hl, fun p hp _ => ?_⟩
    refine interp_on_segment x y n l p hx hy hs hl ?_ (Or.inl h)
    rcases hlo with h1 | h1
    · exact Or.inl h1
    · exact Or.inr (le_trans h1 hp)
  · have h1 : q < x.getD (l + 1) 0 := by
      rcases hhi with h2 | h2
      · exact absurd h2 h
      · exact h2
    refine ⟨x.getD (l + 1) 0 - q, by linarith, l, hl, fun p hp hp2 => ?_⟩
    refine interp_on_segment x y n l p hx hy hs hl ?_ (Or.inr (by linarith))
    rcases hlo with h2 | h2
    · exact Or.inl h2
    · exact Or.inr (le_trans h2 hp)

/-- Left neighbourhood: on a strictly increasing table of at least two rows
the interpolant agrees with one segment value on `(q - d, q]`. -/
theorem interp_left_piece (x y : List ℚ) (n : Nat) (q : ℚ)
    (hn : 2 ≤ n) (hx : n ≤ x.length) (hy : n ≤ y.length) (hs : increasing x n) :
    ∃ d : ℚ, 0 < d ∧ ∃ j, j + 1 < n ∧ ∀ p, q - d < p → p ≤ q →
      interp x y p 0 ((n : Int) - 1) = some (seg x y j p) := by
  obtain ⟨l, hl, _, hlo, hhi⟩ := interp_spec x y q n hn hx hy
  have hq : l + 2 = n ∨ q ≤ x.getD (l + 1) 0 := by
    rcases hhi with h1 | h1
    · exact Or.inl h1
    · exact Or.inr (le_of_lt h1)
  by_cases h0 : l = 0
  · -- the first segment, extended downwards
    refine ⟨1, by norm_num, l, hl, fun p _ hp => ?_⟩
    refine interp_on_segment x y n l p hx hy hs hl (Or.inl h0) ?_
    rcases hq with h1 | h1
    · exact Or.inl h1
    · exact Or.inr (le_trans hp h1)
  · have h1 : x.getD l 0 ≤ q := by
      rcases hlo with h2 | h2
      · exact absurd h2 h0
      · exact h2
    rcases lt_or_eq_of_le h1 with h2 | h2
    · -- q lies strictly inside segment l
      refine ⟨q - x.getD l 0, by linarith, l, hl, fun p hp1 hp2 => ?_⟩
      refine interp_on_segment x y n l p hx hy hs hl (Or.inr (by linarith)) ?_
      rcases hq with h3 | h3
      · exact Or.inl h3
      · exact Or.inr (le_trans hp2 h3)
    · -- q is the knot l: the segment to its left is segment l - 1
      obtain ⟨m, rfl⟩ : ∃ m, l = m + 1 := ⟨l - 1, by omega⟩
      have h3 := hs m (by omega)
      refine ⟨q - x.getD m 0, by linarith, m, by omega, fun p hp1 hp2 => ?_⟩
      exact interp_on_segment x y n m p hx hy hs (by omega) (Or.inr (by linarith))
        (Or.inr (by linarith))

/-- On a strictly increasing loaded table the interpolant is locally
Lipschitz: near every `q` its increments are bounded by a constant times the
increment of the query. -/
theorem interp_locally_lipschitz (x y : List ℚ) (n : Nat) (q : ℚ)
    (hn : 1 ≤ n) (hx : n ≤ x.length) (hy : n ≤ y.length) (hs : increasing x n) :
    ∃ d : ℚ, 0 < d ∧ ∃ M : ℚ, 0 ≤ M ∧ ∃ w, interp x y q 0 ((n : Int) - 1) = some w ∧
      ∀ p, |p - q| < d → ∃ v, interp x y p 0 ((n : Int) - 1) = some v ∧
        |v - w| ≤ M * |p - q| := by
  by_cases h1 : n = 1
  · subst h1
    refine ⟨1, by norm_num, 0, le_refl _, _, interp_one_row x y q hx hy, fun p _ => ?_⟩
    exact ⟨_, interp_one_row x y p hx hy, by simp⟩
  have hn2 : 2 ≤ n := by omega
  obtain ⟨dr, hdr, jr, hjr, hR⟩ := interp_right_piece x y n q hn2 hx hy hs
  obtain ⟨dl, hdl, jl, hjl, hL⟩ := interp_left_piece x y n q hn2 hx hy hs
  have hqR := hR q (le_refl _) (by linarith)
  have hqL := hL q (by linarith) (le_refl _)
  refine ⟨min dr dl, lt_min hdr hdl,
    max |(y.getD (jr + 1) 0 - y.getD jr 0) / (x.getD (jr + 1) 0 - x.getD jr 0)|
      |(y.getD (jl + 1) 0 - y.getD jl 0) / (x.getD (jl + 1) 0 - x.getD jl 0)|,
    le_max_of_le_left (abs_nonneg _), _, hqR, fun p hp => ?_⟩
  rw [abs_lt] at hp
  rcases le_total q p with h | h
  · refine ⟨_, hR p h (by linarith [min_le_left dr dl]), ?_⟩
    rw [seg_sub x y jr p q (ne_of_gt (hs jr hjr)), abs_mul]
    exact mul_le_mul_of_nonneg_right (le_max_left _ _) (abs_nonneg _)
  · refine ⟨_, hL p (by linarith [min_le_right dr dl]) h, ?_⟩
    have hw : seg x y jr q = seg x y jl q := by
      rw [hqR] at hqL
      exact Option.some.inj hqL
    rw [hw, seg_sub x y jl p q (ne_of_gt (hs jl hjl)), abs_mul]
    exact mul_le_mul_of_nonneg_right (le_max_right _ _) (abs_nonneg _)

/-! ## C6: continuity of `get_eden` at the edges of the band in smooth mode -/

/-- A blend `(1-t)*a + t*b` with weight `t = d/W` stays within `eps` of `a0`
when `a` and `b` are within `Ma*d` and `Mb*d` of `a0` and `b0` and `d` is
small. -/
theorem blend_near_edge (a b a0 b0 Ma Mb d W t eps : ℚ)
    (hW : 0 < W) (hd0 : 0 ≤ d) (hd1 : d ≤ 1) (ht : t = d / W)
    (hMa : 0 ≤ Ma) (hMb : 0 ≤ Mb)
    (ha : |a - a0| ≤ Ma * d) (hb : |b - b0| ≤ Mb * d)
    (hsmall : d * (Ma + (Mb + |b0 - a0| + Ma) / W + 1) < eps) :
    |(1 - t) * a + t * b - a0| < eps := by
  obtain ⟨ha1, ha2⟩ := abs_le.mp ha
  obtain ⟨hb1, hb2⟩ := abs_le.mp hb
  obtain ⟨hH1, hH2⟩ := abs_le.mp (le_refl |b0 - a0|)
  have hH0 : 0 ≤ |b0 - a0| := abs_nonneg _
  have ht0 : 0 ≤ t := by rw [ht]; exact div_nonneg hd0 (le_of_lt hW)
  have hMad : Ma * d ≤ Ma := by nlinarith
  have hMbd : Mb * d ≤ Mb := by nlinarith
  have hK1 : b - a ≤ Mb + |b0 - a0| + Ma := by linarith
  have hK2 : -(Mb + |b0 - a0| + Ma) ≤ b - a := by linarith
  have hX1 : t * (b - a) ≤ t * (Mb + |b0 - a0| + Ma) := mul_le_mul_of_nonneg_left hK1 ht0
  have hX2 : t * -(Mb + |b0 - a0| + Ma) ≤ t * (b - a) := mul_le_mul_of_nonneg_left hK2 ht0
  have htK : t * (Mb + |b0 - a0| + Ma) = d * ((Mb + |b0 - a0| + Ma) / W) := by
    rw [ht]; ring
  have hexp : d * (Ma + (Mb + |b0 - a0| + Ma) / W + 1) =
      Ma * d + d * ((Mb + |b0 - a0| + Ma) / W) + d := by ring
  have hsplit : (1 - t) * a + t * b - a0 = (a - a0) + t * (b - a) := by ring
  rw [hsplit, abs_lt]
  constructor
  · have : t * -(Mb + |b0 - a0| + Ma) = -(d * ((Mb + |b0 - a0| + Ma) / W)) := by
      rw [mul_neg, htK]
    linarith
  · linarith

/-- The crust branch: the energy density is the crust interpolant. -/
theorem get_eden_crust_ed (e : tov_interp_eos) (p ed0 nb0 v : ℚ) (hcr : e.crust_ok)
    (hA : e.use_crust = true ∧ p ≤ e.trans_pres / e.trans_width)
    (hv : e.crust_interp e.crust_vece p = some v) :
    ∃ nb, e.get_eden p ed0 nb0 = some (Phase.icrust, v, nb) := by
  rw [get_eden_crust_eq e p ed0 nb0 hA, hv]
  simp only [Option.some_bind]
  by_cases hb : e.baryon_column = true
  · obtain ⟨w, hw⟩ := (crust_interp_total e hcr p).2 hb
    rw [if_pos hb, hw]
    exact ⟨_, rfl⟩
  · rw [if_neg hb]
    exact ⟨_, rfl⟩

/-- The core branch: the energy density is the core interpolant. -/
theorem get_eden_core_ed (e : tov_interp_eos) (p ed0 nb0 v : ℚ) (hco : e.core_ok)
    (hA : ¬ (e.use_crust = true ∧ p ≤ e.trans_pres / e.trans_width))
    (hB : ¬ (e.use_crust = true ∧ p > e.trans_pres / e.trans_width ∧
      p < e.trans_pres * e.trans_width))
    (hv : e.core_interp e.core_vece p = some v) :
    ∃ nb, e.get_eden p ed0 nb0 = some (Phase.icore, v, nb) := by
  rw [get_eden_core_eq e p ed0 nb0 hA hB, hv]
  simp only [Option.some_bind]
  by_cases hb : e.baryon_column = true
  · obtain ⟨w, hw⟩ := (core_interp_total e hco p).2 hb
    rw [if_pos hb, hw]
    exact ⟨_, rfl⟩
  · rw [if_neg hb]
    exact ⟨_, rfl⟩

/-- The transition branch in smooth mode: the energy density is the blend of
the two interpolants. -/
theorem get_eden_smooth_ed (e : tov_interp_eos) (p ed0 nb0 v v2 : ℚ)
    (hcr : e.crust_ok) (hco : e.core_ok)
    (hB : e.use_crust = true ∧ p > e.trans_pres / e.trans_width ∧
      p < e.trans_pres * e.trans_width)
    (hm : e.transition_mode = TransMode.smooth_trans)
    (hv : e.crust_interp e.crust_vece p = some v)
    (hv2 : e.core_interp e.core_vece p = some v2) :
    ∃ nb, e.get_eden p ed0 nb0 =
      some (Phase.itrans, (1 - e.chi p) * v + e.chi p * v2, nb) := by
  have hA : ¬ (e.use_crust = true ∧ p ≤ e.trans_pres / e.trans_width) :=
    fun h => absurd h.2 (not_le.mpr hB.2.1)
  rw [get_eden_smooth_eq e p ed0 nb0 hA hB hm, hv, hv2]
  simp only [Option.some_bind]
  by_cases hb : e.baryon_column = true
  · obtain ⟨w, hw⟩ := (crust_interp_total e hcr p).2 hb
    obtain ⟨w2, hw2⟩ := (core_interp_total e hco p).2 hb
    rw [if_pos hb, hw, hw2]
    exact ⟨_, rfl⟩
  · rw [if_neg hb]
    exact ⟨_, rfl⟩

/-- Continuity of the energy density of `get_eden` at the lower edge of the
band, in smooth mode. -/
theorem get_eden_continuous_low (e : tov_interp_eos) (ed0 nb0 : ℚ)
    (hcr : e.crust_ok) (hco : e.core_ok) (hu : e.use_crust = true)
    (hm : e.transition_mode = TransMode.smooth_trans)
    (hci : increasing e.crust_vecp e.crust_nlines)
    (hki : increasing e.core_vecp e.core_nlines)
    (hband : e.trans_pres / e.trans_width < e.trans_pres * e.trans_width) :
    ∃ c0, e.crust_interp e.crust_vece (e.trans_pres / e.trans_width) = some c0 ∧
      ∀ eps : ℚ, 0 < eps → ∃ del : ℚ, 0 < del ∧
        ∀ p, |p - e.trans_pres / e.trans_width| < del →
          ∃ ph ed nb, e.get_eden p ed0 nb0 = some (ph, ed, nb) ∧ |ed - c0| < eps ∧
            (e.trans_pres / e.trans_width < p → ∃ edlo edhi,
              e.crust_interp e.crust_vece p = some edlo ∧
              e.core_interp e.core_vece p = some edhi ∧ ph = Phase.itrans ∧
              ed = (1 - e.chi p) * edlo + e.chi p * edhi) := by
  obtain ⟨c1, c2, c3, _⟩ := hcr
  obtain ⟨k1, k2, k3, _⟩ := hco
  obtain ⟨dc, hdc, Mc, hMc, c0, hc0, hLc⟩ := interp_locally_lipschitz e.crust_vecp
    e.crust_vece e.crust_nlines (e.trans_pres / e.trans_width) c1 c2 c3 hci
  obtain ⟨dh, hdh, Mh, hMh, h0, hh0, hLh⟩ := interp_locally_lipschitz e.core_vecp
    e.core_vece e.core_nlines (e.trans_pres / e.trans_width) k1 k2 k3 hki
  refine ⟨c0, hc0, fun eps heps => ?_⟩
  have hW : 0 < e.trans_pres * e.trans_width - e.trans_pres / e.trans_width := by linarith
  have hK : 0 ≤ (Mh + |h0 - c0| + Mc) /
      (e.trans_pres * e.trans_width - e.trans_pres / e.trans_width) :=
    div_nonneg (by linarith [abs_nonneg (h0 - c0)]) (le_of_lt hW)
  have hB : 0 < Mc + (Mh + |h0 - c0| + Mc) /
      (e.trans_pres * e.trans_width - e.trans_pres / e.trans_width) + 1 := by linarith
  refine ⟨min (min dc dh) (min (min (e.trans_pres * e.trans_width -
      e.trans_pres / e.trans_width) 1) (eps / (Mc + (Mh + |h0 - c0| + Mc) /
      (e.trans_pres * e.trans_width - e.trans_pres / e.trans_width) + 1))),
    lt_min (lt_min hdc hdh) (lt_min (lt_min hW one_pos) (div_pos heps hB)), fun p hp => ?_⟩
  have hp1 := lt_of_lt_of_le hp (le_trans (min_le_left _ _) (min_le_left _ _))
  have hp2 := lt_of_lt_of_le hp (le_trans (min_le_left _ _) (min_le_right _ _))
  have hp3 := lt_of_lt_of_le hp
    (le_trans (min_le_right _ _) (le_trans (min_le_left _ _) (min_le_left _ _)))
  have hp4 := lt_of_lt_of_le hp
    (le_trans (min_le_right _ _) (le_trans (min_le_left _ _) (min_le_right _ _)))
  have hp5 := lt_of_lt_of_le hp (le_trans (min_le_right _ _) (min_le_right _ _))
  have hsmall := (lt_div_iff₀ hB).mp hp5
  obtain ⟨v, hv, hvb⟩ := hLc p hp1
  obtain ⟨v2, hv2, hv2b⟩ := hLh p hp2
  have hd0 : 0 ≤ |p - e.trans_pres / e.trans_width| := abs_nonneg _
  by_cases hple : p ≤ e.trans_pres / e.trans_width
  · obtain ⟨nb, hg⟩ := get_eden_crust_ed e p ed0 nb0 v ⟨c1, c2, c3, ‹_›⟩ ⟨hu, hple⟩ hv
    refine ⟨_, _, _, hg, ?_, fun h => absurd hple (not_le.mpr h)⟩
    have : Mc * |p - e.trans_pres / e.trans_width| ≤
        |p - e.trans_pres / e.trans_width| * (Mc + (Mh + |h0 - c0| + Mc) /
          (e.trans_pres * e.trans_width - e.trans_pres / e.trans_width) + 1) := by
      nlinarith
    linarith
  · have hgt : e.trans_pres / e.trans_width < p := not_le.mp hple
    have habs : |p - e.trans_pres / e.trans_width| = p - e.trans_pres / e.trans_width :=
      abs_of_pos (by linarith)
    have hlt : p < e.trans_pres * e.trans_width := by
      rw [habs] at hp3
      linarith
    obtain ⟨nb, hg⟩ := get_eden_smooth_ed e p ed0 nb0 v v2 ⟨c1, c2, c3, ‹_›⟩
      ⟨k1, k2, k3, ‹_›⟩ ⟨hu, hgt, hlt⟩ hm hv hv2
    refine ⟨_, _, _, hg, ?_, fun _ => ⟨v, v2, hv, hv2, rfl, rfl⟩⟩
    exact blend_near_edge v v2 c0 h0 Mc Mh |p - e.trans_pres / e.trans_width|
      (e.trans_pres * e.trans_width - e.trans_pres / e.trans_width) (e.chi p) eps
      hW hd0 (le_of_lt hp4) (by rw [habs]; rfl) hMc hMh hvb hv2b hsmall

/-- Continuity of the energy density of `get_eden` at the upper edge of the
band, in smooth mode. -/
theorem get_eden_continuous_high (e : tov_interp_eos) (ed0 nb0 : ℚ)
    (hcr : e.crust_ok) (hco : e.core_ok) (hu : e.use_crust = true)
    (hm : e.transition_mode = TransMode.smooth_trans)
    (hci : increasing e.crust_vecp e.crust_nlines)
    (hki : increasing e.core_vecp e.core_nlines)
    (hband : e.trans_pres / e.trans_width < e.trans_pres * e.trans_width) :
    ∃ h0, e.core_interp e.core_vece (e.trans_pres * e.trans_width) = some h0 ∧
      ∀ eps : ℚ, 0 < eps → ∃ del : ℚ, 0 < del ∧
        ∀ p, |p - e.trans_pres * e.trans_width| < del →
          ∃ ph ed nb, e.get_eden p ed0 nb0 = some (ph, ed, nb) ∧ |ed - h0| < eps ∧
            (p < e.trans_pres * e.trans_width → ∃ edlo edhi,
              e.crust_interp e.crust_vece p = some edlo ∧
              e.core_interp e.core_vece p = some edhi ∧ ph = Phase.itrans ∧
              ed = (1 - e.chi p) * edlo + e.chi p * edhi) := by
  obtain ⟨c1, c2, c3, _⟩ := hcr
  obtain ⟨k1, k2, k3, _⟩ := hco
  obtain ⟨dc, hdc, Mc, hMc, c0, hc0, hLc⟩ := interp_locally_lipschitz e.crust_vecp
    e.crust_vece e.crust_nlines (e.trans_pres * e.trans_width) c1 c2 c3 hci
  obtain ⟨dh, hdh, Mh, hMh, h0, hh0, hLh⟩ := interp_locally_lipschitz e.core_vecp
    e.core_vece e.core_nlines (e.trans_pres * e.trans_width) k1 k2 k3 hki
  refine ⟨h0, hh0, fun eps heps => ?_⟩
  have hW : 0 < e.trans_pres * e.trans_width - e.trans_pres / e.trans_width := by linarith
  have hK : 0 ≤ (Mc + |c0 - h0| + Mh) /
      (e.trans_pres * e.trans_width - e.trans_pres / e.trans_width) :=
    div_nonneg (by linarith [abs_nonneg (c0 - h0)]) (le_of_lt hW)
  have hB : 0 < Mh + (Mc + |c0 - h0| + Mh) /
      (e.trans_pres * e.trans_width - e.trans_pres / e.trans_width) + 1 := by linarith
  refine ⟨min (min dc dh) (min (min (e.trans_pres * e.trans_width -
      e.trans_pres / e.trans_width) 1) (eps / (Mh + (Mc + |c0 - h0| + Mh) /
      (e.trans_pres * e.trans_width - e.trans_pres / e.trans_width) + 1))),
    lt_min (lt_min hdc hdh) (lt_min (lt_min hW one_pos) (div_pos heps hB)), fun p hp => ?_⟩
  have hp1 := lt_of_lt_of_le hp (le_trans (min_le_left _ _) (min_le_left _ _))
  have hp2 := lt_of_lt_of_le hp (le_trans (min_le_left _ _) (min_le_right _ _))
  have hp3 := lt_of_lt_of_le hp
    (le_trans (min_le_right _ _) (le_trans (min_le_left _ _) (min_le_left _ _)))
  have hp4 := lt_of_lt_of_le hp
    (le_trans (min_le_right _ _) (le_trans (min_le_left _ _) (min_le_right _ _)))
  have hp5 := lt_of_lt_of_le hp (le_trans (min_le_right _ _) (min_le_right _ _))
  have hsmall := (lt_div_iff₀ hB).mp hp5
  obtain ⟨v, hv, hvb⟩ := hLc p hp1
  obtain ⟨v2, hv2, hv2b⟩ := hLh p hp2
  have hd0 : 0 ≤ |p - e.trans_pres * e.trans_width| := abs_nonneg _
  by_cases hpge : e.trans_pres * e.trans_width ≤ p
  · have hA : ¬ (e.use_crust = true ∧ p ≤ e.trans_pres / e.trans_width) :=
      fun h => absurd h.2 (not_le.mpr (by linarith))
    have hB2 : ¬ (e.use_crust = true ∧ p > e.trans_pres / e.trans_width ∧
        p < e.trans_pres * e.trans_width) :=
      fun h => absurd h.2.2 (not_lt.mpr hpge)
    obtain ⟨nb, hg⟩ := get_eden_core_ed e p ed0 nb0 v2 ⟨k1, k2, k3, ‹_›⟩ hA hB2 hv2
    refine ⟨_, _, _, hg, ?_, fun h => absurd h (not_lt.mpr hpge)⟩
    have : Mh * |p - e.trans_pres * e.trans_width| ≤
        |p - e.trans_pres * e.trans_width| * (Mh + (Mc + |c0 - h0| + Mh) /
          (e.trans_pres * e.trans_width - e.trans_pres / e.trans_width) + 1) := by
      nlinarith
    linarith
  · have hlt : p < e.trans_pres * e.trans_width := not_le.mp hpge
    have habs : |p - e.trans_pres * e.trans_width| = e.trans_pres * e.trans_width - p := by
      rw [abs_of_neg (by linarith)]
      ring
    have hgt : e.trans_pres / e.trans_width < p := by
      rw [habs] at hp3
      linarith
    obtain ⟨nb, hg⟩ := get_eden_smooth_ed e p ed0 nb0 v v2 ⟨c1, c2, c3, ‹_›⟩
      ⟨k1, k2, k3, ‹_›⟩ ⟨hu, hgt, hlt⟩ hm hv hv2
    refine ⟨_, _, _, hg, ?_, fun _ => ⟨v, v2, hv, hv2, rfl, rfl⟩⟩
    have ht : 1 - e.chi p = |p - e.trans_pres * e.trans_width| /
        (e.trans_pres * e.trans_width - e.trans_pres / e.trans_width) := by
      rw [habs]
      unfold tov_interp_eos.chi
      field_simp
    have hre : (1 - e.chi p) * v + e.chi p * v2 =
        (1 - (1 - e.chi p)) * v2 + (1 - e.chi p) * v := by ring
    rw [hre]
    exact blend_near_edge v2 v h0 c0 Mh Mc |p - e.trans_pres * e.trans_width|
      (e.trans_pres * e.trans_width - e.trans_pres / e.trans_width) (1 - e.chi p) eps
      hW hd0 (le_of_lt hp4) ht hMh hMc hv2b hvb hsmall

/-- C6: on a loaded engine with a crust, in smooth mode, with strictly
increasing crust and core pressures, `trans_pres > 0` and `trans_width > 1`:
the value `get_eden` returns at `trans_pres/trans_width` is the crust
interpolant there and at `trans_pres*trans_width` the core interpolant there,
and the energy density has no jump at either edge: for every `eps > 0` there
is a `del > 0` such that at all pressures within `del` of the edge `get_eden`
returns an energy density within `eps` of the value at the edge; on the band
side of the edge the returned value is the smooth blend
`(1-chi)*edlo + chi*edhi`, whose one-sided limit at the edge is therefore the
value at the edge. -/
theorem smooth_continuity (e : tov_interp_eos) (ed0 nb0 : ℚ)
    (hcr : e.crust_ok) (hco : e.core_ok) (hu : e.use_crust = true)
    (hm : e.transition_mode = TransMode.smooth_trans)
    (hci : increasing e.crust_vecp e.crust_nlines)
    (hki : increasing e.core_vecp e.core_nlines)
    (htp : 0 < e.trans_pres) (htw : 1 < e.trans_width) :
    ∃ c0 h0,
      e.crust_interp e.crust_vece (e.trans_pres / e.trans_width) = some c0 ∧
      e.core_interp e.core_vece (e.trans_pres * e.trans_width) = some h0 ∧
      (∃ nb, e.get_eden (e.trans_pres / e.trans_width) ed0 nb0 =
        some (Phase.icrust, c0, nb)) ∧
      (∃ nb, e.get_eden (e.trans_pres * e.trans_width) ed0 nb0 =
        some (Phase.icore, h0, nb)) ∧
      (∀ eps : ℚ, 0 < eps → ∃ del : ℚ, 0 < del ∧
        ∀ p, |p - e.trans_pres / e.trans_width| < del →
          ∃ ph ed nb, e.get_eden p ed0 nb0 = some (ph, ed, nb) ∧ |ed - c0| < eps ∧
            (e.trans_pres / e.trans_width < p → ∃ edlo edhi,
              e.crust_interp e.crust_vece p = some edlo ∧
              e.core_interp e.core_vece p = some edhi ∧ ph = Phase.itrans ∧
              ed = (1 - e.chi p) * edlo + e.chi p * edhi)) ∧
      (∀ eps : ℚ, 0 < eps → ∃ del : ℚ, 0 < del ∧
        ∀ p, |p - e.trans_pres * e.trans_width| < del →
          ∃ ph ed nb, e.get_eden p ed0 nb0 = some (ph, ed, nb) ∧ |ed - h0| < eps ∧
            (p < e.trans_pres * e.trans_width → ∃ edlo edhi,
              e.crust_interp e.crust_vece p = some edlo ∧
              e.core_interp e.core_vece p = some edhi ∧ ph = Phase.itrans ∧
              ed = (1 - e.chi p) * edlo + e.chi p * edhi)) := by
  have hband := band_nonempty e.trans_pres e.trans_width htp htw
  obtain ⟨c0, hc0, hlow⟩ := get_eden_continuous_low e ed0 nb0 hcr hco hu hm hci hki hband
  obtain ⟨h0, hh0, hhigh⟩ := get_eden_continuous_high e ed0 nb0 hcr hco hu hm hci hki hband
  refine ⟨c0, h0, hc0, hh0, ?_, ?_, hlow, hhigh⟩
  · exact get_eden_crust_ed e _ ed0 nb0 c0 hcr ⟨hu, le_refl _⟩ hc0
  · have hA : ¬ (e.use_crust = true ∧
        e.trans_pres * e.trans_width ≤ e.trans_pres / e.trans_width) :=
      fun h => absurd h.2 (not_le.mpr hband)
    have hB : ¬ (e.use_crust = true ∧
        e.trans_pres * e.trans_width > e.trans_pres / e.trans_width ∧
        e.trans_pres * e.trans_width < e.trans_pres * e.trans_width) :=
      fun h => absurd h.2.2 (lt_irrefl _)
    exact get_eden_core_ed e _ ed0 nb0 h0 hco hA hB hh0

/-- Instance of `smooth_continuity` on the sample engine (band from 2 to 8). -/
theorem smooth_continuity_witness :
    sample_eos.crust_ok ∧ sample_eos.core_ok ∧ sample_eos.use_crust = true ∧
    sample_eos.transition_mode = TransMode.smooth_trans ∧
    increasing sample_eos.crust_vecp sample_eos.crust_nlines ∧
    increasing sample_eos.core_vecp sample_eos.core_nlines ∧
    0 < sample_eos.trans_pres ∧ 1 < sample_eos.trans_width ∧
    ∃ c0 h0,
      sample_eos.crust_interp sample_eos.crust_vece
        (sample_eos.trans_pres / sample_eos.trans_width) = some c0 ∧
      sample_eos.core_interp sample_eos.core_vece
        (sample_eos.trans_pres * sample_eos.trans_width) = some h0 ∧
      (∃ nb, sample_eos.get_eden (sample_eos.trans_pres / sample_eos.trans_width) 0 0 =
        some (Phase.icrust, c0, nb)) ∧
      (∃ nb, sample_eos.get_eden (sample_eos.trans_pres * sample_eos.trans_width) 0 0 =
        some (Phase.icore, h0, nb)) ∧
      (∀ eps : ℚ, 0 < eps → ∃ del : ℚ, 0 < del ∧
        ∀ p, |p - sample_eos.trans_pres / sample_eos.trans_width| < del →
          ∃ ph ed nb, sample_eos.get_eden p 0 0 = some (ph, ed, nb) ∧ |ed - c0| < eps ∧
            (sample_eos.trans_pres / sample_eos.trans_width < p → ∃ edlo edhi,
              sample_eos.crust_interp sample_eos.crust_vece p = some edlo ∧
              sample_eos.core_interp sample_eos.core_vece p = some edhi ∧
              ph = Phase.itrans ∧
              ed = (1 - sample_eos.chi p) * edlo + sample_eos.chi p * edhi)) ∧
      (∀ eps : ℚ, 0 < eps → ∃ del : ℚ, 0 < del ∧
        ∀ p, |p - sample_eos.trans_pres * sample_eos.trans_width| < del →
          ∃ ph ed nb, sample_eos.get_eden p 0 0 = some (ph, ed, nb) ∧ |ed - h0| < eps ∧
            (p < sample_eos.trans_pres * sample_eos.trans_width → ∃ edlo edhi,
              sample_eos.crust_interp sample_eos.crust_vece p = some edlo ∧
              sample_eos.core_interp sample_eos.core_vece p = some edhi ∧
              ph = Phase.itrans ∧
              ed = (1 - sample_eos.chi p) * edlo + sample_eos.chi p * edhi)) :=
  have h1 : (0 : ℚ) < sample_eos.trans_pres := by norm_num [sample_eos, tov_interp_eos.new]
  have h2 : (1 : ℚ) < sample_eos.trans_width := by norm_num [sample_eos, tov_interp_eos.new]
  ⟨sample_crust_ok, sample_core_ok, rfl, rfl, sample_crust_increasing.1,
    sample_core_increasing.1, h1, h2,
    smooth_continuity sample_eos 0 0 sample_crust_ok sample_core_ok rfl rfl
      sample_crust_increasing.1 sample_core_increasing.1 h1 h2⟩

/-! ## C16: the conversion factor of the baryon density -/

/-- C16, the code at a failing input: for the unit "1/cm^3" the factor of
`read_table` is `10^-39`, but for "1/m^3" it is `10^-42`, not the factor
`10^-45` from 1/m^3 to 1/fm^3; the table value `16e43` per m^3 (0.16 per
fm^3) is stored as 160. -/
theorem nb_unit_factor_per_m3 (convert : String → String → ℚ → ℚ) :
    nb_unit_factor convert "1/fm^3" = 1 ∧ nb_unit_factor convert "" = 1 ∧
    nb_unit_factor convert "1/cm^3" = 1 / 10 ^ 39 ∧
    nb_unit_factor convert "1/m^3" = 1 / 10 ^ 42 ∧
    nb_unit_factor convert "1/m^3" ≠ 1 / 10 ^ 45 ∧
    ((tov_interp_eos.new 0 false 0 0).read_table convert sample_table_m3
      "ed" "pr" "nb").2 = none ∧
    ((tov_interp_eos.new 0 false 0 0).read_table convert sample_table_m3
      "ed" "pr" "nb").1.nfactor = 1 / 10 ^ 42 ∧
    ((tov_interp_eos.new 0 false 0 0).read_table convert sample_table_m3
      "ed" "pr" "nb").1.core_vecnb.getD 0 0 = 160 := by
  have h1 : nb_unit_factor convert "1/m^3" = 1 / 10 ^ 42 := by
    simp [nb_unit_factor]
  have h2 : ((tov_interp_eos.new 0 false 0 0).read_table convert sample_table_m3
      "ed" "pr" "nb").1.nfactor = nb_unit_factor convert "1/m^3" := rfl
  have h3 : ((tov_interp_eos.new 0 false 0 0).read_table convert sample_table_m3
      "ed" "pr" "nb").1.core_vecnb.getD 0 0 =
        16 * 10 ^ 43 * nb_unit_factor convert "1/m^3" := rfl
  refine ⟨by simp [nb_unit_factor], by simp [nb_unit_factor], by simp [nb_unit_factor],
    h1, ?_, rfl, ?_, ?_⟩
  · rw [h1]; norm_num
  · rw [h2, h1]
  · rw [h3, h1]; norm_num

/-! ## C14 and C15: names and units of the auxiliary columns -/

/-- The loop of `get_names_units` counts the auxiliary columns among the
indices it visits and pushes their names and units in order. -/
theorem get_names_units_loop_eq (e : tov_interp_eos) (t : Table) :
    ∀ (l : List Nat) (np : Nat) (pn un : List String),
      e.get_names_units_loop t l (np, pn, un) =
        (np + (l.filter e.is_aux_column).length,
          pn ++ (l.filter e.is_aux_column).map t.get_column_name,
          un ++ (l.filter e.is_aux_column).map (fun i => t.get_unit (t.get_column_name i))) := by
  intro l
  induction l with
  | nil => intro np pn un; simp [tov_interp_eos.get_names_units_loop]
  | cons i rest ih =>
    intro np pn un
    by_cases h : e.is_aux_column i = true
    · simp only [tov_interp_eos.get_names_units_loop, h, if_true, ih, List.filter_cons_of_pos,
        List.length_cons, List.map_cons, List.append_assoc, List.singleton_append]
      rw [Nat.add_assoc, Nat.add_comm 1]
    · simp only [tov_interp_eos.get_names_units_loop, h, if_false, ih, Bool.false_eq_true]
      rw [List.filter_cons_of_neg h]

/-- In a table whose column names are pairwise different, looking a column up
by its own name finds that column. -/
theorem find_name_of_nodup (cols : List Column) (h : (cols.map Column.name).Nodup)
    (i : Nat) (hi : i < cols.length) :
    cols.find? (fun c => c.name == (cols.getD i default).name) = some (cols.getD i default) := by
  induction cols generalizing i with
  | nil => simp at hi
  | cons c rest ih =>
    rw [List.map_cons, List.nodup_cons] at h
    cases i with
    | zero => simp [List.find?]
    | succ j =>
      have hj : j < rest.length := by simpa using hi
      have hne : c.name ≠ (rest.getD j default).name := by
        intro heq
        apply h.1
        rw [heq]
        have : rest.getD j default = rest[j] := by
          simp [List.getD_eq_getElem?_getD, List.getElem?_eq_getElem hj]
        rw [this]
        exact List.mem_map_of_mem _ (List.getElem_mem hj)
      have hd : (c :: rest).getD (j + 1) default = rest.getD j default := by
        simp [List.getD_eq_getElem?_getD]
      rw [hd, List.find?_cons]
      have : (c.name == (rest.getD j default).name) = false := by
        simpa using hne
      rw [this]
      exact ih h.2 j hj

/-- With pairwise different column names `get_unit(get_column_name(i))` is the
unit of column `i`. -/
theorem get_unit_column_name (t : Table) (h : (t.columns.map Column.name).Nodup)
    (i : Nat) (hi : i < t.get_ncolumns) :
    t.get_unit (t.get_column_name i) = (t.columns.getD i default).unit := by
  unfold Table.get_unit Table.get_column_name
  rw [find_name_of_nodup t.columns h i hi]

/-- Removing three different indices from `0..n-1` leaves `n - 3` indices. -/
theorem length_filter_three (n a b c : Nat) (ha : a < n) (hb : b < n) (hc : c < n)
    (hab : a ≠ b) (hac : a ≠ c) (hbc : b ≠ c) :
    ((List.range n).filter (fun i => decide (i ≠ a ∧ i ≠ b ∧ i ≠ c))).length = n - 3 := by
  have h1 : ((List.range n).filter (fun i => decide (i ≠ a ∧ i ≠ b ∧ i ≠ c))).length =
      ((Finset.range n).filter (fun i => i ≠ a ∧ i ≠ b ∧ i ≠ c)).card := by
    rw [← List.toFinset_card_of_nodup ((List.nodup_range n).filter _)]
    congr 1
    ext i
    simp
  have h2 : (Finset.range n).filter (fun i => i ≠ a ∧ i ≠ b ∧ i ≠ c) =
      Finset.range n \ {a, b, c} := by
    ext i
    simp
  have h3 : ({a, b, c} : Finset Nat) ⊆ Finset.range n := by
    intro i hi
    simp at hi
    rcases hi with rfl | rfl | rfl <;> simpa
  have h4 : ({a, b, c} : Finset Nat).card = 3 := by
    rw [Finset.card_insert_of_not_mem, Finset.card_insert_of_not_mem, Finset.card_singleton]
    · simpa using hbc
    · simp [hab, hac]
  rw [h1, h2, Finset.card_sdiff h3, h4, Finset.card_range]

/-- What a successful `read_table` leaves in the column members: the table,
the indices found by `lookup_column`, and the number of auxiliary columns. -/
theorem read_table_columns (convert : String → String → ℚ → ℚ)
    (e0 e : tov_interp_eos) (t : Table) (s_cole s_colp s_colnb : String)
    (h : e0.read_table convert t s_cole s_colp s_colnb = (e, none)) :
    e.core_table = some t ∧
    (∃ ce cp, t.lookup_column s_cole = some ce ∧ t.lookup_column s_colp = some cp ∧
      e.cole = (ce : Int) ∧ e.colp = (cp : Int)) ∧
    (s_colnb ≠ "" → e.baryon_column = true ∧
      e.core_auxp = (t.get_ncolumns : Int) - 3 ∧
      ∃ cn, t.lookup_column s_colnb = some cn ∧ e.colnb = (cn : Int)) ∧
    (s_colnb = "" → e.baryon_column = false ∧
      e.core_auxp = (t.get_ncolumns : Int) - 2 ∧ e.colnb = e0.colnb) := by
  unfold tov_interp_eos.read_table at h
  cases hce : t.lookup_column s_cole with
  | none => simp [hce] at h
  | some ce =>
    cases hcp : t.lookup_column s_colp with
    | none => simp [hce, hcp] at h
    | some cp =>
      by_cases hs : s_colnb ≠ ""
      · cases hcn : t.lookup_column s_colnb with
        | none => simp [hce, hcp, hs, hcn] at h
        | some cn =>
          simp only [hce, hcp, hs, hcn, if_true, ne_eq, not_false_eq_true, Prod.mk.injEq,
            and_true] at h
          subst h
          refine ⟨rfl, ⟨ce, cp, rfl, rfl, rfl, rfl⟩, fun _ => ⟨rfl, rfl, cn, rfl, rfl⟩,
            fun h0 => absurd h0 hs⟩
      · simp only [hce, hcp, hs, if_false, Prod.mk.injEq, and_true] at h
        subst h
        refine ⟨rfl, ⟨ce, cp, rfl, rfl, rfl, rfl⟩, fun h0 => absurd h0 hs,
          fun _ => ⟨rfl, rfl, rfl⟩⟩

/-- An index returned by `lookup_column` is a column index of the table. -/
theorem lookup_column_lt (t : Table) (s : String) (c : Nat)
    (h : t.lookup_column s = some c) : c < t.get_ncolumns := by
  unfold Table.lookup_column at h
  simp only at h
  split at h
  · rename_i hlt
    cases h
    exact hlt
  · cases h

/-- Membership in the list of auxiliary columns. -/
theorem mem_aux_columns (e : tov_interp_eos) (t : Table) (i : Nat) :
    i ∈ e.aux_columns t ↔
      i < t.get_ncolumns ∧ (i : Int) ≠ e.cole ∧ (i : Int) ≠ e.colp ∧ (i : Int) ≠ e.colnb := by
  unfold tov_interp_eos.aux_columns tov_interp_eos.is_aux_column
  simp [List.mem_filter]

/-- The auxiliary columns are listed in table order. -/
theorem aux_columns_sorted (e : tov_interp_eos) (t : Table) :
    (e.aux_columns t).Sorted (· < ·) := by
  unfold tov_interp_eos.aux_columns
  exact List.Sorted.filter _ (List.sorted_lt_range _)

/-- C14: after a successful `read_table` that binds three pairwise different
columns of a table of `n` columns (with pairwise different names) as energy
density, pressure and baryon density, `baryon_column` is true and
`get_names_units` reports `np = n - 3` and pushes onto `pnames` and `vs_units`
the names and the units of exactly the other columns, in table order. -/
theorem names_units_after_read_table (convert : String → String → ℚ → ℚ)
    (e0 e : tov_interp_eos) (t : Table) (s_cole s_colp s_colnb : String)
    (pnames vs_units : List String)
    (h : e0.read_table convert t s_cole s_colp s_colnb = (e, none))
    (hnb : s_colnb ≠ "")
    (hd : e.cole ≠ e.colp ∧ e.cole ≠ e.colnb ∧ e.colp ≠ e.colnb)
    (hnames : (t.columns.map Column.name).Nodup) :
    e.baryon_column = true ∧
    e.get_names_units pnames vs_units =
      some (t.get_ncolumns - 3,
        pnames ++ (e.aux_columns t).map (fun i => (t.columns.getD i default).name),
        vs_units ++ (e.aux_columns t).map (fun i => (t.columns.getD i default).unit)) ∧
    (e.aux_columns t).length = t.get_ncolumns - 3 ∧
    (e.aux_columns t).Sorted (· < ·) ∧
    (∀ i, i ∈ e.aux_columns t ↔
      i < t.get_ncolumns ∧ (i : Int) ≠ e.cole ∧ (i : Int) ≠ e.colp ∧ (i : Int) ≠ e.colnb) := by
  obtain ⟨htab, ⟨ce, cp, hce, hcp, hcole, hcolp⟩, hwith, _⟩ :=
    read_table_columns convert e0 e t s_cole s_colp s_colnb h
  obtain ⟨hbar, haux, cn, hcn, hcolnb⟩ := hwith hnb
  have hce_lt := lookup_column_lt t s_cole ce hce
  have hcp_lt := lookup_column_lt t s_colp cp hcp
  have hcn_lt := lookup_column_lt t s_colnb cn hcn
  have hab : ce ≠ cp := by
    intro heq; apply hd.1; rw [hcole, hcolp, heq]
  have hac : ce ≠ cn := by
    intro heq; apply hd.2.1; rw [hcole, hcolnb, heq]
  have hbc : cp ≠ cn := by
    intro heq; apply hd.2.2; rw [hcolp, hcolnb, heq]
  have hfun : e.is_aux_column = fun i => decide (i ≠ ce ∧ i ≠ cp ∧ i ≠ cn) := by
    funext i
    unfold tov_interp_eos.is_aux_column
    rw [hcole, hcolp, hcolnb]
    simp only [ne_eq, Nat.cast_inj]
  have hlen : (e.aux_columns t).length = t.get_ncolumns - 3 := by
    unfold tov_interp_eos.aux_columns
    rw [hfun]
    exact length_filter_three _ ce cp cn hce_lt hcp_lt hcn_lt hab hac hbc
  have hunits : (e.aux_columns t).map (fun i => t.get_unit (t.get_column_name i)) =
      (e.aux_columns t).map (fun i => (t.columns.getD i default).unit) := by
    apply List.map_congr_left
    intro i hi
    exact get_unit_column_name t hnames i ((mem_aux_columns e t i).mp hi).1
  refine ⟨hbar, ?_, hlen, aux_columns_sorted e t, mem_aux_columns e t⟩
  unfold tov_interp_eos.get_names_units
  by_cases hpos : e.core_auxp > 0
  · rw [if_pos hpos, htab]
    simp only
    rw [get_names_units_loop_eq]
    have : (List.range t.get_ncolumns).filter e.is_aux_column = e.aux_columns t := rfl
    rw [this, hunits, hlen, Nat.zero_add]
    rfl
  · rw [if_neg hpos]
    have h0 : t.get_ncolumns - 3 = 0 := by
      rw [haux] at hpos
      omega
    rw [h0] at hlen
    rw [List.length_eq_zero.mp hlen, h0]
    simp

/-- Instance of `names_units_after_read_table` on the sample table with the
columns ed, pr, nb and mun: one auxiliary column, "mun" in "MeV". -/
theorem names_units_after_read_table_witness :
    (tov_interp_eos.new 0 false 0 0).read_table sample_convert sample_table "ed" "pr" "nb" =
      (sample_read, none) ∧
    sample_read.baryon_column = true ∧
    sample_read.get_names_units [] [] = some (1, ["mun"], ["MeV"]) := by
  have h := names_units_after_read_table sample_convert (tov_interp_eos.new 0 false 0 0)
    sample_read sample_table "ed" "pr" "nb" [] [] sample_read_eq (by decide) (by decide)
    (by decide)
  exact ⟨sample_read_eq, h.1, h.2.1⟩

/-- C15, the code at a failing input: a freshly constructed engine reads the
table with the columns mun, ed, pr without a baryon density column.  Then
`core_auxp = 3 - 2 = 1`, but `colnb` still holds the 0 of the constructor, so
the loops of `get_names_units` and `get_aux` skip column 0: both report
`np = 0` and the column "mun" is never reported. -/
theorem aux_count_without_baryon_column (P : ℚ) :
    (tov_interp_eos.new 0 false 0 0).read_table sample_convert sample_table_no_nb
      "ed" "pr" "" = (sample_read_no_nb, none) ∧
    sample_table_no_nb.get_ncolumns = 3 ∧
    sample_read_no_nb.baryon_column = false ∧
    sample_read_no_nb.cole = 1 ∧ sample_read_no_nb.colp = 2 ∧
    sample_read_no_nb.colnb = 0 ∧
    sample_read_no_nb.core_auxp = 1 ∧
    sample_read_no_nb.get_names_units [] [] = some (0, [], []) ∧
    sample_read_no_nb.get_aux P [7] = some (0, [7]) :=
  ⟨rfl, rfl, rfl, rfl, rfl, rfl, rfl, rfl, rfl⟩

/-! ## C13: the auxiliary values -/

/-- C17: `default_low_dens_eos` on a freshly constructed engine returns
normally; the crust table has exactly 73 rows, `use_crust` is true, and
`trans_pres = crust_high_pres = 3.63172009e-07` is the pressure of the last
row, the only row whose baryon density is the transition density 0.08; the
energy density of that row is `6.79386612e-05`.  The two values agree with the
reference values `3.64e-7` within 20% and `6.79e-5` within 0.5%. -/
theorem default_low_dens_eos_spec (trans_pres0 : ℚ) (baryon_column0 : Bool)
    (core_nlines0 crust_nlines0 : Nat) :
    ∃ e, (tov_interp_eos.new trans_pres0 baryon_column0 core_nlines0
        crust_nlines0).default_low_dens_eos = some (e, Outcome.success) ∧
      e.crust_nlines = 73 ∧ e.crust_vecp.length = 73 ∧ e.crust_vece.length = 73 ∧
      e.crust_vecnb.length = 73 ∧ e.use_crust = true ∧
      e.trans_pres = e.crust_high_pres ∧ e.crust_high_pres = 3.63172009e-07 ∧
      e.crust_vecp.getD 72 0 = 3.63172009e-07 ∧
      e.crust_vece.getD 72 0 = 6.79386612e-05 ∧
      e.crust_vecnb.getD 72 0 = 0.08 ∧
      (∀ i, i < 72 → e.crust_vecnb.getD i 0 < 0.08) ∧
      |(3.63172009e-07 : ℚ) - 3.64e-7| < 0.2 * 3.64e-7 ∧
      |(6.79386612e-05 : ℚ) - 6.79e-5| < 0.005 * 6.79e-5 := by
  refine ⟨_, rfl, rfl, rfl, rfl, rfl, rfl, rfl, rfl, rfl, rfl, ?_, ?_, ?_, ?_⟩
  · show (8.00000000e-02 : ℚ) = 0.08
    norm_num
  · intro i hi
    show default_nb_arr.getD i 0 < 0.08
    interval_cases i <;> simp only [default_nb_arr, List.getD_cons_zero, List.getD_cons_succ] <;>
      norm_num
  · rw [abs_lt]; constructor <;> norm_num
  · rw [abs_lt]; constructor <;> norm_num

/-! ## C11 and C12: range checks of the NGL13 loaders -/

/-- C11: `ngl13_low_dens_eos2(S, L, nt, fname)` raises an error whenever
`S < 28`, `S > 38`, `L < 25`, `L > 115`, `L > 5*S - 65`, `nt < 0.01` or
`nt > 0.15`, and the engine at the time the error is raised is the engine
before the call: no member has been modified. -/
theorem ngl13_low_dens_eos2_range (itp_eval : ℚ → Nat → List ℚ → List ℚ → ℚ)
    (file : String → Table3d) (e : tov_interp_eos) (S L nt : ℚ) (fname : String)
    (h : S < 28 ∨ S > 38 ∨ L < 25 ∨ L > 115 ∨ L > 5 * S - 65 ∨ nt < 0.01 ∨ nt > 0.15) :
    ∃ msg, e.ngl13_low_dens_eos2 itp_eval file S L nt fname =
      some (e, Outcome.raised Err.exc_efailed msg) := by
  unfold tov_interp_eos.ngl13_low_dens_eos2
  by_cases h1 : S < 28 ∨ S > 38
  · rw [if_pos h1]; exact ⟨_, rfl⟩
  · rw [if_neg h1]
    by_cases h2 : L < 25 ∨ L > 115
    · rw [if_pos h2]; exact ⟨_, rfl⟩
    · rw [if_neg h2]
      by_cases h3 : L > S * 5 - 65
      · rw [if_pos h3]; exact ⟨_, rfl⟩
      · rw [if_neg h3]
        by_cases h4 : nt < 0.01 ∨ nt > 0.15
        · rw [if_pos h4]; exact ⟨_, rfl⟩
        · exfalso
          rcases h with h | h | h | h | h | h | h
          · exact h1 (Or.inl h)
          · exact h1 (Or.inr h)
          · exact h2 (Or.inl h)
          · exact h2 (Or.inr h)
          · apply h3
            rw [mul_comm]
            exact h
          · exact h4 (Or.inl h)
          · exact h4 (Or.inr h)

/-- Instance of `ngl13_low_dens_eos2_range`: the magnitude `S = 20` is
rejected and the sample engine is left as it was. -/
theorem ngl13_low_dens_eos2_range_witness :
    ((20 : ℚ) < 28 ∨ (20 : ℚ) > 38 ∨ (50 : ℚ) < 25 ∨ (50 : ℚ) > 115 ∨
      (50 : ℚ) > 5 * 20 - 65 ∨ (0.08 : ℚ) < 0.01 ∨ (0.08 : ℚ) > 0.15) ∧
    ∃ msg, sample_eos.ngl13_low_dens_eos2 sample_itp_eval (fun _ => sample_table3d)
      20 50 0.08 "" = some (sample_eos, Outcome.raised Err.exc_efailed msg) :=
  ⟨Or.inl (by norm_num),
    ngl13_low_dens_eos2_range sample_itp_eval (fun _ => sample_table3d) sample_eos
      20 50 0.08 "" (Or.inl (by norm_num))⟩

/-- The loader `ngl13_low_dens_eos` depends on `L` only through its clamped
value. -/
theorem ngl13_low_dens_eos_clamp (itp_eval : ℚ → Nat → List ℚ → List ℚ → ℚ)
    (newton_eos : Table3d) (e : tov_interp_eos) (L : ℚ) (model : String) (external : Bool) :
    e.ngl13_low_dens_eos itp_eval newton_eos L model external =
      e.ngl13_low_dens_eos itp_eval newton_eos (max 25 (min L 115)) model external := by
  have hc : (if (if L < 25 then 25 else L) > 115 then (115 : ℚ) else (if L < 25 then 25 else L)) =
      max 25 (min L 115) := by
    by_cases h1 : L < 25
    · rw [if_pos h1, if_neg (by norm_num), min_eq_left (by linarith), max_eq_left (le_of_lt h1)]
    · rw [if_neg h1]
      by_cases h2 : L > 115
      · rw [if_pos h2, min_eq_right (le_of_lt h2), max_eq_right (by norm_num)]
      · rw [if_neg h2, min_eq_left (not_lt.mp h2), max_eq_right (not_lt.mp h1)]
  have hc2 : (if (if max 25 (min L 115) < 25 then 25 else max 25 (min L 115)) > 115 then
      (115 : ℚ) else (if max 25 (min L 115) < 25 then 25 else max 25 (min L 115))) =
      max 25 (min L 115) := by
    have a1 : ¬ (max 25 (min L 115) < 25) := not_lt.mpr (le_max_left _ _)
    have a2 : ¬ (max 25 (min L 115) > 115) :=
      not_lt.mpr (max_le (by norm_num) (min_le_right _ _))
    rw [if_neg a1, if_neg a2]
  unfold tov_interp_eos.ngl13_low_dens_eos
  simp only [hc, hc2]

/-- The loader `ngl13_low_dens_eos` never raises an error, and it returns when
the table has at least one grid value. -/
theorem ngl13_low_dens_eos_success (itp_eval : ℚ → Nat → List ℚ → List ℚ → ℚ)
    (newton_eos : Table3d) (e : tov_interp_eos) (L : ℚ) (model : String) (external : Bool) :
    (∀ r, e.ngl13_low_dens_eos itp_eval newton_eos L model external = some r →
      r.2 = Outcome.success) ∧
    (1 ≤ newton_eos.grid_y.length →
      ∃ e1, e.ngl13_low_dens_eos itp_eval newton_eos L model external =
        some (e1, Outcome.success)) := by
  constructor
  · intro r hr
    unfold tov_interp_eos.ngl13_low_dens_eos at hr
    simp only at hr
    split at hr
    · cases hr
    · cases hr
      rfl
  · intro hlen
    unfold tov_interp_eos.ngl13_low_dens_eos
    simp only
    have hcast : ((newton_eos.grid_y.length : Int) - 1) =
        ((newton_eos.grid_y.length - 1 : Nat) : Int) := by omega
    rw [hcast, vget_natCast _ _ (by rw [List.length_append, List.length_map]; omega)]
    exact ⟨_, rfl⟩

/-- C12, as stated, fails: on a freshly constructed engine the call
`ngl13_low_dens_eos(10, "PNM", false)`, with the slope parameter below 25,
returns normally and raises no error; it gives what the call with `L = 25`
gives. -/
theorem ngl13_low_dens_eos_counterexample :
    (10 : ℚ) < 25 ∧
    (∃ e1, (tov_interp_eos.new 0 false 0 0).ngl13_low_dens_eos sample_itp_eval
      sample_table3d 10 "PNM" false = some (e1, Outcome.success)) ∧
    (tov_interp_eos.new 0 false 0 0).ngl13_low_dens_eos sample_itp_eval
      sample_table3d 10 "PNM" false =
    (tov_interp_eos.new 0 false 0 0).ngl13_low_dens_eos sample_itp_eval
      sample_table3d 25 "PNM" false := by
  refine ⟨by norm_num, ?_, ?_⟩
  · exact (ngl13_low_dens_eos_success sample_itp_eval sample_table3d _ 10 "PNM" false).2
      (by decide)
  · rw [ngl13_low_dens_eos_clamp _ _ _ 10, ngl13_low_dens_eos_clamp _ _ _ 25]
    norm_num

/-- C12 (amended): the one-parameter crust loader
`ngl13_low_dens_eos(L, model, external)` raises no range error; a slope
parameter outside `[25, 115]` is clamped to the nearest bound, so the call
does what the call with `L = 25` (for `L < 25`) or with `L = 115` (for
`L > 115`) does, and it returns normally whenever the table read from the file
has at least one grid value. -/
theorem ngl13_low_dens_eos_clamps (itp_eval : ℚ → Nat → List ℚ → List ℚ → ℚ)
    (newton_eos : Table3d) (e : tov_interp_eos) (L : ℚ) (model : String) (external : Bool) :
    (L < 25 → e.ngl13_low_dens_eos itp_eval newton_eos L model external =
      e.ngl13_low_dens_eos itp_eval newton_eos 25 model external) ∧
    (L > 115 → e.ngl13_low_dens_eos itp_eval newton_eos L model external =
      e.ngl13_low_dens_eos itp_eval newton_eos 115 model external) ∧
    (∀ r, e.ngl13_low_dens_eos itp_eval newton_eos L model external = some r →
      r.2 = Outcome.success) ∧
    (1 ≤ newton_eos.grid_y.length →
      ∃ e1, e.ngl13_low_dens_eos itp_eval newton_eos L model external =
        some (e1, Outcome.success)) := by
  refine ⟨fun h => ?_, fun h => ?_,
    (ngl13_low_dens_eos_success itp_eval newton_eos e L model external).1,
    (ngl13_low_dens_eos_success itp_eval newton_eos e L model external).2⟩
  · rw [ngl13_low_dens_eos_clamp _ _ _ L, ngl13_low_dens_eos_clamp _ _ _ 25,
      min_eq_left (by linarith), max_eq_left (le_of_lt h)]
    norm_num
  · rw [ngl13_low_dens_eos_clamp _ _ _ L, ngl13_low_dens_eos_clamp _ _ _ 115,
      min_eq_right (le_of_lt h)]
    norm_num

/-- Instance of `ngl13_low_dens_eos_clamps`: the slope parameter 200 on the
sample engine. -/
theorem ngl13_low_dens_eos_clamps_witness :
    (200 : ℚ) > 115 ∧ 1 ≤ sample_table3d.grid_y.length ∧
    sample_eos.ngl13_low_dens_eos sample_itp_eval sample_table3d 200 "PNM" false =
      sample_eos.ngl13_low_dens_eos sample_itp_eval sample_table3d 115 "PNM" false ∧
    ∃ e1, sample_eos.ngl13_low_dens_eos sample_itp_eval sample_table3d 200 "PNM" false =
      some (e1, Outcome.success) :=
  ⟨by norm_num, by decide,
    (ngl13_low_dens_eos_clamps sample_itp_eval sample_table3d sample_eos 200 "PNM" false).2.1
      (by norm_num),
    (ngl13_low_dens_eos_clamps sample_itp_eval sample_table3d sample_eos 200 "PNM"
      false).2.2.2 (by decide)⟩

/-! ## The simulated annealing minimizer: schedule and step sizes -/

/-- With a non-empty `step_vec` the loop of `step` returns. -/
theorem step_loop_some (a : anneal_gsl) (rng : Nat → ℚ) (h : a.step_vec ≠ []) :
    ∀ (l : List Nat) (sx : List ℚ) (ctr : Nat), ∃ r, a.step_loop rng l sx ctr = some r := by
  have h0 : ¬ a.step_vec.length = 0 := by
    intro h1; exact h (List.length_eq_zero.mp h1)
  intro l
  induction l with
  | nil => intro sx ctr; exact ⟨_, rfl⟩
  | cons i rest ih =>
    intro sx ctr
    rw [anneal_gsl.step_loop, if_neg h0]
    exact ih _ _

/-- One trial step returns, leaves the settings and the temperature alone, never
lowers the count of accepted moves, leaves the point, its value and the best
value alone when it does not raise that count, and keeps `best_E ≤ E`. -/
theorem trial_spec (func : Nat → List ℚ → ℚ) (rng : Nat → ℚ) (exp_lt : ℚ → ℚ → Bool)
    (nvar : Nat) (s : anneal_state) (h : s.a.step_vec ≠ []) :
    ∃ s1, s.trial func rng exp_lt nvar = some s1 ∧ s.same_settings s1 ∧
      s.nmoves ≤ s1.nmoves ∧
      (s1.nmoves = s.nmoves →
        s1.E = s.E ∧ s1.a.x = s.a.x ∧ (s.best_E ≤ s.E → s1.best_E = s.best_E)) ∧
      (s.best_E ≤ s.E → s1.best_E ≤ s1.E) := by
  obtain ⟨⟨new_x, ctr⟩, hr⟩ := step_loop_some s.a rng h (List.range nvar) s.a.x s.ctr
  unfold anneal_state.trial anneal_gsl.step
  rw [hr]
  dsimp only
  split_ifs with h1 h2 h3 h4 h5 <;>
    refine ⟨_, rfl, ⟨rfl, rfl, rfl, rfl, rfl, rfl, rfl, rfl, rfl, rfl⟩, ?_, ?_, ?_⟩ <;>
    dsimp only <;> first | omega | (intros; linarith) | skip
  all_goals
    intro _
    refine ⟨rfl, rfl, fun hb => ?_⟩
    first
      | rfl
      | (dsimp only at h2; linarith)

/-- The same facts for `n` trial steps in a row. -/
theorem trials_spec (func : Nat → List ℚ → ℚ) (rng : Nat → ℚ) (exp_lt : ℚ → ℚ → Bool)
    (nvar : Nat) : ∀ (n : Nat) (s : anneal_state), s.a.step_vec ≠ [] →
    ∃ s1, anneal_state.trials func rng exp_lt nvar n s = some s1 ∧ s.same_settings s1 ∧
      s.nmoves ≤ s1.nmoves ∧
      (s1.nmoves = s.nmoves →
        s1.E = s.E ∧ s1.a.x = s.a.x ∧ (s.best_E ≤ s.E → s1.best_E = s.best_E)) ∧
      (s.best_E ≤ s.E → s1.best_E ≤ s1.E) := by
  intro n
  induction n with
  | zero =>
    intro s _
    exact ⟨s, rfl, ⟨rfl, rfl, rfl, rfl, rfl, rfl, rfl, rfl, rfl, rfl⟩, le_refl _,
      fun _ => ⟨rfl, rfl, fun _ => rfl⟩, fun hb => hb⟩
  | succ n ih =>
    intro s h
    obtain ⟨s1, e1, f1, m1, u1, b1⟩ := trial_spec func rng exp_lt nvar s h
    have h1 : s1.a.step_vec ≠ [] := by rw [f1.1]; exact h
    obtain ⟨s2, e2, f2, m2, u2, b2⟩ := ih s1 h1
    refine ⟨s2, ?_, ?_, le_trans m1 m2, ?_, fun hb => b2 (b1 hb)⟩
    · rw [anneal_state.trials, e1]; exact e2
    · obtain ⟨a1, a2, a3, a4, a5, a6, a7, a8, a9, a10⟩ := f1
      obtain ⟨c1, c2, c3, c4, c5, c6, c7, c8, c9, c10⟩ := f2
      exact ⟨c1.trans a1, c2.trans a2, c3.trans a3, c4.trans a4, c5.trans a5, c6.trans a6,
        c7.trans a7, c8.trans a8, c9.trans a9, c10.trans a10⟩
    · intro hm
      have hm1 : s1.nmoves = s.nmoves := by omega
      have hm2 : s2.nmoves = s1.nmoves := by omega
      obtain ⟨x1, x2, x3⟩ := u1 hm1
      obtain ⟨y1, y2, y3⟩ := u2 hm2
      refine ⟨y1.trans x1, y2.trans x2, fun hb => ?_⟩
      rw [y3 (b1 hb), x3 hb]

/-- The step-size update keeps the number of step sizes. -/
theorem next_steps_length (a : anneal_gsl) (nvar : Nat) :
    ∀ (l : List ℚ) (i : Nat), (a.next_steps nvar i l).length = l.length := by
  intro l
  induction l with
  | nil => intro i; rfl
  | cons st rest ih => intro i; simp [anneal_gsl.next_steps, ih]

/-- Entry `j` of the step-size update started at index `i`. -/
theorem next_steps_getD (a : anneal_gsl) (nvar : Nat) :
    ∀ (l : List ℚ) (i j : Nat), j < l.length →
      (a.next_steps nvar i l).getD j 0 =
        if i + j < nvar ∧ l.getD j 0 > a.tol_abs * a.min_step_ratio then l.getD j 0 / a.step_dec
        else l.getD j 0 := by
  intro l
  induction l with
  | nil => intro i j hj; simp at hj
  | cons st rest ih =>
    intro i j hj
    cases j with
    | zero => simp [anneal_gsl.next_steps]
    | succ j =>
      have hj1 : j < rest.length := by simpa using hj
      have := ih (i + 1) j hj1
      simp only [anneal_gsl.next_steps, List.getD_cons_succ]
      rw [this, show i + 1 + j = i + (j + 1) by omega]

/-- The step-size update reads only `tol_abs`, `min_step_ratio` and `step_dec`. -/
theorem next_steps_congr (a b : anneal_gsl) (nvar : Nat) (h1 : b.tol_abs = a.tol_abs)
    (h2 : b.min_step_ratio = a.min_step_ratio) (h3 : b.step_dec = a.step_dec) :
    ∀ (l : List ℚ) (i : Nat), b.next_steps nvar i l = a.next_steps nvar i l := by
  intro l
  induction l with
  | nil => intro i; rfl
  | cons st rest ih => intro i; simp only [anneal_gsl.next_steps, ih, h1, h2, h3]

/-- One iteration of the outer loop returns; it is the last exactly when
`T/T_dec<tol_abs`, otherwise the temperature is divided by `T_dec` and the step
sizes are updated when no trial step was accepted. -/
theorem outer_iter_spec (func : Nat → List ℚ → ℚ) (rng : Nat → ℚ) (exp_lt : ℚ → ℚ → Bool)
    (nvar : Nat) (s : anneal_state) (h : s.a.step_vec ≠ []) :
    ∃ s1, s.outer_iter func rng exp_lt nvar =
        some (s1, decide (s.T / s.a.T_dec < s.a.tol_abs)) ∧
      s1.a.T_dec = s.a.T_dec ∧ s1.a.tol_abs = s.a.tol_abs ∧
      s1.T = (if s.T / s.a.T_dec < s.a.tol_abs then s.T else s.T / s.a.T_dec) ∧
      s1.a.step_vec =
        (if s.T / s.a.T_dec < s.a.tol_abs then s.a.step_vec
         else if s1.nmoves = 0 then s.a.next_steps nvar 0 s.a.step_vec else s.a.step_vec) ∧
      (s1.nmoves = 0 →
        s1.E = s.E ∧ s1.a.x = s.a.x ∧ (s.best_E ≤ s.E → s1.best_E = s.best_E)) := by
  obtain ⟨s2, e2, f2, _, u2, _⟩ := trials_spec func rng exp_lt nvar s.a.ntrial.toNat
    { s with a := { s.a with old_x := s.a.x }, old_E := s.E, nmoves := 0 } h
  obtain ⟨c1, c2, c3, c4, c5, c6, c7, c8, c9, c10⟩ := f2
  dsimp only at c1 c2 c3 c4 c5 c6 c7 c8 c9 c10 u2
  unfold anneal_state.outer_iter
  dsimp only
  rw [e2]
  dsimp only
  have hn := next_steps_congr s.a s2.a nvar c6 c5 c4 s.a.step_vec 0
  by_cases hv : s2.a.verbose > 0 <;> by_cases ht : s.T / s.a.T_dec < s.a.tol_abs <;>
    by_cases hm : s2.nmoves = 0 <;>
    simp only [hv, if_true, if_false, anneal_gsl.next, c3, c6, c10, ht, hm, decide_True,
      decide_False, c1, hn] <;>
    exact ⟨_, rfl, by simp [c3], by simp [c6], by simp [c10], by simp [hm, c1],
      by first | simpa using u2 | simpa using u2 hm⟩

/-- For `T_dec > 1` and `tol_abs > 0` there is a first `K` with
`T/T_dec^(K+1) < tol_abs`. -/
theorem exists_stop (T d tol : ℚ) (hd : 1 < d) (htol : 0 < tol) :
    ∃ K : Nat, T / d ^ (K + 1) < tol ∧ ∀ k < K, ¬ T / d ^ (k + 1) < tol := by
  have hd0 : (0 : ℚ) < d := lt_trans zero_lt_one hd
  have hex : ∃ K : Nat, T / d ^ (K + 1) < tol := by
    obtain ⟨n, hn⟩ := pow_unbounded_of_one_lt (T / tol) hd
    refine ⟨n, ?_⟩
    have hp : (0 : ℚ) < d ^ (n + 1) := pow_pos hd0 _
    have hp1 : d ^ n ≤ d ^ (n + 1) := pow_le_pow_right₀ (le_of_lt hd) (Nat.le_succ n)
    rw [div_lt_iff₀ hp]
    rw [div_lt_iff₀ htol] at hn
    calc T < d ^ n * tol := hn
      _ ≤ d ^ (n + 1) * tol := mul_le_mul_of_nonneg_right hp1 (le_of_lt htol)
      _ = tol * d ^ (n + 1) := mul_comm _ _
  classical
  exact ⟨Nat.find hex, Nat.find_spec hex, fun k hk => Nat.find_min hex hk⟩

/-- The outer loop started at temperature `T`, when `K` is the first index with
`T/T_dec^(K+1) < tol_abs`, returns with any fuel of at least `K+1` and has run
exactly the iterations `0..K`, iteration `k` at temperature `T/T_dec^k`. -/
theorem mmin_loop_schedule (func : Nat → List ℚ → ℚ) (rng : Nat → ℚ) (exp_lt : ℚ → ℚ → Bool)
    (nvar : Nat) (d tol : ℚ) :
    ∀ (K : Nat) (s : anneal_state) (temps : List ℚ) (fuel : Nat),
      s.a.T_dec = d → s.a.tol_abs = tol → s.a.step_vec ≠ [] →
      s.T / d ^ (K + 1) < tol → (∀ k < K, ¬ s.T / d ^ (k + 1) < tol) → K + 1 ≤ fuel →
      ∃ s1, anneal_state.mmin_loop func rng exp_lt nvar fuel s temps =
        some (s1, temps ++ (List.range (K + 1)).map (fun k => s.T / d ^ k)) := by
  intro K
  induction K with
  | zero =>
    intro s temps fuel hd htol hs hstop _ hfuel
    obtain ⟨s1, e1, _⟩ := outer_iter_spec func rng exp_lt nvar s hs
    obtain ⟨f, rfl⟩ : ∃ f, fuel = f + 1 := ⟨fuel - 1, by omega⟩
    have ht : s.T / s.a.T_dec < s.a.tol_abs := by rw [hd, htol]; simpa using hstop
    rw [anneal_state.mmin_loop, e1]
    simp [ht, List.range_succ]
  | succ K ih =>
    intro s temps fuel hd htol hs hstop hmin hfuel
    obtain ⟨s1, e1, c1, c2, c3, c4, _⟩ := outer_iter_spec func rng exp_lt nvar s hs
    obtain ⟨f, rfl⟩ : ∃ f, fuel = f + 1 := ⟨fuel - 1, by omega⟩
    have ht : ¬ s.T / s.a.T_dec < s.a.tol_abs := by
      rw [hd, htol]; simpa using hmin 0 (Nat.succ_pos K)
    rw [if_neg ht] at c3 c4
    have hs1 : s1.a.step_vec ≠ [] := by
      intro h0
      have hl : s1.a.step_vec.length = s.a.step_vec.length := by
        rw [c4]; split_ifs
        · exact next_steps_length _ _ _ _
        · rfl
      rw [h0] at hl
      exact hs (List.length_eq_zero.mp hl.symm)
    have hT : ∀ k : Nat, s1.T / d ^ k = s.T / d ^ (k + 1) := by
      intro k; rw [c3, hd, div_div, pow_succ']
    obtain ⟨s2, e2⟩ := ih s1 (temps ++ [s.T]) f (c1.trans hd) (c2.trans htol) hs1
      (by rw [hT]; exact hstop) (fun k hk => by rw [hT]; exact hmin (k + 1) (by omega))
      (by omega)
    refine ⟨s2, ?_⟩
    rw [anneal_state.mmin_loop, e1]
    simp only [ht, decide_False, Bool.false_eq_true, if_false]
    rw [e2, List.range_succ_eq_map (K + 1)]
    simp [hT, Function.comp]

/-- Whenever the sample oracle answers yes, `r < exp(z)` holds for the real
exponential. -/
theorem sample_exp_lt_sound (r z : ℚ) (h : sample_exp_lt r z = true) :
    (r : ℝ) < Real.exp (z : ℝ) := by
  unfold sample_exp_lt at h
  rw [decide_eq_true_eq] at h
  rcases h with h | ⟨h1, h2⟩
  · have : (r : ℝ) ≤ 0 := by exact_mod_cast h
    exact lt_of_le_of_lt this (Real.exp_pos _)
  · have h3 : (r : ℝ) < 1 := by exact_mod_cast h2
    have h4 : (0 : ℝ) ≤ (z : ℝ) := by exact_mod_cast h1
    exact lt_of_lt_of_le h3 (Real.one_le_exp h4)

/-- Without rounding (the type `double` taken as the rational numbers): for
`T_dec > 1` and `tol_abs > 0` (and a call that reaches the loop: `nvar > 0`,
`x0` of at least `nvar` entries, a non-empty `step_vec`), with `K` the first
index for which `T_start/T_dec^(K+1) < tol_abs`, `mmin` returns with success
for every fuel of at least `K+1`, after having run exactly the iterations
`k = 0..K`, iteration `k` at temperature `T_start/T_dec^k`; every iteration
other than the first ran at a temperature of at least `tol_abs`. -/
theorem mmin_schedule_without_rounding (func : Nat → List ℚ → ℚ) (rng : Nat → ℚ)
    (exp_lt : ℚ → ℚ → Bool) (a : anneal_gsl) (nvar : Nat) (x0 : List ℚ) (fmin : ℚ)
    (hd : 1 < a.T_dec) (htol : 0 < a.tol_abs) (hn : nvar ≠ 0) (hx : nvar ≤ x0.length)
    (hs : a.step_vec ≠ []) :
    ∃ K : Nat, a.T_start / a.T_dec ^ (K + 1) < a.tol_abs ∧
      (∀ k < K, ¬ a.T_start / a.T_dec ^ (k + 1) < a.tol_abs) ∧
      (∀ k, 1 ≤ k → k ≤ K → a.tol_abs ≤ a.T_start / a.T_dec ^ k) ∧
      ∀ fuel, K + 1 ≤ fuel →
        ∃ r, a.mmin func rng exp_lt fuel nvar x0 fmin = some r ∧ r.ret = Outcome.success ∧
          r.temps = (List.range (K + 1)).map (fun k => a.T_start / a.T_dec ^ k) := by
  obtain ⟨K, hK, hmin⟩ := exists_stop a.T_start a.T_dec a.tol_abs hd htol
  refine ⟨K, hK, hmin, ?_, ?_⟩
  · intro k h1 h2
    obtain ⟨j, rfl⟩ : ∃ j, k = j + 1 := ⟨k - 1, by omega⟩
    exact not_lt.mp (hmin j (by omega))
  · intro fuel hfuel
    obtain ⟨s1, e1⟩ := mmin_loop_schedule func rng exp_lt nvar a.T_dec a.tol_abs K
      (a.mmin_init func nvar x0) [] fuel rfl rfl hs hK hmin hfuel
    have hx1 : ¬ x0.length < nvar := not_lt.mpr hx
    rw [anneal_gsl.mmin, if_neg hn, if_neg hx1, e1]
    exact ⟨_, rfl, rfl, by simp [anneal_gsl.mmin_init, anneal_gsl.allocate]⟩

/-- Counterexample for C20 as stated.  First iteration of `mmin` on the sample
objective `x^2` from `x0 = [0]` with one trial step per iteration: the proposed
point `-1` has the value 1, the Metropolis test accepts it (the random number
is 0), so the best value stays 0 and the step size 1 exceeds
`min_step_ratio * tol_abs = 1/10`, the iteration is not the last, and yet the
step size is not divided by `step_dec`: one move was accepted. -/
theorem step_size_counterexample :
    ((sample_anneal.mmin_init sample_func 1 [0]).outer_iter sample_func sample_rng
        sample_exp_lt 1).map
      (fun r => (r.1.a.step_vec, r.1.best_E, r.1.nmoves, r.2)) = some ([1], 0, 1, false) ∧
    (sample_anneal.mmin_init sample_func 1 [0]).best_E = 0 ∧
    (sample_anneal.mmin_init sample_func 1 [0]).a.step_vec = [1] ∧
    sample_anneal.min_step_ratio * sample_anneal.tol_abs < 1 ∧
    (1 : ℚ) / sample_anneal.step_dec ≠ 1 := by
  refine ⟨?_, ?_, rfl, ?_, ?_⟩
  · simp [anneal_state.outer_iter, anneal_gsl.mmin_init, sample_anneal, anneal_gsl.new,
      anneal_gsl.allocate, vresize, sample_func, anneal_state.trials, anneal_state.trial,
      anneal_gsl.step, anneal_gsl.step_loop, sample_rng, sample_exp_lt, anneal_gsl.next,
      anneal_gsl.next_steps, List.range_succ]
    norm_num
  · simp [anneal_gsl.mmin_init, sample_anneal, anneal_gsl.new, anneal_gsl.allocate, vresize,
      sample_func]
  · norm_num [sample_anneal, anneal_gsl.new]
  · norm_num [sample_anneal, anneal_gsl.new]

/-- Claim C20, amended.  An outer iteration that is not the last
(`T/T_dec ≥ tol_abs`) returns, and at its end the step size of coordinate `i`
is divided by `step_dec` exactly when no trial step of the iteration was
accepted (`nmoves = 0`), `i < nvar` and the step size exceeds
`tol_abs * min_step_ratio`; otherwise it is unchanged.  When no trial step was
accepted, the point and its value are unchanged, and so is the best value if it
was at most the value of the point, as it is throughout `mmin`. -/
theorem step_size_rule (func : Nat → List ℚ → ℚ) (rng : Nat → ℚ) (exp_lt : ℚ → ℚ → Bool)
    (nvar : Nat) (s : anneal_state) (hs : s.a.step_vec ≠ [])
    (hlast : ¬ s.T / s.a.T_dec < s.a.tol_abs) :
    ∃ s1, s.outer_iter func rng exp_lt nvar = some (s1, false) ∧
      s1.a.step_vec.length = s.a.step_vec.length ∧
      (∀ i, i < s.a.step_vec.length →
        s1.a.step_vec.getD i 0 =
          if s1.nmoves = 0 ∧ i < nvar ∧ s.a.step_vec.getD i 0 > s.a.tol_abs * s.a.min_step_ratio
          then s.a.step_vec.getD i 0 / s.a.step_dec else s.a.step_vec.getD i 0) ∧
      (s1.nmoves = 0 →
        s1.E = s.E ∧ s1.a.x = s.a.x ∧ (s.best_E ≤ s.E → s1.best_E = s.best_E)) := by
  obtain ⟨s1, e1, _, _, _, c4, c5⟩ := outer_iter_spec func rng exp_lt nvar s hs
  rw [if_neg hlast] at c4
  refine ⟨s1, ?_, ?_, ?_, c5⟩
  · rw [e1]; simp [hlast]
  · rw [c4]; split_ifs
    · exact next_steps_length _ _ _ _
    · rfl
  · intro i hi
    rw [c4]
    by_cases hm : s1.nmoves = 0
    · rw [if_pos hm, next_steps_getD s.a nvar s.a.step_vec 0 i hi]
      simp [hm]
    · rw [if_neg hm]; simp [hm]

/-- Witness for C20: the first iteration of `mmin` on the sample objective. -/
theorem step_size_rule_witness :
    ∃ s1, (sample_anneal.mmin_init sample_func 1 [0]).outer_iter sample_func sample_rng
        sample_exp_lt 1 = some (s1, false) ∧
      s1.a.step_vec.length = (sample_anneal.mmin_init sample_func 1 [0]).a.step_vec.length ∧
      (∀ i, i < (sample_anneal.mmin_init sample_func 1 [0]).a.step_vec.length →
        s1.a.step_vec.getD i 0 =
          if s1.nmoves = 0 ∧ i < 1 ∧
            (sample_anneal.mmin_init sample_func 1 [0]).a.step_vec.getD i 0 >
              (sample_anneal.mmin_init sample_func 1 [0]).a.tol_abs *
                (sample_anneal.mmin_init sample_func 1 [0]).a.min_step_ratio
          then (sample_anneal.mmin_init sample_func 1 [0]).a.step_vec.getD i 0 /
            (sample_anneal.mmin_init sample_func 1 [0]).a.step_dec
          else (sample_anneal.mmin_init sample_func 1 [0]).a.step_vec.getD i 0) ∧
      (s1.nmoves = 0 →
        s1.E = (sample_anneal.mmin_init sample_func 1 [0]).E ∧
        s1.a.x = (sample_anneal.mmin_init sample_func 1 [0]).a.x ∧
        ((sample_anneal.mmin_init sample_func 1 [0]).best_E ≤
            (sample_anneal.mmin_init sample_func 1 [0]).E →
          s1.best_E = (sample_anneal.mmin_init sample_func 1 [0]).best_E)) :=
  step_size_rule sample_func sample_rng sample_exp_lt 1
    (sample_anneal.mmin_init sample_func 1 [0])
    (by simp [anneal_gsl.mmin_init, sample_anneal, anneal_gsl.new, anneal_gsl.allocate])
    (by norm_num [anneal_gsl.mmin_init, sample_anneal, anneal_gsl.new, anneal_gsl.allocate])

/-! ## The bracketing search of `interp` with unbounded indices -/

/-- The bracketing loop reads only entries between `lo` and `hi`: two vectors
that agree there give the same bracket. -/
theorem interp_loop_agree (x x1 : List ℚ) (xx : ℚ) :
    ∀ (fuel lo hi : Nat), lo < hi → hi < x.length → hi < x1.length →
      (∀ i, lo ≤ i → i ≤ hi → x1.getD i 0 = x.getD i 0) →
      interp_loop x1 xx fuel lo hi = interp_loop x xx fuel lo hi := by
  intro fuel
  induction fuel with
  | zero => intro lo hi _ _ _ _; rfl
  | succ f ih =>
    intro lo hi h1 h2 h3 hag
    by_cases hg : ((hi : Int) - (lo : Int) > 1)
    · have hk : ((hi : Int) + (lo : Int)) / 2 = (((hi + lo) / 2 : Nat) : Int) := by
        push_cast; rfl
      have hklo : lo < (hi + lo) / 2 := by omega
      have hkhi : (hi + lo) / 2 < hi := by omega
      simp only [interp_loop, if_pos hg]
      rw [hk, vget_natCast x _ (by omega), vget_natCast x1 _ (by omega),
        hag _ (le_of_lt hklo) (le_of_lt hkhi)]
      simp only
      by_cases hx : x.getD ((hi + lo) / 2) 0 > xx
      · rw [if_pos hx, if_pos hx]
        exact ih lo _ hklo (by omega) (by omega) (fun i a b => hag i a (by omega))
      · rw [if_neg hx, if_neg hx]
        exact ih _ hi hkhi h2 h3 (fun i a b => hag i (by omega) b)
    · simp only [interp_loop, if_neg hg]

/-- With indices that cannot overflow: for `n1 < n2` inside the vector the
bracketing loop of `interp` returns with the `n2 - n1` iterations it is given;
it reads only entries between `n1` and `n2` (vectors that agree there give the
same bracket); the bracket is `(l, l+1)` with `n1 <= l` and `l+1 <= n2`; for
`x[n1] <= xx < x[n2]` it encloses the query, `x[l] <= xx < x[l+1]`; and on a
vector that is non-decreasing between `n1` and `n2` the bracket is
`(n1, n1+1)` for `xx < x[n1]` and `(n2-1, n2)` for `xx >= x[n2]`. -/
theorem interp_loop_bracket (x : List ℚ) (xx : ℚ) (n1 n2 : Nat) (h1 : n1 < n2)
    (h2 : n2 < x.length) :
    ∃ l : Nat, interp_loop x xx (((n2 : Int) - (n1 : Int)).toNat) n1 n2 =
        some ((l : Int), (l : Int) + 1) ∧
      n1 ≤ l ∧ l + 1 ≤ n2 ∧
      (∀ x1 : List ℚ, n2 < x1.length → (∀ i, n1 ≤ i → i ≤ n2 → x1.getD i 0 = x.getD i 0) →
        interp_loop x1 xx (((n2 : Int) - (n1 : Int)).toNat) n1 n2 =
          some ((l : Int), (l : Int) + 1)) ∧
      (x.getD n1 0 ≤ xx → xx < x.getD n2 0 → x.getD l 0 ≤ xx ∧ xx < x.getD (l + 1) 0) ∧
      ((∀ i j, n1 ≤ i → i ≤ j → j ≤ n2 → x.getD i 0 ≤ x.getD j 0) →
        (xx < x.getD n1 0 → l = n1) ∧ (x.getD n2 0 ≤ xx → l + 1 = n2)) := by
  have hf : ((n2 : Int) - (n1 : Int)).toNat = n2 - n1 := by omega
  rw [hf]
  obtain ⟨l, hl, a1, a2, a3, a4⟩ := interp_loop_spec x xx (n2 - n1) n1 n2 h1 h2 (by omega)
  refine ⟨l, hl, a1, a2, ?_, ?_, ?_⟩
  · intro x1 hx1 hag
    rw [interp_loop_agree x x1 xx (n2 - n1) n1 n2 h1 h2 hx1 hag, hl]
  · intro hlo hhi
    constructor
    · rcases a3 with a3 | a3
      · rw [a3]; exact hlo
      · exact a3
    · rcases a4 with a4 | a4
      · rw [a4]; exact hhi
      · exact a4
  · intro hmono
    constructor
    · intro hlt
      rcases a3 with a3 | a3
      · exact a3
      · exact absurd (lt_of_lt_of_le hlt (hmono n1 l (le_refl _) a1 (by omega)))
          (not_lt.mpr a3)
    · intro hge
      rcases a4 with a4 | a4
      · exact a4
      · exact absurd (lt_of_lt_of_le a4 (hmono (l + 1) n2 (by omega) a2 (le_refl _)))
          (not_lt.mpr hge)

/-! ## C24: `get_eden_full` refines `get_eden` -/

/-- Claim C23 against the code.  After `read_vectors(n, core_ed, core_pr)` the
member `core_vece` holds the supplied pressures, `core_vecp` is what it was
before the call, the caller's `core_pr` holds the supplied energy densities
and the caller's `core_ed` the old `core_vece`; the scalar members are as
claimed.  On a fresh engine with `core_ed = [150, 300]`, `core_pr = [2, 10]`
the core pressures are empty and the energy densities are `[2, 10]`. -/
theorem read_vectors_swaps (e : tov_interp_eos) (n : Nat) (core_ed core_pr : List ℚ) :
    (e.read_vectors n core_ed core_pr).1.core_vece = core_pr ∧
    (e.read_vectors n core_ed core_pr).1.core_vecp = e.core_vecp ∧
    (e.read_vectors n core_ed core_pr).2.1 = e.core_vece ∧
    (e.read_vectors n core_ed core_pr).2.2 = core_ed ∧
    (e.read_vectors n core_ed core_pr).1.core_nlines = n ∧
    (e.read_vectors n core_ed core_pr).1.pfactor = 1 ∧
    (e.read_vectors n core_ed core_pr).1.efactor = 1 ∧
    (e.read_vectors n core_ed core_pr).1.baryon_column = false ∧
    (e.read_vectors n core_ed core_pr).1.eos_read = true ∧
    ((tov_interp_eos.new 0 false 0 0).read_vectors 2 [150, 300] [2, 10]).1.core_vece
      = [2, 10] ∧
    ((tov_interp_eos.new 0 false 0 0).read_vectors 2 [150, 300] [2, 10]).1.core_vecp = [] ∧
    ((tov_interp_eos.new 0 false 0 0).read_vectors 2 [150, 300] [2, 10]).1.core_vece
      ≠ [150, 300] ∧
    ((tov_interp_eos.new 0 false 0 0).read_vectors 2 [150, 300] [2, 10]).1.core_vecp
      ≠ [2, 10] ∧
    ((tov_interp_eos.new 0 false 0 0).read_vectors 2 [150, 300] [2, 10]).1.get_eden 5 0 0
      = none :=
  ⟨rfl, rfl, rfl, rfl, rfl, rfl, rfl, rfl, rfl, rfl, rfl, by
    show ([2, 10] : List ℚ) ≠ [150, 300]
    intro h
    have h1 := (List.cons.injEq _ _ _ _ ▸ h : (2 : ℚ) = 150 ∧ _).1
    norm_num at h1, by
    show ([] : List ℚ) ≠ [2, 10]
    exact fun h => List.noConfusion h, by
    rfl⟩

/-! ## C26 and C27: `ngl13_low_dens_eos2` -/

/-- The loop of `ngl13_low_dens_eos2` never assigns `crust_nlines`, and when it
runs to its end it has appended one row per grid value to each crust vector. -/
theorem ngl13_eos2_loop_spec (nlow nhigh : Table3d) (L wl wh : ℚ) :
    ∀ (g : List ℚ) (e : tov_interp_eos),
      (tov_interp_eos.ngl13_eos2_loop nlow nhigh L wl wh g e).1.crust_nlines = e.crust_nlines ∧
      ((tov_interp_eos.ngl13_eos2_loop nlow nhigh L wl wh g e).2 = true →
        (tov_interp_eos.ngl13_eos2_loop nlow nhigh L wl wh g e).1.crust_vecp.length =
          e.crust_vecp.length + g.length ∧
        (tov_interp_eos.ngl13_eos2_loop nlow nhigh L wl wh g e).1.crust_vece.length =
          e.crust_vece.length + g.length ∧
        (tov_interp_eos.ngl13_eos2_loop nlow nhigh L wl wh g e).1.crust_vecnb.length =
          e.crust_vecnb.length + g.length) := by
  intro g
  induction g with
  | nil => intro e; exact ⟨rfl, fun _ => ⟨rfl, rfl, rfl⟩⟩
  | cons nbt rest ih =>
    intro e
    unfold tov_interp_eos.ngl13_eos2_loop
    dsimp only
    split_ifs with hc
    · exact ⟨rfl, fun h => absurd h (by decide)⟩
    · obtain ⟨i1, i2⟩ := ih { e with
          crust_vece := e.crust_vece ++ [nlow.interp L nbt "ed" * wl + nhigh.interp L nbt "ed" * wh]
          crust_vecp := e.crust_vecp ++ [nlow.interp L nbt "pr" * wl + nhigh.interp L nbt "pr" * wh]
          crust_vecnb := e.crust_vecnb ++ [nbt] }
      refine ⟨i1, fun h => ?_⟩
      obtain ⟨j1, j2, j3⟩ := i2 h
      dsimp only at j1 j2 j3
      rw [List.length_append, List.length_singleton] at j1 j2 j3
      rw [List.length_cons]
      exact ⟨by omega, by omega, by omega⟩

/-- The limiting value for `S = 30`. -/
theorem ngl13_iSlow_30 : ngl13_iSlow 30 = 30 := by
  unfold ngl13_iSlow
  have : ⌊(30 : ℚ)⌋ = 30 := by
    have := Int.floor_intCast (α := ℚ) 30
    simp
  rw [this]
  rfl

/-- Claim C26 against the code.  `ngl13_low_dens_eos2` never assigns
`crust_nlines`: whenever the call returns, `crust_nlines` is what it was before
the call, and a successful call has appended one row per grid value to the
crust vectors.  On a fresh engine whose uninitialised `crust_nlines` is 1, the
call with the two-row sample file succeeds with two rows stored,
`crust_nlines = 1`, and `crust_high_pres` the pressure of the first row, not
of the last. -/
theorem ngl13_low_dens_eos2_crust_nlines (itp_eval : ℚ → Nat → List ℚ → List ℚ → ℚ)
    (file : String → Table3d) (e : tov_interp_eos) (S L nt : ℚ) (fname : String) :
    (∀ r, e.ngl13_low_dens_eos2 itp_eval file S L nt fname = some r →
      r.1.crust_nlines = e.crust_nlines ∧
      (r.2 = Outcome.success →
        r.1.crust_vecp.length =
          e.crust_vecp.length + (file ("S" ++ toString (ngl13_iSlow S))).grid_y.length)) ∧
    ((tov_interp_eos.new 0 false 0 1).ngl13_low_dens_eos2 sample_itp_eval sample_file
        30 50 (8 / 100) "").map
      (fun r => (r.2, r.1.crust_nlines, r.1.crust_vecp, r.1.crust_high_pres)) =
      some (Outcome.success, 1, [1 / 2000, 1 / 250], 1 / 2000) := by
  constructor
  · intro r hr
    unfold tov_interp_eos.ngl13_low_dens_eos2 at hr
    simp only at hr
    split_ifs at hr
    any_goals (cases hr; exact ⟨rfl, fun h => by simp at h⟩)
    obtain ⟨l1, l2⟩ := ngl13_eos2_loop_spec (file ("S" ++ toString (ngl13_iSlow S)))
      (file ("S" ++ toString (ngl13_iSlow S + 2))) L (ngl13_weight_low S)
      (1 - ngl13_weight_low S) (file ("S" ++ toString (ngl13_iSlow S))).grid_y e
    split at hr
    · rename_i e2 heq
      rw [heq] at l1
      cases hr
      exact ⟨l1, fun h => by simp at h⟩
    · rename_i e2 heq
      rw [heq] at l1 l2
      split at hr
      · cases hr
      · cases hr
        exact ⟨l1, fun _ => (l2 rfl).1⟩
  · unfold tov_interp_eos.ngl13_low_dens_eos2
    rw [if_neg (by norm_num), if_neg (by norm_num), if_neg (by norm_num),
      if_neg (by norm_num)]
    simp only [ngl13_iSlow_30, ngl13_weight_low]
    rw [if_neg (by decide), if_neg (by decide), if_neg (by norm_num)]
    simp [sample_file, sample_table3d, tov_interp_eos.ngl13_eos2_loop, tov_interp_eos.new,
      vget]
    norm_num
    exact ⟨_, _, ⟨rfl, rfl⟩, rfl, rfl, rfl, rfl⟩

/-- For `28 <= S < 38` the limiting value `iSlow` is the greatest even integer
not above `S` and lies between 28 and 36. -/
theorem ngl13_iSlow_spec (S : ℚ) (h1 : 28 ≤ S) (h2 : S < 38) :
    ngl13_iSlow S % 2 = 0 ∧ (ngl13_iSlow S : ℚ) ≤ S ∧ S < (ngl13_iSlow S : ℚ) + 2 ∧
      28 ≤ ngl13_iSlow S ∧ ngl13_iSlow S + 2 ≤ 38 := by
  have k1 : (28 : Int) ≤ ⌊S⌋ := Int.le_floor.mpr (by exact_mod_cast h1)
  have k2 : ⌊S⌋ < (38 : Int) := Int.floor_lt.mpr (by exact_mod_cast h2)
  have k3 : ((⌊S⌋ : Int) : ℚ) ≤ S := Int.floor_le S
  have k4 : S < ((⌊S⌋ : Int) : ℚ) + 1 := Int.lt_floor_add_one S
  obtain ⟨n, hn⟩ : ∃ n : Nat, ⌊S⌋ = (n : Int) := ⟨⌊S⌋.toNat, by omega⟩
  rw [hn] at k1 k2 k3 k4
  have e1 : ⌊S⌋.toNat = n := by rw [hn]; rfl
  have k3n : (n : ℚ) ≤ S := by exact_mod_cast k3
  have k4n : S < (n : ℚ) + 1 := by exact_mod_cast k4
  have n1 : 28 ≤ n := by omega
  have n2 : n < 38 := by omega
  unfold ngl13_iSlow
  rw [e1]
  by_cases hodd : n % 2 = 1
  · rw [if_pos hodd]
    have hc : ((n - 1 : Nat) : ℚ) = (n : ℚ) - 1 := by
      rw [Nat.cast_sub (by omega)]; simp
    refine ⟨by omega, ?_, ?_, by omega, by omega⟩
    · rw [hc]; linarith
    · rw [hc]; linarith
  · rw [if_neg hodd]
    refine ⟨by omega, k3n, by linarith, n1, by omega⟩

/-- Claim C27 at its failing input, and its content elsewhere.  For `S = 38`,
which passes the range tests, `iSlow = 38` and `iShigh = 40`, so the call
raises "iSlow out of range.".  For `28 <= S < 38` the value `iSlow` is the
greatest even integer not above `S`, `iSlow` and `iShigh = iSlow + 2` lie in
`[28, 38]`, both weights lie in `[0, 1]` and sum to 1, and neither sanity error
is raised. -/
theorem ngl13_sanity_checks (itp_eval : ℚ → Nat → List ℚ → List ℚ → ℚ)
    (file : String → Table3d) (e : tov_interp_eos) :
    ngl13_iSlow 38 = 38 ∧
    e.ngl13_low_dens_eos2 itp_eval file 38 50 (8 / 100) "" =
      some (e, Outcome.raised Err.exc_efailed "iSlow out of range.") ∧
    ∀ S : ℚ, 28 ≤ S → S < 38 →
      ngl13_iSlow S % 2 = 0 ∧ (ngl13_iSlow S : ℚ) ≤ S ∧ S < (ngl13_iSlow S : ℚ) + 2 ∧
      28 ≤ ngl13_iSlow S ∧ ngl13_iSlow S + 2 ≤ 38 ∧
      0 ≤ ngl13_weight_low S ∧ ngl13_weight_low S ≤ 1 ∧
      0 ≤ 1 - ngl13_weight_low S ∧ 1 - ngl13_weight_low S ≤ 1 ∧
      ngl13_weight_low S + (1 - ngl13_weight_low S) = 1 ∧
      ∀ (L nt : ℚ) (fname : String) (r : tov_interp_eos × Outcome),
        e.ngl13_low_dens_eos2 itp_eval file S L nt fname = some r →
        r.2 ≠ Outcome.raised Err.exc_efailed "iSlow out of range." ∧
        r.2 ≠ Outcome.raised Err.exc_efailed "Weights negative in eos2()." := by
  have h38 : ngl13_iSlow 38 = 38 := by
    unfold ngl13_iSlow
    have : ⌊(38 : ℚ)⌋ = 38 := by
      have := Int.floor_intCast (α := ℚ) 38
      simp
    rw [this]
    rfl
  refine ⟨h38, ?_, ?_⟩
  · unfold tov_interp_eos.ngl13_low_dens_eos2
    rw [if_neg (by norm_num), if_neg (by norm_num), if_neg (by norm_num),
      if_neg (by norm_num)]
    simp only [h38]
    rw [if_neg (by decide), if_pos (by decide)]
  · intro S h1 h2
    obtain ⟨a1, a2, a3, a4, a5⟩ := ngl13_iSlow_spec S h1 h2
    have w1 : 0 ≤ ngl13_weight_low S := by unfold ngl13_weight_low; linarith
    have w2 : ngl13_weight_low S ≤ 1 := by unfold ngl13_weight_low; linarith
    refine ⟨a1, a2, a3, a4, a5, w1, w2, by linarith, by linarith, by ring, ?_⟩
    intro L nt fname r hr
    unfold tov_interp_eos.ngl13_low_dens_eos2 at hr
    simp only at hr
    have c1 : ¬ (ngl13_iSlow S < 28 ∨ ngl13_iSlow S > 38) := by omega
    have c2 : ¬ (ngl13_iSlow S + 2 < 28 ∨ ngl13_iSlow S + 2 > 38) := by omega
    have c3 : ¬ (ngl13_weight_low S < 0 ∨ 1 - ngl13_weight_low S < 0) := by
      intro h; rcases h with h | h <;> linarith
    rw [if_neg c1, if_neg c2, if_neg c3] at hr
    split_ifs at hr
    · cases hr; exact ⟨by simp, by simp⟩
    · cases hr; exact ⟨by simp, by simp⟩
    · cases hr; exact ⟨by simp, by simp⟩
    · cases hr; exact ⟨by simp, by simp⟩
    · split at hr
      · cases hr; exact ⟨by simp, by simp⟩
      · split at hr
        · cases hr
        · cases hr; exact ⟨by simp, by simp⟩

/-! ## C28: the built-in crust tables -/

/-- A list whose consecutive entries increase is `increasing` on every prefix. -/
theorem increasing_of_chain (l : List ℚ) (h : l.Chain' (· < ·)) (n : Nat) (hn : n ≤ l.length) :
    increasing l n := by
  intro i hi
  have h1 : i + 1 < l.length := by omega
  have h2 := (List.chain'_iff_get.mp h) i (by omega)
  rw [List.getD_eq_getElem _ _ (by omega : i < l.length), List.getD_eq_getElem _ _ h1]
  exact h2

/-- Each array of `default_low_dens_eos` increases from every entry to the next. -/
theorem default_arrays_chain :
    default_pr_arr.Chain' (· < ·) ∧ default_ed_arr.Chain' (· < ·) ∧
      default_nb_arr.Chain' (· < ·) := by
  refine ⟨?_, ?_, ?_⟩
  · simp only [default_pr_arr, List.chain'_cons, List.chain'_singleton]; norm_num
  · simp only [default_ed_arr, List.chain'_cons, List.chain'_singleton]; norm_num
  · simp only [default_nb_arr, List.chain'_cons, List.chain'_singleton]; norm_num

/-- Each array of `sho11_low_dens_eos` increases from every entry to the next. -/
theorem sho11_arrays_chain :
    sho11_pr_arr.Chain' (· < ·) ∧ sho11_ed_arr.Chain' (· < ·) ∧
      sho11_nb_arr.Chain' (· < ·) := by
  refine ⟨?_, ?_, ?_⟩
  · simp only [sho11_pr_arr, List.chain'_cons, List.chain'_singleton]; norm_num
  · simp only [sho11_ed_arr, List.chain'_cons, List.chain'_singleton]; norm_num
  · simp only [sho11_nb_arr, List.chain'_cons, List.chain'_singleton]; norm_num

/-- An increasing list with a positive first entry has only positive entries. -/
theorem pos_of_chain (a : ℚ) (l : List ℚ) (h : (a :: l).Chain' (· < ·)) (ha : 0 < a) :
    ∀ v ∈ a :: l, (0 : ℚ) < v := by
  have hp : (a :: l).Pairwise (· < ·) := List.chain'_iff_pairwise.mp h
  intro v hv
  rcases List.mem_cons.mp hv with rfl | hv
  · exact ha
  · exact lt_trans ha (List.rel_of_pairwise_cons hp hv)

/-- Claim C28.  On a fresh engine `default_low_dens_eos` and `sho11_low_dens_eos`
return normally and store exactly the 73 and the 98 rows of their array
literals (`crust_nlines` is 73 and 98, and each literal has that many entries);
in both tables the pressure, the energy density and the baryon density
increase strictly from each row to the next, and every entry is positive. -/
theorem builtin_crust_tables_ordered (trans_pres0 : ℚ) (baryon_column0 : Bool)
    (core_nlines0 crust_nlines0 : Nat) :
    (∃ e, (tov_interp_eos.new trans_pres0 baryon_column0 core_nlines0
        crust_nlines0).default_low_dens_eos = some (e, Outcome.success) ∧
      e.crust_nlines = 73 ∧ e.crust_vecp = default_pr_arr ∧ e.crust_vece = default_ed_arr ∧
      e.crust_vecnb = default_nb_arr ∧
      default_pr_arr.length = 73 ∧ default_ed_arr.length = 73 ∧ default_nb_arr.length = 73 ∧
      increasing e.crust_vecp 73 ∧ increasing e.crust_vece 73 ∧ increasing e.crust_vecnb 73 ∧
      (∀ v ∈ e.crust_vecp, 0 < v) ∧ (∀ v ∈ e.crust_vece, 0 < v) ∧
      (∀ v ∈ e.crust_vecnb, 0 < v)) ∧
    (∃ e, (tov_interp_eos.new trans_pres0 baryon_column0 core_nlines0
        crust_nlines0).sho11_low_dens_eos = some (e, Outcome.success) ∧
      e.crust_nlines = 98 ∧ e.crust_vecp = sho11_pr_arr ∧ e.crust_vece = sho11_ed_arr ∧
      e.crust_vecnb = sho11_nb_arr ∧
      sho11_pr_arr.length = 98 ∧ sho11_ed_arr.length = 98 ∧ sho11_nb_arr.length = 98 ∧
      increasing e.crust_vecp 98 ∧ increasing e.crust_vece 98 ∧ increasing e.crust_vecnb 98 ∧
      (∀ v ∈ e.crust_vecp, 0 < v) ∧ (∀ v ∈ e.crust_vece, 0 < v) ∧
      (∀ v ∈ e.crust_vecnb, 0 < v)) := by
  obtain ⟨d1, d2, d3⟩ := default_arrays_chain
  obtain ⟨s1, s2, s3⟩ := sho11_arrays_chain
  constructor
  · refine ⟨_, rfl, rfl, rfl, rfl, rfl, rfl, rfl, rfl,
      increasing_of_chain _ d1 73 (le_refl _), increasing_of_chain _ d2 73 (le_refl _),
      increasing_of_chain _ d3 73 (le_refl _),
      pos_of_chain _ _ d1 (by norm_num), pos_of_chain _ _ d2 (by norm_num),
      pos_of_chain _ _ d3 (by norm_num)⟩
  · refine ⟨_, rfl, rfl, rfl, rfl, rfl, rfl, rfl, rfl,
      increasing_of_chain _ s1 98 (le_refl _), increasing_of_chain _ s2 98 (le_refl _),
      increasing_of_chain _ s3 98 (le_refl _),
      pos_of_chain _ _ s1 (by norm_num), pos_of_chain _ _ s2 (by norm_num),
      pos_of_chain _ _ s3 (by norm_num)⟩

/-! ## C21 and C22: the points `mmin` accepts and returns -/

/-- The loop of `step` keeps the length of the vector. -/
theorem step_loop_length (a : anneal_gsl) (rng : Nat → ℚ) :
    ∀ (l : List Nat) (sx : List ℚ) (ctr : Nat) (r : List ℚ × Nat),
      a.step_loop rng l sx ctr = some r → r.1.length = sx.length := by
  intro l
  induction l with
  | nil =>
    intro sx ctr r h
    rw [anneal_gsl.step_loop, Option.some.injEq] at h
    rw [← h]
  | cons i rest ih =>
    intro sx ctr r h
    rw [anneal_gsl.step_loop] at h
    split_ifs at h
    have := ih _ _ _ h
    rw [this, List.length_set]

/-- No evaluation: the state is the best of itself. -/
theorem best_of_refl (func : Nat → List ℚ → ℚ) (nvar : Nat) (s : anneal_state) :
    s.best_of func nvar s [] :=
  ⟨rfl, le_refl _, fun _ hp => absurd hp (List.not_mem_nil _), Or.inl ⟨rfl, rfl⟩⟩

/-- Evaluations in a row: the evaluated points are appended. -/
theorem best_of_trans (func : Nat → List ℚ → ℚ) (nvar : Nat) (s s1 s2 : anneal_state)
    (ev1 ev2 : List (List ℚ)) (h1 : s.best_of func nvar s1 ev1)
    (h2 : s1.best_of func nvar s2 ev2) : s.best_of func nvar s2 (ev1 ++ ev2) := by
  obtain ⟨a1, a2, a3, a4⟩ := h1
  obtain ⟨b1, b2, b3, b4⟩ := h2
  refine ⟨b1.trans a1, le_trans b2 a2, ?_, ?_⟩
  · intro p hp
    rcases List.mem_append.mp hp with hp | hp
    · exact ⟨le_trans b2 (a3 p hp).1, (a3 p hp).2⟩
    · exact ⟨(b3 p hp).1, (b3 p hp).2.trans a1⟩
  · rcases b4 with ⟨c1, c2⟩ | ⟨c1, c2⟩
    · rcases a4 with ⟨d1, d2⟩ | ⟨d1, d2⟩
      · exact Or.inl ⟨c1.trans d1, c2.trans d2⟩
      · right
        refine ⟨List.mem_append.mpr (Or.inl (by rw [c1]; exact d1)), ?_⟩
        rw [c2, c1]; exact d2
    · exact Or.inr ⟨List.mem_append.mpr (Or.inr c1), c2⟩

/-- A trial step that returns has proposed a point `new_x`, and the state after
it is the best of the state before it and `new_x`. -/
theorem trial_best (func : Nat → List ℚ → ℚ) (rng : Nat → ℚ) (exp_lt : ℚ → ℚ → Bool)
    (nvar : Nat) (s s1 : anneal_state) (h : s.trial func rng exp_lt nvar = some s1) :
    ∃ new_x ctr, s.a.step rng s.a.x nvar s.ctr = some (new_x, ctr) ∧
      s.best_of func nvar s1 [new_x] := by
  unfold anneal_state.trial at h
  cases hst : s.a.step rng s.a.x nvar s.ctr with
  | none => rw [hst] at h; cases h
  | some r =>
    obtain ⟨new_x, ctr⟩ := r
    have hlen : new_x.length = s.a.x.length :=
      step_loop_length s.a rng _ _ _ _ hst
    rw [hst] at h
    dsimp only at h
    refine ⟨new_x, ctr, rfl, ?_⟩
    have hmem : ∀ (b : ℚ), b ≤ func nvar new_x →
        ∀ p ∈ [new_x], b ≤ func nvar p ∧ p.length = s.a.x.length := by
      intro b hb p hp
      rw [List.mem_singleton.mp hp]
      exact ⟨hb, hlen⟩
    split_ifs at h with h1 h2 h3 h4 h5 <;> cases h
    · exact ⟨hlen, h1, hmem _ (le_refl _), Or.inr ⟨List.mem_singleton.mpr rfl, rfl⟩⟩
    · exact ⟨hlen, h1, hmem _ (le_refl _), Or.inr ⟨List.mem_singleton.mpr rfl, rfl⟩⟩
    · exact ⟨rfl, h1, hmem _ (le_refl _), Or.inr ⟨List.mem_singleton.mpr rfl, rfl⟩⟩
    · exact ⟨hlen, le_refl _, hmem _ (le_of_lt (not_le.mp h1)), Or.inl ⟨rfl, rfl⟩⟩
    · exact ⟨hlen, le_refl _, hmem _ (le_of_lt (not_le.mp h1)), Or.inl ⟨rfl, rfl⟩⟩
    · exact ⟨rfl, le_refl _, hmem _ (le_of_lt (not_le.mp h1)), Or.inl ⟨rfl, rfl⟩⟩

/-- The state after `n` trial steps is the best of the state before them and
the points they proposed. -/
theorem trials_best (func : Nat → List ℚ → ℚ) (rng : Nat → ℚ) (exp_lt : ℚ → ℚ → Bool)
    (nvar : Nat) : ∀ (n : Nat) (s s1 : anneal_state),
      anneal_state.trials func rng exp_lt nvar n s = some s1 →
      s.best_of func nvar s1 (anneal_state.trials_evals func rng exp_lt nvar n s) := by
  intro n
  induction n with
  | zero =>
    intro s s1 h
    rw [anneal_state.trials, Option.some.injEq] at h
    rw [← h]
    exact best_of_refl func nvar s
  | succ n ih =>
    intro s s1 h
    rw [anneal_state.trials] at h
    cases ht : s.trial func rng exp_lt nvar with
    | none => rw [ht] at h; cases h
    | some s2 =>
      rw [ht] at h
      obtain ⟨new_x, ctr, hst, hb⟩ := trial_best func rng exp_lt nvar s s2 ht
      have h2 := ih s2 s1 h
      rw [anneal_state.trials_evals, hst, ht]
      exact best_of_trans func nvar s s2 s1 [new_x] _ hb h2

/-- The state after one iteration of the outer loop is the best of the state
before it and the points proposed by its trial steps. -/
theorem outer_iter_best (func : Nat → List ℚ → ℚ) (rng : Nat → ℚ) (exp_lt : ℚ → ℚ → Bool)
    (nvar : Nat) (s s1 : anneal_state) (d : Bool)
    (h : s.outer_iter func rng exp_lt nvar = some (s1, d)) :
    s.best_of func nvar s1
      (anneal_state.trials_evals func rng exp_lt nvar s.a.ntrial.toNat
        { s with a := { s.a with old_x := s.a.x }, old_E := s.E, nmoves := 0 }) := by
  unfold anneal_state.outer_iter at h
  dsimp only at h
  cases ht : anneal_state.trials func rng exp_lt nvar s.a.ntrial.toNat
      { s with a := { s.a with old_x := s.a.x }, old_E := s.E, nmoves := 0 } with
  | none => rw [ht] at h; cases h
  | some s2 =>
    rw [ht] at h
    have hb := trials_best func rng exp_lt nvar _ _ _ ht
    obtain ⟨b1, b2, b3, b4⟩ := hb
    dsimp only at h
    rw [Option.some.injEq, Prod.mk.injEq] at h
    obtain ⟨h, _⟩ := h
    subst h
    unfold anneal_gsl.next
    split_ifs <;> exact ⟨b1, b2, b3, b4⟩

/-- The state after the outer loop is the best of the state before it and the
points proposed in the loop. -/
theorem mmin_loop_best (func : Nat → List ℚ → ℚ) (rng : Nat → ℚ) (exp_lt : ℚ → ℚ → Bool)
    (nvar : Nat) : ∀ (fuel : Nat) (s : anneal_state) (temps : List ℚ)
      (r : anneal_state × List ℚ),
      anneal_state.mmin_loop func rng exp_lt nvar fuel s temps = some r →
      s.best_of func nvar r.1 (anneal_state.mmin_loop_evals func rng exp_lt nvar fuel s) := by
  intro fuel
  induction fuel with
  | zero => intro s temps r h; rw [anneal_state.mmin_loop] at h; cases h
  | succ f ih =>
    intro s temps r h
    rw [anneal_state.mmin_loop] at h
    cases ho : s.outer_iter func rng exp_lt nvar with
    | none => rw [ho] at h; cases h
    | some q =>
      obtain ⟨s1, d⟩ := q
      rw [ho] at h
      have hb := outer_iter_best func rng exp_lt nvar s s1 d ho
      rw [anneal_state.mmin_loop_evals, ho]
      cases d with
      | true =>
        simp only [if_true, Option.some.injEq] at h
        rw [← h]
        simpa using best_of_trans func nvar s s1 s1 _ [] hb (best_of_refl func nvar s1)
      | false =>
        simp only [Bool.false_eq_true, if_false] at h
        exact best_of_trans func nvar s s1 r.1 _ _ hb (ih s1 _ r h)

/-- One trial step is the loop of one pass. -/
theorem trials_one (func : Nat → List ℚ → ℚ) (rng : Nat → ℚ) (exp_lt : ℚ → ℚ → Bool)
    (nvar : Nat) (s : anneal_state) :
    anneal_state.trials func rng exp_lt nvar 1 s = s.trial func rng exp_lt nvar := by
  rw [anneal_state.trials]
  cases s.trial func rng exp_lt nvar with
  | none => rfl
  | some s1 => rfl


/-- Claim C22.  For `nvar >= 1`, whenever `mmin` returns (for whatever
objective, random numbers and fuel): it returns success, `fmin` is the value of
the objective at the first `nvar` entries of the returned `x0` (the entries
`func(nvar, .)` reads; the other entries of `x0` are untouched), `fmin` is at
most the value at the initial point and at most the value at every point the
run evaluated, and the returned point is one of the evaluated points.  For
`nvar = 0` the call raises `exc_einval` and `x0` and `fmin` are unchanged. -/
theorem mmin_result_is_best (func : Nat → List ℚ → ℚ) (rng : Nat → ℚ)
    (exp_lt : ℚ → ℚ → Bool) (fuel : Nat) (a : anneal_gsl) (nvar : Nat) (x0 : List ℚ)
    (fmin : ℚ) (r : mmin_result) (hn : nvar ≠ 0)
    (h : a.mmin func rng exp_lt fuel nvar x0 fmin = some r) :
    r.ret = Outcome.success ∧ r.x0.length = x0.length ∧ r.x0.drop nvar = x0.drop nvar ∧
    r.fmin = func nvar (r.x0.take nvar) ∧
    (x0.length = nvar → r.fmin = func nvar r.x0) ∧
    r.fmin ≤ func nvar (x0.take nvar) ∧
    (∀ p ∈ a.mmin_evals func rng exp_lt fuel nvar x0, r.fmin ≤ func nvar p) ∧
    r.x0.take nvar ∈ a.mmin_evals func rng exp_lt fuel nvar x0 ∧
    ∃ r0, a.mmin func rng exp_lt fuel 0 x0 fmin = some r0 ∧ r0.x0 = x0 ∧ r0.fmin = fmin ∧
      r0.obj = a ∧ ∃ msg, r0.ret = Outcome.raised Err.exc_einval msg := by
  unfold anneal_gsl.mmin at h
  rw [if_neg hn] at h
  by_cases hx : x0.length < nvar
  · rw [if_pos hx] at h; cases h
  rw [if_neg hx] at h
  have hx1 : nvar ≤ x0.length := not_lt.mp hx
  have hlt : (x0.take nvar).length = nvar := by rw [List.length_take]; omega
  cases hl : anneal_state.mmin_loop func rng exp_lt nvar fuel (a.mmin_init func nvar x0) [] with
  | none => rw [hl] at h; cases h
  | some q =>
    obtain ⟨s, temps⟩ := q
    rw [hl] at h
    dsimp only at h
    rw [Option.some.injEq] at h
    subst h
    obtain ⟨b1, b2, b3, b4⟩ := mmin_loop_best func rng exp_lt nvar fuel _ [] _ hl
    have i1 : (a.mmin_init func nvar x0).a.x = x0.take nvar := rfl
    have i2 : (a.mmin_init func nvar x0).a.best_x = x0.take nvar := rfl
    have i3 : (a.mmin_init func nvar x0).best_E = func nvar (x0.take nvar) := rfl
    rw [i1, hlt] at b3
    rw [i2, i3] at b4
    rw [i3] at b2
    dsimp only at b1 b2 b3 b4 ⊢
    have hbx : s.a.best_x.length = nvar := by
      rcases b4 with ⟨c1, _⟩ | ⟨c1, _⟩
      · rw [c1]; exact hlt
      · exact (b3 _ c1).2
    have hbe : s.best_E = func nvar s.a.best_x := by
      rcases b4 with ⟨c1, c2⟩ | ⟨_, c2⟩
      · rw [c1, c2]
      · exact c2
    have htk : (s.a.best_x ++ x0.drop nvar).take nvar = s.a.best_x := List.take_left' hbx
    have hev : a.mmin_evals func rng exp_lt fuel nvar x0 =
        x0.take nvar ::
          anneal_state.mmin_loop_evals func rng exp_lt nvar fuel (a.mmin_init func nvar x0) := by
      rw [anneal_gsl.mmin_evals, if_neg hn]
    refine ⟨rfl, ?_, List.drop_left' hbx, ?_, ?_, b2, ?_, ?_, ?_⟩
    · rw [List.length_append, List.length_drop, hbx]; omega
    · rw [htk]; exact hbe
    · intro hxl
      have hd : x0.drop nvar = [] := by
        apply List.eq_nil_of_length_eq_zero
        rw [List.length_drop]; omega
      rw [hd, List.append_nil]; exact hbe
    · intro p hp
      rw [hev] at hp
      rcases List.mem_cons.mp hp with rfl | hp
      · exact b2
      · exact (b3 p hp).1
    · rw [htk, hev]
      rcases b4 with ⟨c1, _⟩ | ⟨c1, _⟩
      · rw [c1]; exact List.mem_cons_self _ _
      · exact List.mem_cons_of_mem _ c1
    · exact ⟨_, by rw [anneal_gsl.mmin, if_pos rfl], rfl, rfl, rfl, _, rfl⟩

/-- Witness for C22: the default annealer with `tol_abs = 1/2` on the sample
objective `x^2` from `x0 = [0]`, two iterations. -/
theorem mmin_result_is_best_witness :
    ∃ r, (anneal_gsl.new (1 / 2) 1 0).mmin sample_func sample_rng sample_exp_lt 2 1 [0] 0
        = some r ∧
      (r.ret = Outcome.success ∧ r.x0.length = ([0] : List ℚ).length ∧
      r.x0.drop 1 = ([0] : List ℚ).drop 1 ∧
      r.fmin = sample_func 1 (r.x0.take 1) ∧
      (([0] : List ℚ).length = 1 → r.fmin = sample_func 1 r.x0) ∧
      r.fmin ≤ sample_func 1 (([0] : List ℚ).take 1) ∧
      (∀ p ∈ (anneal_gsl.new (1 / 2) 1 0).mmin_evals sample_func sample_rng sample_exp_lt 2
          1 [0], r.fmin ≤ sample_func 1 p) ∧
      r.x0.take 1 ∈ (anneal_gsl.new (1 / 2) 1 0).mmin_evals sample_func sample_rng
        sample_exp_lt 2 1 [0] ∧
      ∃ r0, (anneal_gsl.new (1 / 2) 1 0).mmin sample_func sample_rng sample_exp_lt 2 0 [0] 0
          = some r0 ∧ r0.x0 = [0] ∧ r0.fmin = 0 ∧
        r0.obj = anneal_gsl.new (1 / 2) 1 0 ∧
        ∃ msg, r0.ret = Outcome.raised Err.exc_einval msg) := by
  have hex : ∃ r, (anneal_gsl.new (1 / 2) 1 0).mmin sample_func sample_rng sample_exp_lt
      2 1 [0] 0 = some r := by
    norm_num [anneal_gsl.mmin, anneal_state.mmin_loop, anneal_state.outer_iter,
      anneal_gsl.mmin_init, anneal_gsl.new,
      anneal_gsl.allocate, vresize, sample_func, trials_one, anneal_state.trial,
      anneal_gsl.step, anneal_gsl.step_loop, sample_rng, sample_exp_lt, anneal_gsl.next,
      anneal_gsl.next_steps, List.range_succ]
  obtain ⟨r, hr⟩ := hex
  exact ⟨r, hr, mmin_result_is_best sample_func sample_rng sample_exp_lt 2
    (anneal_gsl.new (1 / 2) 1 0) 1 [0] 0 r (by decide) hr⟩

/-- Claim C21 against the code.  The objective is called as
`new_E=func(nvar,new_x)`: it hands back its value and nothing else, so no
evaluation can signal failure and no proposed point is ignored.  A proposed
point with a value below the current one always becomes the current point, and
the best point when its value is at most the best one, wherever it lies.  On
the objective `x` from `x0 = [0]`, with the region `x >= 0` as the region where
the user function would report success, `mmin` moves to `-1`, then to `-2`,
and returns `-2`. -/
theorem mmin_no_constraint_handling :
    (∀ (func : Nat → List ℚ → ℚ) (rng : Nat → ℚ) (exp_lt : ℚ → ℚ → Bool) (nvar : Nat)
      (s : anneal_state) (new_x : List ℚ) (ctr : Nat),
      s.a.step rng s.a.x nvar s.ctr = some (new_x, ctr) → func nvar new_x < s.E →
      ∃ s1, s.trial func rng exp_lt nvar = some s1 ∧ s1.a.x = new_x ∧
        s1.E = func nvar new_x ∧ (func nvar new_x ≤ s.best_E → s1.a.best_x = new_x)) ∧
    ((anneal_gsl.new (1 / 2) 1 0).mmin sample_func_lin sample_rng sample_exp_lt 2 1 [0] 0).map
      (fun r => (r.ret, r.x0, r.fmin, r.obj.x)) =
      some (Outcome.success, [-2], -2, [-2]) ∧
    (anneal_gsl.new (1 / 2) 1 0).mmin_evals sample_func_lin sample_rng sample_exp_lt 2 1 [0]
      = [[0], [-1], [-2]] ∧
    sample_region [0] = true ∧ sample_region [-1] = false ∧ sample_region [-2] = false := by
  refine ⟨?_, ?_, ?_, ?_⟩
  · intro func rng exp_lt nvar s new_x ctr hst hlt
    unfold anneal_state.trial
    rw [hst]
    dsimp only
    by_cases hb : func nvar new_x ≤ s.best_E
    · rw [if_pos hb]
      dsimp only
      rw [if_pos hlt]
      exact ⟨_, rfl, rfl, rfl, fun _ => rfl⟩
    · rw [if_neg hb]
      dsimp only
      rw [if_pos hlt]
      exact ⟨_, rfl, rfl, rfl, fun h => absurd h hb⟩
  · norm_num [anneal_gsl.mmin, anneal_state.mmin_loop, anneal_state.outer_iter,
      anneal_gsl.mmin_init, anneal_gsl.new,
      anneal_gsl.allocate, vresize, sample_func_lin, trials_one, anneal_state.trial,
      anneal_gsl.step, anneal_gsl.step_loop, sample_rng, sample_exp_lt, anneal_gsl.next,
      anneal_gsl.next_steps, List.range_succ]
  · norm_num [anneal_gsl.mmin_evals, anneal_state.mmin_loop_evals, anneal_state.trials_evals,
      anneal_state.outer_iter,
      anneal_gsl.mmin_init, anneal_gsl.new,
      anneal_gsl.allocate, vresize, sample_func_lin, trials_one, anneal_state.trial,
      anneal_gsl.step, anneal_gsl.step_loop, sample_rng, sample_exp_lt, anneal_gsl.next,
      anneal_gsl.next_steps, List.range_succ]
  · simp [sample_region]

/-! ## C25: the bracketing search with indices of type `int` -/

/-- Up to `2^30` rows the sum `hi+lo` cannot overflow: the loop on `int` is the
loop on unbounded integers. -/
theorem interp_loop_int_eq (x : List ℚ) (xx : ℚ) :
    ∀ (fuel : Nat) (lo hi : Int), 0 ≤ lo → lo < hi → hi ≤ 1073741824 →
      interp_loop_int x xx fuel lo hi = interp_loop x xx fuel lo hi := by
  intro fuel
  induction fuel with
  | zero => intro lo hi _ _ _; rfl
  | succ f ih =>
    intro lo hi h0 h1 h2
    by_cases hg : hi - lo > 1
    · have hs : int_add hi lo = some (hi + lo) := by
        unfold int_add
        rw [if_pos ⟨by omega, by omega⟩]
      simp only [interp_loop_int, interp_loop, if_pos hg, hs]
      cases vget x ((hi + lo) / 2) with
      | none => rfl
      | some xk =>
        simp only
        split_ifs
        · exact ih lo _ h0 (by omega) (by omega)
        · exact ih _ hi (by omega) (by omega) h2
    · simp only [interp_loop_int, interp_loop, if_neg hg]

/-- Claim C25, amended.  For `n1 < n2` inside the vector and `n2 <= 2^30`
(= 1073741824, so that `hi+lo` fits the type `int`) the bracketing loop of
`interp` returns with the `n2 - n1` iterations it is given; it reads only
entries between `n1` and `n2` (vectors that agree there give the same
bracket); the bracket is `(l, l+1)` with `n1 <= l` and `l+1 <= n2`; for
`x[n1] <= xx < x[n2]` it encloses the query, `x[l] <= xx < x[l+1]`; and on a
vector that is non-decreasing between `n1` and `n2` the bracket is
`(n1, n1+1)` for `xx < x[n1]` and `(n2-1, n2)` for `xx >= x[n2]`. -/
theorem interp_bracketing (x : List ℚ) (xx : ℚ) (n1 n2 : Nat) (h1 : n1 < n2)
    (h2 : n2 < x.length) (h3 : n2 ≤ 1073741824) :
    ∃ l : Nat, interp_loop_int x xx (((n2 : Int) - (n1 : Int)).toNat) n1 n2 =
        some ((l : Int), (l : Int) + 1) ∧
      n1 ≤ l ∧ l + 1 ≤ n2 ∧
      (∀ x1 : List ℚ, n2 < x1.length → (∀ i, n1 ≤ i → i ≤ n2 → x1.getD i 0 = x.getD i 0) →
        interp_loop_int x1 xx (((n2 : Int) - (n1 : Int)).toNat) n1 n2 =
          some ((l : Int), (l : Int) + 1)) ∧
      (x.getD n1 0 ≤ xx → xx < x.getD n2 0 → x.getD l 0 ≤ xx ∧ xx < x.getD (l + 1) 0) ∧
      ((∀ i j, n1 ≤ i → i ≤ j → j ≤ n2 → x.getD i 0 ≤ x.getD j 0) →
        (xx < x.getD n1 0 → l = n1) ∧ (x.getD n2 0 ≤ xx → l + 1 = n2)) := by
  obtain ⟨l, a1, a2, a3, a4, a5, a6⟩ := interp_loop_bracket x xx n1 n2 h1 h2
  have hq : ∀ x1 : List ℚ,
      interp_loop_int x1 xx (((n2 : Int) - (n1 : Int)).toNat) n1 n2 =
        interp_loop x1 xx (((n2 : Int) - (n1 : Int)).toNat) n1 n2 :=
    fun x1 => interp_loop_int_eq x1 xx _ _ _ (by omega) (by omega) (by omega)
  refine ⟨l, ?_, a2, a3, ?_, a5, a6⟩
  · rw [hq x, a1]
  · intro x1 hx1 hag
    rw [hq x1]
    exact a4 x1 hx1 hag

/-- C25, as stated, fails for tables of more than `2^30` rows: on a vector of
`2^30 + 3` entries the call with `n1 = 2^30` and `n2 = 2^30 + 2`, both inside
the vector, computes `hi+lo = 2^31 + 2`, which does not fit the type `int`
(whose largest value is `2^31 - 1`): the loop has no defined result. -/
theorem interp_bracketing_counterexample :
    (1073741824 : Int) < 1073741826 ∧
    1073741826 < (List.replicate 1073741827 (0 : ℚ)).length ∧
    int_add 1073741826 1073741824 = none ∧
    interp_loop_int (List.replicate 1073741827 (0 : ℚ)) 0
      (((1073741826 : Int) - 1073741824).toNat) 1073741824 1073741826 = none := by
  have hs : int_add 1073741826 1073741824 = none := by
    unfold int_add
    rw [if_neg (by omega)]
  refine ⟨by omega, ?_, hs, ?_⟩
  · rw [List.length_replicate]; omega
  · have hf : ((1073741826 : Int) - 1073741824).toNat = 1 + 1 := by omega
    rw [hf, interp_loop_int, if_pos (by omega), hs]

/-- Witness for C25: the query 3 in the table `[1, 2, 4, 8]`. -/
theorem interp_bracketing_witness :
    ∃ l : Nat, interp_loop_int [1, 2, 4, 8] 3 (((3 : Nat) : Int) - ((0 : Nat) : Int)).toNat
        ((0 : Nat) : Int) ((3 : Nat) : Int) = some ((l : Int), (l : Int) + 1) ∧
      0 ≤ l ∧ l + 1 ≤ 3 ∧
      (∀ x1 : List ℚ, 3 < x1.length →
        (∀ i, 0 ≤ i → i ≤ 3 → x1.getD i 0 = ([1, 2, 4, 8] : List ℚ).getD i 0) →
        interp_loop_int x1 3 (((3 : Nat) : Int) - ((0 : Nat) : Int)).toNat
          ((0 : Nat) : Int) ((3 : Nat) : Int) = some ((l : Int), (l : Int) + 1)) ∧
      (([1, 2, 4, 8] : List ℚ).getD 0 0 ≤ 3 → 3 < ([1, 2, 4, 8] : List ℚ).getD 3 0 →
        ([1, 2, 4, 8] : List ℚ).getD l 0 ≤ 3 ∧ 3 < ([1, 2, 4, 8] : List ℚ).getD (l + 1) 0) ∧
      ((∀ i j, 0 ≤ i → i ≤ j → j ≤ 3 →
          ([1, 2, 4, 8] : List ℚ).getD i 0 ≤ ([1, 2, 4, 8] : List ℚ).getD j 0) →
        (3 < ([1, 2, 4, 8] : List ℚ).getD 0 0 → l = 0) ∧
        (([1, 2, 4, 8] : List ℚ).getD 3 0 ≤ 3 → l + 1 = 3)) :=
  interp_bracketing [1, 2, 4, 8] 3 0 3 (by decide) (by decide) (by decide)

/-! ## The rounding of the type `double` -/

/-- Zero is rounded to zero. -/
theorem fl64_zero : fl64 0 = 0 := by
  unfold fl64
  rw [if_pos rfl]

/-- The rounding to the nearest integer in terms of a known floor. -/
theorem round_half_even_of_floor (t : ℚ) (f : Int) (hf : ⌊t⌋ = f) :
    round_half_even t =
      if t - (f : ℚ) < 1 / 2 then f
      else if t - (f : ℚ) > 1 / 2 then f + 1
      else if f % 2 = 0 then f else f + 1 := by
  unfold round_half_even
  rw [hf]

/-- Rounding moves a number by at most one half. -/
theorem round_half_even_err (t : ℚ) :
    (round_half_even t : ℚ) ≤ t + 1 / 2 ∧ t - 1 / 2 ≤ (round_half_even t : ℚ) := by
  have h1 : ((⌊t⌋ : Int) : ℚ) ≤ t := Int.floor_le t
  have h2 : t < ((⌊t⌋ : Int) : ℚ) + 1 := Int.lt_floor_add_one t
  unfold round_half_even
  split_ifs with a b c
  · constructor <;> linarith
  · push_cast; constructor <;> linarith
  · constructor <;> linarith
  · push_cast; constructor <;> linarith

/-- Rounding an integer returns it. -/
theorem round_half_even_int (m : Int) : round_half_even (m : ℚ) = m := by
  unfold round_half_even
  rw [Int.floor_intCast]
  simp

/-- Rounding keeps the sign. -/
theorem round_half_even_nonpos (t : ℚ) (h : t ≤ 0) : round_half_even t ≤ 0 := by
  have h1 : ((⌊t⌋ : Int) : ℚ) ≤ t := Int.floor_le t
  have h0 : ⌊t⌋ ≤ 0 := by
    have : ((⌊t⌋ : Int) : ℚ) ≤ 0 := le_trans h1 h
    exact_mod_cast this
  unfold round_half_even
  split_ifs with a b c
  · exact h0
  · by_contra hc
    have h3 : ⌊t⌋ = 0 := by omega
    rw [h3] at b
    simp at b
    linarith
  · exact h0
  · by_contra hc
    have h3 : ⌊t⌋ = 0 := by omega
    rw [h3] at c
    simp at c

/-- Evaluation of `fl64` on a number of binary exponent `e >= -1022`. -/
theorem fl64_eq (q : ℚ) (e m : Int) (h1 : (2 : ℚ) ^ e ≤ |q|) (h2 : |q| < (2 : ℚ) ^ (e + 1))
    (he : -1022 ≤ e) (hm : round_half_even (q / (2 : ℚ) ^ (e - 52)) = m) :
    fl64 q = (m : ℚ) * (2 : ℚ) ^ (e - 52) := by
  have hpos : (0 : ℚ) < |q| := lt_of_lt_of_le (zpow_pos (by norm_num) e) h1
  have hq : q ≠ 0 := abs_pos.mp hpos
  have hlog : Int.log 2 |q| = e := by
    have a1 : e ≤ Int.log 2 |q| := (Int.zpow_le_iff_le_log (by norm_num) hpos).mp (by exact_mod_cast h1)
    have a2 : Int.log 2 |q| < e + 1 :=
      (Int.lt_zpow_iff_log_lt (by norm_num) hpos).mp (by exact_mod_cast h2)
    omega
  unfold fl64
  rw [if_neg hq, hlog, max_eq_left he, hm]

/-- Evaluation of `fl64` in the subnormal range. -/
theorem fl64_eq_subnormal (q : ℚ) (m : Int) (hq : q ≠ 0) (h2 : |q| < (2 : ℚ) ^ (-1022 : Int))
    (hm : round_half_even (q / (2 : ℚ) ^ (-1074 : Int)) = m) :
    fl64 q = (m : ℚ) * (2 : ℚ) ^ (-1074 : Int) := by
  have hpos : (0 : ℚ) < |q| := abs_pos.mpr hq
  have hlog : Int.log 2 |q| < -1022 :=
    (Int.lt_zpow_iff_log_lt (by norm_num) hpos).mp (by exact_mod_cast h2)
  unfold fl64
  rw [if_neg hq, max_eq_right (le_of_lt hlog)]
  have : (-1022 : Int) - 52 = -1074 := by norm_num
  rw [this, hm]

/-- A number that is not positive is rounded to a number that is not positive. -/
theorem fl64_nonpos (q : ℚ) (h : q ≤ 0) : fl64 q ≤ 0 := by
  unfold fl64
  split_ifs with h0
  · exact le_refl _
  · have hu : (0 : ℚ) < (2 : ℚ) ^ (max (Int.log 2 |q|) (-1022) - 52) := zpow_pos (by norm_num) _
    have ht : q / (2 : ℚ) ^ (max (Int.log 2 |q|) (-1022) - 52) ≤ 0 :=
      div_nonpos_of_nonpos_of_nonneg h (le_of_lt hu)
    have hr : ((round_half_even (q / (2 : ℚ) ^ (max (Int.log 2 |q|) (-1022) - 52)) : Int) : ℚ)
        ≤ 0 := by
      exact_mod_cast round_half_even_nonpos _ ht
    exact mul_nonpos_of_nonpos_of_nonneg hr (le_of_lt hu)

/-- Relative error of a rounding whose result is not subnormal: a result of
at least `2^-1022` exceeds the rounded number by at most the factor
`1 + 2^-52`. -/
theorem fl64_contract (q tol : ℚ) (htol : 1 / 2 ^ 1022 ≤ tol) (h : tol ≤ fl64 q) :
    fl64 q ≤ q * (1 + 1 / 2 ^ 52) := by
  have htol0 : (0 : ℚ) < tol := lt_of_lt_of_le (by positivity) htol
  have hq : 0 < q := by
    by_contra hc
    have := fl64_nonpos q (not_lt.mp hc)
    linarith
  have hq0 : q ≠ 0 := ne_of_gt hq
  have habs : |q| = q := abs_of_pos hq
  have hfl : fl64 q =
      (round_half_even (q / (2 : ℚ) ^ (max (Int.log 2 q) (-1022) - 52)) : ℚ) *
        (2 : ℚ) ^ (max (Int.log 2 q) (-1022) - 52) := by
    unfold fl64
    rw [if_neg hq0, habs]
  have hu : (0 : ℚ) < (2 : ℚ) ^ (max (Int.log 2 q) (-1022) - 52) := zpow_pos (by norm_num) _
  have herr := (round_half_even_err (q / (2 : ℚ) ^ (max (Int.log 2 q) (-1022) - 52))).1
  have hle : fl64 q ≤ q + (2 : ℚ) ^ (max (Int.log 2 q) (-1022) - 52) / 2 := by
    rw [hfl]
    calc (round_half_even (q / (2 : ℚ) ^ (max (Int.log 2 q) (-1022) - 52)) : ℚ) *
          (2 : ℚ) ^ (max (Int.log 2 q) (-1022) - 52)
        ≤ (q / (2 : ℚ) ^ (max (Int.log 2 q) (-1022) - 52) + 1 / 2) *
          (2 : ℚ) ^ (max (Int.log 2 q) (-1022) - 52) :=
          mul_le_mul_of_nonneg_right herr (le_of_lt hu)
      _ = q + (2 : ℚ) ^ (max (Int.log 2 q) (-1022) - 52) / 2 := by
          rw [add_mul, div_mul_cancel₀ _ (ne_of_gt hu)]
          ring
  by_cases hL : -1022 ≤ Int.log 2 q
  · rw [max_eq_left hL] at hle
    have h2 : (2 : ℚ) ^ (Int.log 2 q) ≤ q := Int.zpow_log_le_self (by norm_num) hq
    have h3 : (2 : ℚ) ^ (Int.log 2 q - 52) = (2 : ℚ) ^ (Int.log 2 q) / 2 ^ 52 := by
      rw [zpow_sub₀ (by norm_num)]
      norm_num
    rw [h3] at hle
    have h4 : (2 : ℚ) ^ (Int.log 2 q) / 2 ^ 52 / 2 ≤ q * (1 / 2 ^ 52) := by
      have : (0 : ℚ) < (2 : ℚ) ^ (Int.log 2 q) := zpow_pos (by norm_num) _
      calc (2 : ℚ) ^ (Int.log 2 q) / 2 ^ 52 / 2 ≤ (2 : ℚ) ^ (Int.log 2 q) / 2 ^ 52 := by
            apply div_le_self _ (by norm_num)
            positivity
        _ ≤ q / 2 ^ 52 := div_le_div_of_nonneg_right h2 (by positivity)
        _ = q * (1 / 2 ^ 52) := by ring
    linarith
  · rw [max_eq_right (le_of_lt (not_le.mp hL))] at hle
    have h3 : (2 : ℚ) ^ ((-1022 : Int) - 52) = 1 / 2 ^ 1074 := by
      have : ((-1022 : Int) - 52) = -((1074 : Nat) : Int) := by norm_num
      rw [this, zpow_neg, zpow_natCast]
      norm_num
    rw [h3] at hle
    have h5 : (1 : ℚ) / 2 ^ 1022 ≤ q + 1 / 2 ^ 1074 / 2 := by linarith
    have h6 : (1 : ℚ) / 2 ^ 1074 / 2 ≤ q * (1 / 2 ^ 52) := by
      have e1 : (1 : ℚ) / 2 ^ 1022 = 2 ^ 53 * (1 / 2 ^ 1074 / 2) := by norm_num
      have e2 : (0 : ℚ) < 1 / 2 ^ 1074 / 2 := by positivity
      rw [e1] at h5
      have h7 : (2 ^ 53 - 1) * (1 / 2 ^ 1074 / 2) ≤ q := by linarith
      have h8 : (2 : ℚ) ^ 52 * (1 / 2 ^ 1074 / 2) ≤ (2 ^ 53 - 1) * (1 / 2 ^ 1074 / 2) :=
        mul_le_mul_of_nonneg_right (by norm_num) (le_of_lt e2)
      have h9 : (2 : ℚ) ^ 52 * (1 / 2 ^ 1074 / 2) ≤ q := le_trans h8 h7
      have h10 : (1 : ℚ) / 2 ^ 1074 / 2 = (2 ^ 52 * (1 / 2 ^ 1074 / 2)) * (1 / 2 ^ 52) := by
        field_simp
      rw [h10]
      exact mul_le_mul_of_nonneg_right h9 (by positivity)
    linarith

/-- Powers of two around the quantum of a binade. -/
theorem zpow_two_split (L : Int) :
    (2 : ℚ) ^ L = 2 ^ 52 * (2 : ℚ) ^ (L - 52) ∧
    (2 : ℚ) ^ (L + 1) = 2 ^ 53 * (2 : ℚ) ^ (L - 52) ∧
    (2 : ℚ) ^ (L + 1 + 1) = 2 ^ 54 * (2 : ℚ) ^ (L - 52) ∧
    (2 : ℚ) ^ (L + 1 - 52) = 2 * (2 : ℚ) ^ (L - 52) := by
  have h2 : (2 : ℚ) ≠ 0 := by norm_num
  have e52 : (2 : ℚ) ^ (52 : Int) = 2 ^ 52 := by norm_cast
  refine ⟨?_, ?_, ?_, ?_⟩
  · rw [zpow_sub₀ h2, e52]; field_simp
  · rw [zpow_add_one₀ h2, zpow_sub₀ h2, e52]; field_simp; ring
  · rw [zpow_add_one₀ h2, zpow_add_one₀ h2, zpow_sub₀ h2, e52]; field_simp; ring
  · rw [show L + 1 - 52 = (L - 52) + 1 by ring, zpow_add_one₀ h2]; ring

/-- An integer within one half of a rational number: bounds on its absolute
value. -/
theorem abs_round_bounds (t : ℚ) :
    |(round_half_even t : ℚ)| ≤ |t| + 1 / 2 ∧
      |t| - 1 / 2 ≤ |(round_half_even t : ℚ)| := by
  obtain ⟨h1, h2⟩ := round_half_even_err t
  have h3 : |(round_half_even t : ℚ) - t| ≤ 1 / 2 := by
    rw [abs_le]; constructor <;> linarith
  constructor
  · have := abs_sub_abs_le_abs_sub (round_half_even t : ℚ) t
    linarith
  · have := abs_sub_abs_le_abs_sub t (round_half_even t : ℚ)
    rw [abs_sub_comm] at this
    linarith

/-- The result of a rounding is a `double`: rounding it again returns it. -/
theorem fl64_idem (q : ℚ) : fl64 (fl64 q) = fl64 q := by
  by_cases hq : q = 0
  · rw [hq, fl64_zero, fl64_zero]
  have hpos : 0 < |q| := abs_pos.mpr hq
  have hL1 : (2 : ℚ) ^ (Int.log 2 |q|) ≤ |q| := Int.zpow_log_le_self (by norm_num) hpos
  have hL2 : |q| < (2 : ℚ) ^ (Int.log 2 |q| + 1) := Int.lt_zpow_succ_log_self (by norm_num) _
  have hfl : fl64 q =
      (round_half_even (q / (2 : ℚ) ^ (max (Int.log 2 |q|) (-1022) - 52)) : ℚ) *
        (2 : ℚ) ^ (max (Int.log 2 |q|) (-1022) - 52) := by
    unfold fl64; rw [if_neg hq]
  generalize Int.log 2 |q| = L at hL1 hL2 hfl
  rw [hfl]
  by_cases hcase : -1022 ≤ L
  · -- normal range
    rw [max_eq_left hcase]
    obtain ⟨z1, z2, z3, z4⟩ := zpow_two_split L
    have hu : (0 : ℚ) < (2 : ℚ) ^ (L - 52) := zpow_pos (by norm_num) _
    obtain ⟨b1, b2⟩ := abs_round_bounds (q / (2 : ℚ) ^ (L - 52))
    have ht : |q / (2 : ℚ) ^ (L - 52)| = |q| / (2 : ℚ) ^ (L - 52) := by
      rw [abs_div, abs_of_pos hu]
    rw [ht] at b1 b2
    have t1 : (2 : ℚ) ^ 52 ≤ |q| / (2 : ℚ) ^ (L - 52) := by rw [le_div_iff₀ hu]; linarith
    have t2 : |q| / (2 : ℚ) ^ (L - 52) < 2 ^ 53 := by rw [div_lt_iff₀ hu]; linarith
    generalize round_half_even (q / (2 : ℚ) ^ (L - 52)) = m at b1 b2 ⊢
    have m1 : (2 : Int) ^ 52 ≤ |m| := by
      have : (((2 : Int) ^ 52 - 1 : Int) : ℚ) < ((|m| : Int) : ℚ) := by
        rw [Int.cast_abs]; push_cast; linarith
      have := Int.cast_lt.mp this
      omega
    have m2 : |m| ≤ (2 : Int) ^ 53 := by
      have : ((|m| : Int) : ℚ) < (((2 : Int) ^ 53 + 1 : Int) : ℚ) := by
        rw [Int.cast_abs]; push_cast; linarith
      have := Int.cast_lt.mp this
      omega
    have hr : |(m : ℚ) * (2 : ℚ) ^ (L - 52)| = ((|m| : Int) : ℚ) * (2 : ℚ) ^ (L - 52) := by
      rw [abs_mul, abs_of_pos hu, Int.cast_abs]
    have c2 : (2 : ℚ) ^ 52 ≤ ((|m| : Int) : ℚ) := by exact_mod_cast m1
    by_cases hm53 : |m| < (2 : Int) ^ 53
    · have c1 : ((|m| : Int) : ℚ) < 2 ^ 53 := by exact_mod_cast hm53
      exact fl64_eq ((m : ℚ) * (2 : ℚ) ^ (L - 52)) L m
        (by rw [hr, z1]; exact mul_le_mul_of_nonneg_right c2 (le_of_lt hu))
        (by rw [hr, z2]; exact mul_lt_mul_of_pos_right c1 hu) hcase
        (by rw [mul_div_cancel_right₀ _ (ne_of_gt hu)]; exact round_half_even_int m)
    · have hm : |m| = (2 : Int) ^ 53 := by omega
      have c3 : ((|m| : Int) : ℚ) = 2 ^ 53 := by rw [hm]; norm_num
      obtain ⟨m', hm'⟩ : ∃ m' : Int, m = 2 * m' := by
        rcases abs_eq (by norm_num : (0 : Int) ≤ 2 ^ 53) |>.mp hm with h | h
        · exact ⟨2 ^ 52, by rw [h]; norm_num⟩
        · exact ⟨-2 ^ 52, by rw [h]; norm_num⟩
      have hmq : (m : ℚ) = 2 * (m' : ℚ) := by rw [hm']; push_cast; ring
      have := fl64_eq ((m : ℚ) * (2 : ℚ) ^ (L - 52)) (L + 1) m'
        (by rw [hr, z2, c3])
        (by rw [hr, z3, c3]; exact mul_lt_mul_of_pos_right (by norm_num) hu) (by omega)
        (by
          have h2u : (2 * (2 : ℚ) ^ (L - 52)) ≠ 0 := ne_of_gt (by positivity)
          rw [z4, hmq, show 2 * (m' : ℚ) * (2 : ℚ) ^ (L - 52) =
            (m' : ℚ) * (2 * (2 : ℚ) ^ (L - 52)) by ring, mul_div_cancel_right₀ _ h2u]
          exact round_half_even_int m')
      rw [this, z4, hmq]; ring
  · -- subnormal range
    have hL : L < -1022 := not_le.mp hcase
    rw [max_eq_right (le_of_lt hL)]
    have e74 : ((-1022 : Int) - 52) = -1074 := by norm_num
    rw [e74]
    have hu : (0 : ℚ) < (2 : ℚ) ^ (-1074 : Int) := zpow_pos (by norm_num) _
    obtain ⟨z1, z2, _, _⟩ := zpow_two_split (-1022)
    rw [e74] at z1 z2
    have hq2 : |q| < (2 : ℚ) ^ (-1022 : Int) :=
      lt_of_lt_of_le hL2 (zpow_le_zpow_right₀ (by norm_num) (by omega))
    obtain ⟨b1, b2⟩ := abs_round_bounds (q / (2 : ℚ) ^ (-1074 : Int))
    have ht : |q / (2 : ℚ) ^ (-1074 : Int)| = |q| / (2 : ℚ) ^ (-1074 : Int) := by
      rw [abs_div, abs_of_pos hu]
    rw [ht] at b1 b2
    have t2 : |q| / (2 : ℚ) ^ (-1074 : Int) < 2 ^ 52 := by rw [div_lt_iff₀ hu]; linarith
    generalize round_half_even (q / (2 : ℚ) ^ (-1074 : Int)) = m at b1 b2 ⊢
    have m2 : |m| ≤ (2 : Int) ^ 52 := by
      have : ((|m| : Int) : ℚ) < (((2 : Int) ^ 52 + 1 : Int) : ℚ) := by
        rw [Int.cast_abs]; push_cast; linarith
      have := Int.cast_lt.mp this
      omega
    have hr : |(m : ℚ) * (2 : ℚ) ^ (-1074 : Int)| =
        ((|m| : Int) : ℚ) * (2 : ℚ) ^ (-1074 : Int) := by
      rw [abs_mul, abs_of_pos hu, Int.cast_abs]
    by_cases hm0 : m = 0
    · rw [hm0]; simp [fl64_zero]
    by_cases hm52 : |m| < (2 : Int) ^ 52
    · have c1 : ((|m| : Int) : ℚ) < 2 ^ 52 := by exact_mod_cast hm52
      exact fl64_eq_subnormal ((m : ℚ) * (2 : ℚ) ^ (-1074 : Int)) m
        (mul_ne_zero (by exact_mod_cast hm0) (ne_of_gt hu))
        (by rw [hr, z1]; exact mul_lt_mul_of_pos_right c1 hu)
        (by rw [mul_div_cancel_right₀ _ (ne_of_gt hu)]; exact round_half_even_int m)
    · have hm : |m| = (2 : Int) ^ 52 := by omega
      have c3 : ((|m| : Int) : ℚ) = 2 ^ 52 := by rw [hm]; norm_num
      have := fl64_eq ((m : ℚ) * (2 : ℚ) ^ (-1074 : Int)) (-1022) m
        (by rw [hr, z1, c3])
        (by rw [hr, z2, c3]; exact mul_lt_mul_of_pos_right (by norm_num) hu) (le_refl _)
        (by rw [e74, mul_div_cancel_right₀ _ (ne_of_gt hu)]; exact round_half_even_int m)
      rw [this, e74]

/-- Every `double` is a multiple of `2^-1074`. -/
theorem fl64_grid (q : ℚ) : ∃ j : Int, fl64 q = (j : ℚ) * (2 : ℚ) ^ (-1074 : Int) := by
  by_cases hq : q = 0
  · exact ⟨0, by rw [hq, fl64_zero]; simp⟩
  · unfold fl64
    rw [if_neg hq]
    have he : (-1022 : Int) ≤ max (Int.log 2 |q|) (-1022) := le_max_right _ _
    generalize max (Int.log 2 |q|) (-1022) = e at he
    obtain ⟨n, hn⟩ : ∃ n : Nat, e - 52 = (n : Int) + (-1074) := ⟨(e + 1022).toNat, by omega⟩
    refine ⟨round_half_even (q / (2 : ℚ) ^ (e - 52)) * 2 ^ n, ?_⟩
    rw [hn, zpow_add₀ (by norm_num), zpow_natCast]
    push_cast
    ring

/-- A number of absolute value at least `2^-1074` is not rounded to zero. -/
theorem fl64_ne_zero (q : ℚ) (h : (2 : ℚ) ^ (-1074 : Int) ≤ |q|) : fl64 q ≠ 0 := by
  have hg : (0 : ℚ) < (2 : ℚ) ^ (-1074 : Int) := zpow_pos (by norm_num) _
  have hpos : 0 < |q| := lt_of_lt_of_le hg h
  have hq : q ≠ 0 := abs_pos.mp hpos
  have hL1 : (2 : ℚ) ^ (Int.log 2 |q|) ≤ |q| := Int.zpow_log_le_self (by norm_num) hpos
  unfold fl64
  rw [if_neg hq]
  generalize Int.log 2 |q| = L at hL1
  have hu : (0 : ℚ) < (2 : ℚ) ^ (max L (-1022) - 52) := zpow_pos (by norm_num) _
  have hule : (2 : ℚ) ^ (max L (-1022) - 52) ≤ |q| := by
    by_cases hc : -1022 ≤ L
    · rw [max_eq_left hc]
      exact le_trans (zpow_le_zpow_right₀ (by norm_num) (by omega)) hL1
    · rw [max_eq_right (le_of_lt (not_le.mp hc))]
      exact h
  obtain ⟨_, b2⟩ := abs_round_bounds (q / (2 : ℚ) ^ (max L (-1022) - 52))
  have ht : (1 : ℚ) ≤ |q / (2 : ℚ) ^ (max L (-1022) - 52)| := by
    rw [abs_div, abs_of_pos hu, le_div_iff₀ hu, one_mul]
    exact hule
  intro h0
  rcases mul_eq_zero.mp h0 with h1 | h1
  · rw [h1] at b2
    simp at b2
    linarith
  · exact absurd h1 (ne_of_gt hu)

/-- The difference of two different `double`s is not rounded to zero. -/
theorem fl64_sub_ne_zero (a b : ℚ) (ha : fl64 a = a) (hb : fl64 b = b) (hab : a ≠ b) :
    fl64 (a - b) ≠ 0 := by
  obtain ⟨ja, hja⟩ := fl64_grid a
  obtain ⟨jb, hjb⟩ := fl64_grid b
  rw [ha] at hja
  rw [hb] at hjb
  have hg : (0 : ℚ) < (2 : ℚ) ^ (-1074 : Int) := zpow_pos (by norm_num) _
  apply fl64_ne_zero
  have hj : ja ≠ jb := by
    intro h; apply hab; rw [hja, hjb, h]
  have h1 : (1 : ℚ) ≤ |((ja - jb : Int) : ℚ)| := by
    have : (1 : Int) ≤ |ja - jb| := Int.one_le_abs (sub_ne_zero.mpr hj)
    rw [← Int.cast_abs]
    exact_mod_cast this
  have hq : a - b = ((ja - jb : Int) : ℚ) * (2 : ℚ) ^ (-1074 : Int) := by
    rw [hja, hjb]; push_cast; ring
  rw [hq, abs_mul, abs_of_pos hg]
  calc (2 : ℚ) ^ (-1074 : Int) = 1 * (2 : ℚ) ^ (-1074 : Int) := (one_mul _).symm
    _ ≤ |((ja - jb : Int) : ℚ)| * (2 : ℚ) ^ (-1074 : Int) :=
      mul_le_mul_of_nonneg_right h1 (le_of_lt hg)

/-- The finite range of the arithmetic of `double`. -/
theorem double_fin_iff (v : ℚ) : double_arith.fin v = true ↔ |v| < 2 ^ 1024 := by
  unfold double_arith
  exact decide_eq_true_iff

/-- The arithmetic of `double` satisfies the laws. -/
theorem double_arith_laws : double_arith.laws := by
  refine ⟨?_, ?_, ?_, ?_, ?_, ?_⟩
  · intro a; show fl64 (a - a) = 0; rw [sub_self, fl64_zero]
  · intro d _; show fl64 (0 / d) = 0; rw [zero_div, fl64_zero]
  · intro z; show fl64 (0 * z) = 0; rw [zero_mul, fl64_zero]
  · rw [double_fin_iff, abs_zero]
    positivity
  · intro a b hf
    refine ⟨?_, hf⟩
    show fl64 (fl64 (a * b) + 0) = fl64 (a * b)
    rw [add_zero, fl64_idem]
  · intro a b ha hb hab
    have ha1 : fl64 a = a := by have : fl64 (a + 0) = a := ha.1; rwa [add_zero] at this
    have hb1 : fl64 b = b := by have : fl64 (b + 0) = b := hb.1; rwa [add_zero] at this
    exact fl64_sub_ne_zero a b ha1 hb1 hab

/-- Arithmetic without rounding satisfies the laws. -/
theorem exact_arith_laws : exact_arith.laws := by
  refine ⟨?_, ?_, ?_, rfl, ?_, ?_⟩
  · intro a; show a - a = 0; ring
  · intro d _; show (0 : ℚ) / d = 0; simp
  · intro z; show (0 : ℚ) * z = 0; ring
  · intro a b _; exact ⟨by show a * b + 0 = a * b; ring, rfl⟩
  · intro a b _ _ hab; exact sub_ne_zero.mpr hab

/-- In the arithmetic of `double` the representable numbers are the fixed
points of the rounding below `2^1024`. -/
theorem double_rep_iff (v : ℚ) : double_arith.rep v ↔ fl64 v = v ∧ |v| < 2 ^ 1024 := by
  unfold Arith.rep
  rw [double_fin_iff]
  show (fl64 (v + 0) = v ∧ _) ↔ _
  rw [add_zero]

/-- A checked operation on operands and a result in the finite range returns
the result. -/
theorem chk_some (A : Arith) (a b r : ℚ) (ha : A.fin a = true) (hb : A.fin b = true)
    (hr : A.fin r = true) : A.chk a b r = some r := by
  unfold Arith.chk
  rw [if_pos ⟨ha, hb, hr⟩]

/-- A checked operation that returns has its operands and its result in the
finite range. -/
theorem chk_eq_some (A : Arith) (a b r v : ℚ) (h : A.chk a b r = some v) :
    v = r ∧ A.fin a = true ∧ A.fin b = true ∧ A.fin r = true := by
  unfold Arith.chk at h
  split_ifs at h with hc
  exact ⟨(Option.some.inj h).symm, hc⟩

/-! ## C19: the temperature schedule in the arithmetic of `double` -/

/-- With a non-empty `step_vec` the loop of `step` returns. -/
theorem step_loop_fl_some (A : Arith) (a : anneal_gsl) (rng : Nat → ℚ) (h : a.step_vec ≠ []) :
    ∀ (l : List Nat) (sx : List ℚ) (ctr : Nat), ∃ r, a.step_loop_fl A rng l sx ctr = some r := by
  have h0 : ¬ a.step_vec.length = 0 := by
    intro h1; exact h (List.length_eq_zero.mp h1)
  intro l
  induction l with
  | nil => intro sx ctr; exact ⟨_, rfl⟩
  | cons i rest ih =>
    intro sx ctr
    rw [anneal_gsl.step_loop_fl, if_neg h0]
    exact ih _ _

/-- One trial step returns and leaves the settings and the temperature alone. -/
theorem trial_fl_spec (A : Arith) (func : Nat → List ℚ → ℚ) (rng : Nat → ℚ)
    (exp_lt : ℚ → ℚ → Bool) (nvar : Nat) (s : anneal_state) (h : s.a.step_vec ≠ []) :
    ∃ s1, s.trial_fl A func rng exp_lt nvar = some s1 ∧ s.same_settings s1 := by
  obtain ⟨⟨new_x, ctr⟩, hr⟩ := step_loop_fl_some A s.a rng h (List.range nvar) s.a.x s.ctr
  unfold anneal_state.trial_fl anneal_gsl.step_fl
  rw [hr]
  dsimp only
  split_ifs <;> exact ⟨_, rfl, ⟨rfl, rfl, rfl, rfl, rfl, rfl, rfl, rfl, rfl, rfl⟩⟩

/-- The trial steps of one iteration return and leave the settings and the
temperature alone. -/
theorem trials_fl_spec (A : Arith) (func : Nat → List ℚ → ℚ) (rng : Nat → ℚ)
    (exp_lt : ℚ → ℚ → Bool) (nvar : Nat) : ∀ (n : Nat) (s : anneal_state),
    s.a.step_vec ≠ [] →
    ∃ s1, anneal_state.trials_fl A func rng exp_lt nvar n s = some s1 ∧ s.same_settings s1 := by
  intro n
  induction n with
  | zero =>
    intro s _
    exact ⟨s, rfl, ⟨rfl, rfl, rfl, rfl, rfl, rfl, rfl, rfl, rfl, rfl⟩⟩
  | succ n ih =>
    intro s h
    obtain ⟨s1, e1, f1⟩ := trial_fl_spec A func rng exp_lt nvar s h
    have h1 : s1.a.step_vec ≠ [] := by rw [f1.1]; exact h
    obtain ⟨s2, e2, f2⟩ := ih s1 h1
    refine ⟨s2, ?_, ?_⟩
    · rw [anneal_state.trials_fl, e1]; exact e2
    · obtain ⟨a1, a2, a3, a4, a5, a6, a7, a8, a9, a10⟩ := f1
      obtain ⟨c1, c2, c3, c4, c5, c6, c7, c8, c9, c10⟩ := f2
      exact ⟨c1.trans a1, c2.trans a2, c3.trans a3, c4.trans a4, c5.trans a5, c6.trans a6,
        c7.trans a7, c8.trans a8, c9.trans a9, c10.trans a10⟩

/-- The step-size update keeps the number of step sizes. -/
theorem next_steps_fl_length (A : Arith) (a : anneal_gsl) (nvar : Nat) :
    ∀ (l : List ℚ) (i : Nat), (a.next_steps_fl A nvar i l).length = l.length := by
  intro l
  induction l with
  | nil => intro i; rfl
  | cons st rest ih => intro i; simp [anneal_gsl.next_steps_fl, ih]

/-- One iteration of the outer loop returns; it is the last exactly when the
computed `T/T_dec` is below `tol_abs`, otherwise the temperature becomes the
computed `T/T_dec`. -/
theorem outer_iter_fl_spec (A : Arith) (func : Nat → List ℚ → ℚ) (rng : Nat → ℚ)
    (exp_lt : ℚ → ℚ → Bool) (nvar : Nat) (s : anneal_state) (h : s.a.step_vec ≠ []) :
    ∃ s1, s.outer_iter_fl A func rng exp_lt nvar =
        some (s1, decide (A.div s.T s.a.T_dec < s.a.tol_abs)) ∧
      s1.a.T_dec = s.a.T_dec ∧ s1.a.tol_abs = s.a.tol_abs ∧ s1.a.step_vec ≠ [] ∧
      s1.T = (if A.div s.T s.a.T_dec < s.a.tol_abs then s.T else A.div s.T s.a.T_dec) := by
  obtain ⟨s2, e2, f2⟩ := trials_fl_spec A func rng exp_lt nvar s.a.ntrial.toNat
    { s with a := { s.a with old_x := s.a.x }, old_E := s.E, nmoves := 0 } h
  obtain ⟨c1, c2, c3, c4, c5, c6, c7, c8, c9, c10⟩ := f2
  dsimp only at c1 c2 c3 c4 c5 c6 c7 c8 c9 c10
  have hne : s2.a.step_vec ≠ [] := by rw [c1]; exact h
  have hne2 : s2.a.next_steps_fl A nvar 0 s2.a.step_vec ≠ [] := by
    intro h0
    have hl := next_steps_fl_length A s2.a nvar s2.a.step_vec 0
    rw [h0] at hl
    exact hne (List.length_eq_zero.mp hl.symm)
  unfold anneal_state.outer_iter_fl
  dsimp only
  rw [e2]
  dsimp only
  by_cases hv : s2.a.verbose > 0 <;> by_cases ht : A.div s.T s.a.T_dec < s.a.tol_abs <;>
    by_cases hm : s2.nmoves = 0 <;>
    simp only [hv, if_true, if_false, anneal_gsl.next_fl, c3, c6, c10, ht, hm, decide_True,
      decide_False] <;>
    exact ⟨_, rfl, by simp [c3], by simp [c6], by simpa using (by first | exact hne | exact hne2),
      by simp [c10]⟩

/-- The temperatures from the second one on are the temperatures started at
the second one. -/
theorem temp_seq_shift (A : Arith) (T d : ℚ) :
    ∀ k : Nat, temp_seq A (A.div T d) d k = temp_seq A T d (k + 1) := by
  intro k
  induction k with
  | zero => rfl
  | succ k ih => rw [temp_seq, ih]; rfl

/-- If the computed `T/T_dec` is `T` again, every temperature is `T`. -/
theorem temp_seq_fix (A : Arith) (T d : ℚ) (h : A.div T d = T) :
    ∀ k : Nat, temp_seq A T d k = T := by
  intro k
  induction k with
  | zero => rfl
  | succ k ih => rw [temp_seq, ih, h]

/-- Without rounding the temperature of iteration `k` is `T_start / T_dec^k`. -/
theorem temp_seq_exact (T d : ℚ) : ∀ k : Nat, temp_seq exact_arith T d k = T / d ^ k := by
  intro k
  induction k with
  | zero => simp [temp_seq]
  | succ k ih =>
    rw [temp_seq, ih]
    show T / d ^ k / d = T / d ^ (k + 1)
    rw [div_div, pow_succ]

/-- If every division that does not end the loop lowers the temperature by the
factor `c < 1` at least, there is a first iteration whose computed `T/T_dec` is
below `tol_abs`. -/
theorem exists_stop_fl (A : Arith) (T d tol c : ℚ) (hc0 : 0 ≤ c) (hc1 : c < 1)
    (htol : 0 < tol) (hdiv : ∀ t, tol ≤ A.div t d → A.div t d ≤ c * t) :
    ∃ K : Nat, A.div (temp_seq A T d K) d < tol ∧
      ∀ k < K, ¬ A.div (temp_seq A T d k) d < tol := by
  have hex : ∃ K : Nat, A.div (temp_seq A T d K) d < tol := by
    by_contra hno
    have hall : ∀ k, tol ≤ temp_seq A T d (k + 1) := by
      intro k
      by_contra hk
      exact hno ⟨k, not_le.mp hk⟩
    have hgeo : ∀ k, temp_seq A T d (k + 1) ≤ c ^ k * temp_seq A T d 1 := by
      intro k
      induction k with
      | zero => simp
      | succ k ih =>
        have h1 : temp_seq A T d (k + 1 + 1) ≤ c * temp_seq A T d (k + 1) :=
          hdiv _ (hall (k + 1))
        calc temp_seq A T d (k + 1 + 1) ≤ c * temp_seq A T d (k + 1) := h1
          _ ≤ c * (c ^ k * temp_seq A T d 1) := mul_le_mul_of_nonneg_left ih hc0
          _ = c ^ (k + 1) * temp_seq A T d 1 := by ring
    have h1pos : 0 < temp_seq A T d 1 := lt_of_lt_of_le htol (hall 0)
    obtain ⟨n, hn⟩ := exists_pow_lt_of_lt_one (div_pos htol h1pos) hc1
    have h2 : c ^ n * temp_seq A T d 1 < tol := by
      rw [lt_div_iff₀ h1pos] at hn
      exact hn
    exact absurd (le_trans (hall n) (hgeo n)) (not_le.mpr h2)
  classical
  exact ⟨Nat.find hex, Nat.find_spec hex, fun k hk => Nat.find_min hex hk⟩

/-- The outer loop started at temperature `T`, when `K` is the first iteration
whose computed `T/T_dec` is below `tol_abs`, returns with any fuel of at least
`K+1` and has run exactly the iterations `0..K`, iteration `k` at the `k`-th
computed temperature. -/
theorem mmin_loop_fl_schedule (A : Arith) (func : Nat → List ℚ → ℚ) (rng : Nat → ℚ)
    (exp_lt : ℚ → ℚ → Bool) (nvar : Nat) (d tol : ℚ) :
    ∀ (K : Nat) (s : anneal_state) (temps : List ℚ) (fuel : Nat),
      s.a.T_dec = d → s.a.tol_abs = tol → s.a.step_vec ≠ [] →
      A.div (temp_seq A s.T d K) d < tol →
      (∀ k < K, ¬ A.div (temp_seq A s.T d k) d < tol) → K + 1 ≤ fuel →
      ∃ s1, anneal_state.mmin_loop_fl A func rng exp_lt nvar fuel s temps =
        some (s1, temps ++ (List.range (K + 1)).map (fun k => temp_seq A s.T d k)) := by
  intro K
  induction K with
  | zero =>
    intro s temps fuel hd htol hs hstop _ hfuel
    obtain ⟨s1, e1, _⟩ := outer_iter_fl_spec A func rng exp_lt nvar s hs
    obtain ⟨f, rfl⟩ : ∃ f, fuel = f + 1 := ⟨fuel - 1, by omega⟩
    have ht : A.div s.T s.a.T_dec < s.a.tol_abs := by rw [hd, htol]; exact hstop
    rw [anneal_state.mmin_loop_fl, e1]
    simp [ht, List.range_succ, temp_seq]
  | succ K ih =>
    intro s temps fuel hd htol hs hstop hmin hfuel
    obtain ⟨s1, e1, c1, c2, c3, c4⟩ := outer_iter_fl_spec A func rng exp_lt nvar s hs
    obtain ⟨f, rfl⟩ : ∃ f, fuel = f + 1 := ⟨fuel - 1, by omega⟩
    have ht : ¬ A.div s.T s.a.T_dec < s.a.tol_abs := by
      rw [hd, htol]; exact hmin 0 (Nat.succ_pos K)
    rw [if_neg ht, hd] at c4
    have hT : ∀ k : Nat, temp_seq A s1.T d k = temp_seq A s.T d (k + 1) := by
      intro k; rw [c4]; exact temp_seq_shift A s.T d k
    obtain ⟨s2, e2⟩ := ih s1 (temps ++ [s.T]) f (c1.trans hd) (c2.trans htol) c3
      (by rw [hT]; exact hstop) (fun k hk => by rw [hT]; exact hmin (k + 1) (by omega))
      (by omega)
    refine ⟨s2, ?_⟩
    rw [anneal_state.mmin_loop_fl, e1]
    simp only [ht, decide_False, Bool.false_eq_true, if_false]
    rw [e2, List.range_succ_eq_map (K + 1)]
    simp [hT, Function.comp, temp_seq]

/-- If the computed `T/T_dec` is `T` again and `T` is not below `tol_abs`, the
outer loop started at `T` is still running after any number of iterations. -/
theorem mmin_loop_fl_stall (A : Arith) (func : Nat → List ℚ → ℚ) (rng : Nat → ℚ)
    (exp_lt : ℚ → ℚ → Bool) (nvar : Nat) (T d tol : ℚ) (hfix : A.div T d = T)
    (hge : ¬ T < tol) :
    ∀ (fuel : Nat) (s : anneal_state) (temps : List ℚ),
      s.a.T_dec = d → s.a.tol_abs = tol → s.a.step_vec ≠ [] → s.T = T →
      anneal_state.mmin_loop_fl A func rng exp_lt nvar fuel s temps = none := by
  intro fuel
  induction fuel with
  | zero => intro s temps _ _ _ _; rfl
  | succ f ih =>
    intro s temps hd htol hs hT
    obtain ⟨s1, e1, c1, c2, c3, c4⟩ := outer_iter_fl_spec A func rng exp_lt nvar s hs
    have ht : ¬ A.div s.T s.a.T_dec < s.a.tol_abs := by rw [hd, htol, hT, hfix]; exact hge
    rw [if_neg ht, hd, hT, hfix] at c4
    rw [anneal_state.mmin_loop_fl, e1]
    simp only [ht, decide_False, Bool.false_eq_true, if_false]
    exact ih s1 _ (c1.trans hd) (c2.trans htol) c3 c4

/-- The smallest positive `double`, `2^-1074`, is a `double`. -/
theorem fl64_tiny : fl64 (1 / 2 ^ 1074) = 1 / 2 ^ 1074 := by
  have hz : (2 : ℚ) ^ (-1074 : Int) = 1 / 2 ^ 1074 := by
    have : (-1074 : Int) = -((1074 : Nat) : Int) := by norm_num
    rw [this, zpow_neg, zpow_natCast]
    norm_num
  have hz2 : (2 : ℚ) ^ (-1022 : Int) = 1 / 2 ^ 1022 := by
    have : (-1022 : Int) = -((1022 : Nat) : Int) := by norm_num
    rw [this, zpow_neg, zpow_natCast]
    norm_num
  have hr : round_half_even ((1 : ℚ) / 2 ^ 1074 / (2 : ℚ) ^ (-1074 : Int)) = 1 := by
    have ht : (1 : ℚ) / 2 ^ 1074 / (2 : ℚ) ^ (-1074 : Int) = ((1 : Int) : ℚ) := by
      rw [hz]; norm_num
    rw [ht, round_half_even_int]
  have h := fl64_eq_subnormal (1 / 2 ^ 1074) 1 (by norm_num)
    (by rw [hz2, abs_of_pos (by positivity)]; norm_num) hr
  rw [h, hz]
  norm_num

/-- The smallest positive `double` divided by 1.5 is rounded back to itself. -/
theorem fl64_tiny_div : fl64 (1 / 2 ^ 1074 / (3 / 2)) = 1 / 2 ^ 1074 := by
  have hz : (2 : ℚ) ^ (-1074 : Int) = 1 / 2 ^ 1074 := by
    have : (-1074 : Int) = -((1074 : Nat) : Int) := by norm_num
    rw [this, zpow_neg, zpow_natCast]
    norm_num
  have hz2 : (2 : ℚ) ^ (-1022 : Int) = 1 / 2 ^ 1022 := by
    have : (-1022 : Int) = -((1022 : Nat) : Int) := by norm_num
    rw [this, zpow_neg, zpow_natCast]
    norm_num
  have hr : round_half_even ((1 : ℚ) / 2 ^ 1074 / (3 / 2) / (2 : ℚ) ^ (-1074 : Int)) = 1 := by
    have ht : (1 : ℚ) / 2 ^ 1074 / (3 / 2) / (2 : ℚ) ^ (-1074 : Int) = 2 / 3 := by
      rw [hz]; norm_num
    rw [ht, round_half_even_of_floor (2 / 3) 0 (by norm_num [Int.floor_eq_iff])]
    norm_num
  have h := fl64_eq_subnormal (1 / 2 ^ 1074 / (3 / 2)) 1 (by norm_num)
    (by rw [hz2, abs_of_pos (by positivity)]; norm_num) hr
  rw [h, hz]
  norm_num

/-- Claim C19, amended.  In the arithmetic of `double`, for `T_dec > 1 + 2^-52`
and `tol_abs >= 2^-1022` (the smallest normal `double`), and a call that
reaches the loop (`nvar > 0`, `x0` of at least `nvar` entries, a non-empty
`step_vec`): with `t_0 = T_start` and `t_(k+1)` the computed quotient
`t_k / T_dec`, there is a first `K` with computed `t_K / T_dec < tol_abs`;
`mmin` returns with success for every fuel of at least `K+1` after having run
exactly the iterations `k = 0..K`, iteration `k` at temperature `t_k`; every
iteration other than the first ran at a temperature of at least `tol_abs`.
Without rounding `t_k` is `T_start / T_dec^k`. -/
theorem mmin_temperature_schedule (func : Nat → List ℚ → ℚ) (rng : Nat → ℚ)
    (exp_lt : ℚ → ℚ → Bool) (a : anneal_gsl) (nvar : Nat) (x0 : List ℚ) (fmin : ℚ)
    (hd : 1 + 1 / 2 ^ 52 < a.T_dec) (htol : 1 / 2 ^ 1022 ≤ a.tol_abs) (hn : nvar ≠ 0)
    (hx : nvar ≤ x0.length) (hs : a.step_vec ≠ []) :
    ∃ K : Nat,
      double_arith.div (temp_seq double_arith a.T_start a.T_dec K) a.T_dec < a.tol_abs ∧
      (∀ k < K,
        ¬ double_arith.div (temp_seq double_arith a.T_start a.T_dec k) a.T_dec < a.tol_abs) ∧
      (∀ k, 1 ≤ k → k ≤ K → a.tol_abs ≤ temp_seq double_arith a.T_start a.T_dec k) ∧
      (∀ fuel, K + 1 ≤ fuel →
        ∃ r, a.mmin_fl double_arith func rng exp_lt fuel nvar x0 fmin = some r ∧
          r.ret = Outcome.success ∧
          r.temps = (List.range (K + 1)).map
            (fun k => temp_seq double_arith a.T_start a.T_dec k)) ∧
      ∀ k, temp_seq exact_arith a.T_start a.T_dec k = a.T_start / a.T_dec ^ k := by
  have hd0 : (0 : ℚ) < a.T_dec := lt_trans (by positivity) hd
  have htol0 : (0 : ℚ) < a.tol_abs := lt_of_lt_of_le (by positivity) htol
  have hc0 : (0 : ℚ) ≤ (1 + 1 / 2 ^ 52) / a.T_dec := le_of_lt (div_pos (by positivity) hd0)
  have hc1 : (1 + 1 / 2 ^ 52) / a.T_dec < 1 := by rw [div_lt_one hd0]; exact hd
  have hdiv : ∀ t, a.tol_abs ≤ double_arith.div t a.T_dec →
      double_arith.div t a.T_dec ≤ (1 + 1 / 2 ^ 52) / a.T_dec * t := by
    intro t ht
    have := fl64_contract (t / a.T_dec) a.tol_abs htol ht
    calc double_arith.div t a.T_dec ≤ t / a.T_dec * (1 + 1 / 2 ^ 52) := this
      _ = (1 + 1 / 2 ^ 52) / a.T_dec * t := by ring
  obtain ⟨K, hK, hmin⟩ := exists_stop_fl double_arith a.T_start a.T_dec a.tol_abs _ hc0 hc1
    htol0 hdiv
  refine ⟨K, hK, hmin, ?_, ?_, temp_seq_exact a.T_start a.T_dec⟩
  · intro k h1 h2
    obtain ⟨j, rfl⟩ : ∃ j, k = j + 1 := ⟨k - 1, by omega⟩
    exact not_lt.mp (hmin j (by omega))
  · intro fuel hfuel
    obtain ⟨s1, e1⟩ := mmin_loop_fl_schedule double_arith func rng exp_lt nvar a.T_dec
      a.tol_abs K (a.mmin_init func nvar x0) [] fuel rfl rfl hs hK hmin hfuel
    have hx1 : ¬ x0.length < nvar := not_lt.mpr hx
    rw [anneal_gsl.mmin_fl, if_neg hn, if_neg hx1, e1]
    exact ⟨_, rfl, rfl, by simp [anneal_gsl.mmin_init, anneal_gsl.allocate]⟩

/-- Counterexample for C19 as stated.  With `T_start = tol_abs = 2^-1074` (the
smallest positive `double`) and the default `T_dec = 1.5`, all within
`T_start > 0`, `T_dec > 1`, `tol_abs > 0`, the computed `T/T_dec` is
`2^-1074` again, which is not below `tol_abs`: the temperature never changes
and `mmin` is still running after any number of iterations. -/
theorem mmin_never_stops_counterexample :
    0 < sample_anneal_tiny.T_start ∧ 1 < sample_anneal_tiny.T_dec ∧
    0 < sample_anneal_tiny.tol_abs ∧
    double_arith.rep sample_anneal_tiny.T_start ∧
    double_arith.div sample_anneal_tiny.T_start sample_anneal_tiny.T_dec =
      sample_anneal_tiny.T_start ∧
    ¬ sample_anneal_tiny.T_start < sample_anneal_tiny.tol_abs ∧
    (∀ k, temp_seq double_arith sample_anneal_tiny.T_start sample_anneal_tiny.T_dec k =
      sample_anneal_tiny.T_start) ∧
    (∀ k, ¬ double_arith.div
      (temp_seq double_arith sample_anneal_tiny.T_start sample_anneal_tiny.T_dec k)
      sample_anneal_tiny.T_dec < sample_anneal_tiny.tol_abs) ∧
    ∀ fuel, sample_anneal_tiny.mmin_fl double_arith sample_func sample_rng sample_exp_lt
      fuel 1 [0] 0 = none := by
  have hfix : double_arith.div (1 / 2 ^ 1074) (3 / 2) = 1 / 2 ^ 1074 := fl64_tiny_div
  have hseq := temp_seq_fix double_arith (1 / 2 ^ 1074) (3 / 2) hfix
  have hrep : double_arith.rep (1 / 2 ^ 1074) := by
    rw [double_rep_iff]
    refine ⟨fl64_tiny, ?_⟩
    rw [abs_of_pos (by positivity)]
    exact lt_of_le_of_lt (b := 1) (by
      rw [div_le_one (by positivity)]
      exact one_le_pow₀ (by norm_num)) (by norm_num)
  refine ⟨by norm_num [sample_anneal_tiny, anneal_gsl.new],
    by norm_num [sample_anneal_tiny, anneal_gsl.new],
    by norm_num [sample_anneal_tiny, anneal_gsl.new], hrep, hfix, lt_irrefl _, hseq, ?_, ?_⟩
  · intro k
    have e : temp_seq double_arith sample_anneal_tiny.T_start sample_anneal_tiny.T_dec k =
        1 / 2 ^ 1074 := hseq k
    rw [e]
    have e2 : double_arith.div (1 / 2 ^ 1074) sample_anneal_tiny.T_dec = 1 / 2 ^ 1074 := hfix
    rw [e2]
    exact lt_irrefl _
  intro fuel
  have hl := mmin_loop_fl_stall double_arith sample_func sample_rng sample_exp_lt 1
    (1 / 2 ^ 1074) (3 / 2) (1 / 2 ^ 1074) hfix (lt_irrefl _) fuel
    (sample_anneal_tiny.mmin_init sample_func 1 [0]) [] rfl rfl
    (by simp [anneal_gsl.mmin_init, anneal_gsl.allocate, sample_anneal_tiny, anneal_gsl.new])
    rfl
  rw [anneal_gsl.mmin_fl, if_neg (by decide), if_neg (by decide), hl]

/-- Witness for C19: the default annealer with `tol_abs = 1/2` on the sample
objective. -/
theorem mmin_temperature_schedule_witness :
    ∃ K : Nat,
      double_arith.div (temp_seq double_arith (anneal_gsl.new (1 / 2) 1 0).T_start
        (anneal_gsl.new (1 / 2) 1 0).T_dec K) (anneal_gsl.new (1 / 2) 1 0).T_dec <
        (anneal_gsl.new (1 / 2) 1 0).tol_abs ∧
      (∀ k < K,
        ¬ double_arith.div (temp_seq double_arith (anneal_gsl.new (1 / 2) 1 0).T_start
          (anneal_gsl.new (1 / 2) 1 0).T_dec k) (anneal_gsl.new (1 / 2) 1 0).T_dec <
          (anneal_gsl.new (1 / 2) 1 0).tol_abs) ∧
      (∀ k, 1 ≤ k → k ≤ K → (anneal_gsl.new (1 / 2) 1 0).tol_abs ≤
        temp_seq double_arith (anneal_gsl.new (1 / 2) 1 0).T_start
          (anneal_gsl.new (1 / 2) 1 0).T_dec k) ∧
      (∀ fuel, K + 1 ≤ fuel →
        ∃ r, (anneal_gsl.new (1 / 2) 1 0).mmin_fl double_arith sample_func sample_rng
            sample_exp_lt fuel 1 [0] 0 = some r ∧
          r.ret = Outcome.success ∧
          r.temps = (List.range (K + 1)).map
            (fun k => temp_seq double_arith (anneal_gsl.new (1 / 2) 1 0).T_start
              (anneal_gsl.new (1 / 2) 1 0).T_dec k)) ∧
      ∀ k, temp_seq exact_arith (anneal_gsl.new (1 / 2) 1 0).T_start
        (anneal_gsl.new (1 / 2) 1 0).T_dec k =
        (anneal_gsl.new (1 / 2) 1 0).T_start / (anneal_gsl.new (1 / 2) 1 0).T_dec ^ k :=
  mmin_temperature_schedule sample_func sample_rng sample_exp_lt
    (anneal_gsl.new (1 / 2) 1 0) 1 [0] 0 (by norm_num [anneal_gsl.new])
    (by norm_num [anneal_gsl.new]) (by decide) (by simp) (by simp [anneal_gsl.new])

/-! ## C1: exactness at tabulated pressures in the arithmetic of `double` -/

/-- On a bracket `(l, l+1)` inside both vectors the final step of `interp` is
the segment value `seg_fl`. -/
theorem interp_eval_fl_seg (A : Arith) (x y : List ℚ) (xx : ℚ) (l : Nat)
    (hx : l + 1 < x.length) (hy : l + 1 < y.length) :
    interp_eval_fl A x y xx (l : Int) ((l : Int) + 1) = seg_fl A x y l xx := by
  have e1 : ((l : Int) + 1) = ((l + 1 : Nat) : Int) := by push_cast; rfl
  unfold interp_eval_fl seg_fl
  rw [e1, vget_natCast x (l + 1) hx, vget_natCast x l (by omega),
    vget_natCast y (l + 1) hy, vget_natCast y l (by omega)]
  simp only [Option.bind_eq_bind, Option.some_bind]

/-- Bracketing of `interp` in the arithmetic `A` on a table of at least two
and at most `2^30 + 1` rows: the same bracket as with unbounded indices, and
the segment value in `A`. -/
theorem interp_fl_spec (A : Arith) (x y : List ℚ) (xx : ℚ) (n : Nat)
    (hn : 2 ≤ n) (hb : n ≤ 1073741825) (hx : n ≤ x.length) (hy : n ≤ y.length) :
    ∃ l : Nat, l + 1 < n ∧ interp_fl A x y xx 0 ((n : Int) - 1) = seg_fl A x y l xx ∧
      (l = 0 ∨ x.getD l 0 ≤ xx) ∧ (l + 2 = n ∨ xx < x.getD (l + 1) 0) := by
  have e1 : ((n : Int) - 1) = ((n - 1 : Nat) : Int) := by omega
  have e2 : (((n - 1 : Nat) : Int) - 0).toNat = n - 1 := by omega
  obtain ⟨l, hl, h1, h2, h3, h4⟩ :=
    interp_loop_spec x xx (n - 1) 0 (n - 1) (by omega) (by omega) (by omega)
  refine ⟨l, by omega, ?_, h3, ?_⟩
  · unfold interp_fl
    rw [e1, e2, interp_loop_int_eq x xx (n - 1) 0 ((n - 1 : Nat) : Int) (le_refl _)
      (by omega) (by omega)]
    have e3 : ((0 : Nat) : Int) = 0 := rfl
    rw [← e3, hl]
    simp only [Option.bind_eq_bind, Option.some_bind]
    exact interp_eval_fl_seg A x y xx l (by omega) (by omega)
  · rcases h4 with h4 | h4
    · left; omega
    · right; exact h4

/-- At the abscissa of a row `k` below a strictly larger next row, the bracket
of `interp` is `(k, k+1)` and the value is the segment value on it. -/
theorem interp_fl_at_row (A : Arith) (x y : List ℚ) (n k : Nat)
    (hn : 2 ≤ n) (hb : n ≤ 1073741825) (hx : n ≤ x.length) (hy : n ≤ y.length)
    (hs : nondecreasing x n)
    (hk : k + 1 < n) (hlt : x.getD k 0 < x.getD (k + 1) 0) :
    interp_fl A x y (x.getD k 0) 0 ((n : Int) - 1) = seg_fl A x y k (x.getD k 0) := by
  obtain ⟨l, hl, hv, hlo, hhi⟩ := interp_fl_spec A x y (x.getD k 0) n hn hb hx hy
  have hmono := nondecreasing_le x n hs
  have hle : l ≤ k := by
    by_contra hc
    rcases hlo with h3 | h3
    · omega
    · have := hmono (k + 1) l (by omega) (by omega)
      linarith
  have hge : k ≤ l := by
    by_contra hc
    rcases hhi with h3 | h3
    · omega
    · have := hmono (l + 1) k (by omega) (by omega)
      linarith
  have : l = k := by omega
  rw [hv, this]

/-- At the abscissa of the last row, above a strictly smaller row before it,
the bracket of `interp` is the last one and the value is the segment value on
it. -/
theorem interp_fl_at_last (A : Arith) (x y : List ℚ) (n l : Nat)
    (hn : l + 2 = n) (hb : n ≤ 1073741825) (hx : n ≤ x.length) (hy : n ≤ y.length)
    (hs : nondecreasing x n)
    (hlt : x.getD l 0 < x.getD (l + 1) 0) :
    interp_fl A x y (x.getD (l + 1) 0) 0 ((n : Int) - 1) =
      seg_fl A x y l (x.getD (l + 1) 0) := by
  obtain ⟨l1, hl, hv, hlo, hhi⟩ :=
    interp_fl_spec A x y (x.getD (l + 1) 0) n (by omega) hb hx hy
  have hmono := nondecreasing_le x n hs
  have hge : l ≤ l1 := by
    by_contra hc
    rcases hhi with h3 | h3
    · omega
    · have := hmono (l1 + 1) l (by omega) (by omega)
      linarith
  have : l1 = l := by omega
  rw [hv, this]

/-- Evaluation of the interpolation formula from the results of its six
operations. -/
theorem lin_fl_eval (A : Arith) (x0 x1 y0 y1 xx a b c d m r : ℚ)
    (h1 : A.csub xx x0 = some a) (h2 : A.csub x1 x0 = some b) (h3 : A.cdiv a b = some c)
    (h4 : A.csub y1 y0 = some d) (h5 : A.cmul c d = some m) (h6 : A.cadd y0 m = some r) :
    lin_fl A x0 x1 y0 y1 xx = some r := by
  unfold lin_fl
  simp only [h1, h2, h3, h4, h5, h6, Option.bind_eq_bind, Option.some_bind]

/-- In an arithmetic with the laws, the interpolation formula at the lower
abscissa of two different abscissas returns the lower sample, when the four
numbers are representable and the two differences do not overflow. -/
theorem lin_fl_at_lower (A : Arith) (hA : A.laws) (x0 x1 y0 y1 : ℚ) (hne : x1 ≠ x0)
    (hx0 : A.rep x0) (hx1 : A.rep x1) (hy0 : A.rep y0) (hy1 : A.rep y1)
    (fx : A.fin (A.sub x1 x0) = true) (fy : A.fin (A.sub y1 y0) = true) :
    lin_fl A x0 x1 y0 y1 x0 = some y0 := by
  obtain ⟨l1, l2, l3, l4, _, l6⟩ := hA
  have hb : A.sub x1 x0 ≠ 0 := l6 _ _ hx1 hx0 hne
  have s1 : A.csub x0 x0 = some 0 := by
    unfold Arith.csub
    rw [l1, chk_some A _ _ _ hx0.2 hx0.2 l4]
  have s2 : A.csub x1 x0 = some (A.sub x1 x0) := chk_some A _ _ _ hx1.2 hx0.2 fx
  have s3 : A.cdiv 0 (A.sub x1 x0) = some 0 := by
    unfold Arith.cdiv
    rw [if_neg hb, l2 _ hb, chk_some A _ _ _ l4 fx l4]
  have s4 : A.csub y1 y0 = some (A.sub y1 y0) := chk_some A _ _ _ hy1.2 hy0.2 fy
  have s5 : A.cmul 0 (A.sub y1 y0) = some 0 := by
    unfold Arith.cmul
    rw [l3, chk_some A _ _ _ l4 fy l4]
  have s6 : A.cadd y0 0 = some y0 := by
    unfold Arith.cadd
    rw [hy0.1, chk_some A _ _ _ hy0.2 l4 hy0.2]
  exact lin_fl_eval A _ _ _ _ _ _ _ _ _ _ _ s1 s2 s3 s4 s5 s6

/-- In an arithmetic with the laws, the segment value at the lower abscissa of
a bracket with different abscissas is the lower sample. -/
theorem seg_fl_at_lower (A : Arith) (hA : A.laws) (x y : List ℚ) (k : Nat)
    (hlt : x.getD k 0 < x.getD (k + 1) 0) (hok : A.seg_ok x y k) :
    seg_fl A x y k (x.getD k 0) = some (y.getD k 0) := by
  obtain ⟨r0, r1, r2, r3, f1, f2⟩ := hok
  unfold seg_fl
  rw [if_neg (ne_of_gt hlt)]
  exact lin_fl_at_lower A hA _ _ _ _ (ne_of_gt hlt) r0 r1 r2 r3 f1 f2

/-- The query of `interp` at the abscissa of a row below a strictly larger
next row returns the row's value. -/
theorem interp_fl_exact (A : Arith) (hA : A.laws) (x y : List ℚ) (n k : Nat)
    (hb : n ≤ 1073741825) (hx : n ≤ x.length) (hy : n ≤ y.length) (hs : nondecreasing x n)
    (hk : k + 1 < n) (hlt : x.getD k 0 < x.getD (k + 1) 0) (hok : A.seg_ok x y k) :
    interp_fl A x y (x.getD k 0) 0 ((n : Int) - 1) = some (y.getD k 0) := by
  rw [interp_fl_at_row A x y n k (by omega) hb hx hy hs hk hlt,
    seg_fl_at_lower A hA x y k hlt hok]

/-- Every natural number below `2^53` is a `double`. -/
theorem fl64_nat (n : Nat) (h : n < 2 ^ 53) : fl64 (n : ℚ) = n := by
  rcases Nat.eq_zero_or_pos n with rfl | hpos
  · simp [fl64_zero]
  have hk1 : 2 ^ (Nat.log 2 n) ≤ n := Nat.pow_log_le_self 2 (by omega)
  have hk2 : n < 2 ^ (Nat.log 2 n + 1) := Nat.lt_pow_succ_log_self (by norm_num) n
  have hk : Nat.log 2 n < 53 := by
    by_contra hc
    have : 2 ^ 53 ≤ 2 ^ (Nat.log 2 n) := Nat.pow_le_pow_right (by norm_num) (by omega)
    omega
  generalize Nat.log 2 n = k at hk1 hk2 hk
  obtain ⟨j, hj⟩ : ∃ j : Nat, k + j = 52 := ⟨52 - k, by omega⟩
  have hz : (2 : ℚ) ^ ((k : Int) - 52) = 1 / 2 ^ j := by
    have : ((k : Int) - 52) = -(j : Int) := by omega
    rw [this, zpow_neg, zpow_natCast]
    simp
  have habs : |(n : ℚ)| = n := abs_of_nonneg (by positivity)
  have h := fl64_eq (n : ℚ) (k : Int) ((n : Int) * 2 ^ j)
    (by rw [habs, zpow_natCast]; exact_mod_cast hk1)
    (by
      rw [habs, show ((k : Int) + 1) = ((k + 1 : Nat) : Int) by push_cast; rfl, zpow_natCast]
      exact_mod_cast hk2)
    (by omega)
    (by
      rw [hz, show (n : ℚ) / (1 / 2 ^ j) = (((n : Int) * 2 ^ j : Int) : ℚ) by
        push_cast; field_simp]
      exact round_half_even_int _)
  rw [h, hz]
  push_cast
  field_simp

/-- Every natural number below `2^53` is representable in the arithmetic of
`double`. -/
theorem double_rep_nat (n : Nat) (h : n < 2 ^ 53) : double_arith.rep (n : ℚ) := by
  rw [double_rep_iff]
  refine ⟨fl64_nat n h, ?_⟩
  rw [abs_of_nonneg (by positivity)]
  have h1 : (n : ℚ) < 2 ^ 53 := by exact_mod_cast h
  have h2 : (2 : ℚ) ^ 53 < 2 ^ 1024 := by norm_num
  linarith

/-- Evaluation of the checked sum of the arithmetic of `double`. -/
theorem double_cadd (a b r : ℚ) (ha : |a| < 2 ^ 1024) (hb : |b| < 2 ^ 1024)
    (hr : fl64 (a + b) = r) (hf : |r| < 2 ^ 1024) : double_arith.cadd a b = some r := by
  have e : double_arith.add a b = r := hr
  unfold Arith.cadd
  rw [e]
  exact chk_some _ _ _ _ ((double_fin_iff a).mpr ha) ((double_fin_iff b).mpr hb)
    ((double_fin_iff r).mpr hf)

/-- Evaluation of the checked difference of the arithmetic of `double`. -/
theorem double_csub (a b r : ℚ) (ha : |a| < 2 ^ 1024) (hb : |b| < 2 ^ 1024)
    (hr : fl64 (a - b) = r) (hf : |r| < 2 ^ 1024) : double_arith.csub a b = some r := by
  have e : double_arith.sub a b = r := hr
  unfold Arith.csub
  rw [e]
  exact chk_some _ _ _ _ ((double_fin_iff a).mpr ha) ((double_fin_iff b).mpr hb)
    ((double_fin_iff r).mpr hf)

/-- Evaluation of the checked product of the arithmetic of `double`. -/
theorem double_cmul (a b r : ℚ) (ha : |a| < 2 ^ 1024) (hb : |b| < 2 ^ 1024)
    (hr : fl64 (a * b) = r) (hf : |r| < 2 ^ 1024) : double_arith.cmul a b = some r := by
  have e : double_arith.mul a b = r := hr
  unfold Arith.cmul
  rw [e]
  exact chk_some _ _ _ _ ((double_fin_iff a).mpr ha) ((double_fin_iff b).mpr hb)
    ((double_fin_iff r).mpr hf)

/-- Evaluation of the checked quotient of the arithmetic of `double`. -/
theorem double_cdiv (a b r : ℚ) (ha : |a| < 2 ^ 1024) (hb : |b| < 2 ^ 1024) (hb0 : b ≠ 0)
    (hr : fl64 (a / b) = r) (hf : |r| < 2 ^ 1024) : double_arith.cdiv a b = some r := by
  have e : double_arith.div a b = r := hr
  unfold Arith.cdiv
  rw [if_neg hb0, e]
  exact chk_some _ _ _ _ ((double_fin_iff a).mpr ha) ((double_fin_iff b).mpr hb)
    ((double_fin_iff r).mpr hf)

/-- A segment of a table whose four entries are natural numbers below `2^53`,
increasing in both columns, is in the finite range of `double`. -/
theorem double_seg_ok_nat (x y : List ℚ) (k a b c d : Nat)
    (hx0 : x.getD k 0 = a) (hx1 : x.getD (k + 1) 0 = b)
    (hy0 : y.getD k 0 = c) (hy1 : y.getD (k + 1) 0 = d)
    (hab : a ≤ b) (hcd : c ≤ d) (hb : b < 2 ^ 53) (hd : d < 2 ^ 53) :
    double_arith.seg_ok x y k := by
  have key : ∀ m n : Nat, m ≤ n → n < 2 ^ 53 →
      double_arith.fin (double_arith.sub (n : ℚ) (m : ℚ)) = true := by
    intro m n hmn hn
    have e : double_arith.sub (n : ℚ) (m : ℚ) = ((n - m : Nat) : ℚ) := by
      show fl64 ((n : ℚ) - (m : ℚ)) = _
      rw [← Nat.cast_sub hmn]
      exact fl64_nat _ (by omega)
    rw [e]
    exact (double_rep_nat _ (by omega)).2
  unfold Arith.seg_ok
  rw [hx0, hx1, hy0, hy1]
  exact ⟨double_rep_nat a (by omega), double_rep_nat b hb, double_rep_nat c (by omega),
    double_rep_nat d hd, key a b hab hb, key c d hcd hd⟩

/-- Concrete roundings used by the samples. -/
theorem fl64_samples :
    fl64 1 = 1 ∧ fl64 (3 / 2 - 10 ^ 16) = -9999999999999998 ∧
    fl64 (-9999999999999998) = -9999999999999998 ∧ fl64 (10 ^ 16) = 10 ^ 16 ∧
    fl64 (3 / 2) = 3 / 2 ∧ fl64 2 = 2 := by
  refine ⟨?_, ?_, ?_, ?_, ?_, ?_⟩
  · simpa using fl64_nat 1 (by norm_num)
  · have h := fl64_eq (3 / 2 - 10 ^ 16) 53 (-4999999999999999)
      (by rw [abs_of_neg (by norm_num)]; norm_num)
      (by rw [abs_of_neg (by norm_num)]; norm_num) (by norm_num)
      (by
        rw [round_half_even_of_floor _ (-5000000000000000)
          (by rw [Int.floor_eq_iff]; norm_num)]
        norm_num)
    rw [h]; norm_num
  · have h := fl64_eq (-9999999999999998) 53 (-4999999999999999)
      (by rw [abs_of_neg (by norm_num)]; norm_num)
      (by rw [abs_of_neg (by norm_num)]; norm_num) (by norm_num)
      (by
        have : (-9999999999999998 : ℚ) / (2 : ℚ) ^ ((53 : Int) - 52) =
            ((-4999999999999999 : Int) : ℚ) := by norm_num
        rw [this, round_half_even_int])
    rw [h]; norm_num
  · have h := fl64_eq (10 ^ 16) 53 5000000000000000
      (by rw [abs_of_pos (by norm_num)]; norm_num)
      (by rw [abs_of_pos (by norm_num)]; norm_num) (by norm_num)
      (by
        have : (10 ^ 16 : ℚ) / (2 : ℚ) ^ ((53 : Int) - 52) =
            ((5000000000000000 : Int) : ℚ) := by norm_num
        rw [this, round_half_even_int])
    rw [h]; norm_num
  · have h := fl64_eq (3 / 2) 0 6755399441055744
      (by rw [abs_of_pos (by norm_num)]; norm_num)
      (by rw [abs_of_pos (by norm_num)]; norm_num) (by norm_num)
      (by
        have : (3 / 2 : ℚ) / (2 : ℚ) ^ ((0 : Int) - 52) =
            ((6755399441055744 : Int) : ℚ) := by norm_num
        rw [this, round_half_even_int])
    rw [h]; norm_num
  · simpa using fl64_nat 2 (by norm_num)

/-- Checked operations of the arithmetic of `double` on natural numbers below
`2^53` whose exact result is such a number: the difference, the product, the
sum, and the quotient of a number by itself. -/
theorem double_ops_nat (a b : Nat) (ha : a < 2 ^ 53) (hb : b < 2 ^ 53) :
    (b ≤ a → double_arith.csub (a : ℚ) (b : ℚ) = some ((a - b : Nat) : ℚ)) ∧
    (a * b < 2 ^ 53 → double_arith.cmul (a : ℚ) (b : ℚ) = some ((a * b : Nat) : ℚ)) ∧
    (a + b < 2 ^ 53 → double_arith.cadd (a : ℚ) (b : ℚ) = some ((a + b : Nat) : ℚ)) ∧
    (a ≠ 0 → double_arith.cdiv (a : ℚ) (a : ℚ) = some 1) := by
  have f : ∀ n : Nat, n < 2 ^ 53 → |(n : ℚ)| < 2 ^ 1024 := fun n hn =>
    (double_rep_iff _).mp (double_rep_nat n hn) |>.2
  refine ⟨?_, ?_, ?_, ?_⟩
  · intro hba
    exact double_csub _ _ _ (f a ha) (f b hb)
      (by rw [← Nat.cast_sub hba]; exact fl64_nat _ (by omega)) (f _ (by omega))
  · intro hab
    exact double_cmul _ _ _ (f a ha) (f b hb)
      (by rw [← Nat.cast_mul]; exact fl64_nat _ hab) (f _ hab)
  · intro hab
    exact double_cadd _ _ _ (f a ha) (f b hb)
      (by rw [← Nat.cast_add]; exact fl64_nat _ hab) (f _ hab)
  · intro ha0
    have hq : (a : ℚ) ≠ 0 := by exact_mod_cast ha0
    exact double_cdiv _ _ _ (f a ha) (f a ha) hq
      (by rw [div_self hq]; exact fl64_samples.1) (by rw [abs_one]; norm_num)

/-- The model `get_eden_fl` at the pressure of a row of the crust table below
a strictly larger next row, classified as crust. -/
theorem get_eden_fl_crust_row (A : Arith) (hA : A.laws) (e : tov_interp_eos) (k : Nat)
    (ed0 nb0 prlo : ℚ) (hok : e.crust_ok) (hb : e.crust_nlines ≤ 1073741825)
    (hs : nondecreasing e.crust_vecp e.crust_nlines) (hk : k + 1 < e.crust_nlines)
    (hlt : e.crust_vecp.getD k 0 < e.crust_vecp.getD (k + 1) 0)
    (se : A.seg_ok e.crust_vecp e.crust_vece k)
    (sn : e.baryon_column = true → A.seg_ok e.crust_vecp e.crust_vecnb k)
    (hu : e.use_crust = true) (hq : A.cdiv e.trans_pres e.trans_width = some prlo)
    (hle : e.crust_vecp.getD k 0 ≤ prlo) :
    e.get_eden_fl A (e.crust_vecp.getD k 0) ed0 nb0 =
      some (Phase.icrust, e.crust_vece.getD k 0,
        if e.baryon_column = true then e.crust_vecnb.getD k 0 else nb0) := by
  obtain ⟨_, o2, o3, o4⟩ := hok
  have he := interp_fl_exact A hA _ _ _ k hb o2 o3 hs hk hlt se
  have hch : e.get_eden_chain_fl A (e.crust_vecp.getD k 0) nb0 =
      some (Phase.icrust, e.crust_vece.getD k 0,
        if e.baryon_column = true then e.crust_vecnb.getD k 0 else nb0) := by
    unfold tov_interp_eos.get_eden_chain_fl tov_interp_eos.crust_interp_fl
    rw [if_pos hu, hq]
    simp only [Option.bind_eq_bind, Option.some_bind, if_pos hle, he]
    by_cases hbc : e.baryon_column = true
    · have hnb := interp_fl_exact A hA _ _ _ k hb o2 (o4 hbc) hs hk hlt (sn hbc)
      simp only [hbc, if_true, hnb, Option.some_bind, Option.pure_def]
    · have hb2 : e.baryon_column = false := by simpa using hbc
      simp only [hb2, Bool.false_eq_true, if_false, Option.pure_def]
  unfold tov_interp_eos.get_eden_fl
  rw [if_pos se.1.2, hch]
  have f1 : A.fin (e.crust_vece.getD k 0) = true := se.2.2.1.2
  dsimp only
  rw [if_neg]
  rintro (h | ⟨hb1, h⟩)
  · rw [f1] at h
    exact Bool.noConfusion h
  · rw [if_pos hb1, (sn hb1).2.2.1.2] at h
    exact Bool.noConfusion h

/-- The model `get_eden_fl` at the pressure of a row of the core table below a
strictly larger next row, classified as core. -/
theorem get_eden_fl_core_row (A : Arith) (hA : A.laws) (e : tov_interp_eos) (k : Nat)
    (ed0 nb0 prlo prhi : ℚ) (hok : e.core_ok) (hb : e.core_nlines ≤ 1073741825)
    (hs : nondecreasing e.core_vecp e.core_nlines) (hk : k + 1 < e.core_nlines)
    (hlt : e.core_vecp.getD k 0 < e.core_vecp.getD (k + 1) 0)
    (se : A.seg_ok e.core_vecp e.core_vece k)
    (sn : e.baryon_column = true → A.seg_ok e.core_vecp e.core_vecnb k)
    (hc : e.use_crust = false ∨
      (A.cdiv e.trans_pres e.trans_width = some prlo ∧
        A.cmul e.trans_pres e.trans_width = some prhi ∧
        prlo < e.core_vecp.getD k 0 ∧ prhi ≤ e.core_vecp.getD k 0)) :
    e.get_eden_fl A (e.core_vecp.getD k 0) ed0 nb0 =
      some (Phase.icore, e.core_vece.getD k 0,
        if e.baryon_column = true then e.core_vecnb.getD k 0 else nb0) := by
  obtain ⟨_, o2, o3, o4⟩ := hok
  have he := interp_fl_exact A hA _ _ _ k hb o2 o3 hs hk hlt se
  have hcore : e.get_eden_core_fl A (e.core_vecp.getD k 0) nb0 =
      some (Phase.icore, e.core_vece.getD k 0,
        if e.baryon_column = true then e.core_vecnb.getD k 0 else nb0) := by
    unfold tov_interp_eos.get_eden_core_fl tov_interp_eos.core_interp_fl
    simp only [Option.bind_eq_bind, Option.some_bind, he]
    by_cases hbc : e.baryon_column = true
    · have hnb := interp_fl_exact A hA _ _ _ k hb o2 (o4 hbc) hs hk hlt (sn hbc)
      simp only [hbc, if_true, hnb, Option.some_bind, Option.pure_def]
    · have hb2 : e.baryon_column = false := by simpa using hbc
      simp only [hb2, Bool.false_eq_true, if_false, Option.pure_def]
  have hch : e.get_eden_chain_fl A (e.core_vecp.getD k 0) nb0 =
      some (Phase.icore, e.core_vece.getD k 0,
        if e.baryon_column = true then e.core_vecnb.getD k 0 else nb0) := by
    unfold tov_interp_eos.get_eden_chain_fl
    rcases hc with hu | ⟨h1, h2, h3, h4⟩
    · rw [if_neg (by rw [hu]; exact Bool.false_ne_true)]
      exact hcore
    · by_cases hu : e.use_crust = true
      · rw [if_pos hu, h1]
        simp only [Option.bind_eq_bind, Option.some_bind, if_neg (not_le.mpr h3), h2]
        rw [if_neg (fun h => absurd h.2 (not_lt.mpr h4))]
        exact hcore
      · rw [if_neg hu]
        exact hcore
  unfold tov_interp_eos.get_eden_fl
  rw [if_pos se.1.2, hch]
  have f1 : A.fin (e.core_vece.getD k 0) = true := se.2.2.1.2
  dsimp only
  rw [if_neg]
  rintro (h | ⟨hb1, h⟩)
  · rw [f1] at h
    exact Bool.noConfusion h
  · rw [if_pos hb1, (sn hb1).2.2.1.2] at h
    exact Bool.noConfusion h

/-- C1 (amended): in every arithmetic with the laws of `double` arithmetic, on
a table of at most `2^30 + 1` rows with non-decreasing pressures, for every
row `k` whose next row has a strictly larger pressure, when the entries of the
two rows are finite numbers of the type and the differences `x[k+1]-x[k]` and
`y[k+1]-y[k]` do not overflow, `interp(x, y, x[k], yy, 0, n-1)` sets
`yy = y[k]` exactly; at the pressure of the last row (above a strictly smaller
row before it) it sets `yy = y[n-2] + (d/d)*(y[n-1]-y[n-2])` with
`d = x[n-1]-x[n-2]`, computed in the arithmetic; hence `get_eden` at the
pressure of such a row `k` of the crust table classified as crust, or of the
core table classified as core, returns that row's energy density and, when the
baryon column is present, that row's baryon density. -/
theorem interp_exact_at_sample (A : Arith) (hA : A.laws) (e : tov_interp_eos)
    (x y : List ℚ) (n k : Nat) (ed0 nb0 prlo prhi : ℚ) :
    (n ≤ 1073741825 → n ≤ x.length → n ≤ y.length → nondecreasing x n → k + 1 < n →
      x.getD k 0 < x.getD (k + 1) 0 → A.seg_ok x y k →
      interp_fl A x y (x.getD k 0) 0 ((n : Int) - 1) = some (y.getD k 0)) ∧
    (n ≤ 1073741825 → n ≤ x.length → n ≤ y.length → nondecreasing x n → k + 2 = n →
      x.getD k 0 < x.getD (k + 1) 0 →
      interp_fl A x y (x.getD (k + 1) 0) 0 ((n : Int) - 1) =
        lin_fl A (x.getD k 0) (x.getD (k + 1) 0) (y.getD k 0) (y.getD (k + 1) 0)
          (x.getD (k + 1) 0)) ∧
    (e.crust_ok → e.crust_nlines ≤ 1073741825 →
      nondecreasing e.crust_vecp e.crust_nlines → k + 1 < e.crust_nlines →
      e.crust_vecp.getD k 0 < e.crust_vecp.getD (k + 1) 0 →
      A.seg_ok e.crust_vecp e.crust_vece k →
      (e.baryon_column = true → A.seg_ok e.crust_vecp e.crust_vecnb k) →
      e.use_crust = true → A.cdiv e.trans_pres e.trans_width = some prlo →
      e.crust_vecp.getD k 0 ≤ prlo →
      e.get_eden_fl A (e.crust_vecp.getD k 0) ed0 nb0 =
        some (Phase.icrust, e.crust_vece.getD k 0,
          if e.baryon_column = true then e.crust_vecnb.getD k 0 else nb0)) ∧
    (e.core_ok → e.core_nlines ≤ 1073741825 →
      nondecreasing e.core_vecp e.core_nlines → k + 1 < e.core_nlines →
      e.core_vecp.getD k 0 < e.core_vecp.getD (k + 1) 0 →
      A.seg_ok e.core_vecp e.core_vece k →
      (e.baryon_column = true → A.seg_ok e.core_vecp e.core_vecnb k) →
      (e.use_crust = false ∨
        (A.cdiv e.trans_pres e.trans_width = some prlo ∧
          A.cmul e.trans_pres e.trans_width = some prhi ∧
          prlo < e.core_vecp.getD k 0 ∧ prhi ≤ e.core_vecp.getD k 0)) →
      e.get_eden_fl A (e.core_vecp.getD k 0) ed0 nb0 =
        some (Phase.icore, e.core_vece.getD k 0,
          if e.baryon_column = true then e.core_vecnb.getD k 0 else nb0)) := by
  refine ⟨?_, ?_, ?_, ?_⟩
  · intro hb hx hy hs hk hlt hok
    exact interp_fl_exact A hA x y n k hb hx hy hs hk hlt hok
  · intro hb hx hy hs hk hlt
    rw [interp_fl_at_last A x y n k hk hb hx hy hs hlt]
    unfold seg_fl
    rw [if_neg (ne_of_gt hlt)]
  · intro hok hb hs hk hlt se sn hu hq hle
    exact get_eden_fl_crust_row A hA e k ed0 nb0 prlo hok hb hs hk hlt se sn hu hq hle
  · intro hok hb hs hk hlt se sn hc
    exact get_eden_fl_core_row A hA e k ed0 nb0 prlo prhi hok hb hs hk hlt se sn hc

/-- C1, as stated, fails in two ways.  With a repeated pressure: on the table
with pressures 1, 1 and values 10, 20 the query at the pressure of row 0
returns 20, the value of row 1, not the value 10 of row 0 (with or without
rounding).  At the last row, in the arithmetic of `double`: on the table with
pressures 1, 2 and values 1e16, 1.5 (all of them `double`s) the query at the
pressure 2 of the last row returns `1e16 + 1*(1.5 - 1e16) = 2`, not 1.5. -/
theorem interp_exact_counterexample :
    nondecreasing [1, 1] 2 ∧ ([1, 1] : List ℚ).getD 0 0 = 1 ∧
      ([10, 20] : List ℚ).getD 0 0 = 10 ∧
      interp [1, 1] [10, 20] 1 0 ((2 : Nat) - 1) = some 20 ∧
      interp [1, 1] [10, 20] 1 0 ((2 : Nat) - 1) ≠ some 10 ∧
      interp_fl double_arith [1, 1] [10, 20] 1 0 ((2 : Nat) - 1) = some 20 ∧
      nondecreasing [1, 2] 2 ∧
      double_arith.rep 1 ∧ double_arith.rep 2 ∧ double_arith.rep (10 ^ 16) ∧
      double_arith.rep (3 / 2) ∧
      ([1, 2] : List ℚ).getD 1 0 = 2 ∧ ([10 ^ 16, 3 / 2] : List ℚ).getD 1 0 = 3 / 2 ∧
      interp_fl double_arith [1, 2] [10 ^ 16, 3 / 2] 2 0 ((2 : Nat) - 1) = some 2 ∧
      interp_fl double_arith [1, 2] [10 ^ 16, 3 / 2] 2 0 ((2 : Nat) - 1) ≠ some (3 / 2) := by
  obtain ⟨f1, f2, f3, f4, f5, f6⟩ := fl64_samples
  have hnd : nondecreasing [1, 2] 2 := by
    intro i hi
    have : i = 0 := by omega
    subst this
    simp
  have hlast : interp_fl double_arith [1, 2] [10 ^ 16, 3 / 2] 2 0 ((2 : Nat) - 1) = some 2 := by
    have h := interp_fl_at_last double_arith [1, 2] [10 ^ 16, 3 / 2] 2 0 rfl (by norm_num)
      (by simp) (by simp) hnd (by simp)
    have e1 : ([1, 2] : List ℚ).getD (0 + 1) 0 = 2 := by simp
    rw [e1] at h
    rw [h]
    simp only [seg_fl, List.getD_cons_zero, List.getD_cons_succ, zero_add]
    rw [if_neg (by norm_num)]
    have s1 : double_arith.csub 2 1 = some 1 :=
      double_csub 2 1 1 (by norm_num [abs_of_pos]) (by norm_num [abs_of_pos])
        (by rw [show (2 : ℚ) - 1 = 1 by norm_num, f1]) (by norm_num [abs_of_pos])
    have s2 : double_arith.cdiv 1 1 = some 1 :=
      double_cdiv 1 1 1 (by norm_num [abs_of_pos]) (by norm_num [abs_of_pos]) (by norm_num)
        (by rw [show (1 : ℚ) / 1 = 1 by norm_num, f1]) (by norm_num [abs_of_pos])
    have s3 : double_arith.csub (3 / 2) (10 ^ 16) = some (-9999999999999998) :=
      double_csub _ _ _ (by norm_num [abs_of_pos]) (by norm_num [abs_of_pos]) f2
        (by rw [abs_of_neg (by norm_num)]; norm_num)
    have s4 : double_arith.cmul 1 (-9999999999999998) = some (-9999999999999998) :=
      double_cmul _ _ _ (by norm_num [abs_of_pos])
        (by rw [abs_of_neg (by norm_num)]; norm_num)
        (by rw [one_mul, f3]) (by rw [abs_of_neg (by norm_num)]; norm_num)
    have s5 : double_arith.cadd (10 ^ 16) (-9999999999999998) = some 2 :=
      double_cadd _ _ _ (by norm_num [abs_of_pos])
        (by rw [abs_of_neg (by norm_num)]; norm_num)
        (by rw [show (10 : ℚ) ^ 16 + -9999999999999998 = 2 by norm_num, f6])
        (by norm_num [abs_of_pos])
    exact lin_fl_eval double_arith _ _ _ _ _ _ _ _ _ _ _ s1 s1 s2 s3 s4 s5
  have hdup : interp_fl double_arith [1, 1] [10, 20] 1 0 ((2 : Nat) - 1) = some 20 := by
    have h := interp_fl_spec double_arith [1, 1] [10, 20] 1 2 (le_refl _) (by norm_num)
      (by simp) (by simp)
    obtain ⟨l, hl, hv, _, _⟩ := h
    have hl0 : l = 0 := by omega
    subst hl0
    have e0 : (((2 : Nat) : Int) - 1) = ((2 : Nat) : Int) - 1 := rfl
    have hv2 : interp_fl double_arith [1, 1] [10, 20] 1 0 ((2 : Nat) - 1) =
        seg_fl double_arith [1, 1] [10, 20] 0 1 := hv
    rw [hv2]
    simp [seg_fl]
  have r : ∀ v : ℚ, fl64 v = v → |v| < 2 ^ 1024 → double_arith.rep v :=
    fun v h1 h2 => (double_rep_iff v).mpr ⟨h1, h2⟩
  refine ⟨?_, by simp, by simp, ?_, ?_, hdup, hnd, ?_, ?_, ?_, ?_, by simp, by simp, hlast, ?_⟩
  · intro i hi
    have : i = 0 := by omega
    subst this
    simp
  · simp [interp, interp_loop, interp_eval, vget]
  · simp [interp, interp_loop, interp_eval, vget]
  · exact r _ f1 (by norm_num [abs_of_pos])
  · exact r _ f6 (by norm_num [abs_of_pos])
  · exact r _ f4 (by norm_num [abs_of_pos])
  · exact r _ f5 (by norm_num [abs_of_pos])
  · rw [hlast]; norm_num

/-- Instance of `interp_exact_at_sample` in the arithmetic of `double` on the
sample engine: row 1 of the crust table (pressure 2, in the crust regime), the
last row of the crust table (pressure 3, where the formula on the last segment
gives `20 + (1/1)*(30-20) = 30`), and row 2 of the core table (pressure 8, in
the core regime). -/
theorem interp_exact_at_sample_witness :
    interp_fl double_arith sample_eos.crust_vecp sample_eos.crust_vece
      (sample_eos.crust_vecp.getD 1 0) 0 ((3 : Nat) - 1) =
      some (sample_eos.crust_vece.getD 1 0) ∧
    interp_fl double_arith sample_eos.crust_vecp sample_eos.crust_vece
      (sample_eos.crust_vecp.getD (1 + 1) 0) 0 ((3 : Nat) - 1) =
      lin_fl double_arith (sample_eos.crust_vecp.getD 1 0)
        (sample_eos.crust_vecp.getD (1 + 1) 0) (sample_eos.crust_vece.getD 1 0)
        (sample_eos.crust_vece.getD (1 + 1) 0) (sample_eos.crust_vecp.getD (1 + 1) 0) ∧
    lin_fl double_arith (sample_eos.crust_vecp.getD 1 0)
        (sample_eos.crust_vecp.getD (1 + 1) 0) (sample_eos.crust_vece.getD 1 0)
        (sample_eos.crust_vece.getD (1 + 1) 0) (sample_eos.crust_vecp.getD (1 + 1) 0) =
      some 30 ∧
    sample_eos.get_eden_fl double_arith (sample_eos.crust_vecp.getD 1 0) 0 0 =
      some (Phase.icrust, sample_eos.crust_vece.getD 1 0,
        if sample_eos.baryon_column = true then sample_eos.crust_vecnb.getD 1 0 else 0) ∧
    sample_eos.get_eden_fl double_arith (sample_eos.core_vecp.getD 2 0) 0 0 =
      some (Phase.icore, sample_eos.core_vece.getD 2 0,
        if sample_eos.baryon_column = true then sample_eos.core_vecnb.getD 2 0 else 0) := by
  have d1 : double_arith.cdiv sample_eos.trans_pres sample_eos.trans_width = some 2 :=
    double_cdiv 4 2 2 (by norm_num [abs_of_pos]) (by norm_num [abs_of_pos]) (by norm_num)
      (by rw [show (4 : ℚ) / 2 = ((2 : Nat) : ℚ) by norm_num, fl64_nat 2 (by norm_num)]
          norm_num)
      (by norm_num [abs_of_pos])
  have d2 : double_arith.cmul sample_eos.trans_pres sample_eos.trans_width = some 8 :=
    double_cmul 4 2 8 (by norm_num [abs_of_pos]) (by norm_num [abs_of_pos])
      (by rw [show (4 : ℚ) * 2 = ((8 : Nat) : ℚ) by norm_num, fl64_nat 8 (by norm_num)]
          norm_num)
      (by norm_num [abs_of_pos])
  have c1 : double_arith.seg_ok sample_eos.crust_vecp sample_eos.crust_vece 1 :=
    double_seg_ok_nat _ _ 1 2 3 20 30 (by simp [sample_eos]) (by simp [sample_eos])
      (by simp [sample_eos]) (by simp [sample_eos]) (by norm_num) (by norm_num)
      (by norm_num) (by norm_num)
  have c2 : double_arith.seg_ok sample_eos.crust_vecp sample_eos.crust_vecnb 1 :=
    double_seg_ok_nat _ _ 1 2 3 2 3 (by simp [sample_eos]) (by simp [sample_eos])
      (by simp [sample_eos]) (by simp [sample_eos]) (by norm_num) (by norm_num)
      (by norm_num) (by norm_num)
  have c3 : double_arith.seg_ok sample_eos.core_vecp sample_eos.core_vece 2 :=
    double_seg_ok_nat _ _ 2 8 16 100 200 (by simp [sample_eos]) (by simp [sample_eos])
      (by simp [sample_eos]) (by simp [sample_eos]) (by norm_num) (by norm_num)
      (by norm_num) (by norm_num)
  have c4 : double_arith.seg_ok sample_eos.core_vecp sample_eos.core_vecnb 2 :=
    double_seg_ok_nat _ _ 2 8 16 9 17 (by simp [sample_eos]) (by simp [sample_eos])
      (by simp [sample_eos]) (by simp [sample_eos]) (by norm_num) (by norm_num)
      (by norm_num) (by norm_num)
  refine ⟨?_, ?_, ?_, ?_, ?_⟩
  · exact (interp_exact_at_sample double_arith double_arith_laws sample_eos
      sample_eos.crust_vecp sample_eos.crust_vece 3 1 0 0 2 8).1 (by norm_num) (by decide)
      (by decide) (increasing_nondecreasing _ _ sample_crust_increasing.1) (by decide)
      (by show (2 : ℚ) < 3; norm_num) c1
  · exact (interp_exact_at_sample double_arith double_arith_laws sample_eos
      sample_eos.crust_vecp sample_eos.crust_vece 3 1 0 0 2 8).2.1 (by norm_num) (by decide)
      (by decide) (increasing_nondecreasing _ _ sample_crust_increasing.1) rfl
      (by show (2 : ℚ) < 3; norm_num)
  · show lin_fl double_arith 2 3 20 30 3 = some 30
    have s1 : double_arith.csub 3 2 = some 1 := by
      have := (double_ops_nat 3 2 (by norm_num) (by norm_num)).1 (by norm_num)
      norm_num at this
      exact this
    have s2 : double_arith.cdiv 1 1 = some 1 := by
      have := (double_ops_nat 1 1 (by norm_num) (by norm_num)).2.2.2 (by norm_num)
      norm_num at this
      exact this
    have s3 : double_arith.csub 30 20 = some 10 := by
      have := (double_ops_nat 30 20 (by norm_num) (by norm_num)).1 (by norm_num)
      norm_num at this
      exact this
    have s4 : double_arith.cmul 1 10 = some 10 := by
      have := (double_ops_nat 1 10 (by norm_num) (by norm_num)).2.1 (by norm_num)
      norm_num at this
      exact this
    have s5 : double_arith.cadd 20 10 = some 30 := by
      have := (double_ops_nat 20 10 (by norm_num) (by norm_num)).2.2.1 (by norm_num)
      norm_num at this
      exact this
    exact lin_fl_eval double_arith _ _ _ _ _ _ _ _ _ _ _ s1 s1 s2 s3 s4 s5
  · exact (interp_exact_at_sample double_arith double_arith_laws sample_eos
      [] [] 0 1 0 0 2 8).2.2.1 sample_crust_ok (by decide)
      (increasing_nondecreasing _ _ sample_crust_increasing.1) (by decide)
      (by show (2 : ℚ) < 3; norm_num) c1 (fun _ => c2) rfl d1
      (by show (2 : ℚ) ≤ 2; norm_num)
  · exact (interp_exact_at_sample double_arith double_arith_laws sample_eos
      [] [] 0 2 0 0 2 8).2.2.2 sample_core_ok (by decide)
      (increasing_nondecreasing _ _ sample_core_increasing.1) (by decide)
      (by show (8 : ℚ) < 16; norm_num) c3 (fun _ => c4)
      (Or.inr ⟨d1, d2, by show (2 : ℚ) < 8; norm_num, by show (8 : ℚ) ≤ 8; norm_num⟩)

/-! ## C9: the unit round trip in the arithmetic of `double` -/

/-- What `read_table_fill_fl` stores. -/
theorem read_table_fill_fl_result (A : Arith) (convert : String → String → ℚ → ℚ)
    (e : tov_interp_eos) (t : Table) (s_cole s_colp s_colnb : String) :
    (e.read_table_fill_fl A convert t s_cole s_colp s_colnb).core_nlines = e.core_nlines ∧
    (e.read_table_fill_fl A convert t s_cole s_colp s_colnb).baryon_column = e.baryon_column ∧
    (e.read_table_fill_fl A convert t s_cole s_colp s_colnb).cole = e.cole ∧
    (e.read_table_fill_fl A convert t s_cole s_colp s_colnb).colp = e.colp ∧
    (e.read_table_fill_fl A convert t s_cole s_colp s_colnb).colnb = e.colnb ∧
    (e.read_table_fill_fl A convert t s_cole s_colp s_colnb).core_vece =
      (List.range e.core_nlines).map (fun i => A.mul (t.cell e.cole.toNat i)
        (e.read_table_fill_fl A convert t s_cole s_colp s_colnb).efactor) ∧
    (e.read_table_fill_fl A convert t s_cole s_colp s_colnb).core_vecp =
      (List.range e.core_nlines).map (fun i => A.mul (t.cell e.colp.toNat i)
        (e.read_table_fill_fl A convert t s_cole s_colp s_colnb).pfactor) ∧
    (e.baryon_column = true →
      (e.read_table_fill_fl A convert t s_cole s_colp s_colnb).core_vecnb =
        (List.range e.core_nlines).map (fun i => A.mul (t.cell e.colnb.toNat i)
          (e.read_table_fill_fl A convert t s_cole s_colp s_colnb).nfactor)) := by
  unfold tov_interp_eos.read_table_fill_fl
  by_cases hb : e.baryon_column = true
  · simp [hb]
  · simp [hb]

/-- What a successful `read_table` stores in the arithmetic `A`: the number of
lines of the table and the three columns, each entry the product of `A` of the
table entry and the conversion factor. -/
theorem read_table_fl_result (A : Arith) (convert : String → String → ℚ → ℚ)
    (e0 e : tov_interp_eos) (t : Table) (s_cole s_colp s_colnb : String)
    (h : e0.read_table_fl A convert t s_cole s_colp s_colnb = (e, none)) :
    e.core_nlines = t.nlines ∧
    e.core_vece =
      (List.range t.nlines).map (fun i => A.mul (t.cell e.cole.toNat i) e.efactor) ∧
    e.core_vecp =
      (List.range t.nlines).map (fun i => A.mul (t.cell e.colp.toNat i) e.pfactor) ∧
    (e.baryon_column = true →
      e.core_vecnb =
        (List.range t.nlines).map (fun i => A.mul (t.cell e.colnb.toNat i) e.nfactor)) := by
  unfold tov_interp_eos.read_table_fl at h
  cases hce : t.lookup_column s_cole with
  | none => simp [hce] at h
  | some ce =>
    cases hcp : t.lookup_column s_colp with
    | none => simp [hce, hcp] at h
    | some cp =>
      by_cases hs : s_colnb ≠ ""
      · cases hcn : t.lookup_column s_colnb with
        | none => simp [hce, hcp, hs, hcn] at h
        | some cn =>
          simp only [hce, hcp, hs, hcn, if_true, ne_eq, not_false_eq_true, Prod.mk.injEq,
            and_true] at h
          subst h
          obtain ⟨a1, a2, a3, a4, a5, a6, a7, a8⟩ := read_table_fill_fl_result A convert
            { e0 with core_table := some t, core_nlines := t.nlines, cole := (ce : Int),
                      colp := (cp : Int), colnb := (cn : Int), baryon_column := true }
            t s_cole s_colp s_colnb
          refine ⟨a1, ?_, ?_, ?_⟩
          · rw [a6, a3]
          · rw [a7, a4]
          · intro _
            rw [a8 rfl, a5]
      · simp only [hce, hcp, hs, if_false, Prod.mk.injEq, and_true] at h
        subst h
        obtain ⟨a1, a2, a3, a4, a5, a6, a7, a8⟩ := read_table_fill_fl_result A convert
          { e0 with core_table := some t, core_nlines := t.nlines, cole := (ce : Int),
                    colp := (cp : Int), baryon_column := false }
          t s_cole s_colp s_colnb
        refine ⟨a1, ?_, ?_, ?_⟩
        · rw [a6, a3]
        · rw [a7, a4]
        · intro hb
          rw [a2] at hb
          exact absurd hb Bool.false_ne_true

/-- The model `get_eden_high_fl` in a loaded core table at a pressure whose
product with `pfactor` is the pressure of a row below a strictly larger next
row: the stored values of the row, each divided in `A` by its factor. -/
theorem get_eden_high_fl_at_row (A : Arith) (hA : A.laws) (e : tov_interp_eos) (k : Nat)
    (pres ed0 nb0 : ℚ) (hok : e.core_ok) (hb : e.core_nlines ≤ 1073741825)
    (hs : nondecreasing e.core_vecp e.core_nlines)
    (hk : k + 1 < e.core_nlines)
    (hlt : e.core_vecp.getD k 0 < e.core_vecp.getD (k + 1) 0)
    (se : A.seg_ok e.core_vecp e.core_vece k)
    (sn : e.baryon_column = true → A.seg_ok e.core_vecp e.core_vecnb k)
    (hp : A.cmul pres e.pfactor = some (e.core_vecp.getD k 0)) :
    e.get_eden_high_fl A pres ed0 nb0 =
      (A.cdiv (e.core_vece.getD k 0) e.efactor).bind (fun ed =>
        if e.baryon_column = true then
          (A.cdiv (e.core_vecnb.getD k 0) e.nfactor).bind (fun nb => some (ed, nb))
        else some (ed, nb0)) := by
  obtain ⟨_, h2, h3, h4⟩ := hok
  have he := interp_fl_exact A hA _ _ _ k hb h2 h3 hs hk hlt se
  unfold tov_interp_eos.get_eden_high_fl tov_interp_eos.core_interp_fl
  simp only [hp, he, Option.bind_eq_bind, Option.some_bind]
  by_cases hbc : e.baryon_column = true
  · have hnb := interp_fl_exact A hA _ _ _ k hb h2 (h4 hbc) hs hk hlt (sn hbc)
    simp only [hbc, if_true, hnb, Option.some_bind, Option.pure_def]
  · have hb2 : e.baryon_column = false := by simpa using hbc
    simp only [hb2, Bool.false_eq_true, if_false, Option.pure_def]

/-- The round trip through `read_table` and `get_eden_high` in an arithmetic
with the laws of `double` arithmetic, at a row of the table below a row with a
strictly larger stored pressure. -/
theorem get_eden_high_fl_round_trip (A : Arith) (hA : A.laws)
    (convert : String → String → ℚ → ℚ)
    (e0 e : tov_interp_eos) (t : Table) (s_cole s_colp s_colnb : String)
    (i : Nat) (ed0 nb0 : ℚ)
    (h : e0.read_table_fl A convert t s_cole s_colp s_colnb = (e, none))
    (hb : t.nlines ≤ 1073741825)
    (hs : nondecreasing e.core_vecp t.nlines) (hi : i + 1 < t.nlines)
    (hlt : e.core_vecp.getD i 0 < e.core_vecp.getD (i + 1) 0)
    (fp : A.fin (t.cell e.colp.toNat i) = true) (ff : A.fin e.pfactor = true)
    (se : A.seg_ok e.core_vecp e.core_vece i)
    (sn : e.baryon_column = true → A.seg_ok e.core_vecp e.core_vecnb i) :
    e.get_eden_high_fl A (t.cell e.colp.toNat i) ed0 nb0 =
      (round_trip_fl A (t.cell e.cole.toNat i) e.efactor).bind (fun ed =>
        if e.baryon_column = true then
          (round_trip_fl A (t.cell e.colnb.toNat i) e.nfactor).bind (fun nb => some (ed, nb))
        else some (ed, nb0)) := by
  obtain ⟨hn, hve, hvp, hvnb⟩ := read_table_fl_result A convert e0 e t s_cole s_colp s_colnb h
  have hpget : e.core_vecp.getD i 0 = A.mul (t.cell e.colp.toNat i) e.pfactor := by
    rw [hvp]
    exact getD_map_range _ _ _ (by omega)
  have heget : e.core_vece.getD i 0 = A.mul (t.cell e.cole.toNat i) e.efactor := by
    rw [hve]
    exact getD_map_range _ _ _ (by omega)
  have hnget : e.baryon_column = true →
      e.core_vecnb.getD i 0 = A.mul (t.cell e.colnb.toNat i) e.nfactor := by
    intro hbc
    rw [hvnb hbc]
    exact getD_map_range _ _ _ (by omega)
  have hok : e.core_ok := by
    refine ⟨by omega, ?_, ?_, ?_⟩
    · rw [hvp, hn]; simp
    · rw [hve, hn]; simp
    · intro hbc
      rw [hvnb hbc, hn]; simp
  have hp : A.cmul (t.cell e.colp.toNat i) e.pfactor = some (e.core_vecp.getD i 0) := by
    unfold Arith.cmul
    rw [← hpget]
    exact chk_some A _ _ _ fp ff se.1.2
  rw [get_eden_high_fl_at_row A hA e i _ ed0 nb0 hok (by omega) (by rw [hn]; exact hs)
    (by omega) hlt se sn hp]
  unfold round_trip_fl
  rw [heget]
  by_cases hbc : e.baryon_column = true
  · simp only [hbc, if_true, hnget hbc]
  · have hb2 : e.baryon_column = false := by simpa using hbc
    simp only [hb2, Bool.false_eq_true, if_false]

/-- Reading the table `sample_table_tenth` succeeds. -/
theorem sample_read_tenth_eq :
    (tov_interp_eos.new 0 false 0 0).read_table_fl double_arith sample_convert_tenth
      sample_table_tenth "ed" "pr" "" = (sample_read_tenth, none) := rfl

/-- Roundings of the products and quotients with the `double` nearest to
0.1: it is a `double`; `3*0.1` rounds to `1351079888211149/2^52` and `6*0.1`
to twice that; and `1351079888211149/2^52` divided by 0.1 rounds to
`3 + 2^-51`. -/
theorem fl64_tenth :
    fl64 (3602879701896397 / 36028797018963968) = 3602879701896397 / 36028797018963968 ∧
    fl64 (3 * (3602879701896397 / 36028797018963968)) =
      1351079888211149 / 4503599627370496 ∧
    fl64 (6 * (3602879701896397 / 36028797018963968)) =
      1351079888211149 / 2251799813685248 ∧
    fl64 (1351079888211149 / 4503599627370496 / (3602879701896397 / 36028797018963968)) =
      3 + 1 / 2 ^ 51 := by
  refine ⟨?_, ?_, ?_, ?_⟩
  · have h := fl64_eq (3602879701896397 / 36028797018963968) (-4) 7205759403792794
      (by rw [abs_of_pos (by norm_num)]; norm_num)
      (by rw [abs_of_pos (by norm_num)]; norm_num) (by norm_num)
      (by
        have : (3602879701896397 / 36028797018963968 : ℚ) / (2 : ℚ) ^ ((-4 : Int) - 52) =
            ((7205759403792794 : Int) : ℚ) := by norm_num
        rw [this, round_half_even_int])
    rw [h]; norm_num
  · have h := fl64_eq (3 * (3602879701896397 / 36028797018963968)) (-2) 5404319552844596
      (by rw [abs_of_pos (by norm_num)]; norm_num)
      (by rw [abs_of_pos (by norm_num)]; norm_num) (by norm_num)
      (by
        rw [round_half_even_of_floor _ 5404319552844595
          (by rw [Int.floor_eq_iff]; norm_num)]
        norm_num)
    rw [h]; norm_num
  · have h := fl64_eq (6 * (3602879701896397 / 36028797018963968)) (-1) 5404319552844596
      (by rw [abs_of_pos (by norm_num)]; norm_num)
      (by rw [abs_of_pos (by norm_num)]; norm_num) (by norm_num)
      (by
        rw [round_half_even_of_floor _ 5404319552844595
          (by rw [Int.floor_eq_iff]; norm_num)]
        norm_num)
    rw [h]; norm_num
  · have h := fl64_eq
      (1351079888211149 / 4503599627370496 / (3602879701896397 / 36028797018963968)) 1
      6755399441055745
      (by rw [abs_of_pos (by norm_num)]; norm_num)
      (by rw [abs_of_pos (by norm_num)]; norm_num) (by norm_num)
      (by
        rw [round_half_even_of_floor _ 6755399441055744
          (by rw [Int.floor_eq_iff]; norm_num)]
        norm_num)
    rw [h]; norm_num

/-- The vectors and factors that `read_table` stores for `sample_table_tenth`
in the arithmetic of `double`. -/
theorem sample_read_tenth_vectors :
    sample_read_tenth.core_vecp = [1, 2] ∧
    sample_read_tenth.core_vece =
      [1351079888211149 / 4503599627370496, 1351079888211149 / 2251799813685248] ∧
    sample_read_tenth.efactor = 3602879701896397 / 36028797018963968 ∧
    sample_read_tenth.pfactor = 1 ∧ sample_read_tenth.baryon_column = false := by
  have hp : sample_read_tenth.core_vecp = [double_arith.mul 1 1, double_arith.mul 2 1] := rfl
  have he : sample_read_tenth.core_vece =
      [double_arith.mul 3 (1 * (3602879701896397 / 36028797018963968)),
       double_arith.mul 6 (1 * (3602879701896397 / 36028797018963968))] := rfl
  have hf : sample_read_tenth.efactor = 1 * (3602879701896397 / 36028797018963968) := rfl
  refine ⟨?_, ?_, by rw [hf, one_mul], rfl, rfl⟩
  · rw [hp]
    show [fl64 (1 * 1), fl64 (2 * 1)] = _
    rw [mul_one, mul_one, fl64_samples.1, fl64_samples.2.2.2.2.2]
  · rw [he]
    show [fl64 (3 * (1 * (3602879701896397 / 36028797018963968))),
      fl64 (6 * (1 * (3602879701896397 / 36028797018963968)))] = _
    rw [one_mul, fl64_tenth.2.1, fl64_tenth.2.2.1]

/-- Rows 0 and 1 of the vectors stored for `sample_table_tenth` are finite
`double`s, and so are their differences. -/
theorem sample_read_tenth_seg_ok :
    double_arith.seg_ok sample_read_tenth.core_vecp sample_read_tenth.core_vece 0 := by
  obtain ⟨hp, he, _, _, _⟩ := sample_read_tenth_vectors
  obtain ⟨_, t2, t3, _⟩ := fl64_tenth
  have y0 : fl64 (1351079888211149 / 4503599627370496) = 1351079888211149 / 4503599627370496 := by
    have := fl64_idem (3 * (3602879701896397 / 36028797018963968))
    rwa [t2] at this
  have y1 : fl64 (1351079888211149 / 2251799813685248) = 1351079888211149 / 2251799813685248 := by
    have := fl64_idem (6 * (3602879701896397 / 36028797018963968))
    rwa [t3] at this
  unfold Arith.seg_ok
  rw [hp, he]
  simp only [List.getD_cons_zero, List.getD_cons_succ, zero_add]
  refine ⟨?_, ?_, ?_, ?_, ?_, ?_⟩
  · exact_mod_cast double_rep_nat 1 (by norm_num)
  · exact_mod_cast double_rep_nat 2 (by norm_num)
  · exact (double_rep_iff _).mpr ⟨y0, by rw [abs_of_pos (by norm_num)]; norm_num⟩
  · exact (double_rep_iff _).mpr ⟨y1, by rw [abs_of_pos (by norm_num)]; norm_num⟩
  · rw [double_fin_iff]
    show |fl64 (2 - 1)| < 2 ^ 1024
    rw [show (2 : ℚ) - 1 = 1 by norm_num, fl64_samples.1, abs_of_pos (by norm_num)]
    norm_num
  · rw [double_fin_iff]
    show |fl64 (1351079888211149 / 2251799813685248 - 1351079888211149 / 4503599627370496)|
      < 2 ^ 1024
    rw [show (1351079888211149 / 2251799813685248 - 1351079888211149 / 4503599627370496 : ℚ)
      = 1351079888211149 / 4503599627370496 by norm_num, y0, abs_of_pos (by norm_num)]
    norm_num

/-- The round trip of the energy density 3 through the factor 0.1 in the
arithmetic of `double`: `(3*0.1)/0.1 = 3 + 2^-51`. -/
theorem round_trip_tenth :
    round_trip_fl double_arith 3 (3602879701896397 / 36028797018963968) =
      some (3 + 1 / 2 ^ 51) := by
  obtain ⟨_, t2, _, t4⟩ := fl64_tenth
  unfold round_trip_fl
  have hm : double_arith.mul 3 (3602879701896397 / 36028797018963968) =
      1351079888211149 / 4503599627370496 := t2
  rw [hm]
  exact double_cdiv _ _ _ (by rw [abs_of_pos (by norm_num)]; norm_num)
    (by rw [abs_of_pos (by norm_num)]; norm_num) (by norm_num) t4
    (by rw [abs_of_pos (by norm_num)]; norm_num)

/-- The query at the pressure 1 of row 0 of `sample_read_tenth`. -/
theorem sample_read_tenth_query :
    sample_read_tenth.get_eden_high_fl double_arith 1 0 0 = some (3 + 1 / 2 ^ 51, 0) := by
  obtain ⟨hp, he, hf, hpf, hbc⟩ := sample_read_tenth_vectors
  have h := get_eden_high_fl_round_trip double_arith double_arith_laws sample_convert_tenth
    (tov_interp_eos.new 0 false 0 0) sample_read_tenth sample_table_tenth "ed" "pr" "" 0 0 0
    sample_read_tenth_eq (by decide)
    (by
      rw [hp]
      intro j hj
      have hj0 : j = 0 := by
        have : sample_table_tenth.nlines = 2 := rfl
        omega
      subst hj0
      norm_num)
    (by decide) (by rw [hp]; norm_num)
    (by
      have e1 : sample_table_tenth.cell sample_read_tenth.colp.toNat 0 = ((1 : Nat) : ℚ) := by
        have : sample_table_tenth.cell sample_read_tenth.colp.toNat 0 = 1 := rfl
        rw [this]; norm_num
      rw [e1]
      exact (double_rep_nat 1 (by norm_num)).2)
    (by
      rw [hpf]
      have := (double_rep_nat 1 (by norm_num)).2
      exact_mod_cast this)
    sample_read_tenth_seg_ok
    (fun hb => by rw [hbc] at hb; exact absurd hb Bool.false_ne_true)
  have e1 : sample_table_tenth.cell sample_read_tenth.colp.toNat 0 = 1 := rfl
  have e2 : sample_table_tenth.cell sample_read_tenth.cole.toNat 0 = 3 := rfl
  rw [e1, e2, hf, round_trip_tenth] at h
  rw [h, hbc]
  rfl

/-- C9 (amended): in every arithmetic with the laws of `double` arithmetic,
after a successful `read_table` of a table of at most `2^30 + 1` lines whose
stored pressures (the products `p_j*pfactor`) are non-decreasing, for every
row `i` other than the last whose stored pressure is strictly below the next
one, when the row's pressure and `pfactor` are finite, the stored entries of
rows `i` and `i+1` are finite and their differences do not overflow, the query
`get_eden_high` at the row's pressure, in the units of the table, returns
`(ed_i*efactor)/efactor` and, when a baryon column was bound,
`(nb_i*nfactor)/nfactor`, the product and the quotient taken in the arithmetic
(without a baryon column `nb` is left as it was): the stored row is hit
exactly, and what remains is the rounding of one product and one quotient. -/
theorem read_table_round_trip (A : Arith) (hA : A.laws)
    (convert : String → String → ℚ → ℚ)
    (e0 e : tov_interp_eos) (t : Table) (s_cole s_colp s_colnb : String)
    (i : Nat) (ed0 nb0 : ℚ)
    (h : e0.read_table_fl A convert t s_cole s_colp s_colnb = (e, none))
    (hb : t.nlines ≤ 1073741825)
    (hs : nondecreasing e.core_vecp t.nlines) (hi : i + 1 < t.nlines)
    (hlt : e.core_vecp.getD i 0 < e.core_vecp.getD (i + 1) 0)
    (fp : A.fin (t.cell e.colp.toNat i) = true) (ff : A.fin e.pfactor = true)
    (se : A.seg_ok e.core_vecp e.core_vece i)
    (sn : e.baryon_column = true → A.seg_ok e.core_vecp e.core_vecnb i) :
    e.get_eden_high_fl A (t.cell e.colp.toNat i) ed0 nb0 =
      (round_trip_fl A (t.cell e.cole.toNat i) e.efactor).bind (fun ed =>
        if e.baryon_column = true then
          (round_trip_fl A (t.cell e.colnb.toNat i) e.nfactor).bind (fun nb => some (ed, nb))
        else some (ed, nb0)) :=
  get_eden_high_fl_round_trip A hA convert e0 e t s_cole s_colp s_colnb i ed0 nb0 h hb hs hi
    hlt fp ff se sn

/-- C9, as stated, fails in the arithmetic of `double`: the table with energy
densities 3, 6 and pressures 1, 2 (strictly increasing) is read with the
energy factor 0.1 (the nearest `double`, non-zero) and the pressure factor 1
(positive); the query at the pressure 1 of row 0 returns
`(3*0.1)/0.1 = 3 + 2^-51`, not the energy density 3 of the row. -/
theorem read_table_round_trip_counterexample :
    (tov_interp_eos.new 0 false 0 0).read_table_fl double_arith sample_convert_tenth
      sample_table_tenth "ed" "pr" "" = (sample_read_tenth, none) ∧
    (∀ j, j + 1 < sample_table_tenth.nlines →
      sample_table_tenth.cell sample_read_tenth.colp.toNat j <
        sample_table_tenth.cell sample_read_tenth.colp.toNat (j + 1)) ∧
    sample_read_tenth.efactor = 3602879701896397 / 36028797018963968 ∧
    double_arith.rep sample_read_tenth.efactor ∧
    sample_read_tenth.pfactor = 1 ∧
    sample_table_tenth.cell sample_read_tenth.colp.toNat 0 = 1 ∧
    sample_table_tenth.cell sample_read_tenth.cole.toNat 0 = 3 ∧
    double_arith.rep 1 ∧ double_arith.rep 3 ∧
    sample_read_tenth.get_eden_high_fl double_arith 1 0 0 = some (3 + 1 / 2 ^ 51, 0) ∧
    sample_read_tenth.get_eden_high_fl double_arith 1 0 0 ≠ some (3, 0) := by
  obtain ⟨_, _, ef, _, _⟩ := sample_read_tenth_vectors
  refine ⟨sample_read_tenth_eq, ?_, ef, ?_, rfl, rfl, rfl, ?_, ?_, sample_read_tenth_query, ?_⟩
  · intro j hj
    have h3 : sample_read_tenth.colp.toNat = 1 := rfl
    have hj0 : j = 0 := by
      have : sample_table_tenth.nlines = 2 := rfl
      omega
    subst hj0
    have e1 : sample_table_tenth.cell 1 0 = 1 := rfl
    have e2 : sample_table_tenth.cell 1 (0 + 1) = 2 := rfl
    rw [h3, e1, e2]
    norm_num
  · rw [ef]
    exact (double_rep_iff _).mpr ⟨fl64_tenth.1, by rw [abs_of_pos (by norm_num)]; norm_num⟩
  · exact_mod_cast double_rep_nat 1 (by norm_num)
  · exact_mod_cast double_rep_nat 3 (by norm_num)
  · rw [sample_read_tenth_query]
    norm_num

/-- Instance of `read_table_round_trip` in the arithmetic of `double`: row 0
of the table `sample_table_tenth`, read with the energy factor 0.1. -/
theorem read_table_round_trip_witness :
    sample_read_tenth.get_eden_high_fl double_arith
        (sample_table_tenth.cell sample_read_tenth.colp.toNat 0) 0 0 =
      (round_trip_fl double_arith (sample_table_tenth.cell sample_read_tenth.cole.toNat 0)
          sample_read_tenth.efactor).bind (fun ed =>
        if sample_read_tenth.baryon_column = true then
          (round_trip_fl double_arith
            (sample_table_tenth.cell sample_read_tenth.colnb.toNat 0)
            sample_read_tenth.nfactor).bind (fun nb => some (ed, nb))
        else some (ed, 0)) ∧
    round_trip_fl double_arith (sample_table_tenth.cell sample_read_tenth.cole.toNat 0)
      sample_read_tenth.efactor = some (3 + 1 / 2 ^ 51) := by
  obtain ⟨hp, he, hf, hpf, hbc⟩ := sample_read_tenth_vectors
  refine ⟨read_table_round_trip double_arith double_arith_laws sample_convert_tenth
    (tov_interp_eos.new 0 false 0 0) sample_read_tenth sample_table_tenth "ed" "pr" "" 0 0 0
    sample_read_tenth_eq (by decide)
    (by
      rw [hp]
      intro j hj
      have hj0 : j = 0 := by
        have : sample_table_tenth.nlines = 2 := rfl
        omega
      subst hj0
      norm_num)
    (by decide) (by rw [hp]; norm_num)
    (by
      have e1 : sample_table_tenth.cell sample_read_tenth.colp.toNat 0 = ((1 : Nat) : ℚ) := by
        have : sample_table_tenth.cell sample_read_tenth.colp.toNat 0 = 1 := rfl
        rw [this]; norm_num
      rw [e1]
      exact (double_rep_nat 1 (by norm_num)).2)
    (by
      rw [hpf]
      have := (double_rep_nat 1 (by norm_num)).2
      exact_mod_cast this)
    sample_read_tenth_seg_ok
    (fun hb => by rw [hbc] at hb; exact absurd hb Bool.false_ne_true), ?_⟩
  have e2 : sample_table_tenth.cell sample_read_tenth.cole.toNat 0 = 3 := rfl
  rw [e2, hf]
  exact round_trip_tenth

end o2scl
